import Mathlib

/-!
# scontrol: directive compiler and snapshot cache

A shallow embedding of `src/scontrol/scontrol.c`.  C strings are lists of
characters (the characters that precede the terminating NUL); where the source
reads at an address past that NUL (`&argv[i][9]` in `_update_part`), the token
comes with the bytes that follow it in the object holding it.  The calls made
to the manager API and the lines written to stdout / stderr are recorded as
an ordered trace of events.
-/

namespace Scontrol

/-! ## C strings and the libc routines the source calls -/

/-- C string: the characters preceding the terminating NUL, one `Char` for
each `char` of the C string. -/
abbrev CStr := List Char

/-- The NUL character. -/
def NUL : Char := Char.ofNat 0

/-- The C string a buffer holds: its characters up to the first NUL. -/
def c_string (buffer : List Char) : CStr := buffer.takeWhile (fun c => decide (c ≠ NUL))

/-- The string at the address `&arg[n]`, where `arg` is a token and `beyond`
the bytes that follow the token's terminating NUL in the object holding it (a
line buffer holds every token of the line; `beyond` is empty when the NUL is
the last byte of the object).  Up to `n = strlen (arg)` the address lies in
the token; past it the address is that of `beyond[n - strlen (arg) - 1]`, and
a string starts there when a NUL follows inside the object.  `none` when the
address, or the string read from it, leaves the object. -/
def string_at (arg : CStr) (beyond : List Char) (n : Nat) : Option CStr :=
  if n ≤ arg.length then some (arg.drop n)
  else if NUL ∈ beyond.drop (n - arg.length - 1) then
    some (c_string (beyond.drop (n - arg.length - 1)))
  else none

/-- The C-locale `tolower`: maps `A`..`Z` to `a`..`z`, everything else to itself. -/
def tolower (c : Char) : Char := c.toLower

/-- The C-locale `isspace`: space, `\t`, `\n`, `\v`, `\f`, `\r`. -/
def isspace (c : Char) : Bool :=
  c.toNat = 32 || (9 ≤ c.toNat && c.toNat ≤ 13)

/-- The libc `strcmp`, up to the sign of the result (all the C standard fixes). -/
def strcmp : CStr → CStr → Int
  | [], [] => 0
  | [], _ :: _ => -1
  | _ :: _, [] => 1
  | a :: s, b :: t =>
    if a = b then strcmp s t else if a.toNat < b.toNat then -1 else 1

/-- The libc `strcasecmp`, up to the sign of the result. -/
def strcasecmp : CStr → CStr → Int
  | [], [] => 0
  | [], _ :: _ => -1
  | _ :: _, [] => 1
  | a :: s, b :: t =>
    if tolower a = tolower b then strcasecmp s t
    else if (tolower a).toNat < (tolower b).toNat then -1 else 1

/-- The libc `strncasecmp`, up to the sign of the result: at most `n`
characters are compared. -/
def strncasecmp : CStr → CStr → Nat → Int
  | _, _, 0 => 0
  | [], [], _ + 1 => 0
  | [], _ :: _, _ + 1 => -1
  | _ :: _, [], _ + 1 => 1
  | a :: s, b :: t, n + 1 =>
    if tolower a = tolower b then strncasecmp s t n
    else if (tolower a).toNat < (tolower b).toNat then -1 else 1

/-- Value of the leading run of decimal digits of `s`, accumulated onto `acc`. -/
def strtol_digits : CStr → Nat → Nat
  | [], acc => acc
  | c :: cs, acc =>
    if 48 ≤ c.toNat ∧ c.toNat ≤ 57 then strtol_digits cs (acc * 10 + (c.toNat - 48))
    else acc

/-- The libc `strtol (s, NULL, 10)` for a `long` of `w` bits: leading white
space is skipped, one optional sign is read, then the longest run of decimal
digits; no digits gives 0 and an out-of-range value is clamped to
`LONG_MIN` / `LONG_MAX`. -/
def strtol (w : Nat) (s : CStr) : Int :=
  match s.dropWhile isspace with
  | '-' :: r => max (-(2 ^ (w - 1) : Int)) (-(strtol_digits r 0 : Int))
  | '+' :: r => min ((2 ^ (w - 1) : Int) - 1) (strtol_digits r 0 : Int)
  | r => min ((2 ^ (w - 1) : Int) - 1) (strtol_digits r 0 : Int)

/-- The C conversion `(uint32_t) x`. -/
def to_uint32 (x : Int) : Nat := (x % 4294967296).toNat

/-- The C conversion `(uint16_t) x`. -/
def to_uint16 (x : Int) : Nat := (x % 65536).toNat

/-! ## Data model: the slurm API messages used by the source -/

/-- The fields of `job_desc_msg_t` that `_update_job` assigns. -/
structure job_desc_msg where
  job_id : Nat
  time_limit : Nat
  priority : Nat
  num_procs : Nat
  min_nodes : Nat
  min_procs : Nat
  min_memory : Nat
  min_tmp_disk : Nat
  partition : Option CStr
  name : Option CStr
  shared : Nat
  contiguous : Nat
  req_nodes : Option CStr
  features : Option CStr
  deriving DecidableEq, Repr

/-- The `update_node_msg_t` of the slurm API. -/
structure update_node_msg where
  node_names : Option CStr
  node_state : Nat
  deriving DecidableEq, Repr

/-- The fields of `update_part_msg_t` that `_update_part` assigns. -/
structure update_part_msg where
  name : Option CStr
  max_time : Nat
  max_nodes : Nat
  default_part : Nat
  root_only : Nat
  shared : Nat
  state_up : Nat
  nodes : Option CStr
  allow_groups : Option CStr
  deriving DecidableEq, Repr

/-- Configuration snapshot (`slurm_ctl_conf_info_msg_t`); `addr` is the
identity of the allocation that holds it. -/
structure slurm_ctl_conf_info_msg where
  addr : Nat
  last_update : Nat
  params : List (CStr × CStr)
  deriving DecidableEq, Repr

/-- One job record (`job_info_t`). -/
structure job_info where
  job_id : Nat
  name : CStr
  deriving DecidableEq, Repr

/-- Job snapshot (`job_info_msg_t`); `record_count` is the length of `job_array`. -/
structure job_info_msg where
  addr : Nat
  last_update : Nat
  job_array : List job_info
  deriving DecidableEq, Repr

/-- One node record (`node_info_t`). -/
structure node_info where
  name : CStr
  node_state : Nat
  deriving DecidableEq, Repr

/-- Node snapshot (`node_info_msg_t`); `record_count` is the length of `node_array`. -/
structure node_info_msg where
  addr : Nat
  last_update : Nat
  node_array : List node_info
  deriving DecidableEq, Repr

/-- One partition record (`partition_info_t`). -/
structure partition_info where
  name : CStr
  state_up : Nat
  deriving DecidableEq, Repr

/-- Partition snapshot (`partition_info_msg_t`); `record_count` is the length
of `partition_array`. -/
structure partition_info_msg where
  addr : Nat
  last_update : Nat
  partition_array : List partition_info
  deriving DecidableEq, Repr

/-- One job step record (`job_step_info_t`). -/
structure job_step_info where
  job_id : Nat
  step_id : Nat
  deriving DecidableEq, Repr

/-- Job step snapshot (`job_step_info_response_msg_t`). -/
structure job_step_info_response_msg where
  addr : Nat
  last_update : Nat
  job_steps : List job_step_info
  deriving DecidableEq, Repr

/-- A pointer to a heap message that the program may release while keeping
the pointer: NULL, pointing to a live message, or still holding the address
of a message that has been released. -/
inductive Ptr (α : Type) where
  | null
  | live (m : α)
  | released (m : α)
  deriving DecidableEq, Repr

/-- What the program does that is visible from outside, in order: lines
written, manager calls made, snapshots released. -/
inductive Event where
  | stdout (text : CStr)
  | stderr (text : CStr)
  | slurm_perror (text : CStr)
  | perror (text : CStr)
  | print_last_update (last_update : Nat) (records : Nat)
  | slurm_update_job (m : job_desc_msg)
  | slurm_update_node (m : update_node_msg)
  | slurm_update_partition (m : update_part_msg)
  | slurm_load_ctl_conf (update_time : Nat)
  | slurm_load_jobs (update_time : Nat)
  | slurm_load_node (update_time : Nat)
  | slurm_load_partitions (update_time : Nat)
  | slurm_free_ctl_conf (m : slurm_ctl_conf_info_msg)
  | slurm_free_job_info_msg (m : job_info_msg)
  | slurm_free_node_info_msg (m : node_info_msg)
  | slurm_free_partition_info_msg (m : partition_info_msg)
  | slurm_print_ctl_conf (m : slurm_ctl_conf_info_msg)
  | slurm_print_job_info (r : job_info)
  | slurm_print_node_table (r : node_info)
  | slurm_print_partition_info (r : partition_info)
  | slurm_get_job_steps (update_time : Nat) (job_id : Nat) (step_id : Nat)
  | slurm_free_job_step_info_response_msg (m : job_step_info_response_msg)
  | slurm_print_job_step_info (r : job_step_info)
  | slurm_shutdown (core : Nat)
  | slurm_reconfigure
  | slurm_pid2jobid (job_pid : Int)
  deriving DecidableEq, Repr

/-- Outcome of a slurm API call: `SLURM_SUCCESS` (0) with the response, or
`SLURM_ERROR` (-1) with the value `slurm_get_errno ()` then reports. -/
inductive Reply (α : Type) where
  | success (resp : α)
  | error (errno : Int)

/-- The return code a `Reply` stands for. -/
def Reply.code {α : Type} : Reply α → Int
  | .success _ => 0
  | .error _ => -1

/-- The parts of the environment the source uses and does not define: the
width of `long`, the constants and tables of `slurm.h` and `config.h`, the
message initialisers, the hostlist expander of `src/common/hostlist.c`, the
parser of `src/common/parse_spec.c` (the call the source makes to it is
`slurm_parser_call`), the configuration file as `fopen` and
`fgets` deliver it, the host name, and the manager answering each API call. -/
structure Manager where
  LONG_BITS : Nat
  NO_VAL : Nat
  INFINITE : Nat
  SHARED_NO : Nat
  SHARED_YES : Nat
  SHARED_FORCE : Nat
  NODE_STATE_END : Nat
  SLURM_NO_CHANGE_IN_DATA : Int
  node_state_string : Nat → CStr
  slurm_init_job_desc_msg : job_desc_msg
  slurm_init_part_desc_msg : update_part_msg
  hostlist_create : CStr → Except Int (List CStr)
  slurm_update_job : job_desc_msg → Reply Unit
  slurm_update_node : update_node_msg → Reply Unit
  slurm_update_partition : update_part_msg → Reply Unit
  slurm_load_ctl_conf : Nat → Reply slurm_ctl_conf_info_msg
  slurm_load_jobs : Nat → Reply job_info_msg
  slurm_load_node : Nat → Reply node_info_msg
  slurm_load_partitions : Nat → Reply partition_info_msg
  slurm_get_job_steps : Nat → Nat → Nat → Reply job_step_info_response_msg
  slurm_shutdown : Nat → Reply Unit
  slurm_reconfigure : Reply Unit
  slurm_pid2jobid : Int → Reply Nat
  VERSION : CStr
  SLURM_CONFIG_FILE : CStr
  slurm_spec_file : Option (List CStr)
  slurm_parser_call : CStr → Except Int (Option CStr × Option CStr × Option CStr)
  getnodename : CStr

/-- The file-level and function-level `static` variables of the source. -/
structure Session where
  exit_flag : Int
  quiet_flag : Int
  old_slurm_ctl_conf_ptr : Option slurm_ctl_conf_info_msg
  old_job_buffer_ptr : Option job_info_msg
  old_node_info_ptr : Option node_info_msg
  old_part_info_ptr : Option partition_info_msg
  old_job_step_info_ptr : Ptr job_step_info_response_msg
  last_job_id : Nat
  last_step_id : Nat
  last_inx : Nat
  last_in_line : Option (List Char)
  command_name : CStr
  input_words : Nat
  this_host : Option CStr
  deriving DecidableEq, Repr

/-- The statics as `main` finds them: flags cleared, nothing cached. -/
def Session.init : Session :=
  ⟨0, 0, none, none, none, none, .null, 0, 0, 0, none, [], 0, none⟩

/-- Result of running a function of the source: it returns `value` after
producing `trace`, or it does what C defines no behaviour for: a read
outside the object that holds a token or outside an array, or a use of a
message that has been released. -/
inductive Run (α : Type) where
  | ret (value : α) (trace : List Event)
  | out_of_bounds
  deriving DecidableEq, Repr

/-- Outcome of one pass of an update loop body over one token: the message
with the token's field stored, or the messages of a parse error (the function
then returns 0), or a read outside the object that holds the token. -/
inductive Step (α : Type) where
  | ok (msg : α)
  | abort (errs : List Event)
  | out_of_bounds
  deriving DecidableEq, Repr

/-- The loop `for (i=0; i<argc; i++)` of the three update functions: the body
runs on each `argv[i]` in order until one of them returns. -/
def for_each_arg {α τ : Type} (body : α → τ → Step α) : List τ → α → Step α
  | [], msg => .ok msg
  | arg :: rest, msg =>
    match body msg arg with
    | .ok msg1 => for_each_arg body rest msg1
    | .abort errs => .abort errs
    | .out_of_bounds => .out_of_bounds

/-! ## The directive compiler: `_update_job`, `_update_node`, `_update_part`, `_update_it` -/

/-- The two lines every unrecognised token gets: the token echoed, then
`Request aborted`. -/
def invalid_input (arg : CStr) : List Event :=
  [.stderr ("Invalid input: ".toList ++ arg ++ "\n".toList),
   .stderr "Request aborted\n".toList]

/-- Body of the loop of `_update_job`: the `if` / `else if` chain on `argv[i]`. -/
def _update_job_arg (E : Manager) (job_msg : job_desc_msg) (arg : CStr) : Step job_desc_msg :=
  if strncasecmp arg "JobId=".toList 6 = 0 then
    .ok { job_msg with job_id := to_uint32 (strtol E.LONG_BITS (arg.drop 6)) }
  else if strncasecmp arg "TimeLimit=".toList 10 = 0 then
    .ok { job_msg with time_limit := to_uint32 (strtol E.LONG_BITS (arg.drop 10)) }
  else if strncasecmp arg "Priority=".toList 9 = 0 then
    .ok { job_msg with priority := to_uint32 (strtol E.LONG_BITS (arg.drop 9)) }
  else if strncasecmp arg "ReqProcs=".toList 9 = 0 then
    .ok { job_msg with num_procs := to_uint32 (strtol E.LONG_BITS (arg.drop 9)) }
  else if strncasecmp arg "MinNodes=".toList 9 = 0 then
    .ok { job_msg with min_nodes := to_uint32 (strtol E.LONG_BITS (arg.drop 9)) }
  else if strncasecmp arg "MinProcs=".toList 9 = 0 then
    .ok { job_msg with min_procs := to_uint32 (strtol E.LONG_BITS (arg.drop 9)) }
  else if strncasecmp arg "MinMemory=".toList 10 = 0 then
    .ok { job_msg with min_memory := to_uint32 (strtol E.LONG_BITS (arg.drop 10)) }
  else if strncasecmp arg "MinTmpDisk=".toList 11 = 0 then
    .ok { job_msg with min_tmp_disk := to_uint32 (strtol E.LONG_BITS (arg.drop 11)) }
  else if strncasecmp arg "Partition=".toList 10 = 0 then
    .ok { job_msg with partition := some (arg.drop 10) }
  else if strncasecmp arg "Name=".toList 5 = 0 then
    .ok { job_msg with name := some (arg.drop 5) }
  else if strncasecmp arg "Shared=".toList 7 = 0 then
    if strcasecmp (arg.drop 7) "YES".toList = 0 then
      .ok { job_msg with shared := 1 }
    else if strcasecmp (arg.drop 7) "NO".toList = 0 then
      .ok { job_msg with shared := 0 }
    else
      .ok { job_msg with shared := to_uint16 (strtol E.LONG_BITS (arg.drop 7)) }
  else if strncasecmp arg "Contiguous=".toList 11 = 0 then
    if strcasecmp (arg.drop 11) "YES".toList = 0 then
      .ok { job_msg with contiguous := 1 }
    else if strcasecmp (arg.drop 11) "NO".toList = 0 then
      .ok { job_msg with contiguous := 0 }
    else
      .ok { job_msg with contiguous := to_uint16 (strtol E.LONG_BITS (arg.drop 11)) }
  else if strncasecmp arg "ReqNodeList=".toList 12 = 0 then
    .ok { job_msg with req_nodes := some (arg.drop 12) }
  else if strncasecmp arg "Features=".toList 9 = 0 then
    .ok { job_msg with features := some (arg.drop 9) }
  else
    .abort (invalid_input arg)

/-- The source function `_update_job`: compile the tokens into a
`job_desc_msg`, then make the one `slurm_update_job` call. -/
def _update_job (E : Manager) (argv : List CStr) : Run Int :=
  match for_each_arg (_update_job_arg E) argv E.slurm_init_job_desc_msg with
  | .abort errs => .ret 0 errs
  | .out_of_bounds => .out_of_bounds
  | .ok job_msg =>
    match E.slurm_update_job job_msg with
    | .success _ => .ret 0 [.slurm_update_job job_msg]
    | .error errno => .ret errno [.slurm_update_job job_msg]

/-- The messages of a rejected node `State=` token: the token echoed, then
the name of every state `0 .. NODE_STATE_END`. -/
def invalid_node_state (E : Manager) (arg : CStr) : List Event :=
  [.stderr ("Invalid input: ".toList ++ arg ++ "\n".toList),
   .stderr "Request aborted\n Valid states are:".toList]
  ++ (List.range (E.NODE_STATE_END + 1)).map
       (fun k => Event.stderr (E.node_state_string k ++ " ".toList))
  ++ [.stderr "\n".toList]

/-- The loop `for (j = 0; j <= NODE_STATE_END; j++)` of `_update_node`, from
index `j` on with `fuel` iterations left; it yields `state_val`. -/
def node_state_scan (E : Manager) (arg : CStr) : Nat → Nat → Step Nat
  | 0, _ => .ok (to_uint16 E.NO_VAL)
  | fuel + 1, j =>
    if strcmp (E.node_state_string j) "END".toList = 0 then
      .abort (invalid_node_state E arg)
    else if strcasecmp (E.node_state_string j) (arg.drop 6) = 0 then
      .ok (to_uint16 j)
    else node_state_scan E arg fuel (j + 1)

/-- Body of the loop of `_update_node`. -/
def _update_node_arg (E : Manager) (node_msg : update_node_msg) (arg : CStr) :
    Step update_node_msg :=
  if strncasecmp arg "NodeName=".toList 9 = 0 then
    .ok { node_msg with node_names := some (arg.drop 9) }
  else if strncasecmp arg "State=".toList 6 = 0 then
    match node_state_scan E arg (E.NODE_STATE_END + 1) 0 with
    | .ok state_val => .ok { node_msg with node_state := state_val }
    | .abort errs => .abort errs
    | .out_of_bounds => .out_of_bounds
  else
    .abort (invalid_input arg)

/-- The source function `_update_node`. -/
def _update_node (E : Manager) (argv : List CStr) : Run Int :=
  match for_each_arg (_update_node_arg E) argv ⟨none, to_uint16 E.NO_VAL⟩ with
  | .abort errs => .ret 0 errs
  | .out_of_bounds => .out_of_bounds
  | .ok node_msg =>
    match E.slurm_update_node node_msg with
    | .success _ => .ret 0 [.slurm_update_node node_msg]
    | .error errno => .ret errno [.slurm_update_node node_msg]

/-- The messages of a rejected enumerated partition value. -/
def invalid_value (arg : CStr) (hint : String) : List Event :=
  [.stderr ("Invalid input: ".toList ++ arg ++ "\n".toList), .stderr hint.toList]

/-- Body of the loop of `_update_part`; `arg` is the token `argv[i]` and
`beyond` the bytes that follow its terminating NUL in the object holding it.
The `RootOnly=` test compares 4 characters and then reads `&argv[i][9]`, which
lies past the terminating NUL of a token shorter than 9 characters: the value
is then read from `beyond`.  Every other key is compared over its full length,
so its value lies in the token. -/
def _update_part_arg (E : Manager) (part_msg : update_part_msg) (arg : CStr)
    (beyond : List Char) : Step update_part_msg :=
  if strncasecmp arg "PartitionName=".toList 14 = 0 then
    .ok { part_msg with name := some (arg.drop 14) }
  else if strncasecmp arg "MaxTime=".toList 8 = 0 then
    if strcasecmp (arg.drop 8) "INFINITE".toList = 0 then
      .ok { part_msg with max_time := E.INFINITE }
    else
      .ok { part_msg with max_time := to_uint32 (strtol E.LONG_BITS (arg.drop 8)) }
  else if strncasecmp arg "MaxNodes=".toList 9 = 0 then
    if strcasecmp (arg.drop 9) "INFINITE".toList = 0 then
      .ok { part_msg with max_nodes := E.INFINITE }
    else
      .ok { part_msg with max_nodes := to_uint32 (strtol E.LONG_BITS (arg.drop 9)) }
  else if strncasecmp arg "Default=".toList 8 = 0 then
    if strcasecmp (arg.drop 8) "NO".toList = 0 then
      .ok { part_msg with default_part := 0 }
    else if strcasecmp (arg.drop 8) "YES".toList = 0 then
      .ok { part_msg with default_part := 1 }
    else
      .abort (invalid_value arg "Acceptable Default values are YES and NO\n")
  else if strncasecmp arg "RootOnly=".toList 4 = 0 then
    match string_at arg beyond 9 with
    | none => .out_of_bounds
    | some value =>
      if strcasecmp value "NO".toList = 0 then
        .ok { part_msg with root_only := 0 }
      else if strcasecmp value "YES".toList = 0 then
        .ok { part_msg with root_only := 1 }
      else
        .abort (invalid_value arg "Acceptable RootOnly values are YES and NO\n")
  else if strncasecmp arg "Shared=".toList 7 = 0 then
    if strcasecmp (arg.drop 7) "NO".toList = 0 then
      .ok { part_msg with shared := E.SHARED_NO }
    else if strcasecmp (arg.drop 7) "YES".toList = 0 then
      .ok { part_msg with shared := E.SHARED_YES }
    else if strcasecmp (arg.drop 7) "FORCE".toList = 0 then
      .ok { part_msg with shared := E.SHARED_FORCE }
    else
      .abort (invalid_value arg "Acceptable Shared values are YES, NO and FORCE\n")
  else if strncasecmp arg "State=".toList 6 = 0 then
    if strcasecmp (arg.drop 6) "DOWN".toList = 0 then
      .ok { part_msg with state_up := 0 }
    else if strcasecmp (arg.drop 6) "UP".toList = 0 then
      .ok { part_msg with state_up := 1 }
    else
      .abort (invalid_value arg "Acceptable State values are UP and DOWN\n")
  else if strncasecmp arg "Nodes=".toList 6 = 0 then
    .ok { part_msg with nodes := some (arg.drop 6) }
  else if strncasecmp arg "AllowGroups=".toList 12 = 0 then
    .ok { part_msg with allow_groups := some (arg.drop 12) }
  else
    .abort (invalid_input arg)

/-- The source function `_update_part`; each `argv[i]` is a token together
with the bytes that follow its terminating NUL in the object holding it. -/
def _update_part (E : Manager) (argv : List (CStr × List Char)) : Run Int :=
  match for_each_arg (fun part_msg arg => _update_part_arg E part_msg arg.1 arg.2) argv
      E.slurm_init_part_desc_msg with
  | .abort errs => .ret 0 errs
  | .out_of_bounds => .out_of_bounds
  | .ok part_msg =>
    match E.slurm_update_partition part_msg with
    | .success _ => .ret 0 [.slurm_update_partition part_msg]
    | .error errno => .ret errno [.slurm_update_partition part_msg]

/-- The pointers `argv[i]` as `_update_part` uses them: each token of `argv`
with the bytes that follow its terminating NUL, which `beyond` lists in the
order of the tokens (nothing follows a token `beyond` has no entry for). -/
def with_beyond : List CStr → List (List Char) → List (CStr × List Char)
  | [], _ => []
  | arg :: rest, beyond => (arg, beyond.headD []) :: with_beyond rest beyond.tail

/-- The first loop of `_update_it`, over the tokens still to inspect: the
grammar of the first anchor token runs on the whole `argv`; `none` when the
loop ends with `i >= argc`. -/
def _update_it_scan (E : Manager) (argv : List CStr) (beyond : List (List Char)) :
    List CStr → Option (Run Int)
  | [] => none
  | arg :: rest =>
    if strncasecmp arg "NodeName=".toList 9 = 0 then some (_update_node E argv)
    else if strncasecmp arg "PartitionName=".toList 14 = 0 then
      some (_update_part E (with_beyond argv beyond))
    else if strncasecmp arg "JobId=".toList 6 = 0 then some (_update_job E argv)
    else _update_it_scan E argv beyond rest

/-- The three lines `_update_it` prints when no token names an entity. -/
def no_valid_entity : List Event :=
  [.stdout "No valid entity in update command\n".toList,
   .stdout "Input line must include \"NodeName\", ".toList,
   .stdout "\"PartitionName\", or \"JobId\"\n".toList]

/-- The end of `_update_it` once a grammar has run: `slurm_perror` when the
grammar returned a nonzero `error_code`. -/
def update_report : Run Int → Run Unit
  | .out_of_bounds => .out_of_bounds
  | .ret error_code trace =>
    if error_code ≠ 0 then .ret () (trace ++ [.slurm_perror "slurm_update error".toList])
    else .ret () trace

/-- The source function `_update_it`; `beyond` lists, for each token of
`argv`, the bytes that follow its terminating NUL in the object holding it. -/
def _update_it (E : Manager) (argv : List CStr) (beyond : List (List Char)) : Run Unit :=
  match _update_it_scan E argv beyond argv with
  | none => .ret () no_valid_entity
  | some run => update_report run

/-- Number of manager mutate calls in a trace. -/
def mutate_calls : List Event → Nat
  | [] => 0
  | .slurm_update_job _ :: t => mutate_calls t + 1
  | .slurm_update_node _ :: t => mutate_calls t + 1
  | .slurm_update_partition _ :: t => mutate_calls t + 1
  | _ :: t => mutate_calls t

/-! ## The snapshot cache and the printers -/

/-- The libc `errno` value `EINVAL`. -/
def EINVAL : Int := 22

/-- The libc `errno` value `ERANGE`. -/
def ERANGE : Int := 34

/-- The source function `_print_config`; `config_param` is not read. -/
def _print_config (E : Manager) (s : Session) (_config_param : Option CStr) : Run Session :=
  match s.old_slurm_ctl_conf_ptr with
  | some old =>
    match E.slurm_load_ctl_conf old.last_update with
    | .success slurm_ctl_conf_ptr =>
      .ret { s with old_slurm_ctl_conf_ptr := some slurm_ctl_conf_ptr }
        [.slurm_load_ctl_conf old.last_update, .slurm_free_ctl_conf old,
         .slurm_print_ctl_conf slurm_ctl_conf_ptr]
    | .error errno =>
      if errno = E.SLURM_NO_CHANGE_IN_DATA then
        .ret { s with old_slurm_ctl_conf_ptr := some old }
          ([.slurm_load_ctl_conf old.last_update]
            ++ (if s.quiet_flag = -1 then
                  [.stdout "slurm_load_ctl_conf no change in data\n".toList] else [])
            ++ [.slurm_print_ctl_conf old])
      else
        .ret s ([.slurm_load_ctl_conf old.last_update]
          ++ (if s.quiet_flag ≠ 1 then
                [.slurm_perror "slurm_load_ctl_conf error".toList] else []))
  | none =>
    match E.slurm_load_ctl_conf 0 with
    | .success slurm_ctl_conf_ptr =>
      .ret { s with old_slurm_ctl_conf_ptr := some slurm_ctl_conf_ptr }
        [.slurm_load_ctl_conf 0, .slurm_print_ctl_conf slurm_ctl_conf_ptr]
    | .error _ =>
      .ret s ([.slurm_load_ctl_conf 0]
        ++ (if s.quiet_flag ≠ 1 then
              [.slurm_perror "slurm_load_ctl_conf error".toList] else []))

/-- The display loop of `_print_job` over the records still to visit. -/
def _print_job_loop (job_id_str : Option CStr) (job_id : Nat) : List job_info → List Event
  | [] => []
  | r :: rest =>
    if job_id_str.isSome ∧ job_id ≠ r.job_id then _print_job_loop job_id_str job_id rest
    else if job_id_str.isSome then [.slurm_print_job_info r]
    else .slurm_print_job_info r :: _print_job_loop job_id_str job_id rest

/-- What `_print_job` does once `job_buffer_ptr` is settled: the verbose
header, the display loop and the two "nothing printed" messages. -/
def _print_job_display (E : Manager) (quiet_flag : Int) (job_id_str : Option CStr)
    (job_buffer_ptr : job_info_msg) : List Event :=
  let job_id : Nat :=
    match job_id_str with
    | some str => to_uint32 (strtol E.LONG_BITS str)
    | none => 0
  let printed := _print_job_loop job_id_str job_id job_buffer_ptr.job_array
  (if quiet_flag = -1 then
     [.print_last_update job_buffer_ptr.last_update job_buffer_ptr.job_array.length]
   else [])
  ++ printed
  ++ (if printed.length = 0 ∧ quiet_flag ≠ 1 then
        (if job_buffer_ptr.job_array.length ≠ 0 then
           [.stdout ("Job ".toList ++ (Nat.repr job_id).toList ++ " not found\n".toList)]
         else [.stdout "No jobs in the system\n".toList])
      else [])

/-- The source function `_print_job`. -/
def _print_job (E : Manager) (s : Session) (job_id_str : Option CStr) : Run Session :=
  match s.old_job_buffer_ptr with
  | some old =>
    match E.slurm_load_jobs old.last_update with
    | .success job_buffer_ptr =>
      .ret { s with old_job_buffer_ptr := some job_buffer_ptr }
        ([.slurm_load_jobs old.last_update, .slurm_free_job_info_msg old]
          ++ _print_job_display E s.quiet_flag job_id_str job_buffer_ptr)
    | .error errno =>
      if errno = E.SLURM_NO_CHANGE_IN_DATA then
        .ret { s with old_job_buffer_ptr := some old }
          ([.slurm_load_jobs old.last_update]
            ++ (if s.quiet_flag = -1 then
                  [.stdout "slurm_free_job_info no change in data\n".toList] else [])
            ++ _print_job_display E s.quiet_flag job_id_str old)
      else
        .ret s ([.slurm_load_jobs old.last_update]
          ++ (if s.quiet_flag ≠ 1 then [.slurm_perror "slurm_load_jobs error".toList] else []))
  | none =>
    match E.slurm_load_jobs 0 with
    | .success job_buffer_ptr =>
      .ret { s with old_job_buffer_ptr := some job_buffer_ptr }
        ([.slurm_load_jobs 0] ++ _print_job_display E s.quiet_flag job_id_str job_buffer_ptr)
    | .error _ =>
      .ret s ([.slurm_load_jobs 0]
        ++ (if s.quiet_flag ≠ 1 then [.slurm_perror "slurm_load_jobs error".toList] else []))

/-- The loop `for (j = 0; j < record_count; j++)` of `_print_node`, from `j`
on with `fuel` iterations left: the new `last_inx` and the records printed.
Reading `node_array` outside `[0, record_count)` is `out_of_bounds`.  The sum
`j + last_inx` is taken without wrap-around: record counts fit an `int`. -/
def _print_node_loop (node_name : Option CStr) (node_array : List node_info) :
    Nat → Nat → Nat → Run Nat
  | 0, _, last_inx => .ret last_inx []
  | fuel + 1, j, last_inx =>
    match node_name with
    | some name =>
      let i := (j + last_inx) % node_array.length
      match node_array[i]? with
      | none => .out_of_bounds
      | some r =>
        if strcmp name r.name ≠ 0 then _print_node_loop node_name node_array fuel (j + 1) last_inx
        else .ret i [.slurm_print_node_table r]
    | none =>
      match node_array[j]? with
      | none => .out_of_bounds
      | some r =>
        match _print_node_loop node_name node_array fuel (j + 1) last_inx with
        | .ret inx trace => .ret inx (.slurm_print_node_table r :: trace)
        | .out_of_bounds => .out_of_bounds

/-- Number of records a trace prints with `slurm_print_node_table`. -/
def node_print_cnt : List Event → Nat
  | [] => 0
  | .slurm_print_node_table _ :: t => node_print_cnt t + 1
  | _ :: t => node_print_cnt t

/-- The source function `_print_node`, with `last_inx` passed in and returned. -/
def _print_node (quiet_flag : Int) (last_inx : Nat) (node_name : Option CStr)
    (node_buffer_ptr : node_info_msg) : Run Nat :=
  match _print_node_loop node_name node_buffer_ptr.node_array
      node_buffer_ptr.node_array.length 0 last_inx with
  | .out_of_bounds => .out_of_bounds
  | .ret inx printed =>
    .ret inx (printed ++
      (if node_print_cnt printed = 0 ∧ quiet_flag ≠ 1 then
        (if node_buffer_ptr.node_array.length ≠ 0 then
           [.stdout ("Node ".toList ++ node_name.getD "(null)".toList
              ++ " not found\n".toList)]
         else [.stdout "No nodes in the system\n".toList])
       else []))

/-- The loop `while ((this_node_name = hostlist_shift (host_list)))` of
`_print_node_list`. -/
def _print_node_names (quiet_flag : Int) (node_info_ptr : node_info_msg) :
    List CStr → Nat → Run Nat
  | [], last_inx => .ret last_inx []
  | this_node_name :: rest, last_inx =>
    match _print_node quiet_flag last_inx (some this_node_name) node_info_ptr with
    | .out_of_bounds => .out_of_bounds
    | .ret inx trace =>
      match _print_node_names quiet_flag node_info_ptr rest inx with
      | .out_of_bounds => .out_of_bounds
      | .ret inx1 trace1 => .ret inx1 (trace ++ trace1)

/-- What `_print_node_list` does once `node_info_ptr` is settled. -/
def _print_node_list_display (E : Manager) (quiet_flag : Int) (last_inx : Nat)
    (node_list : Option CStr) (node_info_ptr : node_info_msg) : Run Nat :=
  let header : List Event :=
    if quiet_flag = -1 then
      [.print_last_update node_info_ptr.last_update node_info_ptr.node_array.length]
    else []
  match node_list with
  | none =>
    match _print_node quiet_flag last_inx none node_info_ptr with
    | .out_of_bounds => .out_of_bounds
    | .ret inx trace => .ret inx (header ++ trace)
  | some list =>
    match E.hostlist_create list with
    | .ok names =>
      match _print_node_names quiet_flag node_info_ptr names last_inx with
      | .out_of_bounds => .out_of_bounds
      | .ret inx trace => .ret inx (header ++ trace)
    | .error errno =>
      .ret last_inx (header ++
        (if quiet_flag ≠ 1 then
          (if errno = EINVAL then
             [.stderr ("unable to parse node list ".toList ++ list ++ "\n".toList)]
           else if errno = ERANGE then
             [.stderr ("too many nodes in supplied range ".toList ++ list ++ "\n".toList)]
           else [.perror "error parsing node list".toList])
         else []))

/-- Store the cached node snapshot and `last_inx` after a display, and put
`before` in front of its trace. -/
def node_list_done (s : Session) (node_info_ptr : node_info_msg) (before : List Event) :
    Run Nat → Run Session
  | .out_of_bounds => .out_of_bounds
  | .ret inx trace =>
    .ret { s with old_node_info_ptr := some node_info_ptr, last_inx := inx } (before ++ trace)

/-- The source function `_print_node_list`. -/
def _print_node_list (E : Manager) (s : Session) (node_list : Option CStr) : Run Session :=
  match s.old_node_info_ptr with
  | some old =>
    match E.slurm_load_node old.last_update with
    | .success node_info_ptr =>
      node_list_done s node_info_ptr
        [.slurm_load_node old.last_update, .slurm_free_node_info_msg old]
        (_print_node_list_display E s.quiet_flag s.last_inx node_list node_info_ptr)
    | .error errno =>
      if errno = E.SLURM_NO_CHANGE_IN_DATA then
        node_list_done s old
          ([.slurm_load_node old.last_update]
            ++ (if s.quiet_flag = -1 then
                  [.stdout "slurm_free_job_info no change in data\n".toList] else []))
          (_print_node_list_display E s.quiet_flag s.last_inx node_list old)
      else
        .ret s ([.slurm_load_node old.last_update]
          ++ (if s.quiet_flag ≠ 1 then [.slurm_perror "slurm_load_node error".toList] else []))
  | none =>
    match E.slurm_load_node 0 with
    | .success node_info_ptr =>
      node_list_done s node_info_ptr [.slurm_load_node 0]
        (_print_node_list_display E s.quiet_flag s.last_inx node_list node_info_ptr)
    | .error _ =>
      .ret s ([.slurm_load_node 0]
        ++ (if s.quiet_flag ≠ 1 then [.slurm_perror "slurm_load_node error".toList] else []))

/-- The display loop of `_print_part` over the records still to visit. -/
def _print_part_loop (partition_name : Option CStr) : List partition_info → List Event
  | [] => []
  | r :: rest =>
    match partition_name with
    | some name =>
      if strcmp name r.name ≠ 0 then _print_part_loop partition_name rest
      else [.slurm_print_partition_info r]
    | none => .slurm_print_partition_info r :: _print_part_loop partition_name rest

/-- What `_print_part` does once `part_info_ptr` is settled. -/
def _print_part_display (quiet_flag : Int) (partition_name : Option CStr)
    (part_info_ptr : partition_info_msg) : List Event :=
  let printed := _print_part_loop partition_name part_info_ptr.partition_array
  (if quiet_flag = -1 then
     [.print_last_update part_info_ptr.last_update part_info_ptr.partition_array.length]
   else [])
  ++ printed
  ++ (if printed.length = 0 ∧ quiet_flag ≠ 1 then
        (if part_info_ptr.partition_array.length ≠ 0 then
           [.stdout ("Partition ".toList ++ partition_name.getD "(null)".toList
              ++ " not found\n".toList)]
         else [.stdout "No partitions in the system\n".toList])
      else [])

/-- The source function `_print_part`. -/
def _print_part (E : Manager) (s : Session) (partition_name : Option CStr) : Run Session :=
  match s.old_part_info_ptr with
  | some old =>
    match E.slurm_load_partitions old.last_update with
    | .success part_info_ptr =>
      .ret { s with old_part_info_ptr := some part_info_ptr }
        ([.slurm_load_partitions old.last_update, .slurm_free_partition_info_msg old]
          ++ _print_part_display s.quiet_flag partition_name part_info_ptr)
    | .error errno =>
      if errno = E.SLURM_NO_CHANGE_IN_DATA then
        .ret { s with old_part_info_ptr := some old }
          ([.slurm_load_partitions old.last_update]
            ++ (if s.quiet_flag = -1 then
                  [.stdout "slurm_load_part no change in data\n".toList] else [])
            ++ _print_part_display s.quiet_flag partition_name old)
      else
        .ret s ([.slurm_load_partitions old.last_update]
          ++ (if s.quiet_flag ≠ 1 then
                [.slurm_perror "slurm_load_partitions error".toList] else []))
  | none =>
    match E.slurm_load_partitions 0 with
    | .success part_info_ptr =>
      .ret { s with old_part_info_ptr := some part_info_ptr }
        ([.slurm_load_partitions 0]
          ++ _print_part_display s.quiet_flag partition_name part_info_ptr)
    | .error _ =>
      .ret s ([.slurm_load_partitions 0]
        ++ (if s.quiet_flag ≠ 1 then
              [.slurm_perror "slurm_load_partitions error".toList] else []))

/-! ## Job steps -/

/-- Where `strtol (s, &next_str, 10)` leaves `next_str`: after the last digit
read, or at `s` itself when no digit was read. -/
def strtol_next (s : CStr) : CStr :=
  let body : CStr :=
    match s.dropWhile isspace with
    | '-' :: r => r
    | '+' :: r => r
    | r => r
  match body with
  | [] => s
  | c :: _ =>
    if 48 ≤ c.toNat ∧ c.toNat ≤ 57 then
      body.dropWhile (fun d => decide (48 ≤ d.toNat ∧ d.toNat ≤ 57))
    else s

/-- The `job_id` that `_print_step` reads from its argument. -/
def step_job_id (E : Manager) (job_step_id_str : Option CStr) : Nat :=
  match job_step_id_str with
  | some str => to_uint32 (strtol E.LONG_BITS str)
  | none => 0

/-- The `step_id` that `_print_step` reads from its argument: the number
after the `.` that follows the job id, 0 when there is none. -/
def step_step_id (E : Manager) (job_step_id_str : Option CStr) : Nat :=
  match job_step_id_str with
  | some str =>
    match strtol_next str with
    | '.' :: rest => to_uint32 (strtol E.LONG_BITS rest)
    | _ => 0
  | none => 0

/-- What `_print_step` does once `job_step_info_ptr` is settled: the verbose
header, every step of the snapshot, and the "nothing printed" messages. -/
def _print_step_display (quiet_flag : Int) (job_id step_id : Nat)
    (job_step_info_ptr : job_step_info_response_msg) : List Event :=
  (if quiet_flag = -1 then
     [.print_last_update job_step_info_ptr.last_update job_step_info_ptr.job_steps.length]
   else [])
  ++ job_step_info_ptr.job_steps.map Event.slurm_print_job_step_info
  ++ (if job_step_info_ptr.job_steps.length = 0 ∧ quiet_flag ≠ 1 then
        (if job_step_info_ptr.job_steps.length ≠ 0 then
           [.stdout ("Job step ".toList ++ (Nat.repr job_id).toList ++ ".".toList
              ++ (Nat.repr step_id).toList ++ " not found\n".toList)]
         else [.stdout "No job steps in the system\n".toList])
      else [])

/-- The end of `_print_step` after a successful refresh: the snapshot and the
filter are stored, then the display runs. -/
def step_done (s : Session) (quiet_flag : Int) (job_id step_id : Nat)
    (job_step_info_ptr : job_step_info_response_msg) (before : List Event) : Run Session :=
  .ret { s with old_job_step_info_ptr := .live job_step_info_ptr,
                last_job_id := job_id, last_step_id := step_id }
    (before ++ _print_step_display quiet_flag job_id step_id job_step_info_ptr)

/-- The source function `_print_step`.  When the filter differs from the one
of the cached snapshot, the snapshot is released before the query and the
pointer keeps its address; a later use of that pointer has no defined
behaviour. -/
def _print_step (E : Manager) (s : Session) (job_step_id_str : Option CStr) : Run Session :=
  let job_id := step_job_id E job_step_id_str
  let step_id := step_step_id E job_step_id_str
  match s.old_job_step_info_ptr with
  | .live old =>
    if s.last_job_id = job_id ∧ s.last_step_id = step_id then
      match E.slurm_get_job_steps old.last_update job_id step_id with
      | .success job_step_info_ptr =>
        step_done s s.quiet_flag job_id step_id job_step_info_ptr
          [.slurm_get_job_steps old.last_update job_id step_id,
           .slurm_free_job_step_info_response_msg old]
      | .error errno =>
        if errno = E.SLURM_NO_CHANGE_IN_DATA then
          step_done s s.quiet_flag job_id step_id old
            ([.slurm_get_job_steps old.last_update job_id step_id]
              ++ (if s.quiet_flag = -1 then
                    [.stdout "slurm_get_job_steps no change in data\n".toList] else []))
        else
          .ret s ([.slurm_get_job_steps old.last_update job_id step_id]
            ++ (if s.quiet_flag ≠ 1 then
                  [.slurm_perror "slurm_get_job_steps error".toList] else []))
    else
      match E.slurm_get_job_steps 0 job_id step_id with
      | .success job_step_info_ptr =>
        step_done s s.quiet_flag job_id step_id job_step_info_ptr
          [.slurm_free_job_step_info_response_msg old, .slurm_get_job_steps 0 job_id step_id]
      | .error _ =>
        .ret { s with old_job_step_info_ptr := .released old }
          ([.slurm_free_job_step_info_response_msg old, .slurm_get_job_steps 0 job_id step_id]
            ++ (if s.quiet_flag ≠ 1 then
                  [.slurm_perror "slurm_get_job_steps error".toList] else []))
  | .released _ => .out_of_bounds
  | .null =>
    match E.slurm_get_job_steps 0 job_id step_id with
    | .success job_step_info_ptr =>
      step_done s s.quiet_flag job_id step_id job_step_info_ptr
        [.slurm_get_job_steps 0 job_id step_id]
    | .error _ =>
      .ret s ([.slurm_get_job_steps 0 job_id step_id]
        ++ (if s.quiet_flag ≠ 1 then
              [.slurm_perror "slurm_get_job_steps error".toList] else []))

/-! ## The dispatcher and its helpers -/

/-- Result of a function that may end the process: it returns `value` after
producing `trace`, or the process exits with `status` after producing
`trace`, or it does what C defines no behaviour for. -/
inductive Outcome (α : Type) where
  | ret (value : α) (trace : List Event)
  | exit (status : Int) (trace : List Event)
  | undefined
  deriving DecidableEq, Repr

/-- The C conversion `(pid_t) x` for a 32-bit signed `pid_t`. -/
def to_pid_t (x : Int) : Int := (x + 2147483648) % 4294967296 - 2147483648

/-- The source function `_pid2jid`. -/
def _pid2jid (E : Manager) (quiet_flag : Int) (job_pid : Int) : List Event :=
  match E.slurm_pid2jobid job_pid with
  | .success job_id =>
    [.slurm_pid2jobid job_pid,
     .stdout ("Slurm job id: ".toList ++ (Nat.repr job_id).toList ++ "\n".toList)]
  | .error _ =>
    [.slurm_pid2jobid job_pid]
      ++ (if quiet_flag ≠ 1 then [.slurm_perror "slurm_pid2jobid error".toList] else [])

/-- The lines `_usage` prints, one for each `printf`. -/
def usage_text : List String :=
  ["scontrol [-q | -v] [<COMMAND>]\n",
   "  -q is equivalent to the keyword \"quiet\" described below.\n",
   "  -v is equivalent to the keyword \"verbose\" described below.\n",
   "  <keyword> may be omitted from the execute line and scontrol will execute in interactive\n",
   "    mode. It will process commands as entered until explicitly terminated.\n",
   "    Valid <COMMAND> values are:\n",
   "     abort                    shutdown slurm controller immediately generating a core file.\n",
   "     exit                     terminate this command.\n",
   "     help                     print this description of use.\n",
   "     pid2jid <process_id>     return slurm job id for given pid.\n",
   "     quiet                    print no messages other than error messages.\n",
   "     quit                     terminate this command.\n",
   "     reconfigure              re-read configuration files.\n",
   "     show <ENTITY> [<ID>]     display state of identified entity, default is all records.\n",
   "     shutdown                 shutdown slurm controller.\n",
   "     update <SPECIFICATIONS>  update job, node, or partition configuration.\n",
   "     verbose                  enable detailed logging.\n",
   "     version                  display tool version number.\n",
   "     pid2jid <process_id>     return slurm job id for given pid.\n",
   "     !!                       Repeat the last command entered.\n",
   "  <ENTITY> may be \"config\", \"daemons\", \"job\", \"node\", \"partition\" or \"step\".\n",
   "  <ID> may be a configuration parametername , job id, node name, partition name or job step id.\n",
   "     Node names mayspecified using simple regular expressions, (e.g. \"lx[10-20]\").\n",
   "     The job step id is the job id followed by a period and the step id.\n",
   "  <SPECIFICATIONS> are specified in the same format as the configuration file. You may\n",
   "     wish to use the \"show\" keyword then use its output as input for the update keyword,\n",
   "     editing as needed.\n",
   "  All commands and options are case-insensitive, although node names and partition\n",
   "     names tests are case-sensitive (node names \"LX\" and \"lx\" are distinct).\n"]

/-- The source function `_usage`. -/
def _usage : List Event := usage_text.map (fun line => Event.stdout line.toList)

/-- The constant `BUF_SIZE` of the source. -/
def BUF_SIZE : Nat := 1024

/-- The inner loop `for (j = i; j < line_size; j++) in_line[j - 1] = in_line[j]`
of `_print_daemons`: the characters `i .. line_size - 1` move one place to the
left. -/
def shift_left (in_line : List Char) (i line_size : Nat) : List Char :=
  in_line.take (i - 1) ++ (in_line.take line_size).drop i ++ in_line.drop (line_size - 1)

/-- The comment loop `for (i = 0; i < line_size; i++)` of `_print_daemons`,
from `i` on with `fuel` iterations left; `in_line` holds the characters of the
line and is followed by its terminating NUL. -/
def strip_comment : Nat → List Char → Nat → Nat → List Char
  | 0, in_line, _, _ => in_line
  | fuel + 1, in_line, i, line_size =>
    if i < line_size then
      if in_line.getD i NUL = NUL then in_line
      else if in_line.getD i NUL ≠ Char.ofNat 35 then
        strip_comment fuel in_line (i + 1) line_size
      else if i > 0 ∧ in_line.getD (i - 1) NUL = Char.ofNat 92 then
        strip_comment fuel (shift_left in_line i line_size) (i + 1) (line_size - 1)
      else in_line.set i NUL
    else in_line

/-- The loop `while ((*have_slurmd == false) && (node_entry = hostlist_shift
(node_list)))` of `_parse_conf_line`. -/
def have_slurmd_scan (this_host : CStr) : Bool → List CStr → Bool
  | true, _ => true
  | false, [] => false
  | false, node_entry :: rest =>
    have_slurmd_scan this_host
      (decide (strcmp node_entry this_host = 0 ∨ strcmp node_entry "localhost".toList = 0))
      rest

/-- The state `_print_daemons` carries from line to line. -/
structure daemon_state where
  have_slurmctld : Bool
  have_slurmd : Bool
  this_host : Option CStr
  deriving DecidableEq, Repr

/-- The source function `_parse_conf_line`; `none` when `hostlist_create`
returns NULL and the NULL list is then used. -/
def _parse_conf_line (E : Manager) (quiet_flag : Int) (in_line : CStr) (d : daemon_state) :
    Option (daemon_state × List Event) :=
  match E.slurm_parser_call in_line with
  | .error _ =>
    some (d, if quiet_flag = -1 then
      [.stderr ("Can't parse ".toList ++ in_line ++ " of ".toList ++ E.SLURM_CONFIG_FILE
        ++ "\n".toList)] else [])
  | .ok (backup_controller, control_machine, node_name) =>
    let this_host : CStr := d.this_host.getD E.getnodename
    let have1 : Bool :=
      match backup_controller with
      | some name =>
        d.have_slurmctld
          || decide (strcmp name this_host = 0 ∨ strcasecmp name "localhost".toList = 0)
      | none => d.have_slurmctld
    let have2 : Bool :=
      match control_machine with
      | some name =>
        have1 || decide (strcmp name this_host = 0 ∨ strcasecmp name "localhost".toList = 0)
      | none => have1
    match node_name with
    | none => some (⟨have2, d.have_slurmd, some this_host⟩, [])
    | some list =>
      match E.hostlist_create list with
      | .error _ => none
      | .ok names =>
        some (⟨have2, have_slurmd_scan this_host d.have_slurmd names, some this_host⟩, [])

/-- The loop `while (fgets (in_line, BUF_SIZE, slurm_spec_file) != NULL)` of
`_print_daemons` over the lines still to read; `line_num` counts the lines
read so far. -/
def _print_daemons_loop (E : Manager) (quiet_flag : Int) :
    List CStr → Nat → daemon_state → Option (daemon_state × List Event)
  | [], _, d => some (d, [])
  | in_line :: rest, line_num, d =>
    if in_line.length ≥ BUF_SIZE - 1 then
      match _print_daemons_loop E quiet_flag rest (line_num + 1) d with
      | none => none
      | some (d1, trace) =>
        some (d1, (if quiet_flag = -1 then
          [.stderr ("Line ".toList ++ (Nat.repr (line_num + 1)).toList
            ++ " of config file ".toList ++ E.SLURM_CONFIG_FILE ++ " too long\n".toList)]
          else []) ++ trace)
    else
      match _parse_conf_line E quiet_flag
          (c_string (strip_comment in_line.length in_line 0 in_line.length)) d with
      | none => none
      | some (d1, trace) =>
        if d1.have_slurmctld ∧ d1.have_slurmd then some (d1, trace)
        else
          match _print_daemons_loop E quiet_flag rest (line_num + 1) d1 with
          | none => none
          | some (d2, trace2) => some (d2, trace ++ trace2)

/-- The source function `_print_daemons`: it returns the cached host name, or
exits with status 1 when the configuration file cannot be opened. -/
def _print_daemons (E : Manager) (quiet_flag : Int) (this_host : Option CStr) :
    Outcome (Option CStr) :=
  match E.slurm_spec_file with
  | none =>
    .exit 1 (if quiet_flag = -1 then
      [.stderr ("Can't open ".toList ++ E.SLURM_CONFIG_FILE ++ "\n".toList)] else [])
  | some lines =>
    match _print_daemons_loop E quiet_flag lines 0 ⟨false, false, this_host⟩ with
    | none => .undefined
    | some (d, trace) =>
      .ret d.this_host (trace ++
        [.stdout ((if d.have_slurmctld then "slurmctld ".toList else [])
          ++ (if d.have_slurmd then "slurmd".toList else []) ++ "\n".toList)])

/-- The line `too many arguments for keyword:%s`. -/
def too_many_arguments (keyword : CStr) : Event :=
  .stderr ("too many arguments for keyword:".toList ++ keyword ++ "\n".toList)

/-- The line `too many arguments for %s keyword`. -/
def too_many_arguments_for (keyword : CStr) : Event :=
  .stderr ("too many arguments for ".toList ++ keyword ++ " keyword\n".toList)

/-- A printer's result as the dispatcher passes it on: `_process_command`
returns 0 after it. -/
def after_print : Run Session → Outcome (Int × Session)
  | .ret s trace => .ret (0, s) trace
  | .out_of_bounds => .undefined

/-- The result of `_update_it` as the dispatcher passes it on. -/
def after_update (s : Session) : Run Unit → Outcome (Int × Session)
  | .ret _ trace => .ret (0, s) trace
  | .out_of_bounds => .undefined

/-- The result of `_print_daemons` as the dispatcher passes it on, after the
messages `before`. -/
def after_daemons (s : Session) (before : List Event) :
    Outcome (Option CStr) → Outcome (Int × Session)
  | .ret this_host trace => .ret (0, { s with this_host := this_host }) (before ++ trace)
  | .exit status trace => .exit status (before ++ trace)
  | .undefined => .undefined

/-- The `show` branch of `_process_command`; `argv` is the whole command and
`argv0` its keyword. -/
def _process_show (E : Manager) (s : Session) (argv : List CStr) (argv0 : CStr) :
    Outcome (Int × Session) :=
  if argv.length > 3 then
    .ret (0, s) (if s.quiet_flag ≠ 1 then [too_many_arguments argv0] else [])
  else
    match argv.tail with
    | [] =>
      .ret (0, s) (if s.quiet_flag ≠ 1 then
        [.stderr ("too few arguments for keyword:".toList ++ argv0 ++ "\n".toList)] else [])
    | argv1 :: rest =>
      if strncasecmp argv1 "config".toList 3 = 0 then
        after_print (_print_config E s rest.head?)
      else if strncasecmp argv1 "daemons".toList 5 = 0 then
        after_daemons s
          (if argv.length > 2 ∧ s.quiet_flag ≠ 1 then [too_many_arguments argv0] else [])
          (_print_daemons E s.quiet_flag s.this_host)
      else if strncasecmp argv1 "jobs".toList 3 = 0 then
        after_print (_print_job E s rest.head?)
      else if strncasecmp argv1 "nodes".toList 3 = 0 then
        after_print (_print_node_list E s rest.head?)
      else if strncasecmp argv1 "partitions".toList 3 = 0 then
        after_print (_print_part E s rest.head?)
      else if strncasecmp argv1 "steps".toList 4 = 0 then
        after_print (_print_step E s rest.head?)
      else
        .ret (0, s) (if s.quiet_flag ≠ 1 then
          [.stderr ("invalid entity:".toList ++ argv1 ++ " for keyword:".toList ++ argv0
            ++ " \n".toList)] else [])

/-- The manager call of the `abort`, `shutdown` and `reconfigure` branches:
the call, then `slurm_perror` when it fails and quiet mode is not set. -/
def manager_call (quiet_flag : Int) (call : Event) (reply : Reply Unit) (text : String) :
    List Event :=
  match reply with
  | .success _ => [call]
  | .error _ => [call] ++ (if quiet_flag ≠ 1 then [.slurm_perror text.toList] else [])

/-- The source function `_process_command`: the value returned and the
statics after it; `beyond` lists, for each token of `argv`, the bytes that
follow its terminating NUL in the object holding it. -/
def _process_command (E : Manager) (s : Session) (argv : List CStr)
    (beyond : List (List Char)) : Outcome (Int × Session) :=
  match argv with
  | [] => .ret (0, s) (if s.quiet_flag = -1 then [.stderr "no input".toList] else [])
  | argv0 :: rest =>
    if strncasecmp argv0 "abort".toList 5 = 0 then
      .ret (0, s) ((if argv.length > 2 then [too_many_arguments argv0] else [])
        ++ manager_call s.quiet_flag (.slurm_shutdown 1) (E.slurm_shutdown 1)
            "slurm_shutdown error")
    else if strcasecmp argv0 "exit".toList = 0 ∨ strcasecmp argv0 "quit".toList = 0 then
      .ret (0, { s with exit_flag := 1 })
        (if argv.length > 1 then [too_many_arguments argv0] else [])
    else if strcasecmp argv0 "help".toList = 0 then
      .ret (0, s) ((if argv.length > 1 then [too_many_arguments argv0] else []) ++ _usage)
    else if strcasecmp argv0 "pid2jid".toList = 0 then
      if argv.length > 2 then .ret (0, s) [too_many_arguments argv0]
      else
        match rest with
        | [] => .ret (0, s) _usage
        | argv1 :: _ =>
          .ret (0, s) (_pid2jid E s.quiet_flag (to_pid_t (strtol E.LONG_BITS argv1)))
    else if strcasecmp argv0 "quiet".toList = 0 then
      .ret (0, { s with quiet_flag := 1 })
        (if argv.length > 1 then [too_many_arguments argv0] else [])
    else if strncasecmp argv0 "reconfigure".toList 7 = 0 then
      .ret (0, s) ((if argv.length > 2 then [too_many_arguments argv0] else [])
        ++ manager_call s.quiet_flag .slurm_reconfigure E.slurm_reconfigure
            "slurm_reconfigure error")
    else if strcasecmp argv0 "show".toList = 0 then
      _process_show E s argv argv0
    else if strncasecmp argv0 "shutdown".toList 5 = 0 then
      .ret (0, s) ((if argv.length > 2 then [too_many_arguments argv0] else [])
        ++ manager_call s.quiet_flag (.slurm_shutdown 0) (E.slurm_shutdown 0)
            "slurm_shutdown error")
    else if strcasecmp argv0 "update".toList = 0 then
      if argv.length < 2 then
        .ret (0, s) [.stderr ("too few arguments for ".toList ++ argv0 ++ " keyword\n".toList)]
      else after_update s (_update_it E rest beyond.tail)
    else if strcasecmp argv0 "verbose".toList = 0 then
      .ret (0, { s with quiet_flag := -1 })
        (if argv.length > 1 then [too_many_arguments_for argv0] else [])
    else if strcasecmp argv0 "version".toList = 0 then
      .ret (0, s) ((if argv.length > 1 then [too_many_arguments_for argv0] else [])
        ++ [.stdout (s.command_name ++ " Version ".toList ++ E.VERSION ++ "\n".toList)])
    else
      .ret (0, s) [.stderr ("invalid keyword: ".toList ++ argv0 ++ "\n".toList)]

/-! ## The tokenizer and `main` -/

/-- The constant `MAX_INPUT_FIELDS` of the source. -/
def MAX_INPUT_FIELDS : Nat := 128

/-- The libc `errno` value `E2BIG`. -/
def E2BIG : Int := 7

/-- The libc `strncmp`, up to the sign of the result. -/
def strncmp : CStr → CStr → Nat → Int
  | _, _, 0 => 0
  | [], [], _ + 1 => 0
  | [], _ :: _, _ + 1 => -1
  | _ :: _, [], _ + 1 => 1
  | a :: s, b :: t, n + 1 =>
    if a = b then strncmp s t n else if a.toNat < b.toNat then -1 else 1

/-- The inner loop `for (i++; i < in_line_size; i++)` of `_get_command`, from
`i` on with `fuel` iterations left: the index it stops at and the buffer,
whose character at that index has been overwritten with NUL.  `in_line` holds
the `in_line_size` characters of the line buffer. -/
def _get_command_word : Nat → List Char → Nat → Nat × List Char
  | 0, in_line, i => (i, in_line)
  | fuel + 1, in_line, i =>
    if i < in_line.length then
      if in_line.getD i NUL ≠ NUL ∧ isspace (in_line.getD i NUL) = false then
        _get_command_word fuel in_line (i + 1)
      else (i, in_line.set i NUL)
    else (i, in_line)

/-- The outer loop `for (i = 0; i < in_line_size; i++)` of `_get_command`,
from `i` on with `fuel` iterations left: the value returned, the pointers
stored in `argv` (as offsets into the buffer) and the buffer. -/
def _get_command_loop : Nat → List Char → Nat → List Nat → Int × List Nat × List Char
  | 0, in_line, _, argv => (0, argv, in_line)
  | fuel + 1, in_line, i, argv =>
    if i < in_line.length then
      if in_line.getD i NUL = NUL then (0, argv, in_line)
      else if isspace (in_line.getD i NUL) = true then
        _get_command_loop fuel in_line (i + 1) argv
      else if argv.length + 1 > MAX_INPUT_FIELDS then (E2BIG, argv, in_line)
      else
        _get_command_loop fuel (_get_command_word in_line.length in_line (i + 1)).2
          ((_get_command_word in_line.length in_line (i + 1)).1 + 1) (argv ++ [i])
    else (0, argv, in_line)

/-- What `_get_command` hands back: the value returned, the tokens `argv`
points to, the statics, the lines written, and for each token the bytes of
the line buffer that follow its terminating NUL. -/
structure command where
  error_code : Int
  argv : List CStr
  session : Session
  trace : List Event
  beyond : List (List Char)
  deriving DecidableEq, Repr

/-- The scan of `_get_command` over the line buffer `in_line`, which is also
the buffer `last_in_line` points to.  The buffer has `in_line_size + 1` bytes,
the last one the NUL that ends the line: what follows the terminating NUL of
the token at offset `p` is the rest of the buffer up to and including that
last NUL. -/
def _get_command_scan (s : Session) (in_line : List Char) : command :=
  let r := _get_command_loop (in_line.length + 1) in_line 0 []
  { error_code := r.1
    argv := r.2.1.map (fun p => c_string (r.2.2.drop p))
    session := { s with last_in_line := some r.2.2 }
    trace :=
      if r.1 ≠ 0 then
        [.stderr (s.command_name ++ ": can not process over ".toList
          ++ (Nat.repr s.input_words).toList ++ " words\n".toList)]
      else []
    beyond := r.2.1.map (fun p =>
      (r.2.2 ++ [NUL]).drop (p + (c_string (r.2.2.drop p)).length + 1)) }

/-- The source function `_get_command`; `line` is what the line reader
returns, `none` for NULL. -/
def _get_command (s : Session) (line : Option CStr) : command :=
  match line with
  | none => ⟨0, [], s, [], []⟩
  | some in_line =>
    if strcmp in_line "!!".toList = 0 then
      match s.last_in_line with
      | none => ⟨0, [], s, [], []⟩
      | some last_in_line => _get_command_scan s last_in_line
    else _get_command_scan s in_line

/-- How a run of `main` stands: the process has exited with `status`, or it
did what C defines no behaviour for, or it is still in its loop when the
iterations allowed are used up. -/
inductive Process where
  | exited (status : Int) (trace : List Event)
  | undefined
  | running (trace : List Event)
  deriving DecidableEq, Repr

/-- Put the events `before` in front of what a process does. -/
def Process.after (before : List Event) : Process → Process
  | .exited status trace => .exited status (before ++ trace)
  | .undefined => .undefined
  | .running trace => .running (before ++ trace)

/-- The loop `for (i = 1; i < argc; i++)` of `main` over the arguments still
to read: the statics, the `input_fields` and the lines written. -/
def main_flags : List CStr → Session → List CStr → Session × List CStr × List Event
  | [], s, input_fields => (s, input_fields, [])
  | arg :: rest, s, input_fields =>
    if strncmp arg "-help".toList 2 = 0 then
      let r := main_flags rest s input_fields
      (r.1, r.2.1, _usage ++ r.2.2)
    else if strcmp arg "-q".toList = 0 then
      main_flags rest { s with quiet_flag := 1 } input_fields
    else if strcmp arg "quiet".toList = 0 then
      main_flags rest { s with quiet_flag := 1 } input_fields
    else if strcmp arg "-v".toList = 0 then
      main_flags rest { s with quiet_flag := -1 } input_fields
    else if strcmp arg "verbose".toList = 0 then
      main_flags rest { s with quiet_flag := -1 } input_fields
    else main_flags rest s (input_fields ++ [arg])

/-- The loop of `main` over its arguments again, for the bytes that follow
each argument it stores in `input_fields`: the pointer `argv[i]` is stored as
it is, so what follows the string goes with it.  `beyond` lists those bytes
for the arguments still to read. -/
def main_flags_beyond : List CStr → List (List Char) → List (List Char)
  | [], _ => []
  | arg :: rest, beyond =>
    if strncmp arg "-help".toList 2 = 0 then main_flags_beyond rest beyond.tail
    else if strcmp arg "-q".toList = 0 then main_flags_beyond rest beyond.tail
    else if strcmp arg "quiet".toList = 0 then main_flags_beyond rest beyond.tail
    else if strcmp arg "-v".toList = 0 then main_flags_beyond rest beyond.tail
    else if strcmp arg "verbose".toList = 0 then main_flags_beyond rest beyond.tail
    else beyond.headD [] :: main_flags_beyond rest beyond.tail

/-- The loop `while (error_code == SLURM_SUCCESS)` of `main`, entered with
`error_code` 0 and at most `fuel` iterations allowed; `beyond` lists the bytes
that follow each of the `input_fields`, and `stdin` holds the lines the line
reader has still to return, after which it returns NULL. -/
def main_loop (E : Manager) :
    Nat → Session → List CStr → List (List Char) → List CStr → Process
  | 0, _, _, _, _ => .running []
  | fuel + 1, s, input_fields, beyond, stdin =>
    match _process_command E s input_fields beyond with
    | .undefined => .undefined
    | .exit status trace => .exited status trace
    | .ret (error_code, s1) trace =>
      if error_code ≠ 0 then .exited error_code trace
      else if s1.exit_flag = 1 then .exited error_code trace
      else if (_get_command s1 stdin.head?).error_code ≠ 0 then
        .exited (_get_command s1 stdin.head?).error_code
          (trace ++ (_get_command s1 stdin.head?).trace)
      else
        Process.after (trace ++ (_get_command s1 stdin.head?).trace)
          (main_loop E fuel (_get_command s1 stdin.head?).session
            (_get_command s1 stdin.head?).argv (_get_command s1 stdin.head?).beyond
            stdin.tail)

/-- The source function `main`, run for at most `fuel` iterations of its
loop: `argv` are the program's arguments, `argv[0]` included, and `beyond`
lists, for each of them, the bytes that follow its terminating NUL in the
object holding it (C says nothing about how the arguments are laid out: an
empty entry is an argument that is an object of its own). -/
def main (E : Manager) (argv : List CStr) (beyond : List (List Char)) (stdin : List CStr)
    (fuel : Nat) : Process :=
  let s0 : Session :=
    { Session.init with
      command_name := argv.headD []
      exit_flag := 0
      quiet_flag := 0
      input_words := if argv.length > MAX_INPUT_FIELDS then argv.length else 128 }
  let r := main_flags argv.tail s0 []
  if r.2.1.length ≠ 0 then
    Process.after r.2.2 (main_loop E fuel { r.1 with exit_flag := 1 } r.2.1
      (main_flags_beyond argv.tail beyond.tail) stdin)
  else if (_get_command r.1 stdin.head?).error_code ≠ 0 then
    .exited (_get_command r.1 stdin.head?).error_code
      (r.2.2 ++ (_get_command r.1 stdin.head?).trace)
  else
    Process.after (r.2.2 ++ (_get_command r.1 stdin.head?).trace)
      (main_loop E fuel (_get_command r.1 stdin.head?).session
        (_get_command r.1 stdin.head?).argv (_get_command r.1 stdin.head?).beyond
        stdin.tail)

/-! ## The words of the specification -/

/-- Two strings are equal case-insensitively. -/
def ci_eq (a b : CStr) : Prop := a.map tolower = b.map tolower

instance (a b : CStr) : Decidable (ci_eq a b) := by unfold ci_eq; infer_instance

/-- The token `arg` begins, case-insensitively, with the complete `key`. -/
def begins_with (key arg : CStr) : Prop :=
  (arg.take key.length).map tolower = key.map tolower

instance (key arg : CStr) : Decidable (begins_with key arg) := by
  unfold begins_with; infer_instance

/-- The loop body stored the token's field. -/
def Step.accepted {α : Type} : Step α → Bool
  | .ok _ => true
  | _ => false

/-- The loop body reported a parse error and made the function return 0. -/
def Step.rejected {α : Type} : Step α → Bool
  | .abort _ => true
  | _ => false

/-- The loop body read outside the object that holds the token. -/
def Step.faulted {α : Type} : Step α → Bool
  | .out_of_bounds => true
  | _ => false

/-- The messages of a parse error; none for the other outcomes. -/
def Step.errs {α : Type} : Step α → List Event
  | .abort errs => errs
  | _ => []

/-- The job grammar accepts the token. -/
def job_accepts (E : Manager) (arg : CStr) : Bool :=
  (_update_job_arg E E.slurm_init_job_desc_msg arg).accepted

/-- The job grammar rejects the token. -/
def job_rejects (E : Manager) (arg : CStr) : Bool :=
  (_update_job_arg E E.slurm_init_job_desc_msg arg).rejected

/-- The node grammar accepts the token. -/
def node_accepts (E : Manager) (arg : CStr) : Bool :=
  (_update_node_arg E ⟨none, to_uint16 E.NO_VAL⟩ arg).accepted

/-- The node grammar rejects the token. -/
def node_rejects (E : Manager) (arg : CStr) : Bool :=
  (_update_node_arg E ⟨none, to_uint16 E.NO_VAL⟩ arg).rejected

/-- The partition grammar accepts the token `arg.1`, which the bytes `arg.2`
follow. -/
def part_accepts (E : Manager) (arg : CStr × List Char) : Bool :=
  (_update_part_arg E E.slurm_init_part_desc_msg arg.1 arg.2).accepted

/-- The partition grammar rejects the token `arg.1`, which the bytes `arg.2`
follow. -/
def part_rejects (E : Manager) (arg : CStr × List Char) : Bool :=
  (_update_part_arg E E.slurm_init_part_desc_msg arg.1 arg.2).rejected

/-- The partition grammar reads outside the object that holds the token
`arg.1`: the token begins with `Root`, is shorter than 9 characters, and no
string of the object starts at `&argv[i][9]`. -/
def part_faults (arg : CStr × List Char) : Prop :=
  begins_with "Root".toList arg.1 ∧ string_at arg.1 arg.2 9 = none

instance (arg : CStr × List Char) : Decidable (part_faults arg) := by
  unfold part_faults; infer_instance

/-- The token begins with one of the three entity anchors. -/
def is_anchor (arg : CStr) : Prop :=
  begins_with "NodeName=".toList arg ∨ begins_with "PartitionName=".toList arg
    ∨ begins_with "JobId=".toList arg

instance (arg : CStr) : Decidable (is_anchor arg) := by unfold is_anchor; infer_instance

/-- The first token, in order, that begins with an anchor. -/
def first_anchor (argv : List CStr) : Option CStr :=
  argv.find? (fun a => decide (is_anchor a))

/-! ## A concrete environment -/

/-- The node-state names of the sample environment; `END` closes the table. -/
def sample_state_names : List String := ["DOWN", "UNKNOWN", "IDLE", "ALLOCATED", "END"]

/-- A concrete environment: 64-bit `long`, `slurm.h`-like constants, a
five-entry node-state table, a hostlist that is the single name given, and a
manager that accepts every update and has one snapshot of each kind. -/
def sample : Manager where
  LONG_BITS := 64
  NO_VAL := 4294967294
  INFINITE := 4294967295
  SHARED_NO := 0
  SHARED_YES := 1
  SHARED_FORCE := 2
  NODE_STATE_END := 4
  SLURM_NO_CHANGE_IN_DATA := 1900
  node_state_string := fun j => (sample_state_names.getD j "?").toList
  slurm_init_job_desc_msg :=
    ⟨4294967294, 4294967294, 4294967294, 4294967294, 4294967294, 4294967294, 4294967294,
      4294967294, none, none, 65534, 65534, none, none⟩
  slurm_init_part_desc_msg :=
    ⟨none, 4294967294, 4294967294, 65534, 65534, 65534, 65534, none, none⟩
  hostlist_create := fun list => .ok [list]
  slurm_update_job := fun _ => .success ()
  slurm_update_node := fun _ => .success ()
  slurm_update_partition := fun _ => .success ()
  slurm_load_ctl_conf := fun _ => .success ⟨1, 100, [("ControlMachine".toList, "lx0".toList)]⟩
  slurm_load_jobs := fun _ => .success ⟨2, 100, [⟨42, "a".toList⟩, ⟨43, "b".toList⟩]⟩
  slurm_load_node := fun _ => .success ⟨3, 100, [⟨"n1".toList, 2⟩, ⟨"n2".toList, 3⟩]⟩
  slurm_load_partitions := fun _ => .success ⟨4, 100, [⟨"batch".toList, 1⟩]⟩
  slurm_get_job_steps := fun _ _ _ => .success ⟨5, 100, [⟨42, 1⟩, ⟨42, 3⟩, ⟨43, 3⟩]⟩
  slurm_shutdown := fun _ => .success ()
  slurm_reconfigure := .success ()
  slurm_pid2jobid := fun _ => .success 42
  VERSION := "0.2".toList
  SLURM_CONFIG_FILE := "/etc/slurm.conf".toList
  slurm_spec_file := none
  slurm_parser_call := fun _ => .ok (none, none, none)
  getnodename := "lx0".toList

/-- The state names that precede `END` in the node-state table, in index
order. -/
def states_before_END (E : Manager) : List CStr :=
  ((List.range (E.NODE_STATE_END + 1)).map E.node_state_string).takeWhile
    (fun n => decide (n ≠ "END".toList))

/-- Index of the first state name before `END` that equals `v`
case-insensitively. -/
def first_state_index (E : Manager) (v : CStr) : Nat :=
  (states_before_END E).findIdx (fun n => decide (ci_eq n v))

/-- The nine keys of the partition grammar. -/
def part_keys : List CStr :=
  ["PartitionName=".toList, "MaxTime=".toList, "MaxNodes=".toList, "Default=".toList,
   "RootOnly=".toList, "Shared=".toList, "State=".toList, "Nodes=".toList,
   "AllowGroups=".toList]

/-- The token `arg` stops `_update_part` with the messages `errs`: whatever
accepted tokens precede it and whatever tokens follow, the function returns 0
and the manager mutate call is not made. -/
def part_directive_aborts (E : Manager) (arg : CStr) (errs : List Event) : Prop :=
  ∀ (pre post : List (CStr × List Char)) (beyond : List Char),
    (∀ a ∈ pre, part_accepts E a = true) →
    _update_part E (pre ++ (arg, beyond) :: post) = .ret 0 errs ∧ mutate_calls errs = 0

/-- The text is a plain decimal numeral: one or more digits and nothing else. -/
def is_decimal (v : CStr) : Prop :=
  v ≠ [] ∧ ∀ c ∈ v, 48 ≤ c.toNat ∧ c.toNat ≤ 57

instance (v : CStr) : Decidable (is_decimal v) := by unfold is_decimal; infer_instance

/-- The number a decimal numeral denotes. -/
def decimal_value (v : CStr) : Nat :=
  v.foldl (fun acc c => acc * 10 + (c.toNat - 48)) 0

/-- The event is a manager query. -/
def Event.is_query : Event → Bool
  | .slurm_load_ctl_conf _ => true
  | .slurm_load_jobs _ => true
  | .slurm_load_node _ => true
  | .slurm_load_partitions _ => true
  | .slurm_get_job_steps _ _ _ => true
  | _ => false

/-- The event releases a snapshot. -/
def Event.is_release : Event → Bool
  | .slurm_free_ctl_conf _ => true
  | .slurm_free_job_info_msg _ => true
  | .slurm_free_node_info_msg _ => true
  | .slurm_free_partition_info_msg _ => true
  | .slurm_free_job_step_info_response_msg _ => true
  | _ => false

/-- The event displays a record (or, for the configuration, the snapshot). -/
def Event.is_display : Event → Bool
  | .slurm_print_ctl_conf _ => true
  | .slurm_print_job_info _ => true
  | .slurm_print_node_table _ => true
  | .slurm_print_partition_info _ => true
  | .slurm_print_job_step_info _ => true
  | _ => false

/-- The event writes to stdout or stderr and does nothing else. -/
def Event.is_output : Event → Bool
  | .stdout _ => true
  | .stderr _ => true
  | .slurm_perror _ => true
  | .perror _ => true
  | .print_last_update _ _ => true
  | .slurm_print_ctl_conf _ => true
  | .slurm_print_job_info _ => true
  | .slurm_print_node_table _ => true
  | .slurm_print_partition_info _ => true
  | .slurm_print_job_step_info _ => true
  | _ => false

/-- The manager queries of a trace, in order. -/
def queries (trace : List Event) : List Event := trace.filter Event.is_query

/-- The snapshot releases of a trace, in order. -/
def releases (trace : List Event) : List Event := trace.filter Event.is_release

/-- The records a trace displays, in order. -/
def displayed (trace : List Event) : List Event := trace.filter Event.is_display

/-- The since-timestamp of a refresh: the cached snapshot's `last_update`, or
0 when nothing is cached. -/
def since {α : Type} (last_update : α → Nat) : Option α → Nat
  | some old => last_update old
  | none => 0

/-- The release of the cached snapshot, if there is one. -/
def release_of {α : Type} (free : α → Event) : Option α → List Event
  | some old => [free old]
  | none => []

/-- The error report of a failed refresh: one `slurm_perror` line unless
quiet mode is set. -/
def error_report (quiet_flag : Int) (text : String) : List Event :=
  if quiet_flag ≠ 1 then [.slurm_perror text.toList] else []

/-- The sample environment with a manager that has nothing new: every query
fails with "no change in data". -/
def sample_unchanged : Manager :=
  { sample with
    slurm_load_ctl_conf := fun _ => .error 1900
    slurm_load_jobs := fun _ => .error 1900
    slurm_load_node := fun _ => .error 1900
    slurm_load_partitions := fun _ => .error 1900
    slurm_get_job_steps := fun _ _ _ => .error 1900 }

/-- The sample environment with a manager that cannot be reached: every
query fails with an error other than "no change in data". -/
def sample_down : Manager :=
  { sample with
    slurm_load_ctl_conf := fun _ => .error 111
    slurm_load_jobs := fun _ => .error 111
    slurm_load_node := fun _ => .error 111
    slurm_load_partitions := fun _ => .error 111
    slurm_get_job_steps := fun _ _ _ => .error 111 }

/-- A session that holds a snapshot of each kind, taken at time 50. -/
def sample_cached : Session :=
  { Session.init with
    old_slurm_ctl_conf_ptr := some ⟨11, 50, []⟩
    old_job_buffer_ptr := some ⟨12, 50, [⟨7, "old".toList⟩]⟩
    old_node_info_ptr := some ⟨13, 50, [⟨"n0".toList, 2⟩, ⟨"n1".toList, 2⟩]⟩
    old_part_info_ptr := some ⟨14, 50, [⟨"debug".toList, 1⟩]⟩ }

/-- The indices a lookup probes, in order, from cursor `c` in a snapshot of
`n` records: `(c + j) mod n` for `j = 0, 1, ..., n - 1`. -/
def probe_order (n c : Nat) : List Nat := (List.range n).map (fun j => (c + j) % n)

/-- The record at index `i` is named exactly `X`. -/
def named (X : CStr) (node_array : List node_info) (i : Nat) : Bool :=
  decide ((node_array[i]?).map node_info.name = some X)

/-- The first probed index whose record is named exactly `X`. -/
def first_probe_match (node_array : List node_info) (c : Nat) (X : CStr) : Option Nat :=
  (probe_order node_array.length c).find? (named X node_array)

/-- A node snapshot of five records whose 4th entry is `n3`. -/
def sample_nodes : node_info_msg :=
  ⟨21, 70, [⟨"n0".toList, 2⟩, ⟨"n1".toList, 2⟩, ⟨"n2".toList, 3⟩, ⟨"n3".toList, 2⟩,
    ⟨"n4".toList, 0⟩]⟩


/-- A session that holds a step snapshot taken at time 50 for the filter 42.3. -/
def sample_stepped : Session :=
  { Session.init with
    old_job_step_info_ptr := .live ⟨15, 50, [⟨42, 3⟩]⟩
    last_job_id := 42
    last_step_id := 3 }


/-- The words of a line: its maximal runs of non-whitespace characters, in
left-to-right order. -/
def words (line : CStr) : List CStr :=
  (line.splitOnP isspace).filter (fun w => decide (w ≠ []))

/-- What ends a token in the line buffer: NUL or white space. -/
def ends_token (c : Char) : Bool := decide (c = NUL) || isspace c

/-- The tokens a line buffer holds: its maximal runs of characters that are
neither NUL nor white space. -/
def buffer_words (buffer : List Char) : List CStr :=
  (buffer.splitOnP ends_token).filter (fun w => decide (w ≠ []))

/-- The line buffer after a scan: the character that ends each token is
overwritten with NUL.  `in_word` tells whether the character before belongs
to a token. -/
def terminated : Bool → List Char → List Char
  | _, [] => []
  | true, c :: cs =>
    if ends_token c = true then NUL :: terminated false cs else c :: terminated true cs
  | false, c :: cs => c :: terminated (!ends_token c) cs

/-- No NUL stands where the scan looks for the start of a token: every NUL
of the buffer directly follows a token. -/
def scannable : Bool → List Char → Bool
  | _, [] => true
  | true, c :: cs => scannable (!ends_token c) cs
  | false, c :: cs => decide (c ≠ NUL) && scannable (!ends_token c) cs

/-- The session after `n` further lines that are the repeat marker. -/
def replayed (s : Session) : Nat → Session
  | 0 => s
  | n + 1 => (_get_command (replayed s n) (some "!!".toList)).session

/-- A line of 129 words. -/
def sample_long_line : CStr := (List.replicate 129 "a ".toList).flatten


/-- A command `argv` with the letter case of its keyword changed and, when it
is a `show` command, the letter case of its entity word changed too; every
other word is as it was. -/
def case_variant (argv argv1 : List CStr) : Prop :=
  match argv, argv1 with
  | [], [] => True
  | [keyword], [keyword1] => ci_eq keyword keyword1
  | keyword :: entity :: rest, keyword1 :: entity1 :: rest1 =>
    ci_eq keyword keyword1 ∧ rest = rest1
      ∧ (entity = entity1 ∨ (ci_eq keyword "show".toList ∧ ci_eq entity entity1))
  | _, _ => False

instance (argv argv1 : List CStr) : Decidable (case_variant argv argv1) := by
  unfold case_variant
  split <;> infer_instance

/-- An event without the text it writes to stderr: the messages of
`_process_command` on stderr repeat the words of the command as typed. -/
def Event.shape : Event → Event
  | .stderr _ => .stderr []
  | e => e

/-- What a command does apart from the text of its messages on stderr: the
value returned, the statics and every other event. -/
def Outcome.shape {α : Type} : Outcome α → Outcome α
  | .ret value trace => .ret value (trace.map Event.shape)
  | .exit status trace => .exit status (trace.map Event.shape)
  | .undefined => .undefined


/-- A property of what a function returns; it says nothing of a run that
leaves defined behaviour. -/
def Run.holds {α : Type} (P : α → Prop) : Run α → Prop
  | .ret value _ => P value
  | .out_of_bounds => True

/-- A property `P` of what a function returns and a property `Q` of the
status it ends the process with; it says nothing of a run that leaves defined
behaviour. -/
def Outcome.holds {α : Type} (P : α → Prop) (Q : Int → Prop) : Outcome α → Prop
  | .ret value _ => P value
  | .exit status _ => Q status
  | .undefined => True

/-- Node displays run one after the other, each a lookup by name or a
print-all on the snapshot current at that time; the cursor one display leaves
is the cursor the next one starts with. -/
def node_displays (quiet_flag : Int) : Nat → List (Option CStr × node_info_msg) → Run Nat
  | c, [] => .ret c []
  | c, (node_name, msg) :: rest =>
    match _print_node quiet_flag c node_name msg with
    | .out_of_bounds => .out_of_bounds
    | .ret c1 trace =>
      match node_displays quiet_flag c1 rest with
      | .out_of_bounds => .out_of_bounds
      | .ret c2 trace2 => .ret c2 (trace ++ trace2)


/-- The token sequence holds anchor tokens of two different entity kinds. -/
def mixed_anchors (argv : List CStr) : Prop :=
  ((∃ a ∈ argv, begins_with "JobId=".toList a) ∧ (∃ a ∈ argv, begins_with "NodeName=".toList a))
  ∨ ((∃ a ∈ argv, begins_with "JobId=".toList a)
      ∧ (∃ a ∈ argv, begins_with "PartitionName=".toList a))
  ∨ ((∃ a ∈ argv, begins_with "NodeName=".toList a)
      ∧ (∃ a ∈ argv, begins_with "PartitionName=".toList a))

instance (argv : List CStr) : Decidable (mixed_anchors argv) := by
  unfold mixed_anchors; infer_instance


/-- The branches of the chain of tests `_process_command` makes on `argv[0]`;
`exit` is the branch of both `exit` and `quit`, `invalid` the final `else`. -/
inductive Keyword where
  | abort
  | exit
  | help
  | pid2jid
  | quiet
  | reconfigure
  | show
  | shutdown
  | update
  | verbose
  | version
  | invalid
  deriving DecidableEq, Repr

/-- The chain of tests of `_process_command` on `argv[0]`, in the order of
the source: the branch that runs. -/
def keyword (argv0 : CStr) : Keyword :=
  if strncasecmp argv0 "abort".toList 5 = 0 then .abort
  else if strcasecmp argv0 "exit".toList = 0 ∨ strcasecmp argv0 "quit".toList = 0 then .exit
  else if strcasecmp argv0 "help".toList = 0 then .help
  else if strcasecmp argv0 "pid2jid".toList = 0 then .pid2jid
  else if strcasecmp argv0 "quiet".toList = 0 then .quiet
  else if strncasecmp argv0 "reconfigure".toList 7 = 0 then .reconfigure
  else if strcasecmp argv0 "show".toList = 0 then .show
  else if strncasecmp argv0 "shutdown".toList 5 = 0 then .shutdown
  else if strcasecmp argv0 "update".toList = 0 then .update
  else if strcasecmp argv0 "verbose".toList = 0 then .verbose
  else if strcasecmp argv0 "version".toList = 0 then .version
  else .invalid

/-- What each branch of `_process_command` does, for the command
`argv0 :: rest`, whose tokens the bytes listed in `beyond` follow. -/
def run_keyword (E : Manager) (s : Session) (argv0 : CStr) (rest : List CStr)
    (beyond : List (List Char)) : Keyword → Outcome (Int × Session)
  | .abort =>
    .ret (0, s) ((if (argv0 :: rest).length > 2 then [too_many_arguments argv0] else [])
      ++ manager_call s.quiet_flag (.slurm_shutdown 1) (E.slurm_shutdown 1)
          "slurm_shutdown error")
  | .exit =>
    .ret (0, { s with exit_flag := 1 })
      (if (argv0 :: rest).length > 1 then [too_many_arguments argv0] else [])
  | .help =>
    .ret (0, s) ((if (argv0 :: rest).length > 1 then [too_many_arguments argv0] else [])
      ++ _usage)
  | .pid2jid =>
    if (argv0 :: rest).length > 2 then .ret (0, s) [too_many_arguments argv0]
    else
      match rest with
      | [] => .ret (0, s) _usage
      | argv1 :: _ =>
        .ret (0, s) (_pid2jid E s.quiet_flag (to_pid_t (strtol E.LONG_BITS argv1)))
  | .quiet =>
    .ret (0, { s with quiet_flag := 1 })
      (if (argv0 :: rest).length > 1 then [too_many_arguments argv0] else [])
  | .reconfigure =>
    .ret (0, s) ((if (argv0 :: rest).length > 2 then [too_many_arguments argv0] else [])
      ++ manager_call s.quiet_flag .slurm_reconfigure E.slurm_reconfigure
          "slurm_reconfigure error")
  | .show => _process_show E s (argv0 :: rest) argv0
  | .shutdown =>
    .ret (0, s) ((if (argv0 :: rest).length > 2 then [too_many_arguments argv0] else [])
      ++ manager_call s.quiet_flag (.slurm_shutdown 0) (E.slurm_shutdown 0)
          "slurm_shutdown error")
  | .update =>
    if (argv0 :: rest).length < 2 then
      .ret (0, s) [.stderr ("too few arguments for ".toList ++ argv0 ++ " keyword\n".toList)]
    else after_update s (_update_it E rest beyond.tail)
  | .verbose =>
    .ret (0, { s with quiet_flag := -1 })
      (if (argv0 :: rest).length > 1 then [too_many_arguments_for argv0] else [])
  | .version =>
    .ret (0, s) ((if (argv0 :: rest).length > 1 then [too_many_arguments_for argv0] else [])
      ++ [.stdout (s.command_name ++ " Version ".toList ++ E.VERSION ++ "\n".toList)])
  | .invalid =>
    .ret (0, s) [.stderr ("invalid keyword: ".toList ++ argv0 ++ "\n".toList)]

/-- The branches of the chain of tests the `show` branch makes on `argv[1]`. -/
inductive Entity where
  | config
  | daemons
  | jobs
  | nodes
  | partitions
  | steps
  | invalid
  deriving DecidableEq, Repr

/-- The chain of tests of the `show` branch on `argv[1]`, in the order of the
source: the branch that runs. -/
def entity (argv1 : CStr) : Entity :=
  if strncasecmp argv1 "config".toList 3 = 0 then .config
  else if strncasecmp argv1 "daemons".toList 5 = 0 then .daemons
  else if strncasecmp argv1 "jobs".toList 3 = 0 then .jobs
  else if strncasecmp argv1 "nodes".toList 3 = 0 then .nodes
  else if strncasecmp argv1 "partitions".toList 3 = 0 then .partitions
  else if strncasecmp argv1 "steps".toList 4 = 0 then .steps
  else .invalid

/-- What each branch of `show` does, for the command
`argv0 :: argv1 :: rest` of at most three words. -/
def run_entity (E : Manager) (s : Session) (argv0 argv1 : CStr) (rest : List CStr) :
    Entity → Outcome (Int × Session)
  | .config => after_print (_print_config E s rest.head?)
  | .daemons =>
    after_daemons s
      (if (argv0 :: argv1 :: rest).length > 2 ∧ s.quiet_flag ≠ 1 then
        [too_many_arguments argv0] else [])
      (_print_daemons E s.quiet_flag s.this_host)
  | .jobs => after_print (_print_job E s rest.head?)
  | .nodes => after_print (_print_node_list E s rest.head?)
  | .partitions => after_print (_print_part E s rest.head?)
  | .steps => after_print (_print_step E s rest.head?)
  | .invalid =>
    .ret (0, s) (if s.quiet_flag ≠ 1 then
      [.stderr ("invalid entity:".toList ++ argv1 ++ " for keyword:".toList ++ argv0
        ++ " \n".toList)] else [])

/-- The words each branch of `_process_command` takes: those that begin, in
any letter case, with the first 5 letters of `abort`, the first 7 of
`reconfigure`, the first 5 of `shutdown`, and those equal in any letter case
to one of the other keywords; `invalid` takes every other word. -/
def recognised_as : Keyword → CStr → Prop
  | .abort, w => begins_with "abort".toList w
  | .exit, w => ci_eq w "exit".toList ∨ ci_eq w "quit".toList
  | .help, w => ci_eq w "help".toList
  | .pid2jid, w => ci_eq w "pid2jid".toList
  | .quiet, w => ci_eq w "quiet".toList
  | .reconfigure, w => begins_with "reconfi".toList w
  | .show, w => ci_eq w "show".toList
  | .shutdown, w => begins_with "shutd".toList w
  | .update, w => ci_eq w "update".toList
  | .verbose, w => ci_eq w "verbose".toList
  | .version, w => ci_eq w "version".toList
  | .invalid, w =>
    ¬ (begins_with "abort".toList w ∨ ci_eq w "exit".toList ∨ ci_eq w "quit".toList
      ∨ ci_eq w "help".toList ∨ ci_eq w "pid2jid".toList ∨ ci_eq w "quiet".toList
      ∨ begins_with "reconfi".toList w ∨ ci_eq w "show".toList
      ∨ begins_with "shutd".toList w ∨ ci_eq w "update".toList
      ∨ ci_eq w "verbose".toList ∨ ci_eq w "version".toList)

/-- The entity words each branch of `show` takes: those that begin, in any
letter case, with the first 3 letters of `config`, the first 5 of `daemons`,
the first 3 of `jobs`, `nodes`, `partitions`, the first 4 of `steps`;
`invalid` takes every other word. -/
def entity_recognised_as : Entity → CStr → Prop
  | .config, w => begins_with "con".toList w
  | .daemons, w => begins_with "daemo".toList w
  | .jobs, w => begins_with "job".toList w
  | .nodes, w => begins_with "nod".toList w
  | .partitions, w => begins_with "par".toList w
  | .steps, w => begins_with "step".toList w
  | .invalid, w =>
    ¬ (begins_with "con".toList w ∨ begins_with "daemo".toList w
      ∨ begins_with "job".toList w ∨ begins_with "nod".toList w
      ∨ begins_with "par".toList w ∨ begins_with "step".toList w)

/-- The word `w` abbreviates the keyword `key`: it has at least `n`
characters and `key` begins with it, in any letter case. -/
def abbreviates (key : CStr) (n : Nat) (w : CStr) : Prop :=
  n ≤ w.length ∧ begins_with w key

instance (key : CStr) (n : Nat) (w : CStr) : Decidable (abbreviates key n w) := by
  unfold abbreviates; infer_instance


instance (L : Keyword) (w : CStr) : Decidable (recognised_as L w) := by
  cases L <;> (unfold recognised_as; infer_instance)

instance (L : Entity) (w : CStr) : Decidable (entity_recognised_as L w) := by
  cases L <;> (unfold entity_recognised_as; infer_instance)

/-- The tests of the loop of `main` over its arguments: the argument is one
of the startup flags, which the loop consumes. -/
def is_startup_flag (arg : CStr) : Bool :=
  decide (strncmp arg "-help".toList 2 = 0 ∨ strcmp arg "-q".toList = 0
    ∨ strcmp arg "quiet".toList = 0 ∨ strcmp arg "-v".toList = 0
    ∨ strcmp arg "verbose".toList = 0)

/-- The statics as `main` sets them before it reads its arguments. -/
def main_session (argv : List CStr) : Session :=
  { Session.init with
    command_name := argv.headD []
    exit_flag := 0
    quiet_flag := 0
    input_words := if argv.length > MAX_INPUT_FIELDS then argv.length else 128 }

/-- The end of a process whose last act is one command: status 0 once the
command has returned, or the status the command itself ends the process
with. -/
def one_command : Outcome (Int × Session) → Process
  | .ret _ trace => .exited 0 trace
  | .exit status trace => .exited status trace
  | .undefined => .undefined

/-! ## Lemmas on the libc routines -/

theorem strcmp_eq_zero_iff (a b : CStr) : strcmp a b = 0 ↔ a = b := by
  induction a generalizing b with
  | nil => cases b <;> simp [strcmp]
  | cons x s ih =>
    cases b with
    | nil => simp [strcmp]
    | cons y t =>
      by_cases h : x = y
      · simp [strcmp, h, ih]
      · by_cases h2 : x.toNat < y.toNat <;> simp [strcmp, h, h2]

theorem strcasecmp_eq_zero_iff (a b : CStr) : strcasecmp a b = 0 ↔ ci_eq a b := by
  unfold ci_eq
  induction a generalizing b with
  | nil => cases b <;> simp [strcasecmp]
  | cons x s ih =>
    cases b with
    | nil => simp [strcasecmp]
    | cons y t =>
      by_cases h : tolower x = tolower y
      · simp [strcasecmp, h, ih]
      · by_cases h2 : (tolower x).toNat < (tolower y).toNat <;> simp [strcasecmp, h, h2]

theorem strncasecmp_eq_zero_iff (a b : CStr) (n : Nat) :
    strncasecmp a b n = 0 ↔ (a.take n).map tolower = (b.take n).map tolower := by
  induction n generalizing a b with
  | zero => simp [strncasecmp]
  | succ n ih =>
    cases a with
    | nil => cases b <;> simp [strncasecmp]
    | cons x s =>
      cases b with
      | nil => simp [strncasecmp]
      | cons y t =>
        by_cases h : tolower x = tolower y
        · simp [strncasecmp, h, ih]
        · by_cases h2 : (tolower x).toNat < (tolower y).toNat <;> simp [strncasecmp, h, h2]

/-- The test `strncasecmp (arg, key, strlen (key)) == 0` says that `arg`
begins with `key`. -/
theorem strncasecmp_key (key arg : CStr) :
    strncasecmp arg key key.length = 0 ↔ begins_with key arg := by
  rw [strncasecmp_eq_zero_iff, begins_with, List.take_length]

/-- Two prefixes of one token agree on their common length. -/
theorem take_map_agree (arg A B : CStr) (n m : Nat)
    (hA : (arg.take n).map tolower = A) (hB : (arg.take m).map tolower = B) :
    A.take (min n m) = B.take (min n m) := by
  subst hA; subst hB
  rw [← List.map_take, ← List.map_take, List.take_take, List.take_take]
  congr 2
  omega

/-- A token that begins with `key` fails every `strncasecmp` test against a
text that differs from `key` on the compared part. -/
theorem strncasecmp_ne_of_begins (key other arg : CStr) (n : Nat) (h : begins_with key arg)
    (hd : (key.map tolower).take (min key.length n)
      ≠ ((other.take n).map tolower).take (min key.length n)) :
    strncasecmp arg other n ≠ 0 := by
  intro h0
  rw [strncasecmp_eq_zero_iff] at h0
  exact hd (take_map_agree arg _ _ _ _ h h0)

/-- A token that begins with `key` has at least `key.length` characters. -/
theorem length_of_begins (key arg : CStr) (h : begins_with key arg) :
    key.length ≤ arg.length := by
  have := congrArg List.length h
  simp at this
  omega

/-! ## Lemmas on the update loops -/

theorem mutate_calls_nil : mutate_calls [] = 0 := rfl

theorem mutate_calls_append (a b : List Event) :
    mutate_calls (a ++ b) = mutate_calls a + mutate_calls b := by
  induction a with
  | nil => simp [mutate_calls]
  | cons e t ih => cases e <;> simp [mutate_calls, ih] <;> omega

theorem mutate_calls_stderr_map {ι : Type} (f : ι → CStr) (l : List ι) :
    mutate_calls (l.map (fun k => Event.stderr (f k))) = 0 := by
  induction l with
  | nil => rfl
  | cons e t ih => simpa [mutate_calls] using ih

theorem mutate_calls_invalid_input (arg : CStr) : mutate_calls (invalid_input arg) = 0 := rfl

theorem mutate_calls_invalid_value (arg : CStr) (hint : String) :
    mutate_calls (invalid_value arg hint) = 0 := rfl

theorem mutate_calls_invalid_node_state (E : Manager) (arg : CStr) :
    mutate_calls (invalid_node_state E arg) = 0 := by
  simp [invalid_node_state, mutate_calls_append, mutate_calls_stderr_map, mutate_calls]

/-- When the body accepts every token, the loop runs to its end. -/
theorem for_each_arg_ok {α τ : Type} (body : α → τ → Step α) (argv : List τ)
    (h : ∀ a ∈ argv, ∀ m, (body m a).accepted = true) (m0 : α) :
    ∃ msg, for_each_arg body argv m0 = .ok msg := by
  induction argv generalizing m0 with
  | nil => exact ⟨m0, rfl⟩
  | cons a rest ih =>
    have ha := h a (List.mem_cons_self _ _) m0
    cases hb : body m0 a with
    | ok m1 =>
      simp only [for_each_arg, hb]
      exact ih (fun x hx => h x (List.mem_cons_of_mem _ hx)) m1
    | abort errs => simp [hb, Step.accepted] at ha
    | out_of_bounds => simp [hb, Step.accepted] at ha

/-- After accepted tokens the loop reaches the next token with some message,
and what the body does there decides the rest. -/
theorem for_each_arg_append {α τ : Type} (body : α → τ → Step α) (pre : List τ)
    (bad : τ) (post : List τ)
    (h : ∀ a ∈ pre, ∀ m, (body m a).accepted = true) (m0 : α) :
    ∃ m, for_each_arg body (pre ++ bad :: post) m0 = for_each_arg body (bad :: post) m := by
  induction pre generalizing m0 with
  | nil => exact ⟨m0, rfl⟩
  | cons a rest ih =>
    have ha := h a (List.mem_cons_self _ _) m0
    cases hb : body m0 a with
    | ok m1 =>
      simp only [List.cons_append, for_each_arg, hb]
      exact ih (fun x hx => h x (List.mem_cons_of_mem _ hx)) m1
    | abort errs => simp [hb, Step.accepted] at ha
    | out_of_bounds => simp [hb, Step.accepted] at ha

/-- When some token is rejected and no token reads out of bounds, the loop
stops at a rejected token. -/
theorem for_each_arg_abort {α τ : Type} (body : α → τ → Step α) (acc rej : τ → Bool)
    (hacc : ∀ m a, (body m a).accepted = acc a) (hrej : ∀ m a, (body m a).rejected = rej a)
    (argv : List τ) (hex : ∃ a ∈ argv, rej a = true)
    (hall : ∀ a ∈ argv, acc a = true ∨ rej a = true) (m0 : α) :
    ∃ m bad errs, bad ∈ argv ∧ body m bad = .abort errs
      ∧ for_each_arg body argv m0 = .abort errs := by
  induction argv generalizing m0 with
  | nil => simp at hex
  | cons a rest ih =>
    cases hb : body m0 a with
    | ok m1 =>
      have hna : rej a = false := by rw [← hrej m0 a, hb]; rfl
      have hex1 : ∃ x ∈ rest, rej x = true := by
        obtain ⟨x, hx, hr⟩ := hex
        rcases List.mem_cons.mp hx with rfl | hx1
        · rw [hna] at hr; cases hr
        · exact ⟨x, hx1, hr⟩
      obtain ⟨m, bad, errs, hmem, hbody, hrun⟩ :=
        ih hex1 (fun x hx => hall x (List.mem_cons_of_mem _ hx)) m1
      exact ⟨m, bad, errs, List.mem_cons_of_mem _ hmem, hbody, by simp only [for_each_arg, hb, hrun]⟩
    | abort errs =>
      exact ⟨m0, a, errs, List.mem_cons_self _ _, hb, by simp only [for_each_arg, hb]⟩
    | out_of_bounds =>
      have h1 : acc a = false := by rw [← hacc m0 a, hb]; rfl
      have h2 : rej a = false := by rw [← hrej m0 a, hb]; rfl
      rcases hall a (List.mem_cons_self _ _) with h | h
      · rw [h1] at h; cases h
      · rw [h2] at h; cases h

theorem Step.accepted_or_rejected {α : Type} (st : Step α) (h : st.faulted = false) :
    st.accepted = true ∨ st.rejected = true := by
  cases st <;> simp_all [Step.accepted, Step.rejected, Step.faulted]

theorem Step.accepted_ok {α : Type} (m : α) : (Step.ok m).accepted = true := rfl
theorem Step.accepted_abort {α : Type} (e : List Event) :
    (Step.abort e : Step α).accepted = false := rfl
theorem Step.accepted_oob {α : Type} : (Step.out_of_bounds : Step α).accepted = false := rfl
theorem Step.rejected_ok {α : Type} (m : α) : (Step.ok m).rejected = false := rfl
theorem Step.rejected_abort {α : Type} (e : List Event) :
    (Step.abort e : Step α).rejected = true := rfl
theorem Step.rejected_oob {α : Type} : (Step.out_of_bounds : Step α).rejected = false := rfl
theorem Step.faulted_ok {α : Type} (m : α) : (Step.ok m).faulted = false := rfl
theorem Step.faulted_abort {α : Type} (e : List Event) :
    (Step.abort e : Step α).faulted = false := rfl
theorem Step.faulted_oob {α : Type} : (Step.out_of_bounds : Step α).faulted = true := rfl
theorem Step.errs_ok {α : Type} (m : α) : (Step.ok m).errs = [] := rfl
theorem Step.errs_abort {α : Type} (e : List Event) : (Step.abort e : Step α).errs = e := rfl
theorem Step.errs_oob {α : Type} : (Step.out_of_bounds : Step α).errs = [] := rfl

theorem Step.errs_of_abort {α : Type} (st : Step α) (e : List Event) (h : st = .abort e) :
    st.errs = e := by subst h; rfl

theorem job_arg_accepted (E : Manager) (m : job_desc_msg) (arg : CStr) :
    (_update_job_arg E m arg).accepted = job_accepts E arg := by
  unfold job_accepts _update_job_arg
  simp only [apply_ite Step.accepted, Step.accepted_ok, Step.accepted_abort]

theorem job_arg_rejected (E : Manager) (m : job_desc_msg) (arg : CStr) :
    (_update_job_arg E m arg).rejected = job_rejects E arg := by
  unfold job_rejects _update_job_arg
  simp only [apply_ite Step.rejected, Step.rejected_ok, Step.rejected_abort]

theorem job_arg_in_bounds (E : Manager) (m : job_desc_msg) (arg : CStr) :
    (_update_job_arg E m arg).faulted = false := by
  unfold _update_job_arg
  simp only [apply_ite Step.faulted, Step.faulted_ok, Step.faulted_abort, ite_self]

theorem job_arg_total (E : Manager) (arg : CStr) :
    job_accepts E arg = true ∨ job_rejects E arg = true :=
  Step.accepted_or_rejected _ (job_arg_in_bounds E _ arg)

theorem job_arg_abort (E : Manager) (m : job_desc_msg) (arg : CStr) (errs : List Event)
    (h : _update_job_arg E m arg = .abort errs) : mutate_calls errs = 0 := by
  rw [← Step.errs_of_abort _ _ h]
  unfold _update_job_arg
  simp only [apply_ite Step.errs, apply_ite mutate_calls, Step.errs_ok, Step.errs_abort,
    mutate_calls_invalid_input, mutate_calls_nil, ite_self]

theorem node_state_scan_in_bounds (E : Manager) (arg : CStr) (fuel j : Nat) :
    (node_state_scan E arg fuel j).faulted = false := by
  induction fuel generalizing j with
  | zero => rfl
  | succ n ih =>
    unfold node_state_scan
    simp only [apply_ite Step.faulted, Step.faulted_ok, Step.faulted_abort, ih, ite_self]

theorem node_state_scan_abort (E : Manager) (arg : CStr) (fuel j : Nat) :
    mutate_calls (node_state_scan E arg fuel j).errs = 0 := by
  induction fuel generalizing j with
  | zero => rfl
  | succ n ih =>
    unfold node_state_scan
    simp only [apply_ite Step.errs, apply_ite mutate_calls, Step.errs_ok, Step.errs_abort,
      mutate_calls_invalid_node_state, mutate_calls_nil, ih, ite_self]

theorem node_arg_accepted (E : Manager) (m : update_node_msg) (arg : CStr) :
    (_update_node_arg E m arg).accepted = node_accepts E arg := by
  unfold node_accepts _update_node_arg
  cases node_state_scan E arg (E.NODE_STATE_END + 1) 0 <;>
    simp only [apply_ite Step.accepted, Step.accepted_ok, Step.accepted_abort, Step.accepted_oob]

theorem node_arg_rejected (E : Manager) (m : update_node_msg) (arg : CStr) :
    (_update_node_arg E m arg).rejected = node_rejects E arg := by
  unfold node_rejects _update_node_arg
  cases node_state_scan E arg (E.NODE_STATE_END + 1) 0 <;>
    simp only [apply_ite Step.rejected, Step.rejected_ok, Step.rejected_abort, Step.rejected_oob]

theorem node_arg_in_bounds (E : Manager) (m : update_node_msg) (arg : CStr) :
    (_update_node_arg E m arg).faulted = false := by
  unfold _update_node_arg
  have h := node_state_scan_in_bounds E arg (E.NODE_STATE_END + 1) 0
  cases hs : node_state_scan E arg (E.NODE_STATE_END + 1) 0 with
  | ok v => simp only [apply_ite Step.faulted, Step.faulted_ok, Step.faulted_abort, ite_self]
  | abort e => simp only [apply_ite Step.faulted, Step.faulted_ok, Step.faulted_abort, ite_self]
  | out_of_bounds => rw [hs] at h; cases h

theorem node_arg_total (E : Manager) (arg : CStr) :
    node_accepts E arg = true ∨ node_rejects E arg = true :=
  Step.accepted_or_rejected _ (node_arg_in_bounds E _ arg)

theorem node_arg_abort (E : Manager) (m : update_node_msg) (arg : CStr) (errs : List Event)
    (h : _update_node_arg E m arg = .abort errs) : mutate_calls errs = 0 := by
  rw [← Step.errs_of_abort _ _ h]
  unfold _update_node_arg
  have h := node_state_scan_abort E arg (E.NODE_STATE_END + 1) 0
  cases hs : node_state_scan E arg (E.NODE_STATE_END + 1) 0 with
  | ok v =>
    simp only [apply_ite Step.errs, apply_ite mutate_calls, Step.errs_ok, Step.errs_abort,
      mutate_calls_invalid_input, mutate_calls_nil, ite_self]
  | abort e =>
    rw [hs] at h
    simp only [Step.errs_abort] at h
    simp only [apply_ite Step.errs, apply_ite mutate_calls, Step.errs_ok, Step.errs_abort,
      mutate_calls_invalid_input, mutate_calls_nil, h, ite_self]
  | out_of_bounds =>
    simp only [apply_ite Step.errs, apply_ite mutate_calls, Step.errs_ok, Step.errs_oob,
      Step.errs_abort, mutate_calls_invalid_input, mutate_calls_nil, ite_self]

theorem string_at_inside (arg : CStr) (beyond : List Char) (n : Nat) (h : n ≤ arg.length) :
    string_at arg beyond n = some (arg.drop n) := by
  unfold string_at
  rw [if_pos h]

theorem part_arg_accepted (E : Manager) (m : update_part_msg) (a : CStr × List Char) :
    (_update_part_arg E m a.1 a.2).accepted = part_accepts E a := by
  unfold part_accepts _update_part_arg
  cases string_at a.1 a.2 9 <;>
    simp only [apply_ite Step.accepted, Step.accepted_ok, Step.accepted_abort,
      Step.accepted_oob]

theorem part_arg_rejected (E : Manager) (m : update_part_msg) (a : CStr × List Char) :
    (_update_part_arg E m a.1 a.2).rejected = part_rejects E a := by
  unfold part_rejects _update_part_arg
  cases string_at a.1 a.2 9 <;>
    simp only [apply_ite Step.rejected, Step.rejected_ok, Step.rejected_abort,
      Step.rejected_oob]

theorem part_arg_abort (E : Manager) (m : update_part_msg) (arg : CStr) (beyond : List Char)
    (errs : List Event) (h : _update_part_arg E m arg beyond = .abort errs) :
    mutate_calls errs = 0 := by
  rw [← Step.errs_of_abort _ _ h]
  unfold _update_part_arg
  cases string_at arg beyond 9 <;>
    simp only [apply_ite Step.errs, apply_ite mutate_calls, Step.errs_ok, Step.errs_abort,
      Step.errs_oob, mutate_calls_invalid_input, mutate_calls_invalid_value, mutate_calls_nil,
      ite_self]

/-- The partition body reads outside the object that holds the token exactly
when the token begins with `Root` and no string of the object starts at
`&argv[i][9]`. -/
theorem part_arg_faulted (E : Manager) (m : update_part_msg) (a : CStr × List Char) :
    (_update_part_arg E m a.1 a.2).faulted = true ↔ part_faults a := by
  unfold _update_part_arg part_faults
  have h8 : strncasecmp a.1 "RootOnly=".toList 4 = 0 ↔ begins_with "Root".toList a.1 :=
    strncasecmp_eq_zero_iff _ _ _
  by_cases hb : begins_with "Root".toList a.1
  · rw [if_neg (strncasecmp_ne_of_begins _ "PartitionName=".toList _ 14 hb (by decide)),
      if_neg (strncasecmp_ne_of_begins _ "MaxTime=".toList _ 8 hb (by decide)),
      if_neg (strncasecmp_ne_of_begins _ "MaxNodes=".toList _ 9 hb (by decide)),
      if_neg (strncasecmp_ne_of_begins _ "Default=".toList _ 8 hb (by decide)),
      if_pos (h8.mpr hb)]
    cases hs : string_at a.1 a.2 9 with
    | none => exact ⟨fun _ => ⟨hb, rfl⟩, fun _ => rfl⟩
    | some v =>
      simp only [apply_ite Step.faulted, Step.faulted_ok, Step.faulted_abort, ite_self]
      exact ⟨(fun h => by cases h), (fun h => by cases h.2)⟩
  · have hr : ¬ strncasecmp a.1 "RootOnly=".toList 4 = 0 := mt h8.mp hb
    rw [if_neg hr]
    simp only [apply_ite Step.faulted, Step.faulted_ok, Step.faulted_abort, ite_self]
    exact ⟨(fun h => by cases h), (fun h => absurd h.1 hb)⟩

/-- A string of the object starts at `&argv[i][9]` when the token has at least
9 characters, and otherwise when a NUL follows that address in the bytes
after the token. -/
theorem part_faults_iff (a : CStr × List Char) :
    part_faults a ↔ begins_with "Root".toList a.1 ∧ a.1.length < 9
      ∧ NUL ∉ a.2.drop (8 - a.1.length) := by
  unfold part_faults string_at
  constructor
  · rintro ⟨hb, hs⟩
    by_cases h9 : 9 ≤ a.1.length
    · rw [if_pos h9] at hs
      cases hs
    · rw [if_neg h9] at hs
      have e : 9 - a.1.length - 1 = 8 - a.1.length := by omega
      rw [e] at hs
      by_cases hn : NUL ∈ a.2.drop (8 - a.1.length)
      · rw [if_pos hn] at hs
        cases hs
      · exact ⟨hb, by omega, hn⟩
  · rintro ⟨hb, h9, hn⟩
    have e : 9 - a.1.length - 1 = 8 - a.1.length := by omega
    rw [if_neg (by omega), e, if_neg hn]
    exact ⟨hb, rfl⟩

/-- Every token is accepted or rejected by the partition body, unless the body
reads outside the object that holds it. -/
theorem part_arg_total (E : Manager) (a : CStr × List Char) (h : ¬ part_faults a) :
    part_accepts E a = true ∨ part_rejects E a = true := by
  apply Step.accepted_or_rejected
  cases hf : (_update_part_arg E E.slurm_init_part_desc_msg a.1 a.2).faulted with
  | false => rfl
  | true => exact absurd ((part_arg_faulted E _ a).mp hf) h

theorem strncasecmp_begins (key arg : CStr) (n : Nat) (hn : n = key.length) :
    strncasecmp arg key n = 0 ↔ begins_with key arg := by
  subst hn; exact strncasecmp_key key arg

/-- Two keys one token begins with agree on their common length. -/
theorem begins_with_agree (k1 k2 arg : CStr) (h1 : begins_with k1 arg)
    (h2 : begins_with k2 arg) :
    (k1.map tolower).take (min k1.length k2.length)
      = (k2.map tolower).take (min k1.length k2.length) :=
  take_map_agree arg _ _ _ _ h1 h2

/-- What the scan of `_update_it` returns, from the tokens still to inspect. -/
theorem _update_it_scan_spec (E : Manager) (argv : List CStr) (beyond : List (List Char))
    (rest : List CStr) :
    (∀ arg, first_anchor rest = some arg →
      (begins_with "NodeName=".toList arg →
        _update_it_scan E argv beyond rest = some (_update_node E argv))
      ∧ (begins_with "PartitionName=".toList arg →
        _update_it_scan E argv beyond rest = some (_update_part E (with_beyond argv beyond)))
      ∧ (begins_with "JobId=".toList arg →
        _update_it_scan E argv beyond rest = some (_update_job E argv)))
    ∧ (first_anchor rest = none → _update_it_scan E argv beyond rest = none) := by
  induction rest with
  | nil => exact ⟨fun arg h => by simp [first_anchor] at h, fun _ => rfl⟩
  | cons a rest ih =>
    have kN := strncasecmp_begins "NodeName=".toList a 9 rfl
    have kP := strncasecmp_begins "PartitionName=".toList a 14 rfl
    have kJ := strncasecmp_begins "JobId=".toList a 6 rfl
    by_cases hA : is_anchor a
    · have hf : first_anchor (a :: rest) = some a := by simp [first_anchor, hA]
      refine ⟨fun arg h => ?_, fun h => by rw [hf] at h; cases h⟩
      rw [hf] at h
      injection h with h
      subst h
      refine ⟨fun hN => ?_, fun hP => ?_, fun hJ => ?_⟩
      · unfold _update_it_scan
        rw [if_pos (kN.mpr hN)]
      · have hN : ¬ begins_with "NodeName=".toList a :=
          fun hN => absurd (begins_with_agree _ _ _ hN hP) (by decide)
        unfold _update_it_scan
        rw [if_neg (mt kN.mp hN), if_pos (kP.mpr hP)]
      · have hN : ¬ begins_with "NodeName=".toList a :=
          fun hN => absurd (begins_with_agree _ _ _ hN hJ) (by decide)
        have hP : ¬ begins_with "PartitionName=".toList a :=
          fun hP => absurd (begins_with_agree _ _ _ hP hJ) (by decide)
        unfold _update_it_scan
        rw [if_neg (mt kN.mp hN), if_neg (mt kP.mp hP), if_pos (kJ.mpr hJ)]
    · have hf : first_anchor (a :: rest) = first_anchor rest := by simp [first_anchor, hA]
      have hs : _update_it_scan E argv beyond (a :: rest)
          = _update_it_scan E argv beyond rest := by
        have hN : ¬ begins_with "NodeName=".toList a := fun h => hA (Or.inl h)
        have hP : ¬ begins_with "PartitionName=".toList a := fun h => hA (Or.inr (Or.inl h))
        have hJ : ¬ begins_with "JobId=".toList a := fun h => hA (Or.inr (Or.inr h))
        conv_lhs => unfold _update_it_scan
        rw [if_neg (mt kN.mp hN), if_neg (mt kP.mp hP), if_neg (mt kJ.mp hJ)]
      rw [hf, hs]
      exact ih

/-! ## Tokens in the line buffer -/

/-- A string read from a buffer ends at or before every NUL of the buffer. -/
theorem c_string_length_le (m : List Char) (k : Nat) (h : m.getD k NUL = NUL) :
    (c_string m).length ≤ k := by
  induction m generalizing k with
  | nil => exact Nat.zero_le _
  | cons c cs ih =>
    unfold c_string
    by_cases hc : c = NUL
    · rw [List.takeWhile_cons_of_neg (by simp [hc])]
      exact Nat.zero_le _
    · rw [List.takeWhile_cons_of_pos (by simp [hc])]
      cases k with
      | zero => exact absurd h hc
      | succ k =>
        have h1 := ih k h
        unfold c_string at h1
        simp only [List.length_cons]
        omega

theorem c_string_length_drop (l : List Char) (p : Nat) :
    p + (c_string (l.drop p)).length ≤ max p l.length := by
  have h : (c_string (l.drop p)).length ≤ (l.drop p).length := by
    unfold c_string
    exact (List.takeWhile_prefix _).length_le
  rw [List.length_drop] at h
  omega

theorem getD_NUL_of_le (l : List Char) (i : Nat) (h : l.length ≤ i) : l.getD i NUL = NUL := by
  rw [List.getD_eq_getElem?_getD, List.getElem?_eq_none h]
  rfl

theorem getD_set_NUL (l : List Char) (i e : Nat) (h : e = i ∨ l.getD e NUL = NUL) :
    (l.set i NUL).getD e NUL = NUL := by
  rw [List.getD_eq_getElem?_getD, List.getElem?_set]
  by_cases hie : i = e
  · rw [if_pos hie]
    split <;> rfl
  · rw [if_neg hie]
    rcases h with h | h
    · exact absurd h.symm hie
    · rw [← List.getD_eq_getElem?_getD]
      exact h

/-- The inner loop of `_get_command` stops at an index past which no token
character was left unread, and the byte at that index is then NUL: the one it
has just written, or the one that ends the line. -/
theorem _get_command_word_stop (fuel : Nat) (in_line : List Char) (i : Nat)
    (hfuel : in_line.length < i + fuel) :
    i ≤ (_get_command_word fuel in_line i).1
    ∧ (_get_command_word fuel in_line i).2.length = in_line.length
    ∧ (_get_command_word fuel in_line i).2.getD (_get_command_word fuel in_line i).1 NUL = NUL
    ∧ (∀ e, in_line.getD e NUL = NUL →
        (_get_command_word fuel in_line i).2.getD e NUL = NUL) := by
  induction fuel generalizing i with
  | zero =>
    exact ⟨Nat.le_refl _, rfl, getD_NUL_of_le in_line i (by omega), fun e h => h⟩
  | succ n ih =>
    unfold _get_command_word
    by_cases h1 : i < in_line.length
    · rw [if_pos h1]
      by_cases h2 : in_line.getD i NUL ≠ NUL ∧ isspace (in_line.getD i NUL) = false
      · rw [if_pos h2]
        obtain ⟨a, b, c, d⟩ := ih (i + 1) (by omega)
        exact ⟨by omega, b, c, d⟩
      · rw [if_neg h2]
        refine ⟨Nat.le_refl _, List.length_set _ _ _, getD_set_NUL _ _ _ (Or.inl rfl),
          fun e he => getD_set_NUL _ _ _ (Or.inr he)⟩
    · rw [if_neg h1]
      exact ⟨Nat.le_refl _, rfl, getD_NUL_of_le in_line i (by omega), fun e h => h⟩

/-- The pointers the outer loop of `_get_command` stores point to tokens that
do not overlap: between two of them the buffer holds the NUL that ends the
first. -/
theorem _get_command_loop_layout (fuel : Nat) (in_line : List Char) (i : Nat)
    (argv : List Nat)
    (hinv : ∀ p ∈ argv, ∃ e, p < e ∧ e < i ∧ in_line.getD e NUL = NUL)
    (hsorted : argv.Pairwise (fun p q => ∃ e, p < e ∧ e < q ∧ in_line.getD e NUL = NUL)) :
    (_get_command_loop fuel in_line i argv).2.1.Pairwise
        (fun p q => ∃ e, p < e ∧ e < q
          ∧ (_get_command_loop fuel in_line i argv).2.2.getD e NUL = NUL)
    ∧ (∀ e, in_line.getD e NUL = NUL →
        (_get_command_loop fuel in_line i argv).2.2.getD e NUL = NUL) := by
  induction fuel generalizing in_line i argv with
  | zero => exact ⟨hsorted, fun e h => h⟩
  | succ n ih =>
    unfold _get_command_loop
    by_cases h1 : i < in_line.length
    · rw [if_pos h1]
      by_cases h2 : in_line.getD i NUL = NUL
      · rw [if_pos h2]
        exact ⟨hsorted, fun e h => h⟩
      rw [if_neg h2]
      by_cases h3 : isspace (in_line.getD i NUL) = true
      · rw [if_pos h3]
        exact ih in_line (i + 1) argv
          (fun p hp => by
            obtain ⟨e, a, b, c⟩ := hinv p hp
            exact ⟨e, a, by omega, c⟩) hsorted
      rw [if_neg h3]
      by_cases h4 : argv.length + 1 > MAX_INPUT_FIELDS
      · rw [if_pos h4]
        exact ⟨hsorted, fun e h => h⟩
      rw [if_neg h4]
      obtain ⟨w1, _, w3, w4⟩ := _get_command_word_stop in_line.length in_line (i + 1)
        (by omega)
      have hrec := ih (_get_command_word in_line.length in_line (i + 1)).2
        ((_get_command_word in_line.length in_line (i + 1)).1 + 1) (argv ++ [i])
        (fun p hp => by
          rcases List.mem_append.mp hp with hp | hp
          · obtain ⟨e, a, b, c⟩ := hinv p hp
            exact ⟨e, a, by omega, w4 e c⟩
          · have hpi : p = i := by simpa using hp
            subst hpi
            exact ⟨_, by omega, Nat.lt_succ_self _, w3⟩)
        (by
          rw [List.pairwise_append]
          refine ⟨hsorted.imp (fun {p q} h => ?_), List.pairwise_singleton _ _, ?_⟩
          · obtain ⟨e, a, b, c⟩ := h
            exact ⟨e, a, b, w4 e c⟩
          · intro p hp q hq
            have hqi : q = i := by simpa using hq
            subst hqi
            obtain ⟨e, a, b, c⟩ := hinv p hp
            exact ⟨e, a, b, w4 e c⟩)
      exact ⟨hrec.1, fun e he => hrec.2 e (w4 e he)⟩
    · rw [if_neg h1]
      exact ⟨hsorted, fun e h => h⟩

theorem with_beyond_map {ι : Type} (f : ι → CStr) (g : ι → List Char) (l : List ι) :
    with_beyond (l.map f) (l.map g) = l.map (fun p => (f p, g p)) := by
  induction l with
  | nil => rfl
  | cons a rest ih =>
    show (f a, g a) :: with_beyond (rest.map f) (rest.map g) = _
    rw [ih]
    rfl

theorem mem_with_beyond (argv : List CStr) (beyond : List (List Char)) (a : CStr)
    (h : a ∈ argv) : ∃ b, (a, b) ∈ with_beyond argv beyond := by
  induction argv generalizing beyond with
  | nil => cases h
  | cons x rest ih =>
    rcases List.mem_cons.mp h with rfl | h1
    · exact ⟨beyond.headD [], List.mem_cons_self _ _⟩
    · obtain ⟨b, hb⟩ := ih beyond.tail h1
      exact ⟨b, List.mem_cons_of_mem _ hb⟩

/-- The tokens `_get_command` hands back and the bytes that follow them, from
the offsets of the tokens in the line buffer: no token reaches the next. -/
theorem _get_command_layout (s : Session) (line : Option CStr) :
    ∃ (offs : List Nat) (final : List Char),
      (_get_command s line).argv = offs.map (fun p => c_string (final.drop p))
      ∧ (_get_command s line).beyond = offs.map (fun p =>
          (final ++ [NUL]).drop (p + (c_string (final.drop p)).length + 1))
      ∧ offs.Pairwise (fun p q => p + (c_string (final.drop p)).length < q) := by
  have hscan : ∀ X : List Char, ∃ (offs : List Nat) (final : List Char),
      (_get_command_scan s X).argv = offs.map (fun p => c_string (final.drop p))
      ∧ (_get_command_scan s X).beyond = offs.map (fun p =>
          (final ++ [NUL]).drop (p + (c_string (final.drop p)).length + 1))
      ∧ offs.Pairwise (fun p q => p + (c_string (final.drop p)).length < q) := by
    intro X
    refine ⟨(_get_command_loop (X.length + 1) X 0 []).2.1,
      (_get_command_loop (X.length + 1) X 0 []).2.2, rfl, rfl, ?_⟩
    have h := (_get_command_loop_layout (X.length + 1) X 0 [] (fun p hp => by cases hp)
      List.Pairwise.nil).1
    refine h.imp (fun {p q} hpq => ?_)
    obtain ⟨e, a, b, c⟩ := hpq
    have hc := c_string_length_le ((_get_command_loop (X.length + 1) X 0 []).2.2.drop p)
      (e - p) (by
        rw [List.getD_eq_getElem?_getD, List.getElem?_drop, ← List.getD_eq_getElem?_getD,
          show p + (e - p) = e by omega]
        exact c)
    omega
  have hnone : ∃ (offs : List Nat) (final : List Char),
      ([] : List CStr) = offs.map (fun p => c_string (final.drop p))
      ∧ ([] : List (List Char)) = offs.map (fun p =>
          (final ++ [NUL]).drop (p + (c_string (final.drop p)).length + 1))
      ∧ offs.Pairwise (fun p q => p + (c_string (final.drop p)).length < q) :=
    ⟨[], [], rfl, rfl, List.Pairwise.nil⟩
  cases line with
  | none => exact hnone
  | some in_line =>
    unfold _get_command
    simp only
    by_cases hrep : strcmp in_line "!!".toList = 0
    · rw [if_pos hrep]
      cases hl : s.last_in_line with
      | none => exact hnone
      | some last => exact hscan last
    · rw [if_neg hrep]
      exact hscan in_line

/-- In a line buffer, a token that a later token of at least 4 characters
follows has a string of the buffer at `&argv[i][9]`. -/
theorem line_token_inside (final : List Char) (p q : Nat)
    (hpq : p + (c_string (final.drop p)).length < q)
    (hq : 4 ≤ (c_string (final.drop q)).length) :
    ¬ part_faults (c_string (final.drop p),
        (final ++ [NUL]).drop (p + (c_string (final.drop p)).length + 1)) := by
  rw [part_faults_iff]
  rintro ⟨hb, h9, hn⟩
  apply hn
  have hb1 : begins_with "Root".toList (c_string (final.drop p)) := hb
  have h9b : (c_string (final.drop p)).length < 9 := h9
  have h4b : 4 ≤ (c_string (final.drop p)).length := length_of_begins _ _ hb1
  have hql := c_string_length_drop final q
  have hle : p + 9 ≤ final.length := by
    rcases Nat.le_total q final.length with h | h
    · rw [Nat.max_eq_right h] at hql
      omega
    · rw [Nat.max_eq_left h] at hql
      omega
  show NUL ∈ ((final ++ [NUL]).drop (p + (c_string (final.drop p)).length + 1)).drop
    (8 - (c_string (final.drop p)).length)
  rw [List.drop_drop,
    show p + (c_string (final.drop p)).length + 1 + (8 - (c_string (final.drop p)).length)
      = p + 9 by omega,
    List.drop_append_of_le_length hle]
  exact List.mem_append_right _ (List.mem_singleton_self _)

/-- In a line buffer the partition body leaves the buffer only at a token
near the end of the line: every token after it is shorter than 4
characters. -/
theorem line_fault_last (s : Session) (line : Option CStr)
    (pre : List (CStr × List Char)) (bad : CStr × List Char) (post : List (CStr × List Char))
    (hs : with_beyond (_get_command s line).argv (_get_command s line).beyond
      = pre ++ bad :: post)
    (hf : part_faults bad) : ∀ a ∈ post, a.1.length < 4 := by
  obtain ⟨offs, final, hargv, hbeyond, hpw⟩ := _get_command_layout s line
  rw [hargv, hbeyond, with_beyond_map] at hs
  obtain ⟨l1, l2, hsplit, _, hl2⟩ := List.map_eq_append_iff.mp hs
  obtain ⟨p, l3, hl2s, hp, hl3⟩ := List.map_eq_cons_iff.mp hl2
  subst hl2s
  rw [hsplit] at hpw
  intro a ha
  rw [← hl3] at ha
  obtain ⟨q, hq, hfq⟩ := List.mem_map.mp ha
  subst hfq
  have hlt := (List.pairwise_cons.mp (List.pairwise_append.mp hpw).2.1).1 q hq
  rw [← hp] at hf
  rcases Nat.lt_or_ge (c_string (final.drop q)).length 4 with h | h
  · exact h
  · exact absurd hf (line_token_inside final p q hlt h)

/-! ## Directive atomicity -/

/-- A token sequence is all accepted, or it splits at its first token that is
not accepted. -/
theorem first_not_accepted {τ : Type} (acc : τ → Bool) (argv : List τ) :
    (∀ a ∈ argv, acc a = true)
    ∨ ∃ pre bad post, argv = pre ++ bad :: post ∧ (∀ a ∈ pre, acc a = true)
        ∧ acc bad = false := by
  induction argv with
  | nil =>
    left
    intro a ha
    cases ha
  | cons x rest ih =>
    cases hx : acc x with
    | false =>
      right
      refine ⟨[], x, rest, rfl, ?_, hx⟩
      intro a ha
      cases ha
    | true =>
      rcases ih with h | ⟨pre, bad, post, hsplit, hpre, hbad⟩
      · left
        intro a ha
        rcases List.mem_cons.mp ha with rfl | h1
        · exact hx
        · exact h a h1
      · right
        refine ⟨x :: pre, bad, post, by rw [hsplit]; rfl, ?_, hbad⟩
        intro a ha
        rcases List.mem_cons.mp ha with rfl | h1
        · exact hx
        · exact hpre a h1

/-- When every token is accepted, `_update_part` makes its one mutate call. -/
theorem _update_part_sent (E : Manager) (argv : List (CStr × List Char))
    (hall : ∀ a ∈ argv, part_accepts E a = true) :
    ∃ rc trace, _update_part E argv = .ret rc trace ∧ mutate_calls trace = 1 := by
  obtain ⟨msg, h⟩ := for_each_arg_ok
    (fun part_msg arg => _update_part_arg E part_msg arg.1 arg.2) argv
    (fun a ha m => by
      show (_update_part_arg E m a.1 a.2).accepted = true
      rw [part_arg_accepted]
      exact hall a ha) E.slurm_init_part_desc_msg
  unfold _update_part
  rw [h]
  dsimp only
  cases E.slurm_update_partition msg <;> exact ⟨_, _, rfl, rfl⟩

/-- What `_update_part` does at the first token that is not accepted, from
what the body does there. -/
theorem _update_part_at (E : Manager) (pre : List (CStr × List Char)) (bad : CStr × List Char)
    (post : List (CStr × List Char)) (hpre : ∀ a ∈ pre, part_accepts E a = true) :
    (part_rejects E bad = true →
      ∃ errs, _update_part E (pre ++ bad :: post) = .ret 0 errs ∧ mutate_calls errs = 0)
    ∧ (part_faults bad → _update_part E (pre ++ bad :: post) = .out_of_bounds) := by
  obtain ⟨m, hm⟩ := for_each_arg_append
    (fun part_msg arg => _update_part_arg E part_msg arg.1 arg.2) pre bad post
    (fun a ha m => by
      show (_update_part_arg E m a.1 a.2).accepted = true
      rw [part_arg_accepted]
      exact hpre a ha) E.slurm_init_part_desc_msg
  have hr := part_arg_rejected E m bad
  have hf := part_arg_faulted E m bad
  refine ⟨fun hbad => ?_, fun hbad => ?_⟩
  · rw [hbad] at hr
    cases hb : _update_part_arg E m bad.1 bad.2 with
    | ok m1 => rw [hb] at hr; cases hr
    | out_of_bounds => rw [hb] at hr; cases hr
    | abort errs =>
      refine ⟨errs, ?_, part_arg_abort E m bad.1 bad.2 errs hb⟩
      unfold _update_part
      rw [hm]
      unfold for_each_arg
      simp only [hb]
  · have hft := hf.mpr hbad
    cases hb : _update_part_arg E m bad.1 bad.2 with
    | ok m1 => rw [hb] at hft; cases hft
    | abort errs => rw [hb] at hft; cases hft
    | out_of_bounds =>
      unfold _update_part
      rw [hm]
      unfold for_each_arg
      simp only [hb]

/-- C1 (directive atomicity).  For every token sequence, each of `_update_job`,
`_update_node` and `_update_part` makes the manager mutate call exactly once
when every token is accepted; when some token is rejected it makes no mutate
call and returns 0, wherever the rejected token stands.  `_update_job` and
`_update_node` accept or reject every token.  `_update_part` reads
`&argv[i][9]` of a token that begins with `Root`, which for a token shorter
than 9 characters lies in what follows the token in its object (in a line
buffer, the rest of the line): the token is accepted or rejected on the string
read there, and it is neither only when no string of the object starts at
that address.  So every run of `_update_part` makes the call once with every
token accepted, or makes no call and returns 0 at its first rejected token,
or leaves the object of the first token that is not accepted; among the
tokens of a line that last case needs a `Root` token so near the end of the
line that only tokens shorter than 4 characters follow it. -/
theorem directive_atomicity (E : Manager) (argv : List CStr)
    (pargv : List (CStr × List Char)) :
    ((∀ a ∈ argv, job_accepts E a = true) →
        ∃ rc trace, _update_job E argv = .ret rc trace ∧ mutate_calls trace = 1)
    ∧ ((∃ a ∈ argv, job_rejects E a = true) →
        ∃ errs, _update_job E argv = .ret 0 errs ∧ mutate_calls errs = 0)
    ∧ ((∀ a ∈ argv, node_accepts E a = true) →
        ∃ rc trace, _update_node E argv = .ret rc trace ∧ mutate_calls trace = 1)
    ∧ ((∃ a ∈ argv, node_rejects E a = true) →
        ∃ errs, _update_node E argv = .ret 0 errs ∧ mutate_calls errs = 0)
    ∧ ((∀ a ∈ pargv, part_accepts E a = true) →
        ∃ rc trace, _update_part E pargv = .ret rc trace ∧ mutate_calls trace = 1)
    ∧ ((∃ a ∈ pargv, part_rejects E a = true) → (∀ a ∈ pargv, ¬ part_faults a) →
        ∃ errs, _update_part E pargv = .ret 0 errs ∧ mutate_calls errs = 0)
    ∧ (∀ pre bad post, pargv = pre ++ bad :: post →
        (∀ a ∈ pre, part_accepts E a = true) → part_rejects E bad = true →
        ∃ errs, _update_part E pargv = .ret 0 errs ∧ mutate_calls errs = 0)
    ∧ (∀ a : CStr, job_accepts E a = true ∨ job_rejects E a = true)
    ∧ (∀ a : CStr, node_accepts E a = true ∨ node_rejects E a = true)
    ∧ (∀ a : CStr × List Char,
        part_accepts E a = true ∨ part_rejects E a = true ∨ part_faults a)
    ∧ (∀ a : CStr × List Char, part_faults a ↔
        begins_with "Root".toList a.1 ∧ a.1.length < 9 ∧ NUL ∉ a.2.drop (8 - a.1.length))
    ∧ (((∀ a ∈ pargv, part_accepts E a = true)
          ∧ ∃ rc trace, _update_part E pargv = .ret rc trace ∧ mutate_calls trace = 1)
        ∨ (∃ pre bad post, pargv = pre ++ bad :: post
            ∧ (∀ a ∈ pre, part_accepts E a = true) ∧ part_rejects E bad = true
            ∧ ∃ errs, _update_part E pargv = .ret 0 errs ∧ mutate_calls errs = 0)
        ∨ (∃ pre bad post, pargv = pre ++ bad :: post
            ∧ (∀ a ∈ pre, part_accepts E a = true) ∧ part_faults bad
            ∧ _update_part E pargv = .out_of_bounds))
    ∧ (∀ (s : Session) (line : Option CStr) (pre : List (CStr × List Char))
        (bad : CStr × List Char) (post : List (CStr × List Char)),
        with_beyond (_get_command s line).argv (_get_command s line).beyond
          = pre ++ bad :: post →
        part_faults bad → ∀ a ∈ post, a.1.length < 4) := by
  have htotal : ∀ a : CStr × List Char,
      part_accepts E a = true ∨ part_rejects E a = true ∨ part_faults a := by
    intro a
    by_cases hf : part_faults a
    · exact Or.inr (Or.inr hf)
    · rcases part_arg_total E a hf with h | h
      · exact Or.inl h
      · exact Or.inr (Or.inl h)
  refine ⟨?_, ?_, ?_, ?_, _update_part_sent E pargv, ?_, ?_, job_arg_total E,
    node_arg_total E, htotal, part_faults_iff, ?_, line_fault_last⟩
  · intro hall
    obtain ⟨msg, h⟩ := for_each_arg_ok (_update_job_arg E) argv
      (fun a ha m => by rw [job_arg_accepted]; exact hall a ha) E.slurm_init_job_desc_msg
    unfold _update_job
    rw [h]
    dsimp only
    cases E.slurm_update_job msg <;> exact ⟨_, _, rfl, rfl⟩
  · intro hex
    obtain ⟨m, bad, errs, _, hbody, hrun⟩ := for_each_arg_abort (_update_job_arg E)
      (job_accepts E) (job_rejects E) (job_arg_accepted E) (job_arg_rejected E) argv hex
      (fun a _ => job_arg_total E a) E.slurm_init_job_desc_msg
    unfold _update_job
    rw [hrun]
    exact ⟨errs, rfl, job_arg_abort E m bad errs hbody⟩
  · intro hall
    obtain ⟨msg, h⟩ := for_each_arg_ok (_update_node_arg E) argv
      (fun a ha m => by rw [node_arg_accepted]; exact hall a ha) ⟨none, to_uint16 E.NO_VAL⟩
    unfold _update_node
    rw [h]
    dsimp only
    cases E.slurm_update_node msg <;> exact ⟨_, _, rfl, rfl⟩
  · intro hex
    obtain ⟨m, bad, errs, _, hbody, hrun⟩ := for_each_arg_abort (_update_node_arg E)
      (node_accepts E) (node_rejects E) (node_arg_accepted E) (node_arg_rejected E) argv hex
      (fun a _ => node_arg_total E a) ⟨none, to_uint16 E.NO_VAL⟩
    unfold _update_node
    rw [hrun]
    exact ⟨errs, rfl, node_arg_abort E m bad errs hbody⟩
  · intro hex hin
    rcases first_not_accepted (part_accepts E) pargv with hall | ⟨pre, bad, post, hs, hpre, hb⟩
    · obtain ⟨a, ha, hr⟩ := hex
      have hacc := hall a ha
      unfold part_accepts at hacc
      unfold part_rejects at hr
      cases hst : _update_part_arg E E.slurm_init_part_desc_msg a.1 a.2 with
      | ok m1 => rw [hst] at hr; cases hr
      | abort e => rw [hst] at hacc; cases hacc
      | out_of_bounds => rw [hst] at hr; cases hr
    · have hbadmem : bad ∈ pargv := by rw [hs]; simp
      rcases htotal bad with h | h | h
      · rw [hb] at h; cases h
      · rw [hs]
        exact (_update_part_at E pre bad post hpre).1 h
      · exact absurd h (hin bad hbadmem)
  · intro pre bad post hargv hpre hbad
    rw [hargv]
    exact (_update_part_at E pre bad post hpre).1 hbad
  · rcases first_not_accepted (part_accepts E) pargv with hall | ⟨pre, bad, post, hs, hpre, hb⟩
    · exact Or.inl ⟨hall, _update_part_sent E pargv hall⟩
    · rcases htotal bad with h | h | h
      · rw [hb] at h; cases h
      · refine Or.inr (Or.inl ⟨pre, bad, post, hs, hpre, h, ?_⟩)
        rw [hs]
        exact (_update_part_at E pre bad post hpre).1 h
      · refine Or.inr (Or.inr ⟨pre, bad, post, hs, hpre, h, ?_⟩)
        rw [hs]
        exact (_update_part_at E pre bad post hpre).2 h

/-- C1 at concrete directives: `JobId=42 Priority=7` is sent once;
`PartitionName=batch State=UP Bogus=1 Default=YES` is not sent; and the line
`update PartitionName=batch Root5678 NO`, whose token `Root5678` is followed
in the line buffer by `NO`, stores that value and then rejects the token `NO`:
it is not sent either. -/
theorem directive_atomicity_witness :
    (∃ rc trace, _update_job sample ["JobId=42".toList, "Priority=7".toList] = .ret rc trace
        ∧ mutate_calls trace = 1)
    ∧ (∃ errs, _update_part sample [("PartitionName=batch".toList, []),
          ("State=UP".toList, []), ("Bogus=1".toList, []), ("Default=YES".toList, [])]
        = .ret 0 errs ∧ mutate_calls errs = 0)
    ∧ (_get_command Session.init
          (some "update PartitionName=batch Root5678 NO".toList)).beyond.tail
        = ["Root5678".toList ++ NUL :: "NO".toList ++ [NUL], "NO".toList ++ [NUL], []]
    ∧ (∃ errs, _update_part sample
          [("PartitionName=batch".toList, "Root5678".toList ++ NUL :: "NO".toList ++ [NUL]),
           ("Root5678".toList, "NO".toList ++ [NUL]), ("NO".toList, [])]
        = .ret 0 errs ∧ mutate_calls errs = 0)
    ∧ main sample ["scontrol".toList] []
        ["update PartitionName=batch Root5678 NO".toList, "quit".toList] 2
      = .exited 0 (invalid_input "NO".toList) :=
  ⟨(directive_atomicity sample ["JobId=42".toList, "Priority=7".toList] []).1 (by decide),
   (directive_atomicity sample [] [("PartitionName=batch".toList, []),
      ("State=UP".toList, []), ("Bogus=1".toList, []),
      ("Default=YES".toList, [])]).2.2.2.2.2.1 (by decide) (by decide),
   by decide,
   (directive_atomicity sample []
      [("PartitionName=batch".toList, "Root5678".toList ++ NUL :: "NO".toList ++ [NUL]),
       ("Root5678".toList, "NO".toList ++ [NUL]),
       ("NO".toList, [])]).2.2.2.2.2.1 (by decide) (by decide),
   by decide⟩

/-! ## Target selection -/

/-- C2 (target selection).  `_update_it` runs the grammar of the first token,
in order, that begins case-insensitively with `NodeName=`, `PartitionName=` or
`JobId=`, on the whole token sequence, and reports its return code; when no
token begins with an anchor it runs no grammar, makes no mutate call and
prints `No valid entity in update command`. -/
theorem target_selection (E : Manager) (argv : List CStr) (beyond : List (List Char)) :
    (∀ arg, first_anchor argv = some arg →
      (begins_with "NodeName=".toList arg →
        _update_it E argv beyond = update_report (_update_node E argv))
      ∧ (begins_with "PartitionName=".toList arg →
        _update_it E argv beyond = update_report (_update_part E (with_beyond argv beyond)))
      ∧ (begins_with "JobId=".toList arg →
        _update_it E argv beyond = update_report (_update_job E argv)))
    ∧ (first_anchor argv = none →
        _update_it E argv beyond = .ret () no_valid_entity
        ∧ mutate_calls no_valid_entity = 0
        ∧ Event.stdout "No valid entity in update command\n".toList ∈ no_valid_entity) := by
  obtain ⟨h1, h2⟩ := _update_it_scan_spec E argv beyond argv
  refine ⟨fun arg h => ?_, fun h => ?_⟩
  · obtain ⟨hN, hP, hJ⟩ := h1 arg h
    refine ⟨fun hb => ?_, fun hb => ?_, fun hb => ?_⟩
    · unfold _update_it; rw [hN hb]
    · unfold _update_it; rw [hP hb]
    · unfold _update_it; rw [hJ hb]
  · unfold _update_it
    rw [h2 h]
    exact ⟨rfl, rfl, by simp [no_valid_entity]⟩

/-- C2 at concrete directives: in `State=IDLE jobid=7 NodeName=n1` the first
anchor is `jobid=7`, so the job grammar runs; `State=IDLE` alone names no
entity. -/
theorem target_selection_witness :
    _update_it sample ["State=IDLE".toList, "jobid=7".toList, "NodeName=n1".toList] []
      = update_report
          (_update_job sample ["State=IDLE".toList, "jobid=7".toList, "NodeName=n1".toList])
    ∧ _update_it sample ["State=IDLE".toList] [] = .ret () no_valid_entity :=
  ⟨((target_selection sample
        ["State=IDLE".toList, "jobid=7".toList, "NodeName=n1".toList] []).1
        "jobid=7".toList (by decide)).2.2 (by decide),
   ((target_selection sample ["State=IDLE".toList] []).2 (by decide)).1⟩

/-! ## Node state validation -/

theorem node_state_scan_spec (E : Manager) (arg : CStr) (fuel j : Nat) (L P : List CStr)
    (hL : L = (List.range' j fuel).map E.node_state_string)
    (hP : P = L.takeWhile (fun n => decide (n ≠ "END".toList))) :
    ((∃ n ∈ P, ci_eq n (arg.drop 6)) →
      node_state_scan E arg fuel j = .ok (to_uint16
        ((j + P.findIdx (fun n => decide (ci_eq n (arg.drop 6))) : Nat) : Int)))
    ∧ ((¬ ∃ n ∈ P, ci_eq n (arg.drop 6)) → "END".toList ∈ L →
      node_state_scan E arg fuel j = .abort (invalid_node_state E arg)) := by
  induction fuel generalizing j L P with
  | zero =>
    subst hL; subst hP
    simp [List.range']
  | succ n ih =>
    have hL1 : L = E.node_state_string j :: (List.range' (j + 1) n).map E.node_state_string :=
      hL
    obtain ⟨ih1, ih2⟩ := ih (j + 1) _ _ rfl rfl
    by_cases hE : E.node_state_string j = "END".toList
    · have h0 : strcmp (E.node_state_string j) "END".toList = 0 :=
        (strcmp_eq_zero_iff _ _).mpr hE
      have hP0 : P = [] := by
        rw [hP, hL1, List.takeWhile_cons_of_neg]
        simp [hE]
      constructor
      · intro h
        rw [hP0] at h
        simp at h
      · intro _ _
        unfold node_state_scan
        rw [if_pos h0]
    · have h0 : ¬ strcmp (E.node_state_string j) "END".toList = 0 :=
        fun h => hE ((strcmp_eq_zero_iff _ _).mp h)
      have hP1 : P = E.node_state_string j ::
          ((List.range' (j + 1) n).map E.node_state_string).takeWhile
            (fun n => decide (n ≠ "END".toList)) := by
        rw [hP, hL1, List.takeWhile_cons_of_pos]
        exact decide_eq_true hE
      by_cases hM : ci_eq (E.node_state_string j) (arg.drop 6)
      · have h1 : strcasecmp (E.node_state_string j) (arg.drop 6) = 0 :=
          (strcasecmp_eq_zero_iff _ _).mpr hM
        constructor
        · intro _
          unfold node_state_scan
          rw [if_neg h0, if_pos h1, hP1, List.findIdx_cons, decide_eq_true hM]
          rfl
        · intro h
          exact absurd ⟨E.node_state_string j, by rw [hP1]; exact List.mem_cons_self _ _, hM⟩ h
      · have h1 : ¬ strcasecmp (E.node_state_string j) (arg.drop 6) = 0 :=
          fun h => hM ((strcasecmp_eq_zero_iff _ _).mp h)
        constructor
        · intro h
          have h2 : ∃ x ∈ ((List.range' (j + 1) n).map E.node_state_string).takeWhile
              (fun n => decide (n ≠ "END".toList)), ci_eq x (arg.drop 6) := by
            obtain ⟨x, hx, hc⟩ := h
            rw [hP1] at hx
            rcases List.mem_cons.mp hx with rfl | hx
            · exact absurd hc hM
            · exact ⟨x, hx, hc⟩
          unfold node_state_scan
          rw [if_neg h0, if_neg h1, ih1 h2, hP1, List.findIdx_cons, decide_eq_false hM]
          simp only [cond_false]
          rw [Nat.add_right_comm j 1, Nat.add_assoc j]
        · intro h hmem
          have h2 : ¬ ∃ x ∈ ((List.range' (j + 1) n).map E.node_state_string).takeWhile
              (fun n => decide (n ≠ "END".toList)), ci_eq x (arg.drop 6) := by
            rintro ⟨x, hx, hc⟩
            exact h ⟨x, by rw [hP1]; exact List.mem_cons_of_mem _ hx, hc⟩
          have h3 : "END".toList ∈ (List.range' (j + 1) n).map E.node_state_string := by
            rw [hL1] at hmem
            rcases List.mem_cons.mp hmem with hmem | hmem
            · exact absurd hmem.symm hE
            · exact hmem
          unfold node_state_scan
          rw [if_neg h0, if_neg h1, ih2 h2 h3]

theorem takeWhile_length_lt {α : Type} (p : α → Bool) (l : List α) (x : α) (hx : x ∈ l)
    (hp : p x = false) : (l.takeWhile p).length < l.length := by
  induction l with
  | nil => cases hx
  | cons a t ih =>
    by_cases ha : p a = true
    · rw [List.takeWhile_cons_of_pos ha]
      rcases List.mem_cons.mp hx with rfl | h
      · rw [hp] at ha; cases ha
      · simpa using ih h
    · rw [List.takeWhile_cons_of_neg ha]
      simp

theorem END_mem_table (E : Manager)
    (hEND : E.node_state_string E.NODE_STATE_END = "END".toList) :
    "END".toList ∈ (List.range (E.NODE_STATE_END + 1)).map E.node_state_string :=
  List.mem_map.mpr ⟨E.NODE_STATE_END, List.mem_range.mpr (Nat.lt_succ_self _), hEND⟩

theorem states_before_END_length (E : Manager)
    (hEND : E.node_state_string E.NODE_STATE_END = "END".toList) :
    (states_before_END E).length ≤ E.NODE_STATE_END := by
  have h : (states_before_END E).length
      < ((List.range (E.NODE_STATE_END + 1)).map E.node_state_string).length :=
    takeWhile_length_lt _ _ _ (END_mem_table E hEND) (by simp)
  rw [List.length_map, List.length_range] at h
  omega

theorem to_uint16_of_lt (n : Nat) (h : n < 65536) : to_uint16 (n : Int) = n := by
  unfold to_uint16
  omega

/-- What the body of `_update_node` does with a `State=` token. -/
theorem node_state_arg (E : Manager) (node_msg : update_node_msg) (arg : CStr)
    (hEND : E.node_state_string E.NODE_STATE_END = "END".toList)
    (h16 : E.NODE_STATE_END < 65536) (hkey : begins_with "State=".toList arg) :
    ((∃ n ∈ states_before_END E, ci_eq n (arg.drop 6)) →
      _update_node_arg E node_msg arg = .ok { node_msg with node_state := first_state_index E (arg.drop 6) })
    ∧ ((¬ ∃ n ∈ states_before_END E, ci_eq n (arg.drop 6)) →
      _update_node_arg E node_msg arg = .abort (invalid_node_state E arg)) := by
  have hN : ¬ strncasecmp arg "NodeName=".toList 9 = 0 :=
    strncasecmp_ne_of_begins _ _ _ _ hkey (by decide)
  have hS : strncasecmp arg "State=".toList 6 = 0 :=
    (strncasecmp_begins "State=".toList arg 6 rfl).mpr hkey
  obtain ⟨h1, h2⟩ := node_state_scan_spec E arg (E.NODE_STATE_END + 1) 0 _ (states_before_END E)
    rfl (by unfold states_before_END; rw [List.range_eq_range'])
  constructor
  · intro h
    have hlt : first_state_index E (arg.drop 6) < (states_before_END E).length := by
      apply List.findIdx_lt_length_of_exists
      obtain ⟨n, hn, hc⟩ := h
      exact ⟨n, hn, decide_eq_true hc⟩
    have hlen := states_before_END_length E hEND
    unfold _update_node_arg
    rw [if_neg hN, if_pos hS, h1 h, Nat.zero_add]
    have h3 := to_uint16_of_lt (first_state_index E (arg.drop 6)) (by omega)
    unfold first_state_index at h3 ⊢
    rw [h3]
  · intro h
    unfold _update_node_arg
    rw [if_neg hN, if_pos hS, h2 h (by rw [← List.range_eq_range']; exact END_mem_table E hEND)]

/-- C3 (node `State=` validation).  With `END` at index `NODE_STATE_END` of
the node-state table (an index that fits the 16-bit `node_state` field), the
body of `_update_node` accepts a token `State=<v>` exactly when `v` equals,
case-insensitively, one of the state names that precede `END`, and then
stores the index of the first such name; for every other `v` it echoes the
token and lists every valid state name, and `_update_node` returns 0 without
the mutate call, whatever accepted tokens precede and whatever tokens follow. -/
theorem node_state_validation (E : Manager) (node_msg : update_node_msg) (arg : CStr)
    (hEND : E.node_state_string E.NODE_STATE_END = "END".toList)
    (h16 : E.NODE_STATE_END < 65536) (hkey : begins_with "State=".toList arg) :
    ((_update_node_arg E node_msg arg).accepted = true
        ↔ ∃ n ∈ states_before_END E, ci_eq n (arg.drop 6))
    ∧ ((∃ n ∈ states_before_END E, ci_eq n (arg.drop 6)) →
        _update_node_arg E node_msg arg = .ok { node_msg with node_state := first_state_index E (arg.drop 6) })
    ∧ ((¬ ∃ n ∈ states_before_END E, ci_eq n (arg.drop 6)) →
        _update_node_arg E node_msg arg = .abort (invalid_node_state E arg)
        ∧ Event.stderr ("Invalid input: ".toList ++ arg ++ "\n".toList)
            ∈ invalid_node_state E arg
        ∧ (∀ n ∈ states_before_END E,
            Event.stderr (n ++ " ".toList) ∈ invalid_node_state E arg)
        ∧ ∀ pre post : List CStr, (∀ a ∈ pre, node_accepts E a = true) →
            _update_node E (pre ++ arg :: post) = .ret 0 (invalid_node_state E arg)
            ∧ mutate_calls (invalid_node_state E arg) = 0) := by
  obtain ⟨h1, h2⟩ := node_state_arg E node_msg arg hEND h16 hkey
  refine ⟨⟨fun hacc => ?_, fun h => by rw [h1 h]; rfl⟩, h1, fun h => ⟨h2 h, ?_, ?_, ?_⟩⟩
  · by_contra hn
    rw [h2 hn] at hacc
    cases hacc
  · simp [invalid_node_state]
  · intro n hn
    have hmem : n ∈ (List.range (E.NODE_STATE_END + 1)).map E.node_state_string :=
      List.takeWhile_subset _ hn
    obtain ⟨k, hk, hkn⟩ := List.mem_map.mp hmem
    unfold invalid_node_state
    apply List.mem_append_left
    apply List.mem_append_right
    exact List.mem_map.mpr ⟨k, hk, by rw [hkn]⟩
  · intro pre post hpre
    obtain ⟨m, hm⟩ := for_each_arg_append (_update_node_arg E) pre arg post
      (fun a ha m => by rw [node_arg_accepted]; exact hpre a ha) ⟨none, to_uint16 E.NO_VAL⟩
    refine ⟨?_, mutate_calls_invalid_node_state E arg⟩
    unfold _update_node
    rw [hm]
    unfold for_each_arg
    rw [(node_state_arg E m arg hEND h16 hkey).2 h]

/-- C3 at concrete tokens: `State=idle` stores index 2 of the sample table,
and `State=DRAINED`, absent from it, stops `NodeName=n7 State=DRAINED`. -/
theorem node_state_validation_witness :
    _update_node_arg sample ⟨none, 0⟩ "State=idle".toList = .ok ⟨none, 2⟩
    ∧ _update_node sample ["NodeName=n7".toList, "State=DRAINED".toList]
        = .ret 0 (invalid_node_state sample "State=DRAINED".toList) :=
  ⟨(node_state_validation sample ⟨none, 0⟩ "State=idle".toList (by decide) (by decide)
      (by decide)).2.1 (by decide),
   (((node_state_validation sample ⟨none, 0⟩ "State=DRAINED".toList (by decide) (by decide)
      (by decide)).2.2 (by decide)).2.2.2 ["NodeName=n7".toList] [] (by decide)).1⟩

/-! ## The partition grammar -/

/-- The code at the failing input of C4.  The token `RootOnly:YES` begins
with none of the nine partition keys (a colon stands where `RootOnly=` has its
`=`), yet `_update_part` takes it for the field `RootOnly=YES`: the test
compares 4 characters only, and the directive is sent with `root_only = 1`. -/
theorem root_only_key_not_exact :
    (∀ key ∈ part_keys, ¬ begins_with key "RootOnly:YES".toList)
    ∧ (∀ beyond : List Char, part_accepts sample ("RootOnly:YES".toList, beyond) = true)
    ∧ (∀ beyond0 beyond1 : List Char,
        _update_part sample
          [("PartitionName=batch".toList, beyond0), ("RootOnly:YES".toList, beyond1)]
        = .ret 0 [.slurm_update_partition
            ⟨some "batch".toList, 4294967294, 4294967294, 65534, 1, 65534, 65534, none, none⟩])
    ∧ mutate_calls [Event.slurm_update_partition
        ⟨some "batch".toList, 4294967294, 4294967294, 65534, 1, 65534, 65534, none, none⟩]
        = 1 :=
  ⟨by decide, fun _ => rfl, fun _ _ => rfl, rfl⟩

/-- A token that begins with `key` passes every `strncasecmp` test against a
beginning of `key`. -/
theorem strncasecmp_of_begins (key arg : CStr) (n : Nat) (h : begins_with key arg)
    (hn : n ≤ key.length) : strncasecmp arg key n = 0 := by
  rw [strncasecmp_eq_zero_iff]
  unfold begins_with at h
  have h2 := congrArg (List.take n) h
  rw [← List.map_take, ← List.map_take, List.take_take, Nat.min_eq_left hn] at h2
  exact h2

/-- A token the partition body rejects stops the directive. -/
theorem part_abort_run (E : Manager) (arg : CStr) (errs : List Event)
    (h : ∀ m beyond, _update_part_arg E m arg beyond = .abort errs) :
    part_directive_aborts E arg errs := by
  intro pre post beyond hpre
  obtain ⟨m, hm⟩ := for_each_arg_append
    (fun part_msg arg => _update_part_arg E part_msg arg.1 arg.2) pre (arg, beyond) post
    (fun a ha m => by
      show (_update_part_arg E m a.1 a.2).accepted = true
      rw [part_arg_accepted]
      exact hpre a ha) E.slurm_init_part_desc_msg
  refine ⟨?_, part_arg_abort E m arg beyond errs (h m beyond)⟩
  unfold _update_part
  rw [hm]
  unfold for_each_arg
  simp only [h m beyond]

theorem part_state_arg (E : Manager) (m : update_part_msg) (arg : CStr) (beyond : List Char)
    (hkey : begins_with "State=".toList arg) :
    _update_part_arg E m arg beyond =
      if strcasecmp (arg.drop 6) "DOWN".toList = 0 then .ok { m with state_up := 0 }
      else if strcasecmp (arg.drop 6) "UP".toList = 0 then .ok { m with state_up := 1 }
      else .abort (invalid_value arg "Acceptable State values are UP and DOWN\n") := by
  unfold _update_part_arg
  rw [if_neg (strncasecmp_ne_of_begins _ _ _ _ hkey (by decide)),
    if_neg (strncasecmp_ne_of_begins _ _ _ _ hkey (by decide)),
    if_neg (strncasecmp_ne_of_begins _ _ _ _ hkey (by decide)),
    if_neg (strncasecmp_ne_of_begins _ _ _ _ hkey (by decide)),
    if_neg (strncasecmp_ne_of_begins _ _ _ _ hkey (by decide)),
    if_neg (strncasecmp_ne_of_begins _ _ _ _ hkey (by decide)),
    if_pos (strncasecmp_of_begins _ _ 6 hkey (by decide))]

theorem part_shared_arg (E : Manager) (m : update_part_msg) (arg : CStr) (beyond : List Char)
    (hkey : begins_with "Shared=".toList arg) :
    _update_part_arg E m arg beyond =
      if strcasecmp (arg.drop 7) "NO".toList = 0 then .ok { m with shared := E.SHARED_NO }
      else if strcasecmp (arg.drop 7) "YES".toList = 0 then
        .ok { m with shared := E.SHARED_YES }
      else if strcasecmp (arg.drop 7) "FORCE".toList = 0 then
        .ok { m with shared := E.SHARED_FORCE }
      else .abort (invalid_value arg "Acceptable Shared values are YES, NO and FORCE\n") := by
  unfold _update_part_arg
  rw [if_neg (strncasecmp_ne_of_begins _ _ _ _ hkey (by decide)),
    if_neg (strncasecmp_ne_of_begins _ _ _ _ hkey (by decide)),
    if_neg (strncasecmp_ne_of_begins _ _ _ _ hkey (by decide)),
    if_neg (strncasecmp_ne_of_begins _ _ _ _ hkey (by decide)),
    if_neg (strncasecmp_ne_of_begins _ _ _ _ hkey (by decide)),
    if_pos (strncasecmp_of_begins _ _ 7 hkey (by decide))]

theorem part_default_arg (E : Manager) (m : update_part_msg) (arg : CStr) (beyond : List Char)
    (hkey : begins_with "Default=".toList arg) :
    _update_part_arg E m arg beyond =
      if strcasecmp (arg.drop 8) "NO".toList = 0 then .ok { m with default_part := 0 }
      else if strcasecmp (arg.drop 8) "YES".toList = 0 then .ok { m with default_part := 1 }
      else .abort (invalid_value arg "Acceptable Default values are YES and NO\n") := by
  unfold _update_part_arg
  rw [if_neg (strncasecmp_ne_of_begins _ _ _ _ hkey (by decide)),
    if_neg (strncasecmp_ne_of_begins _ _ _ _ hkey (by decide)),
    if_neg (strncasecmp_ne_of_begins _ _ _ _ hkey (by decide)),
    if_pos (strncasecmp_of_begins _ _ 8 hkey (by decide))]

theorem part_root_only_arg (E : Manager) (m : update_part_msg) (arg : CStr) (beyond : List Char)
    (hkey : begins_with "RootOnly=".toList arg) :
    _update_part_arg E m arg beyond =
      if strcasecmp (arg.drop 9) "NO".toList = 0 then .ok { m with root_only := 0 }
      else if strcasecmp (arg.drop 9) "YES".toList = 0 then .ok { m with root_only := 1 }
      else .abort (invalid_value arg "Acceptable RootOnly values are YES and NO\n") := by
  have hlen : 9 ≤ arg.length := by
    have := length_of_begins _ _ hkey
    simp at this
    omega
  unfold _update_part_arg
  rw [if_neg (strncasecmp_ne_of_begins _ _ _ _ hkey (by decide)),
    if_neg (strncasecmp_ne_of_begins _ _ _ _ hkey (by decide)),
    if_neg (strncasecmp_ne_of_begins _ _ _ _ hkey (by decide)),
    if_neg (strncasecmp_ne_of_begins _ _ _ _ hkey (by decide)),
    if_pos (strncasecmp_of_begins _ _ 4 hkey (by decide)), string_at_inside _ _ _ hlen]

theorem ci_eq_ne (v a b : CStr) (ha : ci_eq v a) (hab : a.map tolower ≠ b.map tolower) :
    ¬ ci_eq v b :=
  fun hb => hab (Eq.trans (Eq.symm ha) hb)

/-- C5 (partition enumerated and boolean fields).  In the body of
`_update_part`, a token keyed `State=`, `Shared=`, `Default=` or `RootOnly=`
has its value compared case-insensitively: `State` stores 1 for `UP` and 0
for `DOWN`; `Shared` stores `SHARED_NO`, `SHARED_YES`, `SHARED_FORCE` for
`NO`, `YES`, `FORCE`; `Default` and `RootOnly` store 1 for `YES` and 0 for
`NO`; any other value echoes the token and stops the directive without the
mutate call. -/
theorem partition_enumerated_fields (E : Manager) (m : update_part_msg) (arg : CStr)
    (beyond : List Char) :
    (begins_with "State=".toList arg →
      (ci_eq (arg.drop 6) "UP".toList → _update_part_arg E m arg beyond = .ok { m with state_up := 1 })
      ∧ (ci_eq (arg.drop 6) "DOWN".toList →
          _update_part_arg E m arg beyond = .ok { m with state_up := 0 })
      ∧ (¬ ci_eq (arg.drop 6) "UP".toList → ¬ ci_eq (arg.drop 6) "DOWN".toList →
          part_directive_aborts E arg
            (invalid_value arg "Acceptable State values are UP and DOWN\n")))
    ∧ (begins_with "Shared=".toList arg →
      (ci_eq (arg.drop 7) "NO".toList →
          _update_part_arg E m arg beyond = .ok { m with shared := E.SHARED_NO })
      ∧ (ci_eq (arg.drop 7) "YES".toList →
          _update_part_arg E m arg beyond = .ok { m with shared := E.SHARED_YES })
      ∧ (ci_eq (arg.drop 7) "FORCE".toList →
          _update_part_arg E m arg beyond = .ok { m with shared := E.SHARED_FORCE })
      ∧ (¬ ci_eq (arg.drop 7) "NO".toList → ¬ ci_eq (arg.drop 7) "YES".toList →
          ¬ ci_eq (arg.drop 7) "FORCE".toList →
          part_directive_aborts E arg
            (invalid_value arg "Acceptable Shared values are YES, NO and FORCE\n")))
    ∧ (begins_with "Default=".toList arg →
      (ci_eq (arg.drop 8) "YES".toList →
          _update_part_arg E m arg beyond = .ok { m with default_part := 1 })
      ∧ (ci_eq (arg.drop 8) "NO".toList →
          _update_part_arg E m arg beyond = .ok { m with default_part := 0 })
      ∧ (¬ ci_eq (arg.drop 8) "YES".toList → ¬ ci_eq (arg.drop 8) "NO".toList →
          part_directive_aborts E arg
            (invalid_value arg "Acceptable Default values are YES and NO\n")))
    ∧ (begins_with "RootOnly=".toList arg →
      (ci_eq (arg.drop 9) "YES".toList →
          _update_part_arg E m arg beyond = .ok { m with root_only := 1 })
      ∧ (ci_eq (arg.drop 9) "NO".toList →
          _update_part_arg E m arg beyond = .ok { m with root_only := 0 })
      ∧ (¬ ci_eq (arg.drop 9) "YES".toList → ¬ ci_eq (arg.drop 9) "NO".toList →
          part_directive_aborts E arg
            (invalid_value arg "Acceptable RootOnly values are YES and NO\n"))) := by
  refine ⟨fun hkey => ⟨fun h => ?_, fun h => ?_, fun h1 h2 => ?_⟩,
    fun hkey => ⟨fun h => ?_, fun h => ?_, fun h => ?_, fun h1 h2 h3 => ?_⟩,
    fun hkey => ⟨fun h => ?_, fun h => ?_, fun h1 h2 => ?_⟩,
    fun hkey => ⟨fun h => ?_, fun h => ?_, fun h1 h2 => ?_⟩⟩
  · rw [part_state_arg E m arg beyond hkey,
      if_neg (mt (strcasecmp_eq_zero_iff _ _).mp (ci_eq_ne _ _ _ h (by decide))),
      if_pos ((strcasecmp_eq_zero_iff _ _).mpr h)]
  · rw [part_state_arg E m arg beyond hkey, if_pos ((strcasecmp_eq_zero_iff _ _).mpr h)]
  · apply part_abort_run
    intro m1 beyond1
    rw [part_state_arg E m1 arg beyond1 hkey, if_neg (mt (strcasecmp_eq_zero_iff _ _).mp h2),
      if_neg (mt (strcasecmp_eq_zero_iff _ _).mp h1)]
  · rw [part_shared_arg E m arg beyond hkey, if_pos ((strcasecmp_eq_zero_iff _ _).mpr h)]
  · rw [part_shared_arg E m arg beyond hkey,
      if_neg (mt (strcasecmp_eq_zero_iff _ _).mp (ci_eq_ne _ _ _ h (by decide))),
      if_pos ((strcasecmp_eq_zero_iff _ _).mpr h)]
  · rw [part_shared_arg E m arg beyond hkey,
      if_neg (mt (strcasecmp_eq_zero_iff _ _).mp (ci_eq_ne _ _ _ h (by decide))),
      if_neg (mt (strcasecmp_eq_zero_iff _ _).mp (ci_eq_ne _ _ _ h (by decide))),
      if_pos ((strcasecmp_eq_zero_iff _ _).mpr h)]
  · apply part_abort_run
    intro m1 beyond1
    rw [part_shared_arg E m1 arg beyond1 hkey, if_neg (mt (strcasecmp_eq_zero_iff _ _).mp h1),
      if_neg (mt (strcasecmp_eq_zero_iff _ _).mp h2),
      if_neg (mt (strcasecmp_eq_zero_iff _ _).mp h3)]
  · rw [part_default_arg E m arg beyond hkey,
      if_neg (mt (strcasecmp_eq_zero_iff _ _).mp (ci_eq_ne _ _ _ h (by decide))),
      if_pos ((strcasecmp_eq_zero_iff _ _).mpr h)]
  · rw [part_default_arg E m arg beyond hkey, if_pos ((strcasecmp_eq_zero_iff _ _).mpr h)]
  · apply part_abort_run
    intro m1 beyond1
    rw [part_default_arg E m1 arg beyond1 hkey, if_neg (mt (strcasecmp_eq_zero_iff _ _).mp h2),
      if_neg (mt (strcasecmp_eq_zero_iff _ _).mp h1)]
  · rw [part_root_only_arg E m arg beyond hkey,
      if_neg (mt (strcasecmp_eq_zero_iff _ _).mp (ci_eq_ne _ _ _ h (by decide))),
      if_pos ((strcasecmp_eq_zero_iff _ _).mpr h)]
  · rw [part_root_only_arg E m arg beyond hkey, if_pos ((strcasecmp_eq_zero_iff _ _).mpr h)]
  · apply part_abort_run
    intro m1 beyond1
    rw [part_root_only_arg E m1 arg beyond1 hkey, if_neg (mt (strcasecmp_eq_zero_iff _ _).mp h2),
      if_neg (mt (strcasecmp_eq_zero_iff _ _).mp h1)]

/-- C5 at concrete tokens: `shared=Force` stores `SHARED_FORCE`, and
`State=DRAIN` stops `PartitionName=batch State=DRAIN Default=YES`. -/
theorem partition_enumerated_fields_witness :
    _update_part_arg sample sample.slurm_init_part_desc_msg "shared=Force".toList []
      = .ok { sample.slurm_init_part_desc_msg with shared := 2 }
    ∧ _update_part sample
        [("PartitionName=batch".toList, []), ("State=DRAIN".toList, []),
         ("Default=YES".toList, [])]
      = .ret 0 (invalid_value "State=DRAIN".toList "Acceptable State values are UP and DOWN\n") :=
  ⟨((partition_enumerated_fields sample sample.slurm_init_part_desc_msg
      "shared=Force".toList []).2.1 (by decide)).2.2.1 (by decide),
   (((partition_enumerated_fields sample sample.slurm_init_part_desc_msg
      "State=DRAIN".toList []).1 (by decide)).2.2 (by decide) (by decide)
      [("PartitionName=batch".toList, [])] [("Default=YES".toList, [])] [] (by decide)).1⟩

/-! ## The job grammar: boolean-like fields -/

theorem job_contiguous_arg (E : Manager) (m : job_desc_msg) (arg : CStr)
    (hkey : begins_with "Contiguous=".toList arg) :
    _update_job_arg E m arg =
      if strcasecmp (arg.drop 11) "YES".toList = 0 then .ok { m with contiguous := 1 }
      else if strcasecmp (arg.drop 11) "NO".toList = 0 then .ok { m with contiguous := 0 }
      else .ok { m with contiguous := to_uint16 (strtol E.LONG_BITS (arg.drop 11)) } := by
  unfold _update_job_arg
  rw [if_neg (strncasecmp_ne_of_begins _ _ _ _ hkey (by decide)),
    if_neg (strncasecmp_ne_of_begins _ _ _ _ hkey (by decide)),
    if_neg (strncasecmp_ne_of_begins _ _ _ _ hkey (by decide)),
    if_neg (strncasecmp_ne_of_begins _ _ _ _ hkey (by decide)),
    if_neg (strncasecmp_ne_of_begins _ _ _ _ hkey (by decide)),
    if_neg (strncasecmp_ne_of_begins _ _ _ _ hkey (by decide)),
    if_neg (strncasecmp_ne_of_begins _ _ _ _ hkey (by decide)),
    if_neg (strncasecmp_ne_of_begins _ _ _ _ hkey (by decide)),
    if_neg (strncasecmp_ne_of_begins _ _ _ _ hkey (by decide)),
    if_neg (strncasecmp_ne_of_begins _ _ _ _ hkey (by decide)),
    if_neg (strncasecmp_ne_of_begins _ _ _ _ hkey (by decide)),
    if_pos (strncasecmp_of_begins _ _ 11 hkey (by decide))]

/-- C6 as stated fails: in `JobId=7 Contiguous=2` the value `2` is neither
`YES` nor `NO`, yet the directive is not aborted; `_update_job` sends it with
`contiguous = 2`. -/
theorem job_contiguous_counterexample :
    ¬ ci_eq "2".toList "YES".toList ∧ ¬ ci_eq "2".toList "NO".toList
    ∧ _update_job sample ["JobId=7".toList, "Contiguous=2".toList]
        = .ret 0 [.slurm_update_job { sample.slurm_init_job_desc_msg with
            job_id := 7, contiguous := 2 }]
    ∧ mutate_calls [Event.slurm_update_job { sample.slurm_init_job_desc_msg with
        job_id := 7, contiguous := 2 }] = 1 := by
  decide

/-- C6 amended (job boolean-like fields).  In the body of `_update_job`,
`Contiguous=YES` stores 1 and `Contiguous=NO` stores 0, case-insensitively;
any other value stores the 16-bit truncation of its `strtol` parse, as for
`Shared=`: a `Contiguous=` token is always accepted and never aborts the
directive. -/
theorem job_contiguous_field (E : Manager) (m : job_desc_msg) (arg : CStr)
    (hkey : begins_with "Contiguous=".toList arg) :
    (ci_eq (arg.drop 11) "YES".toList → _update_job_arg E m arg = .ok { m with contiguous := 1 })
    ∧ (ci_eq (arg.drop 11) "NO".toList →
        _update_job_arg E m arg = .ok { m with contiguous := 0 })
    ∧ (¬ ci_eq (arg.drop 11) "YES".toList → ¬ ci_eq (arg.drop 11) "NO".toList →
        _update_job_arg E m arg
          = .ok { m with contiguous := to_uint16 (strtol E.LONG_BITS (arg.drop 11)) })
    ∧ job_accepts E arg = true := by
  refine ⟨fun h => ?_, fun h => ?_, fun h1 h2 => ?_, ?_⟩
  · rw [job_contiguous_arg E m arg hkey, if_pos ((strcasecmp_eq_zero_iff _ _).mpr h)]
  · rw [job_contiguous_arg E m arg hkey,
      if_neg (mt (strcasecmp_eq_zero_iff _ _).mp (ci_eq_ne _ _ _ h (by decide))),
      if_pos ((strcasecmp_eq_zero_iff _ _).mpr h)]
  · rw [job_contiguous_arg E m arg hkey, if_neg (mt (strcasecmp_eq_zero_iff _ _).mp h1),
      if_neg (mt (strcasecmp_eq_zero_iff _ _).mp h2)]
  · unfold job_accepts
    rw [job_contiguous_arg E _ arg hkey]
    simp only [apply_ite Step.accepted, Step.accepted_ok, ite_self]

/-- C6 amended at concrete tokens: `contiguous=yes` stores 1 and
`Contiguous=2` stores 2. -/
theorem job_contiguous_field_witness :
    _update_job_arg sample sample.slurm_init_job_desc_msg "contiguous=yes".toList
      = .ok { sample.slurm_init_job_desc_msg with contiguous := 1 }
    ∧ _update_job_arg sample sample.slurm_init_job_desc_msg "Contiguous=2".toList
      = .ok { sample.slurm_init_job_desc_msg with
          contiguous := to_uint16 (strtol sample.LONG_BITS ("Contiguous=2".toList.drop 11)) } :=
  ⟨(job_contiguous_field sample sample.slurm_init_job_desc_msg "contiguous=yes".toList
      (by decide)).1 (by decide),
   (job_contiguous_field sample sample.slurm_init_job_desc_msg "Contiguous=2".toList
      (by decide)).2.2.1 (by decide) (by decide)⟩

/-! ## The partition grammar: sentinel fields -/

theorem strtol_digits_eq (v : CStr) (acc : Nat) (h : ∀ c ∈ v, 48 ≤ c.toNat ∧ c.toNat ≤ 57) :
    strtol_digits v acc = v.foldl (fun acc c => acc * 10 + (c.toNat - 48)) acc := by
  induction v generalizing acc with
  | nil => rfl
  | cons c cs ih =>
    have hc := h c (List.mem_cons_self _ _)
    unfold strtol_digits
    rw [if_pos hc, ih _ (fun x hx => h x (List.mem_cons_of_mem _ hx))]
    rfl

/-- On a plain decimal numeral `strtol` yields the number it denotes, clamped
to `LONG_MAX`. -/
theorem strtol_decimal (w : Nat) (v : CStr) (h : is_decimal v) :
    strtol w v = min ((2 ^ (w - 1) : Int) - 1) (decimal_value v : Int) := by
  obtain ⟨hne, hd⟩ := h
  cases v with
  | nil => exact absurd rfl hne
  | cons c cs =>
    have hc := hd c (List.mem_cons_self _ _)
    have hsp : isspace c = false := by
      unfold isspace
      simp only [Bool.or_eq_false_iff, Bool.and_eq_false_iff, decide_eq_false_iff_not]
      omega
    have hdrop : (c :: cs).dropWhile isspace = c :: cs := by
      rw [List.dropWhile_cons_of_neg (by simp [hsp])]
    unfold strtol
    rw [hdrop]
    split
    · rename_i r heq
      injection heq with h1 _
      rw [h1] at hc
      exact absurd hc (by decide)
    · rename_i r heq
      injection heq with h1 _
      rw [h1] at hc
      exact absurd hc (by decide)
    · rw [strtol_digits_eq _ _ hd]
      rfl

theorem to_uint32_of_lt (n : Nat) (h : n < 4294967296) : to_uint32 (n : Int) = n := by
  unfold to_uint32
  omega

theorem part_max_time_arg (E : Manager) (m : update_part_msg) (arg : CStr) (beyond : List Char)
    (hkey : begins_with "MaxTime=".toList arg) :
    _update_part_arg E m arg beyond =
      if strcasecmp (arg.drop 8) "INFINITE".toList = 0 then .ok { m with max_time := E.INFINITE }
      else .ok { m with max_time := to_uint32 (strtol E.LONG_BITS (arg.drop 8)) } := by
  unfold _update_part_arg
  rw [if_neg (strncasecmp_ne_of_begins _ _ _ _ hkey (by decide)),
    if_pos (strncasecmp_of_begins _ _ 8 hkey (by decide))]

theorem part_max_nodes_arg (E : Manager) (m : update_part_msg) (arg : CStr) (beyond : List Char)
    (hkey : begins_with "MaxNodes=".toList arg) :
    _update_part_arg E m arg beyond =
      if strcasecmp (arg.drop 9) "INFINITE".toList = 0 then
        .ok { m with max_nodes := E.INFINITE }
      else .ok { m with max_nodes := to_uint32 (strtol E.LONG_BITS (arg.drop 9)) } := by
  unfold _update_part_arg
  rw [if_neg (strncasecmp_ne_of_begins _ _ _ _ hkey (by decide)),
    if_neg (strncasecmp_ne_of_begins _ _ _ _ hkey (by decide)),
    if_pos (strncasecmp_of_begins _ _ 9 hkey (by decide))]

/-- C7 (sentinel fields).  In the body of `_update_part`, a `MaxTime=` or
`MaxNodes=` token whose value equals `INFINITE` in any letter case stores the
`INFINITE` sentinel; for every other value the field is the base-10 parse of
the value text, `(uint32_t) strtol (value, NULL, 10)`, which for a plain
decimal numeral within `long` and 32 bits is the number it denotes. -/
theorem partition_sentinel_fields (E : Manager) (m : update_part_msg) (arg : CStr)
    (beyond : List Char) :
    (begins_with "MaxTime=".toList arg →
      (ci_eq (arg.drop 8) "INFINITE".toList →
        _update_part_arg E m arg beyond = .ok { m with max_time := E.INFINITE })
      ∧ (¬ ci_eq (arg.drop 8) "INFINITE".toList →
        _update_part_arg E m arg beyond
          = .ok { m with max_time := to_uint32 (strtol E.LONG_BITS (arg.drop 8)) }))
    ∧ (begins_with "MaxNodes=".toList arg →
      (ci_eq (arg.drop 9) "INFINITE".toList →
        _update_part_arg E m arg beyond = .ok { m with max_nodes := E.INFINITE })
      ∧ (¬ ci_eq (arg.drop 9) "INFINITE".toList →
        _update_part_arg E m arg beyond
          = .ok { m with max_nodes := to_uint32 (strtol E.LONG_BITS (arg.drop 9)) }))
    ∧ (∀ v : CStr, is_decimal v → decimal_value v < 2 ^ (E.LONG_BITS - 1) →
        decimal_value v < 4294967296 →
        to_uint32 (strtol E.LONG_BITS v) = decimal_value v) := by
  refine ⟨fun hkey => ⟨fun h => ?_, fun h => ?_⟩, fun hkey => ⟨fun h => ?_, fun h => ?_⟩,
    fun v hv h1 h2 => ?_⟩
  · rw [part_max_time_arg E m arg beyond hkey, if_pos ((strcasecmp_eq_zero_iff _ _).mpr h)]
  · rw [part_max_time_arg E m arg beyond hkey, if_neg (mt (strcasecmp_eq_zero_iff _ _).mp h)]
  · rw [part_max_nodes_arg E m arg beyond hkey, if_pos ((strcasecmp_eq_zero_iff _ _).mpr h)]
  · rw [part_max_nodes_arg E m arg beyond hkey, if_neg (mt (strcasecmp_eq_zero_iff _ _).mp h)]
  · rw [strtol_decimal _ v hv]
    have h3 : ((decimal_value v : Nat) : Int) ≤ (2 ^ (E.LONG_BITS - 1) : Int) - 1 := by
      have : ((decimal_value v : Nat) : Int) < ((2 ^ (E.LONG_BITS - 1) : Nat) : Int) :=
        Int.ofNat_lt.mpr h1
      push_cast at this
      omega
    rw [min_eq_right h3]
    exact to_uint32_of_lt _ h2

/-- C7 at concrete tokens: `MaxTime=infinite` stores the sentinel,
`MaxNodes=64` stores 64. -/
theorem partition_sentinel_fields_witness :
    _update_part_arg sample sample.slurm_init_part_desc_msg "MaxTime=infinite".toList []
      = .ok { sample.slurm_init_part_desc_msg with max_time := 4294967295 }
    ∧ _update_part_arg sample sample.slurm_init_part_desc_msg "MaxNodes=64".toList []
      = .ok { sample.slurm_init_part_desc_msg with
          max_nodes := to_uint32 (strtol sample.LONG_BITS ("MaxNodes=64".toList.drop 9)) }
    ∧ to_uint32 (strtol sample.LONG_BITS "64".toList) = decimal_value "64".toList :=
  ⟨((partition_sentinel_fields sample sample.slurm_init_part_desc_msg
      "MaxTime=infinite".toList []).1 (by decide)).1 (by decide),
   ((partition_sentinel_fields sample sample.slurm_init_part_desc_msg
      "MaxNodes=64".toList []).2.1 (by decide)).2 (by decide),
   (partition_sentinel_fields sample sample.slurm_init_part_desc_msg [] []).2.2
      "64".toList (by decide) (by decide) (by decide)⟩

/-! ## Lemmas on the printers -/

theorem queries_of_output (trace : List Event) (h : ∀ e ∈ trace, e.is_output = true) :
    queries trace = [] := by
  unfold queries
  rw [List.filter_eq_nil_iff]
  intro e he
  have := h e he
  cases e <;> simp_all [Event.is_output, Event.is_query]

theorem releases_of_output (trace : List Event) (h : ∀ e ∈ trace, e.is_output = true) :
    releases trace = [] := by
  unfold releases
  rw [List.filter_eq_nil_iff]
  intro e he
  have := h e he
  cases e <;> simp_all [Event.is_output, Event.is_release]

theorem output_append (a b : List Event) (ha : ∀ e ∈ a, e.is_output = true)
    (hb : ∀ e ∈ b, e.is_output = true) : ∀ e ∈ a ++ b, e.is_output = true := by
  intro e he
  rcases List.mem_append.mp he with h | h
  · exact ha e h
  · exact hb e h

theorem output_ite (c : Prop) [Decidable c] (a b : List Event)
    (ha : ∀ e ∈ a, e.is_output = true) (hb : ∀ e ∈ b, e.is_output = true) :
    ∀ e ∈ (if c then a else b), e.is_output = true := by
  split
  · exact ha
  · exact hb

theorem output_nil : ∀ e ∈ ([] : List Event), e.is_output = true := by
  intro e he
  cases he

theorem output_single (e0 : Event) (h : e0.is_output = true) :
    ∀ e ∈ [e0], e.is_output = true := by
  intro e he
  rw [List.mem_singleton.mp he]
  exact h

/-- The loop of `_print_node` started within the array returns: it reads no
index outside `[0, record_count)`, only prints, and with no name given it
prints every remaining record in stored order and leaves `last_inx` alone. -/
theorem _print_node_loop_ret (node_name : Option CStr) (node_array : List node_info)
    (fuel j last_inx : Nat) (h : j + fuel = node_array.length) :
    ∃ inx trace, _print_node_loop node_name node_array fuel j last_inx = .ret inx trace
      ∧ (∀ e ∈ trace, e.is_output = true)
      ∧ (node_name = none → inx = last_inx
          ∧ trace = (node_array.drop j).map Event.slurm_print_node_table) := by
  induction fuel generalizing j with
  | zero =>
    refine ⟨last_inx, [], rfl, output_nil, fun _ => ⟨rfl, ?_⟩⟩
    rw [List.drop_of_length_le (by omega)]
    rfl
  | succ n ih =>
    have hj : j < node_array.length := by omega
    obtain ⟨inx, trace, hrun, hout, hall⟩ := ih (j + 1) (by omega)
    cases node_name with
    | some name =>
      have hi : (j + last_inx) % node_array.length < node_array.length :=
        Nat.mod_lt _ (by omega)
      unfold _print_node_loop
      simp only [List.getElem?_eq_getElem hi]
      by_cases hc : strcmp name (node_array[(j + last_inx) % node_array.length]).name ≠ 0
      · rw [if_pos hc]
        exact ⟨inx, trace, hrun, hout, fun h => by cases h⟩
      · rw [if_neg hc]
        exact ⟨_, _, rfl, output_single _ rfl, fun h => by cases h⟩
    | none =>
      unfold _print_node_loop
      simp only [List.getElem?_eq_getElem hj, hrun]
      refine ⟨inx, _, rfl, ?_, fun _ => ⟨(hall rfl).1, ?_⟩⟩
      · intro e he
        rcases List.mem_cons.mp he with h1 | h1
        · rw [h1]; rfl
        · exact hout e h1
      · rw [(hall rfl).2, List.drop_eq_getElem_cons hj]
        rfl

/-- The source function `_print_node` always returns and only prints. -/
theorem _print_node_ret (quiet_flag : Int) (last_inx : Nat) (node_name : Option CStr)
    (node_buffer_ptr : node_info_msg) :
    ∃ inx trace, _print_node quiet_flag last_inx node_name node_buffer_ptr = .ret inx trace
      ∧ (∀ e ∈ trace, e.is_output = true)
      ∧ (node_name = none → inx = last_inx
          ∧ displayed trace
            = node_buffer_ptr.node_array.map Event.slurm_print_node_table) := by
  obtain ⟨inx, printed, hrun, hout, hall⟩ := _print_node_loop_ret node_name
    node_buffer_ptr.node_array node_buffer_ptr.node_array.length 0 last_inx (by omega)
  unfold _print_node
  rw [hrun]
  refine ⟨inx, _, rfl, ?_, fun hn => ⟨(hall hn).1, ?_⟩⟩
  · apply output_append _ _ hout
    apply output_ite _ _ _ _ output_nil
    apply output_ite
    · exact output_single _ rfl
    · exact output_single _ rfl
  · have hp := (hall hn).2
    rw [List.drop_zero] at hp
    subst hp
    unfold displayed
    rw [List.filter_append]
    have h1 : List.filter Event.is_display
        (List.map Event.slurm_print_node_table node_buffer_ptr.node_array)
        = List.map Event.slurm_print_node_table node_buffer_ptr.node_array := by
      rw [List.filter_eq_self]
      intro e he
      obtain ⟨r, _, hr⟩ := List.mem_map.mp he
      rw [← hr]; rfl
    rw [h1]
    split_ifs <;> simp [Event.is_display]

theorem _print_node_names_ret (quiet_flag : Int) (node_info_ptr : node_info_msg)
    (names : List CStr) (last_inx : Nat) :
    ∃ inx trace, _print_node_names quiet_flag node_info_ptr names last_inx = .ret inx trace
      ∧ (∀ e ∈ trace, e.is_output = true) := by
  induction names generalizing last_inx with
  | nil => exact ⟨last_inx, [], rfl, output_nil⟩
  | cons name rest ih =>
    obtain ⟨inx, trace, hrun, hout, _⟩ :=
      _print_node_ret quiet_flag last_inx (some name) node_info_ptr
    obtain ⟨inx1, trace1, hrun1, hout1⟩ := ih inx
    unfold _print_node_names
    simp only [hrun, hrun1]
    exact ⟨inx1, _, rfl, output_append _ _ hout hout1⟩

/-- The display half of `_print_node_list` always returns and only prints;
with no node list it shows every record of the snapshot in stored order and
leaves `last_inx` alone. -/
theorem _print_node_list_display_ret (E : Manager) (quiet_flag : Int) (last_inx : Nat)
    (node_list : Option CStr) (node_info_ptr : node_info_msg) :
    ∃ inx trace,
      _print_node_list_display E quiet_flag last_inx node_list node_info_ptr = .ret inx trace
      ∧ (∀ e ∈ trace, e.is_output = true)
      ∧ (node_list = none → inx = last_inx
          ∧ displayed trace
            = node_info_ptr.node_array.map Event.slurm_print_node_table) := by
  have hhead : ∀ e ∈ (if quiet_flag = -1 then
      [Event.print_last_update node_info_ptr.last_update node_info_ptr.node_array.length]
      else []), e.is_output = true :=
    output_ite _ _ _ (output_single _ rfl) output_nil
  cases node_list with
  | none =>
    obtain ⟨inx, trace, hrun, hout, hall⟩ :=
      _print_node_ret quiet_flag last_inx none node_info_ptr
    unfold _print_node_list_display
    simp only [hrun]
    refine ⟨inx, _, rfl, output_append _ _ hhead hout, fun _ => ⟨(hall rfl).1, ?_⟩⟩
    unfold displayed at *
    rw [List.filter_append, (hall rfl).2]
    split_ifs <;> simp [Event.is_display]
  | some list =>
    cases hh : E.hostlist_create list with
    | ok names =>
      obtain ⟨inx, trace, hrun, hout⟩ :=
        _print_node_names_ret quiet_flag node_info_ptr names last_inx
      unfold _print_node_list_display
      simp only [hh, hrun]
      exact ⟨inx, _, rfl, output_append _ _ hhead hout, fun h => by cases h⟩
    | error errno =>
      unfold _print_node_list_display
      simp only [hh]
      refine ⟨last_inx, _, rfl, output_append _ _ hhead ?_, fun h => by cases h⟩
      apply output_ite _ _ _ _ output_nil
      apply output_ite
      · exact output_single _ rfl
      · apply output_ite
        · exact output_single _ rfl
        · exact output_single _ rfl

theorem displayed_map_display {α : Type} (f : α → Event) (l : List α)
    (h : ∀ a, (f a).is_display = true) : displayed (l.map f) = l.map f := by
  unfold displayed
  rw [List.filter_eq_self]
  intro e he
  obtain ⟨a, _, ha⟩ := List.mem_map.mp he
  rw [← ha]
  exact h a

theorem _print_job_loop_output (job_id_str : Option CStr) (job_id : Nat)
    (l : List job_info) : ∀ e ∈ _print_job_loop job_id_str job_id l, e.is_output = true := by
  induction l with
  | nil => exact output_nil
  | cons r rest ih =>
    unfold _print_job_loop
    apply output_ite _ _ _ ih
    apply output_ite
    · exact output_single _ rfl
    intro e he
    rcases List.mem_cons.mp he with h | h
    · rw [h]; rfl
    · exact ih e h

theorem _print_job_loop_all (job_id : Nat) (l : List job_info) :
    _print_job_loop none job_id l = l.map Event.slurm_print_job_info := by
  induction l with
  | nil => rfl
  | cons r rest ih =>
    unfold _print_job_loop
    simp [ih]

/-- The display half of `_print_job` only prints; with no job id it shows
every record of the snapshot in stored order. -/
theorem _print_job_display_spec (E : Manager) (quiet_flag : Int) (job_id_str : Option CStr)
    (job_buffer_ptr : job_info_msg) :
    (∀ e ∈ _print_job_display E quiet_flag job_id_str job_buffer_ptr, e.is_output = true)
    ∧ (job_id_str = none →
        displayed (_print_job_display E quiet_flag job_id_str job_buffer_ptr)
          = job_buffer_ptr.job_array.map Event.slurm_print_job_info) := by
  constructor
  · unfold _print_job_display
    apply output_append
    · apply output_append
      · exact output_ite _ _ _ (output_single _ rfl) output_nil
      · exact _print_job_loop_output _ _ _
    · apply output_ite _ _ _ _ output_nil
      apply output_ite
      · exact output_single _ rfl
      · exact output_single _ rfl
  · intro hn
    subst hn
    unfold _print_job_display
    simp only [_print_job_loop_all]
    unfold displayed
    rw [List.filter_append, List.filter_append]
    have h := displayed_map_display Event.slurm_print_job_info job_buffer_ptr.job_array
      (fun _ => rfl)
    unfold displayed at h
    rw [h]
    split_ifs <;> simp [Event.is_display]

theorem _print_part_loop_output (partition_name : Option CStr) (l : List partition_info) :
    ∀ e ∈ _print_part_loop partition_name l, e.is_output = true := by
  induction l with
  | nil => exact output_nil
  | cons r rest ih =>
    unfold _print_part_loop
    cases partition_name with
    | some name =>
      exact output_ite _ _ _ ih (output_single _ rfl)
    | none =>
      intro e he
      rcases List.mem_cons.mp he with h | h
      · rw [h]; rfl
      · exact ih e h

theorem _print_part_loop_all (l : List partition_info) :
    _print_part_loop none l = l.map Event.slurm_print_partition_info := by
  induction l with
  | nil => rfl
  | cons r rest ih =>
    unfold _print_part_loop
    simp [ih]

/-- The display half of `_print_part` only prints; with no partition name it
shows every record of the snapshot in stored order. -/
theorem _print_part_display_spec (quiet_flag : Int) (partition_name : Option CStr)
    (part_info_ptr : partition_info_msg) :
    (∀ e ∈ _print_part_display quiet_flag partition_name part_info_ptr, e.is_output = true)
    ∧ (partition_name = none →
        displayed (_print_part_display quiet_flag partition_name part_info_ptr)
          = part_info_ptr.partition_array.map Event.slurm_print_partition_info) := by
  constructor
  · unfold _print_part_display
    apply output_append
    · apply output_append
      · exact output_ite _ _ _ (output_single _ rfl) output_nil
      · exact _print_part_loop_output _ _
    · apply output_ite _ _ _ _ output_nil
      apply output_ite
      · exact output_single _ rfl
      · exact output_single _ rfl
  · intro hn
    subst hn
    unfold _print_part_display
    simp only [_print_part_loop_all]
    unfold displayed
    rw [List.filter_append, List.filter_append]
    have h := displayed_map_display Event.slurm_print_partition_info
      part_info_ptr.partition_array (fun _ => rfl)
    unfold displayed at h
    rw [h]
    split_ifs <;> simp [Event.is_display]

theorem queries_cons_query (e : Event) (t : List Event) (h : e.is_query = true) :
    queries (e :: t) = e :: queries t := by
  unfold queries
  rw [List.filter_cons_of_pos h]

theorem queries_cons_other (e : Event) (t : List Event) (h : e.is_query = false) :
    queries (e :: t) = queries t := by
  unfold queries
  rw [List.filter_cons_of_neg (by simp [h])]

theorem error_report_output (quiet_flag : Int) (text : String) :
    ∀ e ∈ error_report quiet_flag text, e.is_output = true :=
  output_ite _ _ _ (output_single _ rfl) output_nil

/-! ## The refresh protocol, kind by kind -/

theorem _print_config_fresh (E : Manager) (s : Session) (param : Option CStr)
    (new : slurm_ctl_conf_info_msg)
    (h : E.slurm_load_ctl_conf
      (since slurm_ctl_conf_info_msg.last_update s.old_slurm_ctl_conf_ptr) = .success new) :
    _print_config E s param = .ret { s with old_slurm_ctl_conf_ptr := some new }
      ([.slurm_load_ctl_conf
          (since slurm_ctl_conf_info_msg.last_update s.old_slurm_ctl_conf_ptr)]
        ++ release_of Event.slurm_free_ctl_conf s.old_slurm_ctl_conf_ptr
        ++ [.slurm_print_ctl_conf new]) := by
  obtain ⟨ef, qf, c1, c2, c3, c4, c5, lj, ls, li, ll, cn, iw, th⟩ := s
  cases c1 <;> simp only [since] at h <;> simp only [_print_config, since, release_of, h] <;> rfl

theorem _print_config_unchanged (E : Manager) (s : Session) (param : Option CStr)
    (old : slurm_ctl_conf_info_msg) (hc : s.old_slurm_ctl_conf_ptr = some old)
    (h : E.slurm_load_ctl_conf old.last_update = .error E.SLURM_NO_CHANGE_IN_DATA) :
    _print_config E s param = .ret s
      ([.slurm_load_ctl_conf old.last_update]
        ++ (if s.quiet_flag = -1 then
              [.stdout "slurm_load_ctl_conf no change in data\n".toList] else [])
        ++ [.slurm_print_ctl_conf old]) := by
  obtain ⟨ef, qf, c1, c2, c3, c4, c5, lj, ls, li, ll, cn, iw, th⟩ := s
  simp only at hc
  subst hc
  simp only [_print_config, h, if_true]

theorem _print_config_failed (E : Manager) (s : Session) (param : Option CStr) (errno : Int)
    (h : E.slurm_load_ctl_conf
      (since slurm_ctl_conf_info_msg.last_update s.old_slurm_ctl_conf_ptr) = .error errno)
    (hne : s.old_slurm_ctl_conf_ptr = none ∨ errno ≠ E.SLURM_NO_CHANGE_IN_DATA) :
    _print_config E s param = .ret s
      (.slurm_load_ctl_conf
          (since slurm_ctl_conf_info_msg.last_update s.old_slurm_ctl_conf_ptr)
        :: error_report s.quiet_flag "slurm_load_ctl_conf error") := by
  obtain ⟨ef, qf, c1, c2, c3, c4, c5, lj, ls, li, ll, cn, iw, th⟩ := s
  cases c1 with
  | none =>
    simp only [since] at h
    simp only [_print_config, since, h, error_report]
    rfl
  | some old =>
    have hne2 : errno ≠ E.SLURM_NO_CHANGE_IN_DATA := by
      rcases hne with h1 | h1
      · cases h1
      · exact h1
    simp only [since] at h
    simp only [_print_config, since, h, error_report, if_neg hne2]
    rfl

theorem _print_job_fresh (E : Manager) (s : Session) (param : Option CStr)
    (new : job_info_msg)
    (h : E.slurm_load_jobs (since job_info_msg.last_update s.old_job_buffer_ptr) = .success new) :
    _print_job E s param = .ret { s with old_job_buffer_ptr := some new }
      ([.slurm_load_jobs (since job_info_msg.last_update s.old_job_buffer_ptr)]
        ++ release_of Event.slurm_free_job_info_msg s.old_job_buffer_ptr
        ++ _print_job_display E s.quiet_flag param new) := by
  obtain ⟨ef, qf, c1, c2, c3, c4, c5, lj, ls, li, ll, cn, iw, th⟩ := s
  cases c2 <;> simp only [since] at h <;> simp only [_print_job, since, release_of, h] <;> rfl

theorem _print_job_unchanged (E : Manager) (s : Session) (param : Option CStr)
    (old : job_info_msg) (hc : s.old_job_buffer_ptr = some old)
    (h : E.slurm_load_jobs old.last_update = .error E.SLURM_NO_CHANGE_IN_DATA) :
    _print_job E s param = .ret s
      ([.slurm_load_jobs old.last_update]
        ++ (if s.quiet_flag = -1 then [.stdout "slurm_free_job_info no change in data\n".toList] else [])
        ++ _print_job_display E s.quiet_flag param old) := by
  obtain ⟨ef, qf, c1, c2, c3, c4, c5, lj, ls, li, ll, cn, iw, th⟩ := s
  simp only at hc
  subst hc
  simp only [_print_job, h, if_true]

theorem _print_job_failed (E : Manager) (s : Session) (param : Option CStr) (errno : Int)
    (h : E.slurm_load_jobs (since job_info_msg.last_update s.old_job_buffer_ptr) = .error errno)
    (hne : s.old_job_buffer_ptr = none ∨ errno ≠ E.SLURM_NO_CHANGE_IN_DATA) :
    _print_job E s param = .ret s
      (.slurm_load_jobs (since job_info_msg.last_update s.old_job_buffer_ptr)
        :: error_report s.quiet_flag "slurm_load_jobs error") := by
  obtain ⟨ef, qf, c1, c2, c3, c4, c5, lj, ls, li, ll, cn, iw, th⟩ := s
  cases c2 with
  | none =>
    simp only [since] at h
    simp only [_print_job, since, h, error_report]
    rfl
  | some old =>
    have hne2 : errno ≠ E.SLURM_NO_CHANGE_IN_DATA := by
      rcases hne with h1 | h1
      · cases h1
      · exact h1
    simp only [since] at h
    simp only [_print_job, since, h, error_report, if_neg hne2]
    rfl

theorem _print_part_fresh (E : Manager) (s : Session) (param : Option CStr)
    (new : partition_info_msg)
    (h : E.slurm_load_partitions (since partition_info_msg.last_update s.old_part_info_ptr) = .success new) :
    _print_part E s param = .ret { s with old_part_info_ptr := some new }
      ([.slurm_load_partitions (since partition_info_msg.last_update s.old_part_info_ptr)]
        ++ release_of Event.slurm_free_partition_info_msg s.old_part_info_ptr
        ++ _print_part_display s.quiet_flag param new) := by
  obtain ⟨ef, qf, c1, c2, c3, c4, c5, lj, ls, li, ll, cn, iw, th⟩ := s
  cases c4 <;> simp only [since] at h <;> simp only [_print_part, since, release_of, h] <;> rfl

theorem _print_part_unchanged (E : Manager) (s : Session) (param : Option CStr)
    (old : partition_info_msg) (hc : s.old_part_info_ptr = some old)
    (h : E.slurm_load_partitions old.last_update = .error E.SLURM_NO_CHANGE_IN_DATA) :
    _print_part E s param = .ret s
      ([.slurm_load_partitions old.last_update]
        ++ (if s.quiet_flag = -1 then [.stdout "slurm_load_part no change in data\n".toList] else [])
        ++ _print_part_display s.quiet_flag param old) := by
  obtain ⟨ef, qf, c1, c2, c3, c4, c5, lj, ls, li, ll, cn, iw, th⟩ := s
  simp only at hc
  subst hc
  simp only [_print_part, h, if_true]

theorem _print_part_failed (E : Manager) (s : Session) (param : Option CStr) (errno : Int)
    (h : E.slurm_load_partitions (since partition_info_msg.last_update s.old_part_info_ptr) = .error errno)
    (hne : s.old_part_info_ptr = none ∨ errno ≠ E.SLURM_NO_CHANGE_IN_DATA) :
    _print_part E s param = .ret s
      (.slurm_load_partitions (since partition_info_msg.last_update s.old_part_info_ptr)
        :: error_report s.quiet_flag "slurm_load_partitions error") := by
  obtain ⟨ef, qf, c1, c2, c3, c4, c5, lj, ls, li, ll, cn, iw, th⟩ := s
  cases c4 with
  | none =>
    simp only [since] at h
    simp only [_print_part, since, h, error_report]
    rfl
  | some old =>
    have hne2 : errno ≠ E.SLURM_NO_CHANGE_IN_DATA := by
      rcases hne with h1 | h1
      · cases h1
      · exact h1
    simp only [since] at h
    simp only [_print_part, since, h, error_report, if_neg hne2]
    rfl

theorem _print_node_list_fresh (E : Manager) (s : Session) (node_list : Option CStr)
    (new : node_info_msg)
    (h : E.slurm_load_node (since node_info_msg.last_update s.old_node_info_ptr)
      = .success new) :
    _print_node_list E s node_list = node_list_done s new
      ([.slurm_load_node (since node_info_msg.last_update s.old_node_info_ptr)]
        ++ release_of Event.slurm_free_node_info_msg s.old_node_info_ptr)
      (_print_node_list_display E s.quiet_flag s.last_inx node_list new) := by
  obtain ⟨ef, qf, c1, c2, c3, c4, c5, lj, ls, li, ll, cn, iw, th⟩ := s
  cases c3 <;> simp only [since] at h <;>
    simp only [_print_node_list, since, release_of, h] <;> rfl

theorem _print_node_list_unchanged (E : Manager) (s : Session) (node_list : Option CStr)
    (old : node_info_msg) (hc : s.old_node_info_ptr = some old)
    (h : E.slurm_load_node old.last_update = .error E.SLURM_NO_CHANGE_IN_DATA) :
    _print_node_list E s node_list = node_list_done s old
      ([.slurm_load_node old.last_update]
        ++ (if s.quiet_flag = -1 then
              [.stdout "slurm_free_job_info no change in data\n".toList] else []))
      (_print_node_list_display E s.quiet_flag s.last_inx node_list old) := by
  obtain ⟨ef, qf, c1, c2, c3, c4, c5, lj, ls, li, ll, cn, iw, th⟩ := s
  simp only at hc
  subst hc
  simp only [_print_node_list, h, if_true]

theorem _print_node_list_failed (E : Manager) (s : Session) (node_list : Option CStr)
    (errno : Int)
    (h : E.slurm_load_node (since node_info_msg.last_update s.old_node_info_ptr)
      = .error errno)
    (hne : s.old_node_info_ptr = none ∨ errno ≠ E.SLURM_NO_CHANGE_IN_DATA) :
    _print_node_list E s node_list = .ret s
      (.slurm_load_node (since node_info_msg.last_update s.old_node_info_ptr)
        :: error_report s.quiet_flag "slurm_load_node error") := by
  obtain ⟨ef, qf, c1, c2, c3, c4, c5, lj, ls, li, ll, cn, iw, th⟩ := s
  cases c3 with
  | none =>
    simp only [since] at h
    simp only [_print_node_list, since, h, error_report]
    rfl
  | some old =>
    have hne2 : errno ≠ E.SLURM_NO_CHANGE_IN_DATA := by
      rcases hne with h1 | h1
      · cases h1
      · exact h1
    simp only [since] at h
    simp only [_print_node_list, since, h, error_report, if_neg hne2]
    rfl

theorem not_query_of_output (e : Event) (h : e.is_output = true) : e.is_query = false := by
  cases e <;> first | rfl | cases h

theorem queries_one (e : Event) (rest : List Event) (he : e.is_query = true)
    (h : ∀ x ∈ rest, x.is_query = false) : queries (e :: rest) = [e] := by
  rw [queries_cons_query e rest he]
  unfold queries
  rw [List.filter_eq_nil_iff.mpr (fun x hx => by simp [h x hx])]

theorem not_query_release_of {α : Type} (free : α → Event) (cache : Option α)
    (hf : ∀ a, (free a).is_query = false) : ∀ x ∈ release_of free cache, x.is_query = false := by
  intro x hx
  cases cache with
  | none => cases hx
  | some old =>
    rw [List.mem_singleton.mp hx]
    exact hf old

theorem not_query_append (a b : List Event) (ha : ∀ x ∈ a, x.is_query = false)
    (hb : ∀ x ∈ b, x.is_query = false) : ∀ x ∈ a ++ b, x.is_query = false := by
  intro x hx
  rcases List.mem_append.mp hx with h | h
  · exact ha x h
  · exact hb x h

theorem not_query_outputs (l : List Event) (h : ∀ e ∈ l, e.is_output = true) :
    ∀ x ∈ l, x.is_query = false :=
  fun x hx => not_query_of_output x (h x hx)

/-- A refresh trace holds one query: the leading one. -/
theorem queries_refresh (e : Event) (mid shown : List Event) (he : e.is_query = true)
    (hmid : ∀ x ∈ mid, x.is_query = false) (hout : ∀ x ∈ shown, x.is_output = true) :
    queries ([e] ++ mid ++ shown) = [e] := by
  rw [List.append_assoc, List.singleton_append]
  exact queries_one e _ he (not_query_append _ _ hmid (not_query_outputs _ hout))

theorem _print_config_queries (E : Manager) (s : Session) (param : Option CStr) :
    ∃ s1 trace, _print_config E s param = .ret s1 trace
      ∧ queries trace = [.slurm_load_ctl_conf
          (since slurm_ctl_conf_info_msg.last_update s.old_slurm_ctl_conf_ptr)] := by
  cases hr : E.slurm_load_ctl_conf
      (since slurm_ctl_conf_info_msg.last_update s.old_slurm_ctl_conf_ptr) with
  | success new =>
    refine ⟨_, _, _print_config_fresh E s param new hr, ?_⟩
    apply queries_refresh
    · rfl
    · exact not_query_release_of _ _ (fun _ => by rfl)
    · exact (output_single _ (by rfl))
  | error errno =>
    by_cases hn : s.old_slurm_ctl_conf_ptr = none ∨ errno ≠ E.SLURM_NO_CHANGE_IN_DATA
    · refine ⟨_, _, _print_config_failed E s param errno hr hn, ?_⟩
      exact queries_one _ _ (by rfl) (not_query_outputs _ (error_report_output _ _))
    · have h1 : s.old_slurm_ctl_conf_ptr ≠ none := fun h => hn (Or.inl h)
      have h2 : errno = E.SLURM_NO_CHANGE_IN_DATA := by
        by_contra h; exact hn (Or.inr h)
      obtain ⟨old, hold⟩ := Option.ne_none_iff_exists'.mp h1
      rw [hold, h2] at hr
      refine ⟨_, _, _print_config_unchanged E s param old hold hr, ?_⟩
      rw [hold]
      apply queries_refresh
      · rfl
      · exact not_query_outputs _ (output_ite _ _ _ (output_single _ (by rfl)) output_nil)
      · exact (output_single _ (by rfl))

theorem _print_job_queries (E : Manager) (s : Session) (param : Option CStr) :
    ∃ s1 trace, _print_job E s param = .ret s1 trace
      ∧ queries trace
        = [.slurm_load_jobs (since job_info_msg.last_update s.old_job_buffer_ptr)] := by
  cases hr : E.slurm_load_jobs (since job_info_msg.last_update s.old_job_buffer_ptr) with
  | success new =>
    refine ⟨_, _, _print_job_fresh E s param new hr, ?_⟩
    apply queries_refresh
    · rfl
    · exact not_query_release_of _ _ (fun _ => by rfl)
    · exact (_print_job_display_spec E _ _ _).1
  | error errno =>
    by_cases hn : s.old_job_buffer_ptr = none ∨ errno ≠ E.SLURM_NO_CHANGE_IN_DATA
    · refine ⟨_, _, _print_job_failed E s param errno hr hn, ?_⟩
      exact queries_one _ _ (by rfl) (not_query_outputs _ (error_report_output _ _))
    · have h1 : s.old_job_buffer_ptr ≠ none := fun h => hn (Or.inl h)
      have h2 : errno = E.SLURM_NO_CHANGE_IN_DATA := by
        by_contra h; exact hn (Or.inr h)
      obtain ⟨old, hold⟩ := Option.ne_none_iff_exists'.mp h1
      rw [hold, h2] at hr
      refine ⟨_, _, _print_job_unchanged E s param old hold hr, ?_⟩
      rw [hold]
      apply queries_refresh
      · rfl
      · exact not_query_outputs _ (output_ite _ _ _ (output_single _ (by rfl)) output_nil)
      · exact (_print_job_display_spec E _ _ _).1

theorem _print_part_queries (E : Manager) (s : Session) (param : Option CStr) :
    ∃ s1 trace, _print_part E s param = .ret s1 trace
      ∧ queries trace
        = [.slurm_load_partitions
            (since partition_info_msg.last_update s.old_part_info_ptr)] := by
  cases hr : E.slurm_load_partitions
      (since partition_info_msg.last_update s.old_part_info_ptr) with
  | success new =>
    refine ⟨_, _, _print_part_fresh E s param new hr, ?_⟩
    apply queries_refresh
    · rfl
    · exact not_query_release_of _ _ (fun _ => by rfl)
    · exact (_print_part_display_spec _ _ _).1
  | error errno =>
    by_cases hn : s.old_part_info_ptr = none ∨ errno ≠ E.SLURM_NO_CHANGE_IN_DATA
    · refine ⟨_, _, _print_part_failed E s param errno hr hn, ?_⟩
      exact queries_one _ _ (by rfl) (not_query_outputs _ (error_report_output _ _))
    · have h1 : s.old_part_info_ptr ≠ none := fun h => hn (Or.inl h)
      have h2 : errno = E.SLURM_NO_CHANGE_IN_DATA := by
        by_contra h; exact hn (Or.inr h)
      obtain ⟨old, hold⟩ := Option.ne_none_iff_exists'.mp h1
      rw [hold, h2] at hr
      refine ⟨_, _, _print_part_unchanged E s param old hold hr, ?_⟩
      rw [hold]
      apply queries_refresh
      · rfl
      · exact not_query_outputs _ (output_ite _ _ _ (output_single _ (by rfl)) output_nil)
      · exact (_print_part_display_spec _ _ _).1

theorem _print_node_list_queries (E : Manager) (s : Session) (node_list : Option CStr) :
    ∃ s1 trace, _print_node_list E s node_list = .ret s1 trace
      ∧ queries trace
        = [.slurm_load_node (since node_info_msg.last_update s.old_node_info_ptr)] := by
  cases hr : E.slurm_load_node (since node_info_msg.last_update s.old_node_info_ptr) with
  | success new =>
    obtain ⟨inx, shown, hd, hout, _⟩ :=
      _print_node_list_display_ret E s.quiet_flag s.last_inx node_list new
    rw [_print_node_list_fresh E s node_list new hr, hd]
    refine ⟨_, _, rfl, ?_⟩
    apply queries_refresh
    · rfl
    · exact not_query_release_of _ _ (fun _ => by rfl)
    · exact hout
  | error errno =>
    by_cases hn : s.old_node_info_ptr = none ∨ errno ≠ E.SLURM_NO_CHANGE_IN_DATA
    · refine ⟨_, _, _print_node_list_failed E s node_list errno hr hn, ?_⟩
      exact queries_one _ _ (by rfl) (not_query_outputs _ (error_report_output _ _))
    · have h1 : s.old_node_info_ptr ≠ none := fun h => hn (Or.inl h)
      have h2 : errno = E.SLURM_NO_CHANGE_IN_DATA := by
        by_contra h; exact hn (Or.inr h)
      obtain ⟨old, hold⟩ := Option.ne_none_iff_exists'.mp h1
      rw [hold, h2] at hr
      obtain ⟨inx, shown, hd, hout, _⟩ :=
        _print_node_list_display_ret E s.quiet_flag s.last_inx node_list old
      rw [_print_node_list_unchanged E s node_list old hold hr, hd, hold]
      refine ⟨_, _, rfl, ?_⟩
      apply queries_refresh
      · rfl
      · exact not_query_outputs _ (output_ite _ _ _ (output_single _ (by rfl)) output_nil)
      · exact hout

/-! ## Delta refresh -/

/-- C8 (delta-refresh timestamp selection).  For the config, job, node and
partition kinds the show function issues exactly one manager query, with
since-timestamp 0 when no snapshot of the kind is cached and the cached
snapshot's `last_update` otherwise; when the manager returns fresh data the
cached snapshot (if any) is released, the new one becomes the cached one and
it is the one displayed: with no identifier every one of its records is
shown, in stored order. -/
theorem delta_refresh (E : Manager) (s : Session) (param : Option CStr) :
    ((∃ s1 trace, _print_config E s param = .ret s1 trace
        ∧ queries trace = [.slurm_load_ctl_conf
            (since slurm_ctl_conf_info_msg.last_update s.old_slurm_ctl_conf_ptr)])
      ∧ (∃ s1 trace, _print_job E s param = .ret s1 trace
        ∧ queries trace
          = [.slurm_load_jobs (since job_info_msg.last_update s.old_job_buffer_ptr)])
      ∧ (∃ s1 trace, _print_node_list E s param = .ret s1 trace
        ∧ queries trace
          = [.slurm_load_node (since node_info_msg.last_update s.old_node_info_ptr)])
      ∧ (∃ s1 trace, _print_part E s param = .ret s1 trace
        ∧ queries trace = [.slurm_load_partitions
            (since partition_info_msg.last_update s.old_part_info_ptr)]))
    ∧ (∀ new, E.slurm_load_ctl_conf
          (since slurm_ctl_conf_info_msg.last_update s.old_slurm_ctl_conf_ptr)
          = .success new →
        _print_config E s param = .ret { s with old_slurm_ctl_conf_ptr := some new }
          ([.slurm_load_ctl_conf
              (since slurm_ctl_conf_info_msg.last_update s.old_slurm_ctl_conf_ptr)]
            ++ release_of Event.slurm_free_ctl_conf s.old_slurm_ctl_conf_ptr
            ++ [.slurm_print_ctl_conf new]))
    ∧ (∀ new, E.slurm_load_jobs (since job_info_msg.last_update s.old_job_buffer_ptr)
          = .success new →
        _print_job E s param = .ret { s with old_job_buffer_ptr := some new }
          ([.slurm_load_jobs (since job_info_msg.last_update s.old_job_buffer_ptr)]
            ++ release_of Event.slurm_free_job_info_msg s.old_job_buffer_ptr
            ++ _print_job_display E s.quiet_flag param new)
        ∧ (param = none → displayed (_print_job_display E s.quiet_flag param new)
            = new.job_array.map Event.slurm_print_job_info))
    ∧ (∀ new, E.slurm_load_node (since node_info_msg.last_update s.old_node_info_ptr)
          = .success new →
        ∃ inx shown,
          _print_node_list_display E s.quiet_flag s.last_inx param new = .ret inx shown
          ∧ _print_node_list E s param
            = .ret { s with old_node_info_ptr := some new, last_inx := inx }
              ([.slurm_load_node (since node_info_msg.last_update s.old_node_info_ptr)]
                ++ release_of Event.slurm_free_node_info_msg s.old_node_info_ptr ++ shown)
          ∧ (param = none →
              displayed shown = new.node_array.map Event.slurm_print_node_table))
    ∧ (∀ new, E.slurm_load_partitions
          (since partition_info_msg.last_update s.old_part_info_ptr) = .success new →
        _print_part E s param = .ret { s with old_part_info_ptr := some new }
          ([.slurm_load_partitions
              (since partition_info_msg.last_update s.old_part_info_ptr)]
            ++ release_of Event.slurm_free_partition_info_msg s.old_part_info_ptr
            ++ _print_part_display s.quiet_flag param new)
        ∧ (param = none → displayed (_print_part_display s.quiet_flag param new)
            = new.partition_array.map Event.slurm_print_partition_info)) := by
  refine ⟨⟨_print_config_queries E s param, _print_job_queries E s param,
    _print_node_list_queries E s param, _print_part_queries E s param⟩,
    fun new h => _print_config_fresh E s param new h,
    fun new h => ⟨_print_job_fresh E s param new h, (_print_job_display_spec E _ _ _).2⟩,
    fun new h => ?_,
    fun new h => ⟨_print_part_fresh E s param new h, (_print_part_display_spec _ _ _).2⟩⟩
  obtain ⟨inx, shown, hd, _, hall⟩ :=
    _print_node_list_display_ret E s.quiet_flag s.last_inx param new
  refine ⟨inx, shown, hd, ?_, fun hn => (hall hn).2⟩
  rw [_print_node_list_fresh E s param new h, hd]
  rfl

/-- C8 at concrete sessions: with nothing cached `show jobs` queries since 0
and installs the snapshot it gets; with a node snapshot of time 50 cached,
`show nodes` queries since 50. -/
theorem delta_refresh_witness :
    _print_job sample Session.init none
      = .ret { Session.init with
          old_job_buffer_ptr := some ⟨2, 100, [⟨42, "a".toList⟩, ⟨43, "b".toList⟩]⟩ }
        ([.slurm_load_jobs (since job_info_msg.last_update Session.init.old_job_buffer_ptr)]
          ++ release_of Event.slurm_free_job_info_msg Session.init.old_job_buffer_ptr
          ++ _print_job_display sample Session.init.quiet_flag none
              ⟨2, 100, [⟨42, "a".toList⟩, ⟨43, "b".toList⟩]⟩)
    ∧ ∃ s1 trace, _print_node_list sample sample_cached none = .ret s1 trace
        ∧ queries trace = [.slurm_load_node
            (since node_info_msg.last_update sample_cached.old_node_info_ptr)] :=
  ⟨((delta_refresh sample Session.init none).2.2.1
      ⟨2, 100, [⟨42, "a".toList⟩, ⟨43, "b".toList⟩]⟩ rfl).1,
   (delta_refresh sample sample_cached none).1.2.2.1⟩

/-! ## Idempotent refresh -/

theorem node_list_done_cached (s : Session) (old : node_info_msg)
    (hc : s.old_node_info_ptr = some old) (before : List Event) (inx : Nat)
    (shown : List Event) :
    node_list_done s old before (.ret inx shown)
      = .ret { s with last_inx := inx } (before ++ shown) := by
  obtain ⟨ef, qf, c1, c2, c3, c4, c5, lj, ls, li, ll, cn, iw, th⟩ := s
  simp only at hc
  subst hc
  rfl

theorem releases_unchanged (e : Event) (note shown : List Event) (he : e.is_release = false)
    (hnote : ∀ x ∈ note, x.is_output = true) (hout : ∀ x ∈ shown, x.is_output = true) :
    releases ([e] ++ note ++ shown) = [] := by
  rw [List.append_assoc, List.singleton_append]
  unfold releases
  rw [List.filter_cons_of_neg (by simp [he])]
  exact releases_of_output _ (output_append _ _ hnote hout)

/-- C9 (idempotent refresh).  When a node snapshot is cached and the manager
answers "no change in data", `_print_node_list` treats the refresh as success:
it releases nothing, keeps the cached snapshot as it is and displays it.  So
`show nodes` shows every record of the cached snapshot and leaves the whole
session state as it was before the command, and repeating it gives the same
display and the same state again.  The config, job and partition kinds retain
and display their cached snapshot in the same way. -/
theorem idempotent_refresh (E : Manager) (s : Session) (param : Option CStr) :
    (∀ old, s.old_node_info_ptr = some old →
      E.slurm_load_node old.last_update = .error E.SLURM_NO_CHANGE_IN_DATA →
      (∃ inx shown,
        _print_node_list_display E s.quiet_flag s.last_inx param old = .ret inx shown
        ∧ _print_node_list E s param = .ret { s with last_inx := inx }
            ([.slurm_load_node old.last_update]
              ++ (if s.quiet_flag = -1 then
                    [.stdout "slurm_free_job_info no change in data\n".toList] else [])
              ++ shown)
        ∧ releases ([.slurm_load_node old.last_update]
              ++ (if s.quiet_flag = -1 then
                    [.stdout "slurm_free_job_info no change in data\n".toList] else [])
              ++ shown) = [])
      ∧ (∃ trace, _print_node_list E s none = .ret s trace
          ∧ displayed trace = old.node_array.map Event.slurm_print_node_table
          ∧ releases trace = [])
      ∧ (∀ s1 trace, _print_node_list E s none = .ret s1 trace →
          _print_node_list E s1 none = .ret s1 trace))
    ∧ (∀ old, s.old_slurm_ctl_conf_ptr = some old →
      E.slurm_load_ctl_conf old.last_update = .error E.SLURM_NO_CHANGE_IN_DATA →
      _print_config E s param = .ret s
        ([.slurm_load_ctl_conf old.last_update]
          ++ (if s.quiet_flag = -1 then
                [.stdout "slurm_load_ctl_conf no change in data\n".toList] else [])
          ++ [.slurm_print_ctl_conf old]))
    ∧ (∀ old, s.old_job_buffer_ptr = some old →
      E.slurm_load_jobs old.last_update = .error E.SLURM_NO_CHANGE_IN_DATA →
      _print_job E s param = .ret s
        ([.slurm_load_jobs old.last_update]
          ++ (if s.quiet_flag = -1 then
                [.stdout "slurm_free_job_info no change in data\n".toList] else [])
          ++ _print_job_display E s.quiet_flag param old))
    ∧ (∀ old, s.old_part_info_ptr = some old →
      E.slurm_load_partitions old.last_update = .error E.SLURM_NO_CHANGE_IN_DATA →
      _print_part E s param = .ret s
        ([.slurm_load_partitions old.last_update]
          ++ (if s.quiet_flag = -1 then
                [.stdout "slurm_load_part no change in data\n".toList] else [])
          ++ _print_part_display s.quiet_flag param old)) := by
  refine ⟨fun old hc h => ?_, fun old hc h => _print_config_unchanged E s param old hc h,
    fun old hc h => _print_job_unchanged E s param old hc h,
    fun old hc h => _print_part_unchanged E s param old hc h⟩
  have hnote : ∀ x ∈ (if s.quiet_flag = -1 then
      [Event.stdout "slurm_free_job_info no change in data\n".toList] else []),
      x.is_output = true := output_ite _ _ _ (output_single _ (by rfl)) output_nil
  have hall : ∃ trace, _print_node_list E s none = .ret s trace
      ∧ displayed trace = old.node_array.map Event.slurm_print_node_table
      ∧ releases trace = [] := by
    obtain ⟨inx, shown, hd, hout, hnone⟩ :=
      _print_node_list_display_ret E s.quiet_flag s.last_inx none old
    obtain ⟨hinx, hshown⟩ := hnone rfl
    rw [_print_node_list_unchanged E s none old hc h, hd, node_list_done_cached s old hc, hinx]
    refine ⟨_, rfl, ?_, ?_⟩
    · unfold displayed at hshown ⊢
      rw [List.filter_append, hshown]
      split_ifs <;> simp [Event.is_display]
    · exact releases_unchanged _ _ _ (by rfl) hnote hout
  refine ⟨?_, hall, fun s1 trace h1 => ?_⟩
  · obtain ⟨inx, shown, hd, hout, _⟩ :=
      _print_node_list_display_ret E s.quiet_flag s.last_inx param old
    refine ⟨inx, shown, hd, ?_, releases_unchanged _ _ _ (by rfl) hnote hout⟩
    rw [_print_node_list_unchanged E s param old hc h, hd, node_list_done_cached s old hc]
  · obtain ⟨trace0, h0, _, _⟩ := hall
    rw [h0] at h1
    injection h1 with hs ht
    subst hs; subst ht
    exact h0

/-- C9 at a concrete session: with the two-node snapshot cached and a
manager that has nothing new, `show nodes` prints both records and returns
the session unchanged. -/
theorem idempotent_refresh_witness :
    ∃ trace, _print_node_list sample_unchanged sample_cached none = .ret sample_cached trace
      ∧ displayed trace
        = [Event.slurm_print_node_table ⟨"n0".toList, 2⟩,
           Event.slurm_print_node_table ⟨"n1".toList, 2⟩]
      ∧ releases trace = [] :=
  ((idempotent_refresh sample_unchanged sample_cached none).1
    ⟨13, 50, [⟨"n0".toList, 2⟩, ⟨"n1".toList, 2⟩]⟩ rfl rfl).2.1

/-! ## Refresh failure -/

theorem failed_trace_quiet (e : Event) (quiet_flag : Int) (text : String)
    (he : e.is_query = true) :
    displayed (e :: error_report quiet_flag text) = []
    ∧ releases (e :: error_report quiet_flag text) = [] := by
  unfold error_report
  by_cases hq : quiet_flag ≠ 1
  · rw [if_pos hq]
    cases e <;> first | exact ⟨rfl, rfl⟩ | cases he
  · rw [if_neg hq]
    cases e <;> first | exact ⟨rfl, rfl⟩ | cases he

/-- C10 (refresh failure is atomic).  For the config, job, node and partition
kinds, when the manager query fails with an error other than "no change in
data", the show function displays no record, returns the session exactly as
it was (the cached snapshot, if any, is the one cached before and has not
been released; with none cached, none is cached afterwards) and reports the
error with one `slurm_perror` line unless quiet mode is set. -/
theorem refresh_failure_atomic (E : Manager) (s : Session) (param : Option CStr)
    (errno : Int) (hne : errno ≠ E.SLURM_NO_CHANGE_IN_DATA) :
    (E.slurm_load_ctl_conf
        (since slurm_ctl_conf_info_msg.last_update s.old_slurm_ctl_conf_ptr)
        = .error errno →
      ∃ trace, _print_config E s param = .ret s trace
        ∧ trace = .slurm_load_ctl_conf
              (since slurm_ctl_conf_info_msg.last_update s.old_slurm_ctl_conf_ptr)
            :: (if s.quiet_flag ≠ 1 then
                  [.slurm_perror "slurm_load_ctl_conf error".toList] else [])
        ∧ displayed trace = [] ∧ releases trace = [])
    ∧ (E.slurm_load_jobs (since job_info_msg.last_update s.old_job_buffer_ptr)
        = .error errno →
      ∃ trace, _print_job E s param = .ret s trace
        ∧ trace = .slurm_load_jobs (since job_info_msg.last_update s.old_job_buffer_ptr)
            :: (if s.quiet_flag ≠ 1 then [.slurm_perror "slurm_load_jobs error".toList]
                else [])
        ∧ displayed trace = [] ∧ releases trace = [])
    ∧ (E.slurm_load_node (since node_info_msg.last_update s.old_node_info_ptr)
        = .error errno →
      ∃ trace, _print_node_list E s param = .ret s trace
        ∧ trace = .slurm_load_node (since node_info_msg.last_update s.old_node_info_ptr)
            :: (if s.quiet_flag ≠ 1 then [.slurm_perror "slurm_load_node error".toList]
                else [])
        ∧ displayed trace = [] ∧ releases trace = [])
    ∧ (E.slurm_load_partitions (since partition_info_msg.last_update s.old_part_info_ptr)
        = .error errno →
      ∃ trace, _print_part E s param = .ret s trace
        ∧ trace = .slurm_load_partitions
              (since partition_info_msg.last_update s.old_part_info_ptr)
            :: (if s.quiet_flag ≠ 1 then
                  [.slurm_perror "slurm_load_partitions error".toList] else [])
        ∧ displayed trace = [] ∧ releases trace = []) := by
  refine ⟨fun h => ⟨_, _print_config_failed E s param errno h (Or.inr hne), rfl, ?_⟩,
    fun h => ⟨_, _print_job_failed E s param errno h (Or.inr hne), rfl, ?_⟩,
    fun h => ⟨_, _print_node_list_failed E s param errno h (Or.inr hne), rfl, ?_⟩,
    fun h => ⟨_, _print_part_failed E s param errno h (Or.inr hne), rfl, ?_⟩⟩
  · exact failed_trace_quiet _ _ _ (by rfl)
  · exact failed_trace_quiet _ _ _ (by rfl)
  · exact failed_trace_quiet _ _ _ (by rfl)
  · exact failed_trace_quiet _ _ _ (by rfl)

/-- C10 at concrete sessions: with the manager out of reach, `show jobs`
keeps the cached job snapshot and prints the error, and `show partitions` in
a fresh session leaves the session fresh. -/
theorem refresh_failure_atomic_witness :
    (∃ trace, _print_job sample_down sample_cached none = .ret sample_cached trace
      ∧ trace = .slurm_load_jobs
            (since job_info_msg.last_update sample_cached.old_job_buffer_ptr)
          :: (if sample_cached.quiet_flag ≠ 1 then
                [.slurm_perror "slurm_load_jobs error".toList] else [])
      ∧ displayed trace = [] ∧ releases trace = [])
    ∧ (∃ trace, _print_part sample_down Session.init none = .ret Session.init trace
      ∧ trace = .slurm_load_partitions
            (since partition_info_msg.last_update Session.init.old_part_info_ptr)
          :: (if Session.init.quiet_flag ≠ 1 then
                [.slurm_perror "slurm_load_partitions error".toList] else [])
      ∧ displayed trace = [] ∧ releases trace = []) :=
  ⟨(refresh_failure_atomic sample_down sample_cached none 111 (by decide)).2.1 rfl,
   (refresh_failure_atomic sample_down Session.init none 111 (by decide)).2.2.2 rfl⟩

/-! ## The rotating node lookup -/

/-- The loop of `_print_node` with a name given, started within the array:
it stops at the first probed index whose record has the name, prints that
record and returns the index; with no such index it prints nothing and
returns the cursor it was given. -/
theorem _print_node_loop_lookup (X : CStr) (node_array : List node_info)
    (fuel j c : Nat) (h : j + fuel = node_array.length) :
    _print_node_loop (some X) node_array fuel j c
      = .ret
          ((((List.range' j fuel).map (fun k => (c + k) % node_array.length)).find?
            (named X node_array)).getD c)
          (((((List.range' j fuel).map (fun k => (c + k) % node_array.length)).find?
            (named X node_array)).bind (fun i => node_array[i]?)).toList.map
              Event.slurm_print_node_table) := by
  induction fuel generalizing j with
  | zero => rfl
  | succ n ih =>
    have hi : (j + c) % node_array.length < node_array.length :=
      Nat.mod_lt _ (by omega)
    have hl : List.range' j (n + 1) = j :: List.range' (j + 1) n := rfl
    unfold _print_node_loop
    simp only [List.getElem?_eq_getElem hi]
    rw [hl, List.map_cons, List.find?_cons, Nat.add_comm c j]
    by_cases hc : strcmp X (node_array[(j + c) % node_array.length]).name ≠ 0
    · have hn : named X node_array ((j + c) % node_array.length) = false := by
        unfold named
        rw [List.getElem?_eq_getElem hi]
        simp only [Option.map_some', Option.some.injEq, decide_eq_false_iff_not]
        intro heq
        exact hc ((strcmp_eq_zero_iff _ _).mpr heq.symm)
      rw [if_pos hc, hn]
      exact ih (j + 1) (by omega)
    · have hn : named X node_array ((j + c) % node_array.length) = true := by
        unfold named
        rw [List.getElem?_eq_getElem hi]
        simp only [Option.map_some', Option.some.injEq, decide_eq_true_eq]
        have := (strcmp_eq_zero_iff _ _).mp (not_not.mp hc)
        exact this.symm
      rw [if_neg hc, hn]
      simp only [Option.getD_some, Option.some_bind, List.getElem?_eq_getElem hi,
        Option.toList_some, List.map_cons, List.map_nil]

theorem first_probe_match_eq (node_array : List node_info) (c : Nat) (X : CStr) :
    first_probe_match node_array c X
      = ((List.range' 0 node_array.length).map
          (fun k => (c + k) % node_array.length)).find? (named X node_array) := by
  unfold first_probe_match probe_order
  rw [List.range_eq_range']

/-- What a match of the lookup says: the index is within the array and the
record there is named `X`. -/
theorem first_probe_match_some (node_array : List node_info) (c : Nat) (X : CStr) (i : Nat)
    (h : first_probe_match node_array c X = some i) :
    ∃ r, node_array[i]? = some r ∧ r.name = X := by
  have hp := List.find?_some h
  unfold named at hp
  have hp2 := of_decide_eq_true hp
  cases hr : node_array[i]? with
  | none => rw [hr] at hp2; cases hp2
  | some r =>
    rw [hr] at hp2
    exact ⟨r, rfl, by simpa using hp2⟩

/-- The source function `_print_node` with a name given. -/
theorem _print_node_lookup (quiet_flag : Int) (c : Nat) (X : CStr) (msg : node_info_msg) :
    (∀ i, first_probe_match msg.node_array c X = some i →
      ∃ r, msg.node_array[i]? = some r ∧ r.name = X
        ∧ _print_node quiet_flag c (some X) msg = .ret i [.slurm_print_node_table r])
    ∧ (first_probe_match msg.node_array c X = none →
      _print_node quiet_flag c (some X) msg = .ret c
        (if quiet_flag ≠ 1 then
          (if msg.node_array.length ≠ 0 then
            [.stdout ("Node ".toList ++ X ++ " not found\n".toList)]
           else [.stdout "No nodes in the system\n".toList])
         else [])) := by
  have hloop := _print_node_loop_lookup X msg.node_array msg.node_array.length 0 c (by omega)
  rw [← first_probe_match_eq] at hloop
  constructor
  · intro i hi
    obtain ⟨r, hr, hname⟩ := first_probe_match_some _ _ _ _ hi
    refine ⟨r, hr, hname, ?_⟩
    unfold _print_node
    rw [hloop, hi]
    simp [hr, node_print_cnt]
  · intro hnone
    unfold _print_node
    rw [hloop, hnone]
    by_cases hq : quiet_flag ≠ 1
    · simp [node_print_cnt, hq]
    · simp [node_print_cnt, hq]

/-- Every index of the array is probed. -/
theorem mem_probe_order (n c i : Nat) (hi : i < n) : i ∈ probe_order n c := by
  unfold probe_order
  rw [List.mem_map]
  refine ⟨(i + (n - c % n)) % n, List.mem_range.mpr (Nat.mod_lt _ (by omega)), ?_⟩
  have hc : c % n < n := Nat.mod_lt _ (by omega)
  rw [Nat.add_mod, Nat.mod_mod, ← Nat.add_mod]
  have h2 : c + (i + (n - c % n)) = n * (c / n) + (i + n) := by
    have := Nat.div_add_mod c n
    omega
  rw [h2, Nat.mul_add_mod, Nat.add_mod_right, Nat.mod_eq_of_lt hi]

/-- The lookup finds a match exactly when some record has the name. -/
theorem first_probe_match_iff (node_array : List node_info) (c : Nat) (X : CStr) :
    (∃ r ∈ node_array, r.name = X) ↔ ∃ i, first_probe_match node_array c X = some i := by
  constructor
  · rintro ⟨r, hr, hname⟩
    obtain ⟨i, hi, hget⟩ := List.getElem_of_mem hr
    have hsome : (first_probe_match node_array c X).isSome = true := by
      unfold first_probe_match
      rw [List.find?_isSome]
      refine ⟨i, mem_probe_order _ _ _ hi, ?_⟩
      unfold named
      rw [List.getElem?_eq_getElem hi, hget]
      simp [hname]
    exact Option.isSome_iff_exists.mp hsome
  · rintro ⟨i, hi⟩
    obtain ⟨r, hr, hname⟩ := first_probe_match_some _ _ _ _ hi
    exact ⟨r, List.getElem?_mem hr, hname⟩

/-- C12 (rotating node lookup).  For every node snapshot, every cursor `c`
and every name `X`, `_print_node` probes the indices `(c + j) mod n`,
`j = 0, ..., n - 1`, in that order: when some record is named exactly `X` it
prints exactly one record, the one at the first probed index whose name is
`X`, and returns that index as the new cursor; when no record is named `X`
it prints no record and returns the cursor unchanged. -/
theorem rotating_node_lookup (quiet_flag : Int) (c : Nat) (X : CStr) (msg : node_info_msg) :
    (∀ i, first_probe_match msg.node_array c X = some i →
      ∃ r, msg.node_array[i]? = some r ∧ r.name = X
        ∧ _print_node quiet_flag c (some X) msg = .ret i [.slurm_print_node_table r])
    ∧ ((∃ r ∈ msg.node_array, r.name = X) →
        ∃ i, first_probe_match msg.node_array c X = some i)
    ∧ ((¬ ∃ r ∈ msg.node_array, r.name = X) →
        ∃ trace, _print_node quiet_flag c (some X) msg = .ret c trace
          ∧ displayed trace = []) := by
  refine ⟨(_print_node_lookup quiet_flag c X msg).1,
    (first_probe_match_iff msg.node_array c X).mp, fun hno => ?_⟩
  have hnone : first_probe_match msg.node_array c X = none := by
    cases hf : first_probe_match msg.node_array c X with
    | none => rfl
    | some i => exact absurd ((first_probe_match_iff msg.node_array c X).mpr ⟨i, hf⟩) hno
  refine ⟨_, (_print_node_lookup quiet_flag c X msg).2 hnone, ?_⟩
  split_ifs <;> rfl

/-- C12 at a concrete lookup: from cursor 4 in the five-node snapshot the
probes are 4, 0, 1, ..., and `n1` is found at index 1. -/
theorem rotating_node_lookup_witness :
    probe_order 5 4 = [4, 0, 1, 2, 3]
    ∧ ∃ r, sample_nodes.node_array[1]? = some r ∧ r.name = "n1".toList
        ∧ _print_node 0 4 (some "n1".toList) sample_nodes
          = .ret 1 [.slurm_print_node_table r] :=
  ⟨by decide, (rotating_node_lookup 0 4 "n1".toList sample_nodes).1 1 (by decide)⟩

/-- C14 (rotation fairness, cursor fixpoint).  After a lookup of `X` that
printed a record, the cursor is the index of that record; a lookup of `X`
repeated from there probes that index first, prints the same record and
leaves the cursor where it is. -/
theorem cursor_fixpoint (quiet_flag : Int) (c : Nat) (X : CStr) (msg : node_info_msg)
    (i : Nat) (trace : List Event)
    (h : _print_node quiet_flag c (some X) msg = .ret i trace)
    (hs : displayed trace ≠ []) :
    (∃ r, msg.node_array[i]? = some r ∧ r.name = X
      ∧ trace = [.slurm_print_node_table r])
    ∧ (probe_order msg.node_array.length i).head? = some i
    ∧ first_probe_match msg.node_array i X = some i
    ∧ _print_node quiet_flag i (some X) msg = .ret i trace := by
  obtain ⟨hsome, hnone⟩ := _print_node_lookup quiet_flag c X msg
  cases hf : first_probe_match msg.node_array c X with
  | none =>
    rw [hnone hf] at h
    injection h with _ ht
    exfalso
    apply hs
    rw [← ht]
    split_ifs <;> rfl
  | some i0 =>
    obtain ⟨r, hr, hname, hrun⟩ := hsome i0 hf
    rw [hrun] at h
    injection h with hi ht
    subst hi; subst ht
    have hlt : i0 < msg.node_array.length := by
      rcases Nat.lt_or_ge i0 msg.node_array.length with h1 | h1
      · exact h1
      · rw [List.getElem?_eq_none h1] at hr; cases hr
    obtain ⟨m, hm⟩ : ∃ m, msg.node_array.length = m + 1 := ⟨msg.node_array.length - 1, by omega⟩
    have hprobe : probe_order msg.node_array.length i0
        = i0 :: (List.range' 1 m).map (fun j => (i0 + j) % msg.node_array.length) := by
      unfold probe_order
      rw [List.range_eq_range', hm]
      show (i0 + 0) % (m + 1) :: _ = _
      rw [Nat.add_zero, Nat.mod_eq_of_lt (by omega)]
    have hnamed : named X msg.node_array i0 = true := by
      unfold named
      rw [hr]
      simp [hname]
    have hfix : first_probe_match msg.node_array i0 X = some i0 := by
      unfold first_probe_match
      rw [hprobe, List.find?_cons, hnamed]
    refine ⟨⟨r, hr, hname, rfl⟩, by rw [hprobe]; rfl, hfix, ?_⟩
    obtain ⟨r1, hr1, _, hrun1⟩ := (_print_node_lookup quiet_flag i0 X msg).1 i0 hfix
    rw [hr] at hr1
    injection hr1 with hr1
    subst hr1
    exact hrun1

/-- C14 at the five-node snapshot whose 4th entry is `n3`: the first lookup
of `n3` leaves the cursor at 3, and the second one keeps it there. -/
theorem cursor_fixpoint_witness :
    _print_node 0 0 (some "n3".toList) sample_nodes
      = .ret 3 [.slurm_print_node_table ⟨"n3".toList, 2⟩]
    ∧ _print_node 0 3 (some "n3".toList) sample_nodes
      = .ret 3 [.slurm_print_node_table ⟨"n3".toList, 2⟩] :=
  ⟨by decide,
   (cursor_fixpoint 0 0 "n3".toList sample_nodes 3 [.slurm_print_node_table ⟨"n3".toList, 2⟩]
      (by decide) (by decide)).2.2.2⟩


/-! ## Printing a whole snapshot -/

theorem _print_job_last_inx (E : Manager) (s : Session) (param : Option CStr) :
    ∃ s1 trace, _print_job E s param = .ret s1 trace ∧ s1.last_inx = s.last_inx := by
  unfold _print_job
  repeat' split
  all_goals exact ⟨_, _, rfl, rfl⟩

theorem _print_part_last_inx (E : Manager) (s : Session) (param : Option CStr) :
    ∃ s1 trace, _print_part E s param = .ret s1 trace ∧ s1.last_inx = s.last_inx := by
  unfold _print_part
  repeat' split
  all_goals exact ⟨_, _, rfl, rfl⟩

theorem node_list_done_last_inx (s : Session) (msg : node_info_msg) (before shown : List Event) :
    ∃ s1 trace, node_list_done s msg before (.ret s.last_inx shown) = .ret s1 trace
      ∧ s1.last_inx = s.last_inx :=
  ⟨_, _, rfl, rfl⟩

theorem _print_node_list_last_inx (E : Manager) (s : Session) :
    ∃ s1 trace, _print_node_list E s none = .ret s1 trace ∧ s1.last_inx = s.last_inx := by
  have hd : ∀ msg before, ∃ s1 trace,
      node_list_done s msg before
        (_print_node_list_display E s.quiet_flag s.last_inx none msg) = .ret s1 trace
      ∧ s1.last_inx = s.last_inx := by
    intro msg before
    obtain ⟨inx, shown, h, _, hall⟩ :=
      _print_node_list_display_ret E s.quiet_flag s.last_inx none msg
    rw [(hall rfl).1] at h
    rw [h]
    exact node_list_done_last_inx _ _ _ _
  unfold _print_node_list
  repeat' split
  all_goals first
    | exact ⟨_, _, rfl, rfl⟩
    | exact hd _ _

/-- C15 (print-all order).  For the node, job and partition kinds, the
display with no identifier shows every record of the snapshot exactly once,
in stored order, whatever the node rotation cursor `c` is; the cursor comes
back unchanged, and none of the three show commands changes it when run with
no identifier. -/
theorem print_all_order (E : Manager) (s : Session) (quiet_flag : Int) (c : Nat) :
    (∀ msg : node_info_msg, ∃ shown,
        _print_node_list_display E quiet_flag c none msg = .ret c shown
        ∧ displayed shown = msg.node_array.map Event.slurm_print_node_table)
    ∧ (∀ msg : job_info_msg, displayed (_print_job_display E quiet_flag none msg)
        = msg.job_array.map Event.slurm_print_job_info)
    ∧ (∀ msg : partition_info_msg, displayed (_print_part_display quiet_flag none msg)
        = msg.partition_array.map Event.slurm_print_partition_info)
    ∧ (∃ s1 trace, _print_node_list E s none = .ret s1 trace ∧ s1.last_inx = s.last_inx)
    ∧ (∃ s1 trace, _print_job E s none = .ret s1 trace ∧ s1.last_inx = s.last_inx)
    ∧ (∃ s1 trace, _print_part E s none = .ret s1 trace ∧ s1.last_inx = s.last_inx) := by
  refine ⟨fun msg => ?_, fun msg => (_print_job_display_spec E quiet_flag none msg).2 rfl,
    fun msg => (_print_part_display_spec quiet_flag none msg).2 rfl,
    _print_node_list_last_inx E s, _print_job_last_inx E s none, _print_part_last_inx E s none⟩
  obtain ⟨inx, shown, h, _, hall⟩ := _print_node_list_display_ret E quiet_flag c none msg
  rw [(hall rfl).1] at h
  exact ⟨shown, h, (hall rfl).2⟩


/-! ## Empty snapshot against missing record -/

theorem _print_job_loop_lookup (str : CStr) (job_id : Nat) (l : List job_info) :
    _print_job_loop (some str) job_id l
      = (l.find? (fun r => decide (r.job_id = job_id))).toList.map Event.slurm_print_job_info := by
  induction l with
  | nil => rfl
  | cons r rest ih =>
    unfold _print_job_loop
    by_cases h : r.job_id = job_id
    · have h1 : ¬ ((some str).isSome = true ∧ job_id ≠ r.job_id) := fun hc => hc.2 h.symm
      rw [if_neg h1, if_pos (by rfl), List.find?_cons_of_pos _ (by simp [h])]
      rfl
    · have h1 : (some str).isSome = true ∧ job_id ≠ r.job_id := ⟨rfl, fun hc => h hc.symm⟩
      rw [if_pos h1, ih, List.find?_cons_of_neg _ (by simp [h])]

theorem _print_part_loop_lookup (X : CStr) (l : List partition_info) :
    _print_part_loop (some X) l
      = (l.find? (fun r => decide (r.name = X))).toList.map
          Event.slurm_print_partition_info := by
  induction l with
  | nil => rfl
  | cons r rest ih =>
    unfold _print_part_loop
    by_cases h : r.name = X
    · have h1 : ¬ strcmp X r.name ≠ 0 := fun hc => hc ((strcmp_eq_zero_iff _ _).mpr h.symm)
      simp only [if_neg h1]
      rw [List.find?_cons_of_pos _ (by simp [h])]
      rfl
    · have h1 : strcmp X r.name ≠ 0 := fun hc => h ((strcmp_eq_zero_iff _ _).mp hc).symm
      simp only [if_pos h1]
      rw [ih, List.find?_cons_of_neg _ (by simp [h])]

theorem node_messages_ne (X : CStr) :
    "Node ".toList ++ X ++ " not found\n".toList ≠ "No nodes in the system\n".toList := by
  intro h
  have h1 : "Nod".toList = "No ".toList := congrArg (List.take 3) h
  exact absurd h1 (by decide)

theorem job_messages_ne (X : CStr) :
    "Job ".toList ++ X ++ " not found\n".toList ≠ "No jobs in the system\n".toList := by
  intro h
  have h1 : "J".toList = "N".toList := congrArg (List.take 1) h
  exact absurd h1 (by decide)

theorem part_messages_ne (X : CStr) :
    "Partition ".toList ++ X ++ " not found\n".toList
      ≠ "No partitions in the system\n".toList := by
  intro h
  have h1 : "P".toList = "N".toList := congrArg (List.take 1) h
  exact absurd h1 (by decide)

/-- The two reports of a lookup that printed nothing: in a trace made of a
verbose header, at most one printed record and the report chosen by the
source, the "none in the system" text `none_text` appears exactly when the
array is empty and the "not found" text `missing_text` exactly when it is not
and nothing matched. -/
theorem report_mem {α : Type} (quiet_flag : Int) (hq : quiet_flag ≠ 1)
    (head : List Event) (found : Option α) (print : α → Event) (n : Nat)
    (missing_text none_text : CStr) (hne : missing_text ≠ none_text)
    (hhead : ∀ e ∈ head, ∀ t, e ≠ .stdout t) (hprint : ∀ a t, print a ≠ .stdout t)
    (printed : List Event) (hp : printed = found.toList.map print) (cnt : Nat)
    (hcnt : cnt = 0 ↔ printed = []) :
    let trace := head ++ printed ++
      (if cnt = 0 ∧ quiet_flag ≠ 1 then
        (if n ≠ 0 then [Event.stdout missing_text] else [Event.stdout none_text])
       else [])
    (Event.stdout none_text ∈ trace ↔ found = none ∧ n = 0)
    ∧ (Event.stdout missing_text ∈ trace ↔ found = none ∧ n ≠ 0) := by
  intro trace
  have hnh : ∀ t, Event.stdout t ∉ head := fun t hm => hhead _ hm t rfl
  cases found with
  | some a =>
    have hpr : printed = [print a] := hp
    have hc : ¬ (cnt = 0 ∧ quiet_flag ≠ 1) := fun hc => by
      have := hcnt.mp hc.1
      rw [hpr] at this
      cases this
    have ht : trace = head ++ [print a] ++ [] := by
      show head ++ printed ++ _ = _
      rw [if_neg hc, hpr]
    have hno : ∀ t, Event.stdout t ∉ trace := by
      intro t hm
      rw [ht] at hm
      simp only [List.append_nil, List.mem_append, List.mem_singleton] at hm
      rcases hm with hm | hm
      · exact hnh t hm
      · exact hprint a t hm.symm
    exact ⟨⟨fun hm => absurd hm (hno _), fun hm => by cases hm.1⟩,
           ⟨fun hm => absurd hm (hno _), fun hm => by cases hm.1⟩⟩
  | none =>
    have hpr : printed = [] := hp
    have hc : cnt = 0 ∧ quiet_flag ≠ 1 := ⟨hcnt.mpr hpr, hq⟩
    have hin : ∀ t u, Event.stdout t ∈ head ++ [] ++ [Event.stdout u] ↔ t = u := by
      intro t u
      constructor
      · intro hm
        simp only [List.append_nil, List.mem_append, List.mem_singleton] at hm
        rcases hm with hm | hm
        · exact absurd hm (hnh _)
        · injection hm
      · intro h
        rw [h]
        exact List.mem_append_right _ (List.mem_singleton.mpr rfl)
    by_cases hn : n = 0
    · have ht : trace = head ++ [] ++ [Event.stdout none_text] := by
        show head ++ printed ++ _ = _
        rw [if_pos hc, if_neg (not_not.mpr hn), hpr]
      rw [ht, hin, hin]
      exact ⟨⟨fun _ => ⟨rfl, hn⟩, fun _ => rfl⟩, ⟨fun hm => absurd hm hne, fun hm => absurd hn hm.2⟩⟩
    · have ht : trace = head ++ [] ++ [Event.stdout missing_text] := by
        show head ++ printed ++ _ = _
        rw [if_pos hc, if_pos hn, hpr]
      rw [ht, hin, hin]
      exact ⟨⟨fun hm => absurd hm.symm hne, fun hm => absurd hm.2 hn⟩,
        ⟨fun _ => ⟨rfl, hn⟩, fun _ => rfl⟩⟩

theorem lookup_cases {α : Type} (p : α → Bool) (l : List α) :
    ((l.find? p = none ∧ l.length = 0) ↔ l = [])
    ∧ ((l.find? p = none ∧ l.length ≠ 0) ↔ (l ≠ [] ∧ ∀ r ∈ l, p r = false)) := by
  constructor
  · constructor
    · intro h
      exact List.length_eq_zero.mp h.2
    · intro h
      rw [h]
      exact ⟨rfl, rfl⟩
  · constructor
    · intro h
      refine ⟨fun he => h.2 (by rw [he]; rfl), fun r hr => ?_⟩
      have := List.find?_eq_none.mp h.1 r hr
      simpa using this
    · intro h
      refine ⟨List.find?_eq_none.mpr (fun r hr => by simp [h.2 r hr]), fun hl => ?_⟩
      exact h.1 (List.length_eq_zero.mp hl)

/-- The two reports of `_print_node` with a name given and quiet mode off. -/
theorem _print_node_report (quiet_flag : Int) (hq : quiet_flag ≠ 1) (c : Nat) (X : CStr)
    (msg : node_info_msg) :
    ∃ i trace, _print_node quiet_flag c (some X) msg = .ret i trace
      ∧ (Event.stdout "No nodes in the system\n".toList ∈ trace ↔ msg.node_array = [])
      ∧ (Event.stdout ("Node ".toList ++ X ++ " not found\n".toList) ∈ trace
          ↔ msg.node_array ≠ [] ∧ ∀ r ∈ msg.node_array, r.name ≠ X) := by
  obtain ⟨hsome, hnone⟩ := _print_node_lookup quiet_flag c X msg
  cases hf : first_probe_match msg.node_array c X with
  | some i =>
    obtain ⟨r, hr, hname, hrun⟩ := hsome i hf
    have hmem : r ∈ msg.node_array := List.getElem?_mem hr
    refine ⟨i, _, hrun, ⟨fun hm => ?_, fun he => ?_⟩, ⟨fun hm => ?_, fun he => ?_⟩⟩
    · cases List.mem_singleton.mp hm
    · rw [he] at hmem
      cases hmem
    · cases List.mem_singleton.mp hm
    · exact absurd hname (he.2 r hmem)
  | none =>
    have hno : ∀ r ∈ msg.node_array, r.name ≠ X := fun r hr hn => by
      obtain ⟨i, hi⟩ := (first_probe_match_iff _ c X).mp ⟨r, hr, hn⟩
      rw [hf] at hi
      cases hi
    refine ⟨c, _, hnone hf, ?_⟩
    rw [if_pos hq]
    by_cases hn : msg.node_array.length = 0
    · have he : msg.node_array = [] := List.length_eq_zero.mp hn
      rw [if_neg (not_not.mpr hn)]
      exact ⟨⟨fun _ => he, fun _ => List.mem_singleton.mpr rfl⟩,
        ⟨fun hm => absurd (Event.stdout.inj (List.mem_singleton.mp hm)) (node_messages_ne X),
         fun h => absurd he h.1⟩⟩
    · have he : msg.node_array ≠ [] := fun h => hn (by rw [h]; rfl)
      rw [if_pos hn]
      exact ⟨⟨fun hm => absurd (Event.stdout.inj (List.mem_singleton.mp hm)).symm
                (node_messages_ne X), fun h => absurd h he⟩,
        ⟨fun _ => ⟨he, hno⟩, fun _ => List.mem_singleton.mpr rfl⟩⟩

/-- C13 (distinct empty-vs-missing).  With quiet mode off, a lookup of a
node, a job or a partition by identifier prints "No nodes/jobs/partitions in
the system" if and only if the snapshot has no record, and prints
"Node/Job/Partition id not found" if and only if the snapshot has records
and none of them matches the identifier; so the two are never printed
together, and neither is printed when a record matches. -/
theorem empty_vs_missing (E : Manager) (quiet_flag : Int) (hq : quiet_flag ≠ 1) :
    (∀ (c : Nat) (X : CStr) (msg : node_info_msg),
      ∃ i trace, _print_node quiet_flag c (some X) msg = .ret i trace
        ∧ (Event.stdout "No nodes in the system\n".toList ∈ trace ↔ msg.node_array = [])
        ∧ (Event.stdout ("Node ".toList ++ X ++ " not found\n".toList) ∈ trace
            ↔ msg.node_array ≠ [] ∧ ∀ r ∈ msg.node_array, r.name ≠ X))
    ∧ (∀ (id : CStr) (msg : job_info_msg),
        (Event.stdout "No jobs in the system\n".toList
            ∈ _print_job_display E quiet_flag (some id) msg ↔ msg.job_array = [])
        ∧ (Event.stdout ("Job ".toList
              ++ (Nat.repr (to_uint32 (strtol E.LONG_BITS id))).toList
              ++ " not found\n".toList) ∈ _print_job_display E quiet_flag (some id) msg
            ↔ msg.job_array ≠ []
              ∧ ∀ r ∈ msg.job_array, r.job_id ≠ to_uint32 (strtol E.LONG_BITS id)))
    ∧ (∀ (X : CStr) (msg : partition_info_msg),
        (Event.stdout "No partitions in the system\n".toList
            ∈ _print_part_display quiet_flag (some X) msg ↔ msg.partition_array = [])
        ∧ (Event.stdout ("Partition ".toList ++ X ++ " not found\n".toList)
              ∈ _print_part_display quiet_flag (some X) msg
            ↔ msg.partition_array ≠ [] ∧ ∀ r ∈ msg.partition_array, r.name ≠ X)) := by
  have hhead : ∀ (u n : Nat), ∀ e ∈ (if quiet_flag = -1 then [Event.print_last_update u n]
      else []), ∀ t, e ≠ Event.stdout t := by
    intro u n e he t
    split at he
    · rw [List.mem_singleton.mp he]
      intro hc
      cases hc
    · cases he
  refine ⟨fun c X msg => _print_node_report quiet_flag hq c X msg, fun id msg => ?_,
    fun X msg => ?_⟩
  · have h := report_mem quiet_flag hq
      (if quiet_flag = -1 then [Event.print_last_update msg.last_update msg.job_array.length]
        else [])
      (msg.job_array.find? (fun r => decide (r.job_id = to_uint32 (strtol E.LONG_BITS id))))
      Event.slurm_print_job_info msg.job_array.length _ _
      (job_messages_ne (Nat.repr (to_uint32 (strtol E.LONG_BITS id))).toList)
      (hhead _ _) (fun a t hc => by cases hc)
      (_print_job_loop (some id) (to_uint32 (strtol E.LONG_BITS id)) msg.job_array)
      (_print_job_loop_lookup _ _ _)
      (_print_job_loop (some id) (to_uint32 (strtol E.LONG_BITS id)) msg.job_array).length
      List.length_eq_zero
    obtain ⟨h1, h2⟩ := lookup_cases
      (fun r : job_info => decide (r.job_id = to_uint32 (strtol E.LONG_BITS id))) msg.job_array
    refine ⟨h.1.trans h1, h.2.trans (h2.trans ?_)⟩
    simp
  · have h := report_mem quiet_flag hq
      (if quiet_flag = -1 then
        [Event.print_last_update msg.last_update msg.partition_array.length] else [])
      (msg.partition_array.find? (fun r => decide (r.name = X)))
      Event.slurm_print_partition_info msg.partition_array.length _ _
      (part_messages_ne X)
      (hhead _ _) (fun a t hc => by cases hc)
      (_print_part_loop (some X) msg.partition_array)
      (_print_part_loop_lookup _ _)
      (_print_part_loop (some X) msg.partition_array).length
      List.length_eq_zero
    obtain ⟨h1, h2⟩ := lookup_cases
      (fun r : partition_info => decide (r.name = X)) msg.partition_array
    refine ⟨h.1.trans h1, h.2.trans (h2.trans ?_)⟩
    simp

/-- C13 at concrete lookups with quiet mode off: on an empty node snapshot
the lookup of `n9` prints "No nodes in the system", and on the five-node
snapshot it prints "Node n9 not found". -/
theorem empty_vs_missing_witness :
    (∃ i trace, _print_node 0 0 (some "n9".toList) ⟨21, 70, []⟩ = .ret i trace
      ∧ (Event.stdout "No nodes in the system\n".toList ∈ trace
          ↔ (⟨21, 70, []⟩ : node_info_msg).node_array = [])
      ∧ (Event.stdout ("Node ".toList ++ "n9".toList ++ " not found\n".toList) ∈ trace
          ↔ (⟨21, 70, []⟩ : node_info_msg).node_array ≠ []
            ∧ ∀ r ∈ (⟨21, 70, []⟩ : node_info_msg).node_array, r.name ≠ "n9".toList))
    ∧ (∃ i trace, _print_node 0 0 (some "n9".toList) sample_nodes = .ret i trace
      ∧ (Event.stdout "No nodes in the system\n".toList ∈ trace
          ↔ sample_nodes.node_array = [])
      ∧ (Event.stdout ("Node ".toList ++ "n9".toList ++ " not found\n".toList) ∈ trace
          ↔ sample_nodes.node_array ≠ []
            ∧ ∀ r ∈ sample_nodes.node_array, r.name ≠ "n9".toList)) :=
  ⟨(empty_vs_missing sample 0 (by decide)).1 0 "n9".toList ⟨21, 70, []⟩,
   (empty_vs_missing sample 0 (by decide)).1 0 "n9".toList sample_nodes⟩


/-! ## Job step snapshots -/

theorem _print_step_display_output (quiet_flag : Int) (job_id step_id : Nat)
    (msg : job_step_info_response_msg) :
    ∀ e ∈ _print_step_display quiet_flag job_id step_id msg, e.is_output = true := by
  unfold _print_step_display
  apply output_append
  · apply output_append
    · exact output_ite _ _ _ (output_single _ rfl) output_nil
    · intro e he
      obtain ⟨r, _, hr⟩ := List.mem_map.mp he
      rw [← hr]
      rfl
  · apply output_ite _ _ _ _ output_nil
    apply output_ite
    · exact output_single _ rfl
    · exact output_single _ rfl

/-- The display half of `_print_step` shows every step of the snapshot, in
stored order, whatever the job id and step id asked for. -/
theorem _print_step_display_shown (quiet_flag : Int) (job_id step_id : Nat)
    (msg : job_step_info_response_msg) :
    displayed (_print_step_display quiet_flag job_id step_id msg)
      = msg.job_steps.map Event.slurm_print_job_step_info := by
  unfold _print_step_display displayed
  rw [List.filter_append, List.filter_append]
  have h := displayed_map_display Event.slurm_print_job_step_info msg.job_steps (fun _ => rfl)
  unfold displayed at h
  rw [h]
  split_ifs <;> simp [Event.is_display]

/-- Refresh of a cached step snapshot asked for with the filter it was taken
with, when the manager returns a new snapshot. -/
theorem _print_step_same_fresh (E : Manager) (s : Session) (str : Option CStr)
    (old new : job_step_info_response_msg) (hc : s.old_job_step_info_ptr = .live old)
    (hsame : s.last_job_id = step_job_id E str ∧ s.last_step_id = step_step_id E str)
    (h : E.slurm_get_job_steps old.last_update (step_job_id E str) (step_step_id E str)
      = .success new) :
    _print_step E s str
      = .ret { s with old_job_step_info_ptr := .live new,
                      last_job_id := step_job_id E str, last_step_id := step_step_id E str }
          ([.slurm_get_job_steps old.last_update (step_job_id E str) (step_step_id E str),
            .slurm_free_job_step_info_response_msg old]
            ++ _print_step_display s.quiet_flag (step_job_id E str) (step_step_id E str) new) := by
  unfold _print_step
  simp only [hc, if_pos hsame, h, step_done]

/-- Refresh of a cached step snapshot asked for with the filter it was taken
with, when the manager fails. -/
theorem _print_step_same_error (E : Manager) (s : Session) (str : Option CStr)
    (old : job_step_info_response_msg) (errno : Int)
    (hc : s.old_job_step_info_ptr = .live old)
    (hsame : s.last_job_id = step_job_id E str ∧ s.last_step_id = step_step_id E str)
    (h : E.slurm_get_job_steps old.last_update (step_job_id E str) (step_step_id E str)
      = .error errno) :
    _print_step E s str
      = .ret s ([.slurm_get_job_steps old.last_update (step_job_id E str) (step_step_id E str)]
          ++ (if errno = E.SLURM_NO_CHANGE_IN_DATA then
                (if s.quiet_flag = -1 then
                  [.stdout "slurm_get_job_steps no change in data\n".toList] else [])
                ++ _print_step_display s.quiet_flag (step_job_id E str) (step_step_id E str) old
              else error_report s.quiet_flag "slurm_get_job_steps error")) := by
  obtain ⟨ef, qf, c1, c2, c3, c4, c5, lj, ls, li, ll, cn, iw, th⟩ := s
  simp only at hc hsame
  subst hc
  unfold _print_step
  simp only [if_pos hsame, h, step_done]
  by_cases hn : errno = E.SLURM_NO_CHANGE_IN_DATA
  · rw [if_pos hn, if_pos hn, ← hsame.1, ← hsame.2, List.append_assoc]
  · rw [if_neg hn, if_neg hn]
    rfl

/-- Refresh of a cached step snapshot asked for with another filter: the
snapshot is released, then the query is issued with timestamp 0. -/
theorem _print_step_other (E : Manager) (s : Session) (str : Option CStr)
    (old : job_step_info_response_msg) (hc : s.old_job_step_info_ptr = .live old)
    (hdiff : ¬ (s.last_job_id = step_job_id E str ∧ s.last_step_id = step_step_id E str)) :
    _print_step E s str
      = match E.slurm_get_job_steps 0 (step_job_id E str) (step_step_id E str) with
        | .success new =>
          .ret { s with old_job_step_info_ptr := .live new,
                        last_job_id := step_job_id E str,
                        last_step_id := step_step_id E str }
            ([.slurm_free_job_step_info_response_msg old,
              .slurm_get_job_steps 0 (step_job_id E str) (step_step_id E str)]
              ++ _print_step_display s.quiet_flag (step_job_id E str) (step_step_id E str) new)
        | .error _ =>
          .ret { s with old_job_step_info_ptr := .released old }
            ([.slurm_free_job_step_info_response_msg old,
              .slurm_get_job_steps 0 (step_job_id E str) (step_step_id E str)]
              ++ error_report s.quiet_flag "slurm_get_job_steps error") := by
  unfold _print_step
  simp only [hc, if_neg hdiff, step_done, error_report]

/-- The first step query of a session: nothing is cached, the query is issued
with timestamp 0 and nothing is released. -/
theorem _print_step_first (E : Manager) (s : Session) (str : Option CStr)
    (hc : s.old_job_step_info_ptr = .null) :
    _print_step E s str
      = match E.slurm_get_job_steps 0 (step_job_id E str) (step_step_id E str) with
        | .success new =>
          .ret { s with old_job_step_info_ptr := .live new,
                        last_job_id := step_job_id E str,
                        last_step_id := step_step_id E str }
            ([.slurm_get_job_steps 0 (step_job_id E str) (step_step_id E str)]
              ++ _print_step_display s.quiet_flag (step_job_id E str) (step_step_id E str) new)
        | .error _ =>
          .ret s ([.slurm_get_job_steps 0 (step_job_id E str) (step_step_id E str)]
              ++ error_report s.quiet_flag "slurm_get_job_steps error") := by
  unfold _print_step
  simp only [hc, step_done, error_report]

/-- C11 (step snapshot replacement), as the code has it.  With a step snapshot
cached and the request carrying the filter the snapshot was taken with, the
refresh follows the protocol of the other kinds: the query carries the cached
timestamp, the cached snapshot is released only after the manager returned a
new one, and a failed query releases nothing and leaves the session as it
was.  With a request whose filter differs from the cached snapshot's, the
cached snapshot is discarded: it is released first, then the query is issued
with timestamp 0, and a new snapshot is stored with the new filter. -/
theorem step_refresh_protocol (E : Manager) (s : Session) (str : Option CStr)
    (old : job_step_info_response_msg) (hc : s.old_job_step_info_ptr = .live old) :
    (s.last_job_id = step_job_id E str ∧ s.last_step_id = step_step_id E str →
      (∀ new, E.slurm_get_job_steps old.last_update (step_job_id E str) (step_step_id E str)
          = .success new →
        _print_step E s str
          = .ret { s with old_job_step_info_ptr := .live new,
                          last_job_id := step_job_id E str,
                          last_step_id := step_step_id E str }
              ([.slurm_get_job_steps old.last_update (step_job_id E str) (step_step_id E str),
                .slurm_free_job_step_info_response_msg old]
                ++ _print_step_display s.quiet_flag (step_job_id E str) (step_step_id E str)
                    new))
      ∧ (∀ errno, E.slurm_get_job_steps old.last_update (step_job_id E str)
            (step_step_id E str) = .error errno →
          ∃ trace, _print_step E s str = .ret s trace
            ∧ queries trace = [.slurm_get_job_steps old.last_update (step_job_id E str)
                (step_step_id E str)]
            ∧ releases trace = []
            ∧ (errno ≠ E.SLURM_NO_CHANGE_IN_DATA → displayed trace = [])))
    ∧ (¬ (s.last_job_id = step_job_id E str ∧ s.last_step_id = step_step_id E str) →
        (∃ s1 rest, _print_step E s str = .ret s1
            (.slurm_free_job_step_info_response_msg old
              :: .slurm_get_job_steps 0 (step_job_id E str) (step_step_id E str) :: rest)
          ∧ queries rest = [] ∧ releases rest = [])
        ∧ (∀ new, E.slurm_get_job_steps 0 (step_job_id E str) (step_step_id E str)
            = .success new →
          _print_step E s str
            = .ret { s with old_job_step_info_ptr := .live new,
                            last_job_id := step_job_id E str,
                            last_step_id := step_step_id E str }
                ([.slurm_free_job_step_info_response_msg old,
                  .slurm_get_job_steps 0 (step_job_id E str) (step_step_id E str)]
                  ++ _print_step_display s.quiet_flag (step_job_id E str)
                      (step_step_id E str) new))) := by
  have hnote : ∀ e ∈ (if s.quiet_flag = -1 then
      [Event.stdout "slurm_get_job_steps no change in data\n".toList] else []),
      e.is_output = true := output_ite _ _ _ (output_single _ rfl) output_nil
  refine ⟨fun hsame => ⟨fun new h => _print_step_same_fresh E s str old new hc hsame h,
    fun errno h => ⟨_, _print_step_same_error E s str old errno hc hsame h, ?_, ?_, ?_⟩⟩,
    fun hdiff => ⟨?_, fun new h => ?_⟩⟩
  · by_cases hn : errno = E.SLURM_NO_CHANGE_IN_DATA
    · rw [if_pos hn, ← List.append_assoc]
      exact queries_refresh _ _ _ rfl (not_query_outputs _ hnote)
        (_print_step_display_output _ _ _ _)
    · rw [if_neg hn]
      exact queries_one _ _ rfl (not_query_outputs _ (error_report_output _ _))
  · by_cases hn : errno = E.SLURM_NO_CHANGE_IN_DATA
    · rw [if_pos hn, ← List.append_assoc]
      exact releases_unchanged _ _ _ rfl hnote (_print_step_display_output _ _ _ _)
    · rw [if_neg hn]
      exact (failed_trace_quiet _ _ _ (by rfl)).2
  · intro hn
    rw [if_neg hn]
    exact (failed_trace_quiet _ _ _ (by rfl)).1
  · rw [_print_step_other E s str old hc hdiff]
    cases E.slurm_get_job_steps 0 (step_job_id E str) (step_step_id E str) with
    | success new =>
      exact ⟨_, _, rfl, queries_of_output _ (_print_step_display_output _ _ _ _),
        releases_of_output _ (_print_step_display_output _ _ _ _)⟩
    | error errno =>
      exact ⟨_, _, rfl, queries_of_output _ (error_report_output _ _),
        releases_of_output _ (error_report_output _ _)⟩
  · rw [_print_step_other E s str old hc hdiff, h]

/-- C11 at concrete sessions: with the snapshot of filter 42.3 cached at time
50, `show steps 42.3` against a manager out of reach queries since 50,
releases nothing and keeps the session; `show steps 43.1` releases the cached
snapshot and then queries since 0. -/
theorem step_refresh_protocol_witness :
    (∃ trace, _print_step sample_down sample_stepped (some "42.3".toList)
        = .ret sample_stepped trace
      ∧ queries trace = [.slurm_get_job_steps
          (⟨15, 50, [⟨42, 3⟩]⟩ : job_step_info_response_msg).last_update
          (step_job_id sample_down (some "42.3".toList))
          (step_step_id sample_down (some "42.3".toList))]
      ∧ releases trace = []
      ∧ ((111 : Int) ≠ sample_down.SLURM_NO_CHANGE_IN_DATA → displayed trace = []))
    ∧ (∃ s1 rest, _print_step sample sample_stepped (some "43.1".toList) = .ret s1
          (.slurm_free_job_step_info_response_msg ⟨15, 50, [⟨42, 3⟩]⟩
            :: .slurm_get_job_steps 0 (step_job_id sample (some "43.1".toList))
                (step_step_id sample (some "43.1".toList)) :: rest)
        ∧ queries rest = [] ∧ releases rest = []) :=
  ⟨((step_refresh_protocol sample_down sample_stepped (some "42.3".toList)
      ⟨15, 50, [⟨42, 3⟩]⟩ rfl).1 (by decide)).2 111 rfl,
   ((step_refresh_protocol sample sample_stepped (some "43.1".toList)
      ⟨15, 50, [⟨42, 3⟩]⟩ rfl).2 (by decide)).1⟩

/-- C11, the case that departs from the protocol of the other kinds: with the
snapshot of filter 42.3 cached at time 50 and the manager out of reach,
`show steps 43.1` releases the cached snapshot before it queries, queries
since 0 and not since 50, and after the failed query the snapshot is gone. -/
theorem step_refresh_counterexample :
    _print_step sample_down sample_stepped (some "43.1".toList)
      = .ret { sample_stepped with old_job_step_info_ptr := .released ⟨15, 50, [⟨42, 3⟩]⟩ }
          [.slurm_free_job_step_info_response_msg ⟨15, 50, [⟨42, 3⟩]⟩,
           .slurm_get_job_steps 0 43 1,
           .slurm_perror "slurm_get_job_steps error".toList] := by
  decide

theorem strtol_digits_stop (J rest : CStr) (acc : Nat)
    (h : ∀ c ∈ J, 48 ≤ c.toNat ∧ c.toNat ≤ 57) :
    strtol_digits (J ++ '.' :: rest) acc
      = J.foldl (fun acc c => acc * 10 + (c.toNat - 48)) acc := by
  induction J generalizing acc with
  | nil =>
    show strtol_digits ('.' :: rest) acc = acc
    unfold strtol_digits
    rw [if_neg (by decide)]
  | cons c cs ih =>
    have hc := h c (List.mem_cons_self _ _)
    show strtol_digits (c :: (cs ++ '.' :: rest)) acc = _
    unfold strtol_digits
    rw [if_pos hc, ih _ (fun x hx => h x (List.mem_cons_of_mem _ hx))]
    rfl

theorem dropWhile_digits_stop (J rest : CStr) (h : ∀ c ∈ J, 48 ≤ c.toNat ∧ c.toNat ≤ 57) :
    (J ++ '.' :: rest).dropWhile (fun d => decide (48 ≤ d.toNat ∧ d.toNat ≤ 57))
      = '.' :: rest := by
  induction J with
  | nil => rfl
  | cons c cs ih =>
    have hc := h c (List.mem_cons_self _ _)
    show (c :: (cs ++ '.' :: rest)).dropWhile _ = _
    rw [List.dropWhile_cons_of_pos (by simpa using hc)]
    exact ih (fun x hx => h x (List.mem_cons_of_mem _ hx))

theorem digit_not_space (c : Char) (hc : 48 ≤ c.toNat ∧ c.toNat ≤ 57) : isspace c = false := by
  unfold isspace
  simp only [Bool.or_eq_false_iff, Bool.and_eq_false_iff, decide_eq_false_iff_not]
  omega

/-- How `_print_step` reads `J.S`: `strtol` stops at the dot with the value of
`J`, and the step id is the `strtol` value of what follows the dot. -/
theorem step_id_parse (E : Manager) (J S : CStr) (hJ : is_decimal J) :
    step_job_id E (some (J ++ '.' :: S))
      = to_uint32 (min ((2 ^ (E.LONG_BITS - 1) : Int) - 1) (decimal_value J : Int))
    ∧ step_step_id E (some (J ++ '.' :: S)) = to_uint32 (strtol E.LONG_BITS S) := by
  obtain ⟨hne, hd⟩ := hJ
  cases J with
  | nil => exact absurd rfl hne
  | cons c cs =>
    have hc := hd c (List.mem_cons_self _ _)
    have hdrop : (c :: cs ++ '.' :: S).dropWhile isspace = c :: cs ++ '.' :: S := by
      show (c :: (cs ++ '.' :: S)).dropWhile isspace = _
      rw [List.dropWhile_cons_of_neg (by simp [digit_not_space c hc])]
      rfl
    constructor
    · unfold step_job_id strtol
      simp only [hdrop]
      split
      · rename_i r heq
        injection heq with h1 _
        rw [h1] at hc
        exact absurd hc (by decide)
      · rename_i r heq
        injection heq with h1 _
        rw [h1] at hc
        exact absurd hc (by decide)
      · rw [strtol_digits_stop _ _ _ hd]
        rfl
    · have hnext : strtol_next (c :: cs ++ '.' :: S) = '.' :: S := by
        unfold strtol_next
        simp only [hdrop]
        split
        · rename_i heq
          split at heq
          · rename_i r heq2
            injection heq2 with h1 _
            rw [h1] at hc
            exact absurd hc (by decide)
          · rename_i r heq2
            injection heq2 with h1 _
            rw [h1] at hc
            exact absurd hc (by decide)
          · cases heq
        · rename_i d ds heq
          split at heq
          · rename_i r heq2
            injection heq2 with h1 _
            rw [h1] at hc
            exact absurd hc (by decide)
          · rename_i r heq2
            injection heq2 with h1 _
            rw [h1] at hc
            exact absurd hc (by decide)
          · injection heq with h1 h2
            subst h1
            rw [if_pos hc]
            exact dropWhile_digits_stop _ _ hd
      unfold step_step_id
      simp only [hnext]

theorem displayed_cons_other (e : Event) (t : List Event) (h : e.is_display = false) :
    displayed (e :: t) = displayed t := by
  unfold displayed
  rw [List.filter_cons_of_neg (by simp [h])]

theorem displayed_of_error_report (quiet_flag : Int) (text : String) :
    displayed (error_report quiet_flag text) = [] := by
  unfold error_report
  split <;> rfl

/-- Every run of `_print_step` that starts without a dangling snapshot
pointer returns after exactly one query, which carries the job id and step id
read from the argument; when that query succeeds, the snapshot it returned is
stored and all of its steps are displayed, in stored order. -/
theorem _print_step_shows_reply (E : Manager) (s : Session) (str : Option CStr)
    (hp : ∀ m, s.old_job_step_info_ptr ≠ .released m) :
    ∃ s1 trace t, _print_step E s str = .ret s1 trace
      ∧ queries trace = [.slurm_get_job_steps t (step_job_id E str) (step_step_id E str)]
      ∧ (∀ new, E.slurm_get_job_steps t (step_job_id E str) (step_step_id E str)
            = .success new →
          s1.old_job_step_info_ptr = .live new
          ∧ displayed trace = new.job_steps.map Event.slurm_print_job_step_info) := by
  have hshow : ∀ q new, displayed (_print_step_display q (step_job_id E str)
      (step_step_id E str) new) = new.job_steps.map Event.slurm_print_job_step_info :=
    fun q new => _print_step_display_shown q _ _ new
  have hout : ∀ q new, ∀ x ∈ _print_step_display q (step_job_id E str)
      (step_step_id E str) new, x.is_query = false :=
    fun q new => not_query_outputs _ (_print_step_display_output q _ _ new)
  have herr : ∀ q, ∀ x ∈ error_report q "slurm_get_job_steps error", x.is_query = false :=
    fun q => not_query_outputs _ (error_report_output _ _)
  cases hc : s.old_job_step_info_ptr with
  | released m => exact absurd hc (hp m)
  | null =>
    rw [_print_step_first E s str hc]
    cases hr : E.slurm_get_job_steps 0 (step_job_id E str) (step_step_id E str) with
    | success new =>
      refine ⟨_, _, 0, rfl, queries_one _ _ (by rfl) (hout _ _), fun new1 h1 => ?_⟩
      rw [hr] at h1
      injection h1 with h1
      subst h1
      refine ⟨rfl, ?_⟩
      show displayed (_ :: _) = _
      rw [displayed_cons_other _ _ (by rfl)]
      exact hshow _ _
    | error errno =>
      refine ⟨_, _, 0, rfl, queries_one _ _ (by rfl) (herr _), fun new1 h1 => ?_⟩
      rw [hr] at h1
      cases h1
  | live old =>
    by_cases hsame : s.last_job_id = step_job_id E str ∧ s.last_step_id = step_step_id E str
    · cases hr : E.slurm_get_job_steps old.last_update (step_job_id E str)
          (step_step_id E str) with
      | success new =>
        rw [_print_step_same_fresh E s str old new hc hsame hr]
        refine ⟨_, _, old.last_update, rfl, ?_, fun new1 h1 => ?_⟩
        · show queries (_ :: _ :: _) = _
          exact queries_one _ _ (by rfl) (fun x hx => by
            rcases List.mem_cons.mp hx with h | h
            · rw [h]; rfl
            · exact hout _ _ x h)
        · rw [hr] at h1
          injection h1 with h1
          subst h1
          refine ⟨rfl, ?_⟩
          show displayed (_ :: _ :: _) = _
          rw [displayed_cons_other _ _ (by rfl), displayed_cons_other _ _ (by rfl)]
          exact hshow _ _
      | error errno =>
        rw [_print_step_same_error E s str old errno hc hsame hr]
        refine ⟨_, _, old.last_update, rfl, ?_, fun new1 h1 => ?_⟩
        · rw [List.singleton_append]
          apply queries_one _ _ (by rfl)
          by_cases hn : errno = E.SLURM_NO_CHANGE_IN_DATA
          · rw [if_pos hn]
            apply not_query_append
            · apply not_query_outputs
              apply output_ite _ _ _ _ output_nil
              exact output_single _ (by rfl)
            · exact hout _ _
          · rw [if_neg hn]
            exact herr _
        · rw [hr] at h1
          cases h1
    · rw [_print_step_other E s str old hc hsame]
      cases hr : E.slurm_get_job_steps 0 (step_job_id E str) (step_step_id E str) with
      | success new =>
        refine ⟨_, _, 0, rfl, ?_, fun new1 h1 => ?_⟩
        · show queries (_ :: _ :: _) = _
          rw [queries_cons_other _ _ (by rfl)]
          exact queries_one _ _ (by rfl) (hout _ _)
        · rw [hr] at h1
          injection h1 with h1
          subst h1
          refine ⟨rfl, ?_⟩
          show displayed (_ :: _ :: _) = _
          rw [displayed_cons_other _ _ (by rfl), displayed_cons_other _ _ (by rfl)]
          exact hshow _ _
      | error errno =>
        refine ⟨_, _, 0, rfl, ?_, fun new1 h1 => ?_⟩
        · show queries (_ :: _ :: _) = _
          rw [queries_cons_other _ _ (by rfl)]
          exact queries_one _ _ (by rfl) (herr _)
        · rw [hr] at h1
          cases h1

/-- C16 (step filtering), as the code has it.  `show steps J.S` reads the job
id `J` and the step id `S` from its argument and hands both to the manager in
the one step query it issues; it then displays every step of the snapshot the
manager returned, in stored order, and drops none of them by job id or step
id. -/
theorem step_filter_delegated (E : Manager) (s : Session) (str : Option CStr)
    (hp : ∀ m, s.old_job_step_info_ptr ≠ .released m) :
    (∃ s1 trace t, _print_step E s str = .ret s1 trace
      ∧ queries trace = [.slurm_get_job_steps t (step_job_id E str) (step_step_id E str)]
      ∧ (∀ new, E.slurm_get_job_steps t (step_job_id E str) (step_step_id E str)
            = .success new →
          s1.old_job_step_info_ptr = .live new
          ∧ displayed trace = new.job_steps.map Event.slurm_print_job_step_info))
    ∧ (∀ J S : CStr, is_decimal J → is_decimal S →
        decimal_value J < 2 ^ (E.LONG_BITS - 1) → decimal_value J < 4294967296 →
        decimal_value S < 2 ^ (E.LONG_BITS - 1) → decimal_value S < 4294967296 →
        step_job_id E (some (J ++ '.' :: S)) = decimal_value J
        ∧ step_step_id E (some (J ++ '.' :: S)) = decimal_value S) := by
  refine ⟨_print_step_shows_reply E s str hp, fun J S hJ hS hJ1 hJ2 hS1 hS2 => ?_⟩
  have hfit : ∀ n : Nat, n < 2 ^ (E.LONG_BITS - 1) →
      min ((2 ^ (E.LONG_BITS - 1) : Int) - 1) (n : Int) = (n : Int) := by
    intro n hn
    have : ((n : Nat) : Int) < ((2 ^ (E.LONG_BITS - 1) : Nat) : Int) := Int.ofNat_lt.mpr hn
    push_cast at this
    exact min_eq_right (by omega)
  obtain ⟨h1, h2⟩ := step_id_parse E J S hJ
  rw [h1, h2, hfit _ hJ1, strtol_decimal _ S hS, hfit _ hS1]
  exact ⟨to_uint32_of_lt _ hJ2, to_uint32_of_lt _ hS2⟩

/-- C16 at `show steps 42.3` in a fresh session: the query carries job id 42
and step id 3, and the steps the manager returns, (42,1), (42,3), (43,3), are
all displayed. -/
theorem step_filter_delegated_witness :
    (∃ s1 trace t, _print_step sample Session.init (some "42.3".toList) = .ret s1 trace
      ∧ queries trace = [.slurm_get_job_steps t (step_job_id sample (some "42.3".toList))
          (step_step_id sample (some "42.3".toList))]
      ∧ (∀ new, sample.slurm_get_job_steps t (step_job_id sample (some "42.3".toList))
            (step_step_id sample (some "42.3".toList)) = .success new →
          s1.old_job_step_info_ptr = .live new
          ∧ displayed trace = new.job_steps.map Event.slurm_print_job_step_info))
    ∧ (step_job_id sample (some ("42".toList ++ '.' :: "3".toList))
        = decimal_value "42".toList
      ∧ step_step_id sample (some ("42".toList ++ '.' :: "3".toList))
        = decimal_value "3".toList) :=
  ⟨(step_filter_delegated sample Session.init (some "42.3".toList)
      (fun m h => by cases h)).1,
   (step_filter_delegated sample Session.init none (fun m h => by cases h)).2
      "42".toList "3".toList (by decide) (by decide) (by decide) (by decide)
      (by decide) (by decide)⟩

/-- C16, the scenario of the specification: against a manager whose step
snapshot is (42,1), (42,3), (43,3), `show steps 42.3` asks for job 42 step 3
and displays all three steps, not only (42,3). -/
theorem step_filter_counterexample :
    _print_step sample Session.init (some "42.3".toList)
      = .ret { Session.init with
          old_job_step_info_ptr := .live ⟨5, 100, [⟨42, 1⟩, ⟨42, 3⟩, ⟨43, 3⟩]⟩
          last_job_id := 42
          last_step_id := 3 }
        [.slurm_get_job_steps 0 42 3,
         .slurm_print_job_step_info ⟨42, 1⟩,
         .slurm_print_job_step_info ⟨42, 3⟩,
         .slurm_print_job_step_info ⟨43, 3⟩] := by
  decide


/-! ## The tokenizer -/

theorem ends_token_NUL : ends_token NUL = true := rfl

theorem ends_token_of_space (c : Char) (h : isspace c = true) : ends_token c = true := by
  unfold ends_token
  rw [h, Bool.or_true]

theorem ends_token_eq_isspace (c : Char) (h : c ≠ NUL) : ends_token c = isspace c := by
  unfold ends_token
  rw [decide_eq_false h, Bool.false_or]

theorem buffer_words_nil : buffer_words [] = [] := rfl

theorem buffer_words_sep (c : Char) (cs : List Char) (h : ends_token c = true) :
    buffer_words (c :: cs) = buffer_words cs := by
  unfold buffer_words
  rw [List.splitOnP_cons, if_pos h, List.filter_cons_of_neg (by simp)]

theorem buffer_words_last (u : List Char) (hu : u ≠ [])
    (h : ∀ x ∈ u, ends_token x = false) : buffer_words u = [u] := by
  unfold buffer_words
  rw [List.splitOnP_eq_single _ _ (fun x hx => by simp [h x hx]),
    List.filter_cons_of_pos (by simpa using hu)]
  rfl

theorem buffer_words_first (u : List Char) (hu : u ≠ []) (d : Char) (r : List Char)
    (h : ∀ x ∈ u, ends_token x = false) (hd : ends_token d = true) :
    buffer_words (u ++ d :: r) = u :: buffer_words r := by
  unfold buffer_words
  rw [List.splitOnP_first _ _ (fun x hx => by simp [h x hx]) d hd,
    List.filter_cons_of_pos (by simpa using hu)]

theorem splitOnP_agree (p q : Char → Bool) (l : List Char) (h : ∀ c ∈ l, p c = q c) :
    l.splitOnP p = l.splitOnP q := by
  induction l with
  | nil => rfl
  | cons c cs ih =>
    rw [List.splitOnP_cons, List.splitOnP_cons, h c (List.mem_cons_self _ _),
      ih (fun x hx => h x (List.mem_cons_of_mem _ hx))]

/-- On a line without NUL the tokens of the buffer are the words of the line. -/
theorem buffer_words_eq_words (line : CStr) (h : NUL ∉ line) :
    buffer_words line = words line := by
  unfold buffer_words words
  rw [splitOnP_agree ends_token isspace line
    (fun c hc => ends_token_eq_isspace c (fun hn => h (hn ▸ hc)))]

theorem terminated_word (w rest : List Char) (h : ∀ x ∈ w, ends_token x = false) :
    terminated true (w ++ rest) = w ++ terminated true rest := by
  induction w with
  | nil => rfl
  | cons x xs ih =>
    have h1 : terminated true (x :: (xs ++ rest)) = x :: terminated true (xs ++ rest) := by
      rw [terminated, if_neg (by simp [h x (List.mem_cons_self _ _)])]
    show terminated true (x :: (xs ++ rest)) = _
    rw [h1, ih (fun y hy => h y (List.mem_cons_of_mem _ hy))]
    rfl

theorem terminated_idem (b : Bool) (l : List Char) :
    terminated b (terminated b l) = terminated b l := by
  induction l generalizing b with
  | nil => cases b <;> rfl
  | cons c cs ih =>
    cases b with
    | true =>
      by_cases hc : ends_token c = true
      · have h1 : terminated true (c :: cs) = NUL :: terminated false cs := by
          rw [terminated, if_pos hc]
        rw [h1, terminated, if_pos ends_token_NUL, ih]
      · have h1 : terminated true (c :: cs) = c :: terminated true cs := by
          rw [terminated, if_neg hc]
        rw [h1, terminated, if_neg hc, ih]
    | false =>
      have h1 : terminated false (c :: cs) = c :: terminated (!ends_token c) cs := by
        rw [terminated]
      rw [h1, terminated, ih]

theorem splitOnP_terminated (b : Bool) (l : List Char) :
    (terminated b l).splitOnP ends_token = l.splitOnP ends_token := by
  induction l generalizing b with
  | nil => cases b <;> rfl
  | cons c cs ih =>
    cases b with
    | true =>
      by_cases hc : ends_token c = true
      · rw [terminated, if_pos hc, List.splitOnP_cons, List.splitOnP_cons,
          if_pos ends_token_NUL, if_pos hc, ih]
      · rw [terminated, if_neg hc, List.splitOnP_cons, List.splitOnP_cons, ih]
    | false =>
      rw [terminated, List.splitOnP_cons, List.splitOnP_cons, ih]

theorem buffer_words_terminated (l : List Char) :
    buffer_words (terminated false l) = buffer_words l := by
  unfold buffer_words
  rw [splitOnP_terminated]

theorem scannable_terminated (b : Bool) (l : List Char) (h : NUL ∉ l) :
    scannable b (terminated b l) = true := by
  induction l generalizing b with
  | nil => cases b <;> rfl
  | cons c cs ih =>
    have hc : c ≠ NUL := fun hn => h (hn ▸ List.mem_cons_self _ _)
    have hcs : NUL ∉ cs := fun hm => h (List.mem_cons_of_mem _ hm)
    cases b with
    | true =>
      by_cases he : ends_token c = true
      · rw [terminated, if_pos he, scannable, ends_token_NUL]
        exact ih false hcs
      · rw [terminated, if_neg he, scannable]
        have he2 : ends_token c = false := by simpa using he
        rw [he2]
        exact ih true hcs
    | false =>
      rw [terminated, scannable, decide_eq_true hc, Bool.true_and]
      exact ih _ hcs

theorem scannable_of_no_NUL (b : Bool) (l : List Char) (h : NUL ∉ l) :
    scannable b l = true := by
  induction l generalizing b with
  | nil => cases b <;> rfl
  | cons c cs ih =>
    have hc : c ≠ NUL := fun hn => h (hn ▸ List.mem_cons_self _ _)
    have hcs : NUL ∉ cs := fun hm => h (List.mem_cons_of_mem _ hm)
    cases b with
    | true =>
      rw [scannable]
      exact ih _ hcs
    | false =>
      rw [scannable, decide_eq_true hc, Bool.true_and]
      exact ih _ hcs

theorem ends_token_false_iff (c : Char) :
    ends_token c = false ↔ (c ≠ NUL ∧ isspace c = false) := by
  unfold ends_token
  simp

theorem getD_at (pre : List Char) (c : Char) (cs : List Char) :
    (pre ++ c :: cs).getD pre.length NUL = c := by
  induction pre with
  | nil => rfl
  | cons a as ih => exact ih

theorem set_at (pre : List Char) (c x : Char) (cs : List Char) :
    (pre ++ c :: cs).set pre.length x = pre ++ x :: cs := by
  induction pre with
  | nil => rfl
  | cons a as ih =>
    show a :: (as ++ c :: cs).set as.length x = a :: (as ++ x :: cs)
    rw [ih]

theorem drop_at (pre l : List Char) : (pre ++ l).drop pre.length = l := by
  induction pre with
  | nil => rfl
  | cons a as ih => exact ih

theorem c_string_all (u : List Char) (h : ∀ x ∈ u, x ≠ NUL) : c_string u = u := by
  unfold c_string
  rw [List.takeWhile_eq_self_iff]
  intro x hx
  simpa using h x hx

theorem c_string_stop (u v : List Char) (h : ∀ x ∈ u, x ≠ NUL) :
    c_string (u ++ NUL :: v) = u := by
  induction u with
  | nil =>
    show List.takeWhile _ (NUL :: v) = []
    rw [List.takeWhile_cons_of_neg (by simp)]
  | cons x xs ih =>
    show List.takeWhile _ (x :: (xs ++ NUL :: v)) = _
    rw [List.takeWhile_cons_of_pos (by simpa using h x (List.mem_cons_self _ _))]
    have := ih (fun y hy => h y (List.mem_cons_of_mem _ hy))
    unfold c_string at this
    rw [this]

/-- The inner loop of `_get_command` runs over the rest `w` of a token and
stops on the character that ends it, which it overwrites with NUL, or at the
end of the buffer. -/
theorem _get_command_word_spec (fuel : Nat) (pre w rest : List Char)
    (hw : ∀ x ∈ w, ends_token x = false) (hfuel : w.length < fuel)
    (hrest : ∀ d r, rest = d :: r → ends_token d = true) :
    _get_command_word fuel (pre ++ w ++ rest) pre.length
      = ((pre ++ w).length, pre ++ w ++ (match rest with
          | [] => []
          | _ :: r => NUL :: r)) := by
  induction w generalizing pre fuel with
  | nil =>
    obtain ⟨n, rfl⟩ : ∃ n, fuel = n + 1 := ⟨fuel - 1, by simp at hfuel; omega⟩
    rw [List.append_nil]
    cases rest with
    | nil =>
      unfold _get_command_word
      rw [if_neg (by simp)]
    | cons d r =>
      have hd := (hrest d r rfl)
      unfold _get_command_word
      rw [if_pos (by simp), getD_at, set_at]
      have hcond : ¬ (d ≠ NUL ∧ isspace d = false) := fun hc => by
        have := (ends_token_false_iff d).mpr hc
        rw [hd] at this
        cases this
      rw [if_neg hcond]
  | cons x xs ih =>
    obtain ⟨n, rfl⟩ : ∃ n, fuel = n + 1 := ⟨fuel - 1, by simp at hfuel; omega⟩
    have hx := (ends_token_false_iff x).mp (hw x (List.mem_cons_self _ _))
    have hshape : pre ++ x :: xs ++ rest = pre ++ x :: (xs ++ rest) := by simp
    have hshape2 : pre ++ x :: xs = (pre ++ [x]) ++ xs := by simp
    unfold _get_command_word
    rw [hshape, if_pos (by simp), getD_at, if_pos hx]
    have hih := ih n (pre ++ [x]) (fun y hy => hw y (List.mem_cons_of_mem _ hy))
      (by simp at hfuel; omega)
    have hlen : (pre ++ [x]).length = pre.length + 1 := by simp
    rw [hlen] at hih
    have hshape3 : pre ++ x :: (xs ++ rest) = pre ++ [x] ++ xs ++ rest := by simp
    rw [hshape3, hih, hshape2]

/-- A buffer splits into the rest of the token it starts in and what follows,
which is empty or begins with the character that ends the token. -/
theorem token_split (cs : List Char) :
    ∃ w rest, cs = w ++ rest ∧ (∀ x ∈ w, ends_token x = false)
      ∧ (∀ d r, rest = d :: r → ends_token d = true) := by
  induction cs with
  | nil =>
    refine ⟨[], [], rfl, ?_, ?_⟩
    · intro x hx
      cases hx
    · intro d r h
      cases h
  | cons c cs ih =>
    by_cases hc : ends_token c = true
    · refine ⟨[], c :: cs, rfl, ?_, ?_⟩
      · intro x hx
        cases hx
      · intro d r h
        injection h with h1 _
        rw [← h1]
        exact hc
    · obtain ⟨w, rest, hcs, hw, hrest⟩ := ih
      refine ⟨c :: w, rest, by rw [hcs]; rfl, fun x hx => ?_, hrest⟩
      rcases List.mem_cons.mp hx with h | h
      · rw [h]
        simpa using hc
      · exact hw x h

theorem scannable_word (w rest : List Char) (h : ∀ x ∈ w, ends_token x = false) :
    scannable true (w ++ rest) = scannable true rest := by
  induction w with
  | nil => rfl
  | cons x xs ih =>
    show scannable true (x :: (xs ++ rest)) = _
    rw [scannable, h x (List.mem_cons_self _ _)]
    exact ih (fun y hy => h y (List.mem_cons_of_mem _ hy))

theorem _get_command_loop_end (fuel : Nat) (in_line : List Char) (i : Nat) (argv : List Nat)
    (h : in_line.length ≤ i) : _get_command_loop fuel in_line i argv = (0, argv, in_line) := by
  cases fuel with
  | zero => rfl
  | succ n =>
    unfold _get_command_loop
    rw [if_neg (by omega)]

theorem terminated_token (c : Char) (w : List Char) (hc : ends_token c = false)
    (hw : ∀ x ∈ w, ends_token x = false) :
    terminated false (c :: w) = c :: w
    ∧ ∀ d r, ends_token d = true →
        terminated false (c :: (w ++ d :: r)) = c :: (w ++ NUL :: terminated false r) := by
  constructor
  · have h := terminated_word w [] hw
    rw [List.append_nil] at h
    rw [terminated, hc]
    show c :: terminated true w = _
    rw [h]
    simp [terminated]
  · intro d r hd
    rw [terminated, hc]
    show c :: terminated true (w ++ d :: r) = _
    rw [terminated_word w (d :: r) hw, terminated, if_pos hd]

/-- The outer loop of `_get_command` from the start of the not yet scanned
part `X` of the buffer: it fails with `E2BIG` exactly when the pointers stored
so far and the tokens of `X` are more than `MAX_INPUT_FIELDS`, it never stores
more than `MAX_INPUT_FIELDS` pointers, and when it succeeds the buffer is `X`
with each token terminated, and the pointers it stored point to the tokens of
`X`, in order. -/
theorem _get_command_loop_spec (fuel : Nat) (pre X : List Char) (argv : List Nat)
    (hgood : scannable false X = true) (hfuel : X.length ≤ fuel)
    (hargv : argv.length ≤ MAX_INPUT_FIELDS) :
    ∃ offs final, _get_command_loop fuel (pre ++ X) pre.length argv
        = (if argv.length + (buffer_words X).length > MAX_INPUT_FIELDS then E2BIG else 0,
           argv ++ offs, final)
      ∧ (argv ++ offs).length ≤ MAX_INPUT_FIELDS
      ∧ (argv.length + (buffer_words X).length ≤ MAX_INPUT_FIELDS →
          final = pre ++ terminated false X
          ∧ offs.map (fun p => c_string (final.drop p)) = buffer_words X) := by
  induction fuel generalizing pre X argv with
  | zero =>
    have hX : X = [] := List.length_eq_zero.mp (by omega)
    subst hX
    refine ⟨[], pre ++ [], ?_, by rw [List.append_nil]; exact hargv, fun _ => ⟨rfl, rfl⟩⟩
    rw [buffer_words_nil, if_neg (by simp only [List.length_nil]; omega), List.append_nil,
      List.append_nil]
    rfl
  | succ n ih =>
    cases X with
    | nil =>
      refine ⟨[], pre ++ [], ?_, by rw [List.append_nil]; exact hargv, fun _ => ⟨rfl, rfl⟩⟩
      rw [_get_command_loop_end _ _ _ _ (by simp), buffer_words_nil,
        if_neg (by simp only [List.length_nil]; omega), List.append_nil, List.append_nil]
    | cons c cs =>
      have hg : c ≠ NUL ∧ scannable (!ends_token c) cs = true := by
        rw [scannable] at hgood
        simpa using hgood
      have hcN := hg.1
      have hlt : pre.length < (pre ++ c :: cs).length := by simp
      by_cases hsp : isspace c = true
      · have hend : ends_token c = true := ends_token_of_space c hsp
        have hshape : pre ++ c :: cs = (pre ++ [c]) ++ cs := by simp
        have hlen : (pre ++ [c]).length = pre.length + 1 := by simp
        have hg2 : scannable false cs = true := by
          have := hg.2
          rw [hend] at this
          exact this
        obtain ⟨offs, final, hrun, hlen2, hok⟩ := ih (pre ++ [c]) cs argv hg2
          (by simp only [List.length_cons] at hfuel; omega) hargv
        refine ⟨offs, final, ?_, hlen2, ?_⟩
        · unfold _get_command_loop
          rw [if_pos hlt, getD_at, if_neg hcN, if_pos hsp, buffer_words_sep c cs hend, hshape,
            ← hlen]
          exact hrun
        · intro hle
          rw [buffer_words_sep c cs hend] at hle ⊢
          obtain ⟨h1, h2⟩ := hok hle
          refine ⟨?_, h2⟩
          rw [h1, terminated, hend]
          simp
      · have hend : ends_token c = false := (ends_token_false_iff c).mpr ⟨hcN, by simpa using hsp⟩
        obtain ⟨w, rest, hcs, hw, hrest⟩ := token_split cs
        subst hcs
        have hu : ∀ x ∈ c :: w, ends_token x = false := by
          intro x hx
          rcases List.mem_cons.mp hx with h | h
          · rw [h]; exact hend
          · exact hw x h
        have huN : ∀ x ∈ c :: w, x ≠ NUL := fun x hx => ((ends_token_false_iff x).mp (hu x hx)).1
        have hterm := terminated_token c w hend hw
        cases rest with
        | nil =>
          rw [List.append_nil] at hlt hfuel ⊢
          have hbw : buffer_words (c :: w) = [c :: w] :=
            buffer_words_last _ (List.cons_ne_nil _ _) hu
          rw [hbw]
          by_cases hfull : argv.length + 1 > MAX_INPUT_FIELDS
          · refine ⟨[], pre ++ c :: w, ?_, by rw [List.append_nil]; exact hargv,
              fun hle => absurd hle (by simp only [List.length_singleton]; omega)⟩
            unfold _get_command_loop
            rw [if_pos hlt, getD_at, if_neg hcN, if_neg hsp, if_pos hfull,
              if_pos (by simp only [List.length_singleton]; omega), List.append_nil]
          · have hword : _get_command_word (pre ++ c :: w).length (pre ++ c :: w)
                (pre.length + 1) = ((pre ++ c :: w).length, pre ++ c :: w) := by
              have h := _get_command_word_spec (pre ++ c :: w).length (pre ++ [c]) w [] hw
                (by simp; omega) (fun d r h => by cases h)
              simpa using h
            refine ⟨[pre.length], pre ++ c :: w, ?_, ?_, fun _ => ⟨?_, ?_⟩⟩
            · unfold _get_command_loop
              rw [if_pos hlt, getD_at, if_neg hcN, if_neg hsp, if_neg hfull, hword,
                if_neg (by simp only [List.length_singleton]; omega)]
              exact _get_command_loop_end _ _ _ _ (Nat.le_succ _)
            · simp only [List.length_append, List.length_singleton]
              omega
            · rw [hterm.1]
            · show [c_string ((pre ++ c :: w).drop pre.length)] = _
              rw [drop_at, c_string_all _ huN]
        | cons d r =>
          have hd : ends_token d = true := hrest d r rfl
          have hbw : buffer_words (c :: (w ++ d :: r)) = (c :: w) :: buffer_words r :=
            buffer_words_first (c :: w) (List.cons_ne_nil _ _) d r hu hd
          rw [hbw]
          by_cases hfull : argv.length + 1 > MAX_INPUT_FIELDS
          · refine ⟨[], pre ++ c :: (w ++ d :: r), ?_, by rw [List.append_nil]; exact hargv,
              fun hle => absurd hle (by simp only [List.length_cons]; omega)⟩
            unfold _get_command_loop
            rw [if_pos hlt, getD_at, if_neg hcN, if_neg hsp, if_pos hfull,
              if_pos (by simp only [List.length_cons]; omega), List.append_nil]
          · have hword : _get_command_word (pre ++ c :: (w ++ d :: r)).length
                (pre ++ c :: (w ++ d :: r)) (pre.length + 1)
                = ((pre ++ c :: w).length, (pre ++ c :: (w ++ [NUL])) ++ r) := by
              have h := _get_command_word_spec (pre ++ c :: (w ++ d :: r)).length
                (pre ++ [c]) w (d :: r) hw (by simp; omega) hrest
              simpa using h
            have hg2 : scannable false r = true := by
              have h := hg.2
              rw [hend, Bool.not_false, scannable_word w (d :: r) hw, scannable, hd] at h
              exact h
            have hlen : (pre ++ c :: (w ++ [NUL])).length = (pre ++ c :: w).length + 1 := by
              simp only [List.length_append, List.length_cons, List.length_nil]
              omega
            have hfuel2 : r.length ≤ n := by
              simp only [List.length_cons, List.length_append] at hfuel
              omega
            have hargv2 : (argv ++ [pre.length]).length ≤ MAX_INPUT_FIELDS := by
              rw [List.length_append, List.length_singleton]
              omega
            obtain ⟨offs, final, hrun, hlen2, hok⟩ := ih (pre ++ c :: (w ++ [NUL])) r
              (argv ++ [pre.length]) hg2 hfuel2 hargv2
            have hcount : (argv ++ [pre.length]).length + (buffer_words r).length
                = argv.length + ((c :: w) :: buffer_words r).length := by
              rw [List.length_append, List.length_singleton, List.length_cons]
              omega
            refine ⟨pre.length :: offs, final, ?_, ?_, fun hle => ?_⟩
            · unfold _get_command_loop
              rw [if_pos hlt, getD_at, if_neg hcN, if_neg hsp, if_neg hfull, hword, ← hlen,
                hrun, hcount, List.append_assoc]
              rfl
            · rw [List.append_assoc] at hlen2
              exact hlen2
            · rw [← hcount] at hle
              obtain ⟨h1, h2⟩ := hok hle
              have hfinal : final = pre ++ (c :: w ++ NUL :: terminated false r) := by
                rw [h1]
                simp
              refine ⟨?_, ?_⟩
              · rw [hfinal, hterm.2 d r hd]
                rfl
              · show c_string (final.drop pre.length) :: offs.map _ = _
                rw [h2]
                congr 1
                rw [hfinal, drop_at, c_string_stop _ _ huN]

/-- The scan of `_get_command` over a buffer in which no NUL stands where a
token may start. -/
theorem _get_command_scan_spec (s : Session) (X : List Char)
    (hgood : scannable false X = true) :
    (_get_command_scan s X).error_code
      = (if (buffer_words X).length > MAX_INPUT_FIELDS then E2BIG else 0)
    ∧ (_get_command_scan s X).argv.length ≤ MAX_INPUT_FIELDS
    ∧ ((buffer_words X).length ≤ MAX_INPUT_FIELDS →
        (_get_command_scan s X).argv = buffer_words X
        ∧ (_get_command_scan s X).session
            = { s with last_in_line := some (terminated false X) }
        ∧ (_get_command_scan s X).trace = []) := by
  obtain ⟨offs, final, hrun, hlen, hok⟩ :=
    _get_command_loop_spec (X.length + 1) [] X [] hgood (Nat.le_succ _) (Nat.zero_le _)
  have hrun2 : _get_command_loop (X.length + 1) X 0 []
      = (if (buffer_words X).length > MAX_INPUT_FIELDS then E2BIG else 0, offs, final) := by
    have h : ([] : List Nat).length + (buffer_words X).length = (buffer_words X).length := by
      simp
    rw [h] at hrun
    exact hrun
  refine ⟨?_, ?_, fun hle => ?_⟩
  · unfold _get_command_scan
    simp only [hrun2]
  · unfold _get_command_scan
    simp only [hrun2, List.length_map]
    exact hlen
  · obtain ⟨h1, h2⟩ := hok (by simpa using hle)
    have hcode : (if (buffer_words X).length > MAX_INPUT_FIELDS then E2BIG else 0) = 0 :=
      if_neg (by omega)
    rw [hcode] at hrun2
    refine ⟨?_, ?_, ?_⟩
    · unfold _get_command_scan
      simp only [hrun2]
      exact h2
    · unfold _get_command_scan
      simp only [hrun2]
      rw [h1]
      rfl
    · unfold _get_command_scan
      simp only [hrun2]
      rfl

theorem _get_command_line (s : Session) (line : CStr) (hrep : line ≠ "!!".toList) :
    _get_command s (some line) = _get_command_scan s line := by
  unfold _get_command
  simp only
  rw [if_neg (fun h => hrep ((strcmp_eq_zero_iff _ _).mp h))]

theorem _get_command_repeat (s : Session) (last : List Char)
    (h : s.last_in_line = some last) :
    _get_command s (some "!!".toList) = _get_command_scan s last := by
  unfold _get_command
  simp only
  rw [if_pos ((strcmp_eq_zero_iff _ _).mpr rfl)]
  simp only [h]

theorem mem_splitOnP_no_sep (p : Char → Bool) (l : List Char) :
    ∀ t ∈ l.splitOnP p, ∀ c ∈ t, p c = false := by
  induction l with
  | nil =>
    intro t ht c hc
    rw [List.splitOnP_nil, List.mem_singleton] at ht
    rw [ht] at hc
    cases hc
  | cons a as ih =>
    intro t ht c hc
    rw [List.splitOnP_cons] at ht
    by_cases ha : p a = true
    · rw [if_pos ha] at ht
      rcases List.mem_cons.mp ht with h | h
      · rw [h] at hc
        cases hc
      · exact ih t h c hc
    · rw [if_neg ha] at ht
      cases hs : as.splitOnP p with
      | nil => exact absurd hs (List.splitOnP_ne_nil _ _)
      | cons h0 tl =>
        rw [hs] at ht ih
        rcases List.mem_cons.mp ht with h | h
        · rw [h] at hc
          rcases List.mem_cons.mp hc with h1 | h1
          · rw [h1]
            simpa using ha
          · exact ih h0 (List.mem_cons_self _ _) c h1
        · exact ih t (List.mem_cons_of_mem _ h) c hc

theorem flatten_splitOnP (p : Char → Bool) (l : List Char) :
    (l.splitOnP p).flatten = l.filter (fun c => !p c) := by
  induction l with
  | nil => rfl
  | cons a as ih =>
    rw [List.splitOnP_cons]
    by_cases ha : p a = true
    · rw [if_pos ha, List.filter_cons_of_neg (by simp [ha])]
      show [] ++ (as.splitOnP p).flatten = _
      rw [List.nil_append, ih]
    · rw [if_neg ha, List.filter_cons_of_pos (by simpa using ha), ← ih]
      cases hs : as.splitOnP p with
      | nil => exact absurd hs (List.splitOnP_ne_nil _ _)
      | cons h0 tl => rfl

theorem flatten_filter_nonempty (L : List (List Char)) :
    (L.filter (fun w => decide (w ≠ []))).flatten = L.flatten := by
  induction L with
  | nil => rfl
  | cons w ws ih =>
    cases w with
    | nil =>
      rw [List.filter_cons_of_neg (by simp)]
      exact ih
    | cons c cs =>
      rw [List.filter_cons_of_pos (by simp)]
      show (c :: cs) ++ _ = (c :: cs) ++ _
      rw [ih]

/-- The words of a line are not empty, hold no white space, and put one after
the other they are the line without its white space. -/
theorem words_spec (line : CStr) :
    (∀ t ∈ words line, t ≠ [] ∧ ∀ c ∈ t, isspace c = false)
    ∧ (words line).flatten = line.filter (fun c => !isspace c) := by
  constructor
  · intro t ht
    unfold words at ht
    obtain ⟨h1, h2⟩ := List.mem_filter.mp ht
    exact ⟨by simpa using h2, mem_splitOnP_no_sep isspace line t h1⟩
  · unfold words
    rw [flatten_filter_nonempty, flatten_splitOnP]

/-- C17 (tokenizer splitting).  For every line that is not the repeat marker
and has at most 128 words, `_get_command` returns 0 and the tokens it hands
back are exactly the words of the line, its maximal runs of non-whitespace
characters, in left-to-right order: no token is empty, no token holds white
space, and the tokens put one after the other are the line without its white
space. -/
theorem tokenizer_splitting (s : Session) (line : CStr) (hnul : NUL ∉ line)
    (hrep : line ≠ "!!".toList) (hlen : (words line).length ≤ MAX_INPUT_FIELDS) :
    (_get_command s (some line)).error_code = 0
    ∧ (_get_command s (some line)).argv = words line
    ∧ (∀ t ∈ (_get_command s (some line)).argv, t ≠ [] ∧ ∀ c ∈ t, isspace c = false)
    ∧ (_get_command s (some line)).argv.flatten = line.filter (fun c => !isspace c) := by
  obtain ⟨hcode, _, hok⟩ := _get_command_scan_spec s line (scannable_of_no_NUL false line hnul)
  rw [buffer_words_eq_words line hnul] at hcode hok
  rw [_get_command_line s line hrep]
  have hargv := (hok hlen).1
  refine ⟨?_, hargv, ?_, ?_⟩
  · rw [hcode, if_neg (by omega)]
  · rw [hargv]
    exact (words_spec line).1
  · rw [hargv]
    exact (words_spec line).2

/-- C17 at the line `show  nodes n1`, with its two blanks in a row. -/
theorem tokenizer_splitting_witness :
    (_get_command Session.init (some "show  nodes n1".toList)).error_code = 0
    ∧ (_get_command Session.init (some "show  nodes n1".toList)).argv
        = words "show  nodes n1".toList
    ∧ words "show  nodes n1".toList = ["show".toList, "nodes".toList, "n1".toList] :=
  ⟨(tokenizer_splitting Session.init "show  nodes n1".toList (by decide) (by decide)
      (by decide)).1,
   (tokenizer_splitting Session.init "show  nodes n1".toList (by decide) (by decide)
      (by decide)).2.1,
   by decide⟩

theorem E2BIG_ne_zero : E2BIG ≠ 0 := by decide

/-- The value `_get_command` returns for a line that is not the repeat
marker. -/
theorem _get_command_code (s : Session) (line : CStr) (hnul : NUL ∉ line)
    (hrep : line ≠ "!!".toList) :
    (_get_command s (some line)).error_code
      = (if (words line).length > MAX_INPUT_FIELDS then E2BIG else 0)
    ∧ (_get_command s (some line)).argv.length ≤ MAX_INPUT_FIELDS
    ∧ (_get_command s (some line)).trace
      = (if (words line).length > MAX_INPUT_FIELDS then
          [.stderr (s.command_name ++ ": can not process over ".toList
            ++ (Nat.repr s.input_words).toList ++ " words\n".toList)]
         else []) := by
  obtain ⟨hcode, hlen, _⟩ := _get_command_scan_spec s line (scannable_of_no_NUL false line hnul)
  rw [buffer_words_eq_words line hnul] at hcode
  rw [_get_command_line s line hrep]
  refine ⟨hcode, hlen, ?_⟩
  have htrace : (_get_command_scan s line).trace
      = if (_get_command_scan s line).error_code ≠ 0 then
          [.stderr (s.command_name ++ ": can not process over ".toList
            ++ (Nat.repr s.input_words).toList ++ " words\n".toList)]
        else [] := rfl
  rw [htrace, hcode]
  by_cases h : (words line).length > MAX_INPUT_FIELDS
  · rw [if_pos h, if_pos h, if_pos E2BIG_ne_zero]
  · rw [if_neg h, if_neg h, if_neg (by simp)]

/-- A nonzero value returned by `_get_command` ends the loop of `main`, and
the process exits with that value. -/
theorem main_loop_get_command_fails (E : Manager) (fuel : Nat) (s0 s : Session)
    (input_fields : List CStr) (beyond : List (List Char)) (stdin : List CStr)
    (trace : List Event)
    (hrun : _process_command E s0 input_fields beyond = .ret (0, s) trace)
    (hflag : s.exit_flag ≠ 1) (hcode : (_get_command s stdin.head?).error_code ≠ 0) :
    main_loop E (fuel + 1) s0 input_fields beyond stdin
      = .exited (_get_command s stdin.head?).error_code
          (trace ++ (_get_command s stdin.head?).trace) := by
  unfold main_loop
  simp only [hrun]
  rw [if_neg (by simp), if_neg hflag, if_pos hcode]

/-- C18 (tokenizer overflow is the fatal case).  For a line that is not the
repeat marker, `_get_command` returns `E2BIG`, which is not 0, if and only if
the line has more than `MAX_INPUT_FIELDS` (128) words, and 0 otherwise; it
never hands back more than 128 tokens; and when the line read has more than
128 words the loop of `main` ends and the process exits with `E2BIG`. -/
theorem tokenizer_overflow (E : Manager) (s : Session) (line : CStr) (hnul : NUL ∉ line)
    (hrep : line ≠ "!!".toList) :
    ((_get_command s (some line)).error_code = E2BIG
      ↔ (words line).length > MAX_INPUT_FIELDS)
    ∧ ((_get_command s (some line)).error_code = 0
      ↔ (words line).length ≤ MAX_INPUT_FIELDS)
    ∧ E2BIG ≠ 0
    ∧ (_get_command s (some line)).argv.length ≤ MAX_INPUT_FIELDS
    ∧ ((words line).length > MAX_INPUT_FIELDS →
        (∀ (fuel : Nat) (s0 : Session) (input_fields : List CStr)
            (beyond : List (List Char)) (rest : List CStr) (trace : List Event),
          _process_command E s0 input_fields beyond = .ret (0, s) trace → s.exit_flag ≠ 1 →
          main_loop E (fuel + 1) s0 input_fields beyond (line :: rest)
            = .exited E2BIG (trace ++ (_get_command s (some line)).trace))
        ∧ (∀ (name : CStr) (beyond : List (List Char)) (rest : List CStr) (fuel : Nat),
          main E [name] beyond (line :: rest) fuel
            = .exited E2BIG [.stderr (name ++ ": can not process over ".toList
                ++ (Nat.repr 128).toList ++ " words\n".toList)])) := by
  obtain ⟨hcode, hlen, _⟩ := _get_command_code s line hnul hrep
  refine ⟨?_, ?_, E2BIG_ne_zero, hlen, fun hbig => ⟨?_, ?_⟩⟩
  · rw [hcode]
    by_cases h : (words line).length > MAX_INPUT_FIELDS
    · rw [if_pos h]
      exact ⟨fun _ => h, fun _ => rfl⟩
    · rw [if_neg h]
      exact ⟨fun hc => absurd hc.symm E2BIG_ne_zero, fun hc => absurd hc h⟩
  · rw [hcode]
    by_cases h : (words line).length > MAX_INPUT_FIELDS
    · rw [if_pos h]
      exact ⟨fun hc => absurd hc E2BIG_ne_zero, fun hc => absurd h (by omega)⟩
    · rw [if_neg h]
      exact ⟨fun _ => by omega, fun _ => rfl⟩
  · intro fuel s0 input_fields beyond rest trace hrun hflag
    have hc : (_get_command s (line :: rest).head?).error_code = E2BIG := by
      show (_get_command s (some line)).error_code = E2BIG
      rw [hcode, if_pos hbig]
    have h := main_loop_get_command_fails E fuel s0 s input_fields beyond (line :: rest) trace
      hrun
      hflag (by rw [hc]; exact E2BIG_ne_zero)
    rw [hc] at h
    exact h
  · intro name beyond rest fuel
    obtain ⟨hcode1, _, htrace1⟩ := _get_command_code
      { Session.init with
        command_name := name
        exit_flag := 0
        quiet_flag := 0
        input_words := 128 } line hnul hrep
    rw [if_pos hbig] at hcode1 htrace1
    unfold main
    simp only [List.tail_cons, main_flags, List.length_nil, ne_eq, not_true_eq_false,
      if_false, List.head?_cons, List.headD_cons, List.length_singleton]
    have h128 : (if 1 > MAX_INPUT_FIELDS then 1 else 128) = 128 := by decide
    rw [h128, hcode1, htrace1, if_pos E2BIG_ne_zero]
    rfl

/-- C18 at two lines: `show jobs` is within the limit, and the 129-word line
makes `_get_command` return `E2BIG` and `main` exit with it. -/
theorem tokenizer_overflow_witness :
    ((_get_command Session.init (some "show jobs".toList)).error_code = 0
      ↔ (words "show jobs".toList).length ≤ MAX_INPUT_FIELDS)
    ∧ (_get_command Session.init (some sample_long_line)).error_code = E2BIG
    ∧ main sample ["scontrol".toList] [] [sample_long_line, "quit".toList] 5
        = .exited E2BIG [.stderr ("scontrol".toList ++ ": can not process over ".toList
            ++ (Nat.repr 128).toList ++ " words\n".toList)] :=
  ⟨(tokenizer_overflow sample Session.init "show jobs".toList (by decide) (by decide)).2.1,
   (tokenizer_overflow sample Session.init sample_long_line
      (by set_option maxRecDepth 100000 in decide)
      (by decide)).1.mpr (by set_option maxRecDepth 100000 in decide),
   ((tokenizer_overflow sample Session.init sample_long_line
      (by set_option maxRecDepth 100000 in decide)
      (by decide)).2.2.2.2 (by set_option maxRecDepth 100000 in decide)).2
      "scontrol".toList [] ["quit".toList] 5⟩

/-- The repeat marker after a line `L` has been tokenized: the scan runs over
the stored buffer, in which the character ending each token is NUL; it hands
back the same tokens and leaves buffer and session as they are. -/
theorem _get_command_replay (s : Session) (L : CStr) (hnul : NUL ∉ L)
    (hlen : (words L).length ≤ MAX_INPUT_FIELDS) :
    _get_command { s with last_in_line := some (terminated false L) } (some "!!".toList)
      = ⟨0, words L, { s with last_in_line := some (terminated false L) }, [],
          (_get_command_scan { s with last_in_line := some (terminated false L) }
            (terminated false L)).beyond⟩ := by
  rw [_get_command_repeat _ (terminated false L) rfl]
  obtain ⟨hcode, _, hok⟩ := _get_command_scan_spec
    { s with last_in_line := some (terminated false L) } (terminated false L)
    (scannable_terminated false L hnul)
  rw [buffer_words_terminated, buffer_words_eq_words L hnul] at hcode hok
  obtain ⟨hargv, hsession, htrace⟩ := hok hlen
  rw [if_neg (by omega)] at hcode
  rw [terminated_idem] at hsession
  cases hc : _get_command_scan { s with last_in_line := some (terminated false L) }
    (terminated false L) with
  | mk code argv session trace beyond =>
    rw [hc] at hcode hargv hsession htrace
    simp only at hcode hargv hsession htrace
    rw [hcode, hargv, hsession, htrace]

/-- C19 (repeat marker replay).  For every line `L` that is not the repeat
marker and has at most 128 words, tokenizing `L` and then the repeat marker
`!!` any number `n + 1` of times hands back, each time, the tokens that
tokenizing `L` handed back, although the scan of `L` has overwritten the
character ending each token in the stored buffer; the repeat marker leaves
the stored line, and the whole session, as the scan of `L` left them. -/
theorem repeat_marker_replay (s : Session) (L : CStr) (hnul : NUL ∉ L)
    (hrep : L ≠ "!!".toList) (hlen : (words L).length ≤ MAX_INPUT_FIELDS) (n : Nat) :
    (_get_command (replayed (_get_command s (some L)).session n) (some "!!".toList)).argv
      = (_get_command s (some L)).argv
    ∧ (_get_command (replayed (_get_command s (some L)).session n)
        (some "!!".toList)).error_code = 0
    ∧ replayed (_get_command s (some L)).session (n + 1) = (_get_command s (some L)).session
    ∧ (_get_command s (some L)).session.last_in_line = some (terminated false L)
    ∧ (_get_command s (some L)).argv = words L := by
  obtain ⟨_, _, hok⟩ := _get_command_scan_spec s L (scannable_of_no_NUL false L hnul)
  rw [buffer_words_eq_words L hnul] at hok
  obtain ⟨hargv, hsession, _⟩ := hok hlen
  rw [← _get_command_line s L hrep] at hargv hsession
  have hreplay := _get_command_replay s L hnul hlen
  rw [← hsession] at hreplay
  have hfix : ∀ k, replayed (_get_command s (some L)).session k
      = (_get_command s (some L)).session := by
    intro k
    induction k with
    | zero => rfl
    | succ k ih =>
      show (_get_command (replayed (_get_command s (some L)).session k)
        (some "!!".toList)).session = _
      rw [ih, hreplay]
  rw [hfix n, hfix (n + 1), hreplay, hargv, hsession]
  exact ⟨rfl, rfl, rfl, rfl, rfl⟩

/-- C19 at `show  nodes n1` followed by the repeat marker three times. -/
theorem repeat_marker_replay_witness :
    (_get_command (replayed (_get_command Session.init (some "show  nodes n1".toList)).session
        2) (some "!!".toList)).argv
      = (_get_command Session.init (some "show  nodes n1".toList)).argv
    ∧ (_get_command Session.init (some "show  nodes n1".toList)).session.last_in_line
      = some (terminated false "show  nodes n1".toList)
    ∧ terminated false "show  nodes n1".toList
      = "show".toList ++ NUL :: " nodes".toList ++ NUL :: "n1".toList :=
  ⟨(repeat_marker_replay Session.init "show  nodes n1".toList (by decide) (by decide)
      (by decide) 2).1,
   (repeat_marker_replay Session.init "show  nodes n1".toList (by decide) (by decide)
      (by decide) 2).2.2.2.1,
   by decide⟩


/-! ## Letter case in the dispatcher and in name lookup -/

theorem strcasecmp_ci (a b k : CStr) (h : ci_eq a b) :
    strcasecmp a k = 0 ↔ strcasecmp b k = 0 := by
  rw [strcasecmp_eq_zero_iff, strcasecmp_eq_zero_iff]
  unfold ci_eq at *
  rw [h]

theorem strncasecmp_ci (a b k : CStr) (n : Nat) (h : ci_eq a b) :
    strncasecmp a k n = 0 ↔ strncasecmp b k n = 0 := by
  unfold ci_eq at h
  have e1 : (a.take n).map tolower = (b.take n).map tolower := by
    have := congrArg (List.take n) h
    simpa [List.map_take] using this
  rw [strncasecmp_eq_zero_iff, strncasecmp_eq_zero_iff, e1]

theorem shape_note (c : Prop) [Decidable c] (a b : Event) (t : List Event)
    (h : a.shape = b.shape) :
    ((if c then [a] else []) ++ t).map Event.shape
      = ((if c then [b] else []) ++ t).map Event.shape := by
  split
  · show a.shape :: t.map Event.shape = b.shape :: t.map Event.shape
    rw [h]
  · rfl

theorem shape_note_only (c : Prop) [Decidable c] (a b : Event) (h : a.shape = b.shape) :
    (if c then [a] else []).map Event.shape = (if c then [b] else []).map Event.shape := by
  split
  · show [a.shape] = [b.shape]
    rw [h]
  · rfl

theorem ret_shape {α : Type} (v : α) (a b : List Event)
    (h : a.map Event.shape = b.map Event.shape) :
    (Outcome.ret v a).shape = (Outcome.ret v b).shape := by
  show Outcome.ret v _ = Outcome.ret v _
  rw [h]

theorem after_daemons_shape (s : Session) (a b : List Event) (r : Outcome (Option CStr))
    (h : a.map Event.shape = b.map Event.shape) :
    (after_daemons s a r).shape = (after_daemons s b r).shape := by
  cases r with
  | ret v t =>
    show Outcome.ret _ ((a ++ t).map Event.shape) = Outcome.ret _ ((b ++ t).map Event.shape)
    rw [List.map_append, List.map_append, h]
  | exit st t =>
    show Outcome.exit _ ((a ++ t).map Event.shape) = Outcome.exit _ ((b ++ t).map Event.shape)
    rw [List.map_append, List.map_append, h]
  | undefined => rfl

/-- The `show` branch takes the same path for two commands that differ in the
letter case of the keyword and of the entity word. -/
theorem _process_show_shape (E : Manager) (s : Session) (k k1 e e1 : CStr)
    (tail : List CStr) (he : ci_eq e e1) :
    (_process_show E s (k :: e :: tail) k).shape
      = (_process_show E s (k1 :: e1 :: tail) k1).shape := by
  unfold _process_show
  have hlen : (k1 :: e1 :: tail).length = (k :: e :: tail).length := rfl
  rw [hlen]
  by_cases c0 : (k :: e :: tail).length > 3
  · rw [if_pos c0, if_pos c0]
    exact ret_shape _ _ _ (shape_note_only _ (too_many_arguments k) (too_many_arguments k1) rfl)
  · rw [if_neg c0, if_neg c0]
    simp only [List.tail_cons]
    by_cases c1 : strncasecmp e "config".toList 3 = 0
    · rw [if_pos c1, if_pos ((strncasecmp_ci _ _ _ _ he).mp c1)]
    · rw [if_neg c1, if_neg (mt (strncasecmp_ci _ _ _ _ he).mpr c1)]
      by_cases c2 : strncasecmp e "daemons".toList 5 = 0
      · rw [if_pos c2, if_pos ((strncasecmp_ci _ _ _ _ he).mp c2)]
        exact after_daemons_shape _ _ _ _ (shape_note_only _ _ _ rfl)
      · rw [if_neg c2, if_neg (mt (strncasecmp_ci _ _ _ _ he).mpr c2)]
        by_cases c3 : strncasecmp e "jobs".toList 3 = 0
        · rw [if_pos c3, if_pos ((strncasecmp_ci _ _ _ _ he).mp c3)]
        · rw [if_neg c3, if_neg (mt (strncasecmp_ci _ _ _ _ he).mpr c3)]
          by_cases c4 : strncasecmp e "nodes".toList 3 = 0
          · rw [if_pos c4, if_pos ((strncasecmp_ci _ _ _ _ he).mp c4)]
          · rw [if_neg c4, if_neg (mt (strncasecmp_ci _ _ _ _ he).mpr c4)]
            by_cases c5 : strncasecmp e "partitions".toList 3 = 0
            · rw [if_pos c5, if_pos ((strncasecmp_ci _ _ _ _ he).mp c5)]
            · rw [if_neg c5, if_neg (mt (strncasecmp_ci _ _ _ _ he).mpr c5)]
              by_cases c6 : strncasecmp e "steps".toList 4 = 0
              · rw [if_pos c6, if_pos ((strncasecmp_ci _ _ _ _ he).mp c6)]
              · rw [if_neg c6, if_neg (mt (strncasecmp_ci _ _ _ _ he).mpr c6)]
                exact ret_shape _ _ _ (shape_note_only _
                  (Event.stderr ("invalid entity:".toList ++ e ++ " for keyword:".toList ++ k
                    ++ " \n".toList))
                  (Event.stderr ("invalid entity:".toList ++ e1 ++ " for keyword:".toList ++ k1
                    ++ " \n".toList)) rfl)

theorem _process_show_shape_short (E : Manager) (s : Session) (k k1 : CStr) :
    (_process_show E s [k] k).shape = (_process_show E s [k1] k1).shape := by
  unfold _process_show
  rw [if_neg (show ¬ [k].length > 3 by simp), if_neg (show ¬ [k1].length > 3 by simp)]
  simp only [List.tail_cons]
  exact ret_shape _ _ _ (shape_note_only _
    (Event.stderr ("too few arguments for keyword:".toList ++ k ++ "\n".toList))
    (Event.stderr ("too few arguments for keyword:".toList ++ k1 ++ "\n".toList)) rfl)

/-- The dispatcher takes the same path for two commands that differ in the
letter case of the keyword only. -/
theorem _process_command_shape (E : Manager) (s : Session) (k k1 : CStr) (rest : List CStr)
    (beyond : List (List Char)) (hk : ci_eq k k1)
    (hshow : (_process_show E s (k :: rest) k).shape
      = (_process_show E s (k1 :: rest) k1).shape) :
    (_process_command E s (k :: rest) beyond).shape
      = (_process_command E s (k1 :: rest) beyond).shape := by
  unfold _process_command
  simp only
  have hlen : (k1 :: rest).length = (k :: rest).length := rfl
  rw [hlen]
  have tm : (too_many_arguments k).shape = (too_many_arguments k1).shape := rfl
  have tmf : (too_many_arguments_for k).shape = (too_many_arguments_for k1).shape := rfl
  by_cases c1 : strncasecmp k "abort".toList 5 = 0
  · rw [if_pos c1, if_pos ((strncasecmp_ci _ _ _ _ hk).mp c1)]
    show Outcome.ret _ _ = Outcome.ret _ _
    rw [shape_note _ _ _ _ tm]
  rw [if_neg c1, if_neg (mt (strncasecmp_ci _ _ _ _ hk).mpr c1)]
  by_cases c2 : strcasecmp k "exit".toList = 0 ∨ strcasecmp k "quit".toList = 0
  · have c2b : strcasecmp k1 "exit".toList = 0 ∨ strcasecmp k1 "quit".toList = 0 :=
      c2.imp (strcasecmp_ci _ _ _ hk).mp (strcasecmp_ci _ _ _ hk).mp
    rw [if_pos c2, if_pos c2b]
    show Outcome.ret _ _ = Outcome.ret _ _
    rw [shape_note_only _ _ _ tm]
  have c2b : ¬ (strcasecmp k1 "exit".toList = 0 ∨ strcasecmp k1 "quit".toList = 0) :=
    fun h => c2 (h.imp (strcasecmp_ci _ _ _ hk).mpr (strcasecmp_ci _ _ _ hk).mpr)
  rw [if_neg c2, if_neg c2b]
  by_cases c3 : strcasecmp k "help".toList = 0
  · rw [if_pos c3, if_pos ((strcasecmp_ci _ _ _ hk).mp c3)]
    show Outcome.ret _ _ = Outcome.ret _ _
    rw [shape_note _ _ _ _ tm]
  rw [if_neg c3, if_neg (mt (strcasecmp_ci _ _ _ hk).mpr c3)]
  by_cases c4 : strcasecmp k "pid2jid".toList = 0
  · rw [if_pos c4, if_pos ((strcasecmp_ci _ _ _ hk).mp c4)]
    by_cases c4a : (k :: rest).length > 2
    · rw [if_pos c4a, if_pos c4a]
      rfl
    · rw [if_neg c4a, if_neg c4a]
  rw [if_neg c4, if_neg (mt (strcasecmp_ci _ _ _ hk).mpr c4)]
  by_cases c5 : strcasecmp k "quiet".toList = 0
  · rw [if_pos c5, if_pos ((strcasecmp_ci _ _ _ hk).mp c5)]
    show Outcome.ret _ _ = Outcome.ret _ _
    rw [shape_note_only _ _ _ tm]
  rw [if_neg c5, if_neg (mt (strcasecmp_ci _ _ _ hk).mpr c5)]
  by_cases c6 : strncasecmp k "reconfigure".toList 7 = 0
  · rw [if_pos c6, if_pos ((strncasecmp_ci _ _ _ _ hk).mp c6)]
    show Outcome.ret _ _ = Outcome.ret _ _
    rw [shape_note _ _ _ _ tm]
  rw [if_neg c6, if_neg (mt (strncasecmp_ci _ _ _ _ hk).mpr c6)]
  by_cases c7 : strcasecmp k "show".toList = 0
  · rw [if_pos c7, if_pos ((strcasecmp_ci _ _ _ hk).mp c7)]
    exact hshow
  rw [if_neg c7, if_neg (mt (strcasecmp_ci _ _ _ hk).mpr c7)]
  by_cases c8 : strncasecmp k "shutdown".toList 5 = 0
  · rw [if_pos c8, if_pos ((strncasecmp_ci _ _ _ _ hk).mp c8)]
    show Outcome.ret _ _ = Outcome.ret _ _
    rw [shape_note _ _ _ _ tm]
  rw [if_neg c8, if_neg (mt (strncasecmp_ci _ _ _ _ hk).mpr c8)]
  by_cases c9 : strcasecmp k "update".toList = 0
  · rw [if_pos c9, if_pos ((strcasecmp_ci _ _ _ hk).mp c9)]
    by_cases c9a : (k :: rest).length < 2
    · rw [if_pos c9a, if_pos c9a]
      rfl
    · rw [if_neg c9a, if_neg c9a]
  rw [if_neg c9, if_neg (mt (strcasecmp_ci _ _ _ hk).mpr c9)]
  by_cases c10 : strcasecmp k "verbose".toList = 0
  · rw [if_pos c10, if_pos ((strcasecmp_ci _ _ _ hk).mp c10)]
    show Outcome.ret _ _ = Outcome.ret _ _
    rw [shape_note_only _ _ _ tmf]
  rw [if_neg c10, if_neg (mt (strcasecmp_ci _ _ _ hk).mpr c10)]
  by_cases c11 : strcasecmp k "version".toList = 0
  · rw [if_pos c11, if_pos ((strcasecmp_ci _ _ _ hk).mp c11)]
    show Outcome.ret _ _ = Outcome.ret _ _
    rw [shape_note _ _ _ _ tmf]
  rw [if_neg c11, if_neg (mt (strcasecmp_ci _ _ _ hk).mpr c11)]
  rfl

/-- A keyword that is `show` in some letter case reaches the `show` branch. -/
theorem _process_command_show (E : Manager) (s : Session) (k : CStr) (rest : List CStr)
    (beyond : List (List Char))
    (hk : ci_eq k "show".toList) :
    _process_command E s (k :: rest) beyond = _process_show E s (k :: rest) k := by
  have n1 : ¬ strncasecmp k "abort".toList 5 = 0 :=
    fun h => absurd ((strncasecmp_ci _ _ _ _ hk).mp h) (by decide)
  have n2 : ¬ (strcasecmp k "exit".toList = 0 ∨ strcasecmp k "quit".toList = 0) := by
    rintro (h | h)
    · exact absurd ((strcasecmp_ci _ _ _ hk).mp h) (by decide)
    · exact absurd ((strcasecmp_ci _ _ _ hk).mp h) (by decide)
  have n3 : ¬ strcasecmp k "help".toList = 0 :=
    fun h => absurd ((strcasecmp_ci _ _ _ hk).mp h) (by decide)
  have n4 : ¬ strcasecmp k "pid2jid".toList = 0 :=
    fun h => absurd ((strcasecmp_ci _ _ _ hk).mp h) (by decide)
  have n5 : ¬ strcasecmp k "quiet".toList = 0 :=
    fun h => absurd ((strcasecmp_ci _ _ _ hk).mp h) (by decide)
  have n6 : ¬ strncasecmp k "reconfigure".toList 7 = 0 :=
    fun h => absurd ((strncasecmp_ci _ _ _ _ hk).mp h) (by decide)
  have p7 : strcasecmp k "show".toList = 0 := (strcasecmp_eq_zero_iff _ _).mpr hk
  unfold _process_command
  simp only
  rw [if_neg n1, if_neg n2, if_neg n3, if_neg n4, if_neg n5, if_neg n6, if_pos p7]

theorem ci_eq_refl (a : CStr) : ci_eq a a := rfl

theorem ci_eq_trans (a b c : CStr) (h1 : ci_eq a b) (h2 : ci_eq b c) : ci_eq a c := by
  unfold ci_eq at *
  rw [h1, h2]

theorem ci_eq_symm (a b : CStr) (h : ci_eq a b) : ci_eq b a := by
  unfold ci_eq at *
  rw [h]

/-- A partition lookup by a name no record has exactly displays nothing. -/
theorem _print_part_display_exact (quiet_flag : Int) (X : CStr) (msg : partition_info_msg)
    (h : ∀ r ∈ msg.partition_array, r.name ≠ X) :
    displayed (_print_part_display quiet_flag (some X) msg) = [] := by
  have hnone : msg.partition_array.find? (fun r => decide (r.name = X)) = none :=
    List.find?_eq_none.mpr (fun r hr => by simpa using h r hr)
  unfold _print_part_display
  simp only [_print_part_loop_lookup, hnone]
  unfold displayed
  split_ifs <;> rfl

/-- A node lookup by a name no record has exactly displays nothing and leaves
the cursor alone. -/
theorem _print_node_exact (quiet_flag : Int) (c : Nat) (X : CStr) (msg : node_info_msg)
    (h : ∀ r ∈ msg.node_array, r.name ≠ X) :
    ∃ trace, _print_node quiet_flag c (some X) msg = .ret c trace ∧ displayed trace = [] := by
  have hnone : first_probe_match msg.node_array c X = none := by
    cases hf : first_probe_match msg.node_array c X with
    | none => rfl
    | some i =>
      obtain ⟨r, hr, hname⟩ := (first_probe_match_iff msg.node_array c X).mpr ⟨i, hf⟩
      exact absurd hname (h r hr)
  refine ⟨_, (_print_node_lookup quiet_flag c X msg).2 hnone, ?_⟩
  split_ifs <;> rfl

/-- C20 (case sensitivity asymmetry).  Changing the letter case of the keyword
of a command, and of the entity word of a `show` command, does not change
which branch of `_process_command` runs: the value returned, the statics and
every event are the same, apart from the text of the messages on stderr that
repeat the words as typed.  Name lookup of nodes and partitions compares with
exact, case-sensitive equality: a name that no record has exactly displays
nothing, whatever records have it in another letter case. -/
theorem case_sensitivity_asymmetry (E : Manager) (s : Session) (argv argv1 : List CStr)
    (beyond : List (List Char)) (h : case_variant argv argv1) :
    (_process_command E s argv beyond).shape = (_process_command E s argv1 beyond).shape
    ∧ (∀ (quiet_flag : Int) (c : Nat) (X : CStr) (msg : node_info_msg),
        (∀ r ∈ msg.node_array, r.name ≠ X) →
        ∃ trace, _print_node quiet_flag c (some X) msg = .ret c trace
          ∧ displayed trace = [])
    ∧ (∀ (quiet_flag : Int) (X : CStr) (msg : partition_info_msg),
        (∀ r ∈ msg.partition_array, r.name ≠ X) →
        displayed (_print_part_display quiet_flag (some X) msg) = []) := by
  refine ⟨?_, fun q c X msg hx => _print_node_exact q c X msg hx,
    fun q X msg hx => _print_part_display_exact q X msg hx⟩
  match argv, argv1, h with
  | [], [], _ => rfl
  | [k], [k1], h =>
    exact _process_command_shape E s k k1 [] beyond h (_process_show_shape_short E s k k1)
  | k :: e :: rest, k1 :: e1 :: rest1, h =>
    obtain ⟨hk, hrest, he⟩ := h
    subst hrest
    rcases he with he | ⟨hshow, he⟩
    · subst he
      exact _process_command_shape E s k k1 (e :: rest) beyond hk
        (_process_show_shape E s k k1 e e rest (ci_eq_refl e))
    · rw [_process_command_show E s k (e :: rest) beyond hshow,
        _process_command_show E s k1 (e1 :: rest) beyond
          (ci_eq_trans _ _ _ (ci_eq_symm _ _ hk) hshow)]
      exact _process_show_shape E s k k1 e e1 rest he

/-- C20 at `SHOW Nodes N1` against `show nodes N1`, and at the lookup of `N1`
in a snapshot whose only record is named `n1`. -/
theorem case_sensitivity_asymmetry_witness :
    (_process_command sample Session.init ["SHOW".toList, "Nodes".toList, "N1".toList] []).shape
      = (_process_command sample Session.init
          ["show".toList, "nodes".toList, "N1".toList] []).shape
    ∧ ci_eq "N1".toList "n1".toList
    ∧ _print_node 0 0 (some "N1".toList) ⟨3, 100, [⟨"n1".toList, 2⟩]⟩
        = .ret 0 [.stdout "Node N1 not found\n".toList] :=
  ⟨(case_sensitivity_asymmetry sample Session.init
      ["SHOW".toList, "Nodes".toList, "N1".toList]
      ["show".toList, "nodes".toList, "N1".toList] []
      ⟨by decide, rfl, Or.inr ⟨by decide, by decide⟩⟩).1,
   by decide, by decide⟩


/-! ## The configuration display -/

/-- C24 (config lookup by parameter).  `_print_config` never reads its
argument: called with a parameter name it does exactly what it does when
called with NULL, and what it displays is the whole configuration snapshot
through `slurm_print_ctl_conf`, as `show config ControlMachine` does in a
fresh session. -/
theorem print_config_ignores_param :
    (∀ (E : Manager) (s : Session) (config_param : CStr),
      _print_config E s (some config_param) = _print_config E s none)
    ∧ _print_config sample Session.init (some "ControlMachine".toList)
      = .ret { Session.init with
          old_slurm_ctl_conf_ptr := some ⟨1, 100, [("ControlMachine".toList, "lx0".toList)]⟩ }
        [.slurm_load_ctl_conf 0,
         .slurm_print_ctl_conf ⟨1, 100, [("ControlMachine".toList, "lx0".toList)]⟩] :=
  ⟨fun _ _ _ => rfl, by decide⟩

/-! ## The node cursor across snapshots -/

/-- After `_print_node` the cursor is the one it started with or an index of
the snapshot it ran on. -/
theorem _print_node_cursor (quiet_flag : Int) (c : Nat) (node_name : Option CStr)
    (msg : node_info_msg) :
    ∃ c1 trace, _print_node quiet_flag c node_name msg = .ret c1 trace
      ∧ (c1 = c ∨ c1 < msg.node_array.length) := by
  cases node_name with
  | none =>
    obtain ⟨inx, trace, hrun, _, hall⟩ := _print_node_ret quiet_flag c none msg
    exact ⟨inx, trace, hrun, Or.inl (hall rfl).1⟩
  | some X =>
    obtain ⟨hsome, hnone⟩ := _print_node_lookup quiet_flag c X msg
    cases hf : first_probe_match msg.node_array c X with
    | none => exact ⟨c, _, hnone hf, Or.inl rfl⟩
    | some i =>
      obtain ⟨r, hr, _, hrun⟩ := hsome i hf
      refine ⟨i, _, hrun, Or.inr ?_⟩
      rcases Nat.lt_or_ge i msg.node_array.length with h1 | h1
      · exact h1
      · rw [List.getElem?_eq_none h1] at hr
        cases hr

/-- C25 (cursor safety across refreshes).  From any cursor value, so also
from 0 and from a value that is stale because the snapshot has shrunk, every
sequence of node lookups and print-all displays over snapshots of any sizes
runs to its end: no display reads the node array outside `[0, record_count)`,
which is the only way `node_displays` can fail.  A display moves the cursor
only to an index of the snapshot it ran on, a display on an empty snapshot
runs no iteration of the loop, so computes no remainder, and leaves the
cursor alone, and `_print_node_list` returns from every session state. -/
theorem cursor_safety (E : Manager) (s : Session) (quiet_flag : Int) (c : Nat) :
    (∀ calls : List (Option CStr × node_info_msg),
      ∃ c1 trace, node_displays quiet_flag c calls = .ret c1 trace)
    ∧ (∀ (node_name : Option CStr) (msg : node_info_msg),
      ∃ c1 trace, _print_node quiet_flag c node_name msg = .ret c1 trace
        ∧ (c1 = c ∨ c1 < msg.node_array.length))
    ∧ (∀ (node_name : Option CStr) (addr last_update : Nat),
      _print_node_loop node_name [] ([] : List node_info).length 0 c = .ret c []
      ∧ ∃ trace, _print_node quiet_flag c node_name ⟨addr, last_update, []⟩ = .ret c trace)
    ∧ (∀ node_list : Option CStr, ∃ s1 trace, _print_node_list E s node_list = .ret s1 trace) := by
  refine ⟨fun calls => ?_, fun name msg => _print_node_cursor quiet_flag c name msg,
    fun name addr last_update => ⟨rfl, ?_⟩, fun node_list => ?_⟩
  · induction calls generalizing c with
    | nil => exact ⟨c, [], rfl⟩
    | cons call rest ih =>
      obtain ⟨name, msg⟩ := call
      obtain ⟨c1, trace, hrun, _⟩ := _print_node_cursor quiet_flag c name msg
      obtain ⟨c2, trace2, hrun2⟩ := ih c1
      refine ⟨c2, trace ++ trace2, ?_⟩
      unfold node_displays
      simp only [hrun, hrun2]
  · obtain ⟨c1, trace, hrun, hc⟩ := _print_node_cursor quiet_flag c name ⟨addr, last_update, []⟩
    rcases hc with hc | hc
    · rw [hc] at hrun
      exact ⟨trace, hrun⟩
    · exact absurd hc (Nat.not_lt_zero _)
  · obtain ⟨s1, trace, h, _⟩ := _print_node_list_queries E s node_list
    exact ⟨s1, trace, h⟩


/-! ## End of input -/

/-- One iteration of the loop of `main` at end of input: the line reader
returns NULL, so the session is as the command left it and the next command
has no token. -/
theorem main_loop_end_of_input (E : Manager) (fuel : Nat) (s0 s : Session)
    (input_fields : List CStr) (beyond : List (List Char)) (trace : List Event)
    (hrun : _process_command E s0 input_fields beyond = .ret (0, s) trace)
    (hflag : s.exit_flag ≠ 1) :
    main_loop E (fuel + 1) s0 input_fields beyond []
      = Process.after (trace ++ []) (main_loop E fuel s [] [] []) := by
  have hget : _get_command s ([] : List CStr).head? = ⟨0, [], s, [], []⟩ := rfl
  conv_lhs => unfold main_loop
  simp only [hrun]
  rw [if_neg (by simp), if_neg hflag, hget]
  simp only [ne_eq, not_true_eq_false, if_false, List.tail_nil]

theorem _process_command_no_input (E : Manager) (s : Session) (beyond : List (List Char)) :
    _process_command E s [] beyond
      = .ret (0, s) (if s.quiet_flag = -1 then [.stderr "no input".toList] else []) := rfl

/-- At end of input the loop of `main` never reaches its exit. -/
theorem main_loop_spins (E : Manager) (s : Session) (hflag : s.exit_flag ≠ 1) (fuel : Nat) :
    ∃ trace, main_loop E fuel s [] [] [] = .running trace := by
  induction fuel with
  | zero => exact ⟨[], rfl⟩
  | succ n ih =>
    obtain ⟨trace, h⟩ := ih
    rw [main_loop_end_of_input E n s s [] [] _ (_process_command_no_input E s []) hflag, h]
    exact ⟨_, rfl⟩

/-- C28 (end of input never terminates the session).  When the line reader
returns NULL, `_get_command` returns 0 with no token and leaves the statics as
they are; `_process_command` on no token returns 0 and leaves the statics as
they are, the exit flag included; so an iteration of the loop of `main` at end
of input hands the session on unchanged, and however many iterations are
allowed the loop is still running and has not exited. -/
theorem end_of_input (E : Manager) (s : Session) (hflag : s.exit_flag ≠ 1) :
    _get_command s none = ⟨0, [], s, [], []⟩
    ∧ (∀ beyond : List (List Char), _process_command E s [] beyond
        = .ret (0, s) (if s.quiet_flag = -1 then [.stderr "no input".toList] else []))
    ∧ (∀ fuel, main_loop E (fuel + 1) s [] [] []
        = Process.after ((if s.quiet_flag = -1 then [.stderr "no input".toList] else []) ++ [])
            (main_loop E fuel s [] [] []))
    ∧ (∀ fuel, ∃ trace, main_loop E fuel s [] [] [] = .running trace)
    ∧ (∀ (fuel : Nat) (s0 : Session) (input_fields : List CStr) (beyond : List (List Char))
        (trace : List Event),
        _process_command E s0 input_fields beyond = .ret (0, s) trace →
        ∃ trace1, main_loop E fuel s0 input_fields beyond [] = .running trace1) := by
  refine ⟨rfl, fun _ => rfl, fun fuel => ?_, fun fuel => main_loop_spins E s hflag fuel,
    fun fuel s0 input_fields beyond trace hrun => ?_⟩
  · exact main_loop_end_of_input E fuel s s [] [] _ (_process_command_no_input E s []) hflag
  · cases fuel with
    | zero => exact ⟨[], rfl⟩
    | succ n =>
      obtain ⟨trace1, h⟩ := main_loop_spins E s hflag n
      rw [main_loop_end_of_input E n s0 s input_fields beyond trace hrun hflag, h]
      exact ⟨_, rfl⟩

/-- C28 at a fresh session: with no line to read, `main` started without a
command is still in its loop after 1000 iterations. -/
theorem end_of_input_witness :
    _get_command Session.init none = ⟨0, [], Session.init, [], []⟩
    ∧ ∃ trace, main_loop sample 1000 Session.init [] [] [] = .running trace :=
  ⟨(end_of_input sample Session.init (by decide)).1,
   (end_of_input sample Session.init (by decide)).2.2.2.1 1000⟩


/-! ## Integer fields -/

theorem job_job_id_arg (E : Manager) (m : job_desc_msg) (arg : CStr)
    (hkey : begins_with "JobId=".toList arg) :
    _update_job_arg E m arg
      = .ok { m with job_id := to_uint32 (strtol E.LONG_BITS (arg.drop 6)) } := by
  unfold _update_job_arg
  rw [if_pos (strncasecmp_of_begins _ _ 6 hkey (by decide))]

theorem job_time_limit_arg (E : Manager) (m : job_desc_msg) (arg : CStr)
    (hkey : begins_with "TimeLimit=".toList arg) :
    _update_job_arg E m arg
      = .ok { m with time_limit := to_uint32 (strtol E.LONG_BITS (arg.drop 10)) } := by
  unfold _update_job_arg
  rw [if_neg (strncasecmp_ne_of_begins _ _ _ _ hkey (by decide)),
    if_pos (strncasecmp_of_begins _ _ 10 hkey (by decide))]

theorem job_priority_arg (E : Manager) (m : job_desc_msg) (arg : CStr)
    (hkey : begins_with "Priority=".toList arg) :
    _update_job_arg E m arg
      = .ok { m with priority := to_uint32 (strtol E.LONG_BITS (arg.drop 9)) } := by
  unfold _update_job_arg
  rw [if_neg (strncasecmp_ne_of_begins _ _ _ _ hkey (by decide)),
    if_neg (strncasecmp_ne_of_begins _ _ _ _ hkey (by decide)),
    if_pos (strncasecmp_of_begins _ _ 9 hkey (by decide))]

theorem job_num_procs_arg (E : Manager) (m : job_desc_msg) (arg : CStr)
    (hkey : begins_with "ReqProcs=".toList arg) :
    _update_job_arg E m arg
      = .ok { m with num_procs := to_uint32 (strtol E.LONG_BITS (arg.drop 9)) } := by
  unfold _update_job_arg
  rw [if_neg (strncasecmp_ne_of_begins _ _ _ _ hkey (by decide)),
    if_neg (strncasecmp_ne_of_begins _ _ _ _ hkey (by decide)),
    if_neg (strncasecmp_ne_of_begins _ _ _ _ hkey (by decide)),
    if_pos (strncasecmp_of_begins _ _ 9 hkey (by decide))]

theorem job_min_nodes_arg (E : Manager) (m : job_desc_msg) (arg : CStr)
    (hkey : begins_with "MinNodes=".toList arg) :
    _update_job_arg E m arg
      = .ok { m with min_nodes := to_uint32 (strtol E.LONG_BITS (arg.drop 9)) } := by
  unfold _update_job_arg
  rw [if_neg (strncasecmp_ne_of_begins _ _ _ _ hkey (by decide)),
    if_neg (strncasecmp_ne_of_begins _ _ _ _ hkey (by decide)),
    if_neg (strncasecmp_ne_of_begins _ _ _ _ hkey (by decide)),
    if_neg (strncasecmp_ne_of_begins _ _ _ _ hkey (by decide)),
    if_pos (strncasecmp_of_begins _ _ 9 hkey (by decide))]

theorem job_min_procs_arg (E : Manager) (m : job_desc_msg) (arg : CStr)
    (hkey : begins_with "MinProcs=".toList arg) :
    _update_job_arg E m arg
      = .ok { m with min_procs := to_uint32 (strtol E.LONG_BITS (arg.drop 9)) } := by
  unfold _update_job_arg
  rw [if_neg (strncasecmp_ne_of_begins _ _ _ _ hkey (by decide)),
    if_neg (strncasecmp_ne_of_begins _ _ _ _ hkey (by decide)),
    if_neg (strncasecmp_ne_of_begins _ _ _ _ hkey (by decide)),
    if_neg (strncasecmp_ne_of_begins _ _ _ _ hkey (by decide)),
    if_neg (strncasecmp_ne_of_begins _ _ _ _ hkey (by decide)),
    if_pos (strncasecmp_of_begins _ _ 9 hkey (by decide))]

theorem job_min_memory_arg (E : Manager) (m : job_desc_msg) (arg : CStr)
    (hkey : begins_with "MinMemory=".toList arg) :
    _update_job_arg E m arg
      = .ok { m with min_memory := to_uint32 (strtol E.LONG_BITS (arg.drop 10)) } := by
  unfold _update_job_arg
  rw [if_neg (strncasecmp_ne_of_begins _ _ _ _ hkey (by decide)),
    if_neg (strncasecmp_ne_of_begins _ _ _ _ hkey (by decide)),
    if_neg (strncasecmp_ne_of_begins _ _ _ _ hkey (by decide)),
    if_neg (strncasecmp_ne_of_begins _ _ _ _ hkey (by decide)),
    if_neg (strncasecmp_ne_of_begins _ _ _ _ hkey (by decide)),
    if_neg (strncasecmp_ne_of_begins _ _ _ _ hkey (by decide)),
    if_pos (strncasecmp_of_begins _ _ 10 hkey (by decide))]

theorem job_min_tmp_disk_arg (E : Manager) (m : job_desc_msg) (arg : CStr)
    (hkey : begins_with "MinTmpDisk=".toList arg) :
    _update_job_arg E m arg
      = .ok { m with min_tmp_disk := to_uint32 (strtol E.LONG_BITS (arg.drop 11)) } := by
  unfold _update_job_arg
  rw [if_neg (strncasecmp_ne_of_begins _ _ _ _ hkey (by decide)),
    if_neg (strncasecmp_ne_of_begins _ _ _ _ hkey (by decide)),
    if_neg (strncasecmp_ne_of_begins _ _ _ _ hkey (by decide)),
    if_neg (strncasecmp_ne_of_begins _ _ _ _ hkey (by decide)),
    if_neg (strncasecmp_ne_of_begins _ _ _ _ hkey (by decide)),
    if_neg (strncasecmp_ne_of_begins _ _ _ _ hkey (by decide)),
    if_neg (strncasecmp_ne_of_begins _ _ _ _ hkey (by decide)),
    if_pos (strncasecmp_of_begins _ _ 11 hkey (by decide))]

theorem to_uint32_mod (x : Int) : (to_uint32 x : Int) = x % 4294967296 := by
  unfold to_uint32
  exact Int.toNat_of_nonneg (Int.emod_nonneg _ (by decide))

theorem pow_pos_int (k : Nat) : (1 : Int) ≤ 2 ^ k := by
  have h : 0 < 2 ^ k := Nat.pow_pos (by decide)
  have h2 : ((1 : Nat) : Int) ≤ ((2 ^ k : Nat) : Int) := Int.ofNat_le.mpr h
  push_cast at h2
  exact h2

theorem strtol_no_digits (w : Nat) : strtol w "abc".toList = 0 := by
  have h := pow_pos_int (w - 1)
  show min ((2 ^ (w - 1) : Int) - 1) (0 : Int) = 0
  exact min_eq_right (by omega)

theorem strtol_minus_one (w : Nat) : strtol w "-1".toList = -1 := by
  have h := pow_pos_int (w - 1)
  show max (-(2 ^ (w - 1) : Int)) (-(1 : Int)) = -1
  exact max_eq_right (by omega)

/-- A directive made of one accepted job token is sent. -/
theorem _update_job_single (E : Manager) (arg : CStr) (job_msg : job_desc_msg)
    (h : _update_job_arg E E.slurm_init_job_desc_msg arg = .ok job_msg) :
    ∃ rc, _update_job E [arg] = .ret rc [.slurm_update_job job_msg] := by
  unfold _update_job for_each_arg
  simp only [h, for_each_arg]
  cases E.slurm_update_job job_msg <;> exact ⟨_, rfl⟩

/-- A directive made of one accepted partition token is sent. -/
theorem _update_part_single (E : Manager) (arg : CStr) (beyond : List Char)
    (part_msg : update_part_msg)
    (h : _update_part_arg E E.slurm_init_part_desc_msg arg beyond = .ok part_msg) :
    ∃ rc, _update_part E [(arg, beyond)] = .ret rc [.slurm_update_partition part_msg] := by
  unfold _update_part for_each_arg
  simp only [h, for_each_arg]
  cases E.slurm_update_partition part_msg <;> exact ⟨_, rfl⟩

/-- C27 (integer coercion is total and wraps).  In the body of `_update_job`
a token keyed `JobId=`, `TimeLimit=`, `Priority=`, `ReqProcs=`, `MinNodes=`,
`MinProcs=`, `MinMemory=` or `MinTmpDisk=` is always accepted, whatever its
value text, and stores `(uint32_t) strtol (value, NULL, 10)`; so does a
`MaxTime=` or `MaxNodes=` token of `_update_part` whose value is not
`INFINITE`.  The stored number is the `strtol` value reduced modulo 2^32: the
text `abc` gives 0, the text `-1` gives 4294967295, and a directive made of
such a token is sent to the manager. -/
theorem integer_coercion (E : Manager) (m : job_desc_msg) (p : update_part_msg) (arg : CStr)
    (beyond : List Char) :
    (begins_with "JobId=".toList arg → _update_job_arg E m arg
        = .ok { m with job_id := to_uint32 (strtol E.LONG_BITS (arg.drop 6)) })
    ∧ (begins_with "TimeLimit=".toList arg → _update_job_arg E m arg
        = .ok { m with time_limit := to_uint32 (strtol E.LONG_BITS (arg.drop 10)) })
    ∧ (begins_with "Priority=".toList arg → _update_job_arg E m arg
        = .ok { m with priority := to_uint32 (strtol E.LONG_BITS (arg.drop 9)) })
    ∧ (begins_with "ReqProcs=".toList arg → _update_job_arg E m arg
        = .ok { m with num_procs := to_uint32 (strtol E.LONG_BITS (arg.drop 9)) })
    ∧ (begins_with "MinNodes=".toList arg → _update_job_arg E m arg
        = .ok { m with min_nodes := to_uint32 (strtol E.LONG_BITS (arg.drop 9)) })
    ∧ (begins_with "MinProcs=".toList arg → _update_job_arg E m arg
        = .ok { m with min_procs := to_uint32 (strtol E.LONG_BITS (arg.drop 9)) })
    ∧ (begins_with "MinMemory=".toList arg → _update_job_arg E m arg
        = .ok { m with min_memory := to_uint32 (strtol E.LONG_BITS (arg.drop 10)) })
    ∧ (begins_with "MinTmpDisk=".toList arg → _update_job_arg E m arg
        = .ok { m with min_tmp_disk := to_uint32 (strtol E.LONG_BITS (arg.drop 11)) })
    ∧ (begins_with "MaxTime=".toList arg → ¬ ci_eq (arg.drop 8) "INFINITE".toList →
        _update_part_arg E p arg beyond
          = .ok { p with max_time := to_uint32 (strtol E.LONG_BITS (arg.drop 8)) })
    ∧ (begins_with "MaxNodes=".toList arg → ¬ ci_eq (arg.drop 9) "INFINITE".toList →
        _update_part_arg E p arg beyond
          = .ok { p with max_nodes := to_uint32 (strtol E.LONG_BITS (arg.drop 9)) })
    ∧ (∀ x : Int, (to_uint32 x : Int) = x % 4294967296)
    ∧ to_uint32 (strtol E.LONG_BITS "abc".toList) = 0
    ∧ to_uint32 (strtol E.LONG_BITS "-1".toList) = 4294967295
    ∧ (∃ rc, _update_job E ["JobId=abc".toList]
        = .ret rc [.slurm_update_job { E.slurm_init_job_desc_msg with job_id := 0 }])
    ∧ (∃ rc, _update_part E [("MaxTime=-1".toList, beyond)]
        = .ret rc [.slurm_update_partition
            { E.slurm_init_part_desc_msg with max_time := 4294967295 }]) := by
  have habc : to_uint32 (strtol E.LONG_BITS "abc".toList) = 0 := by
    rw [strtol_no_digits]
    rfl
  have hneg : to_uint32 (strtol E.LONG_BITS "-1".toList) = 4294967295 := by
    rw [strtol_minus_one]
    rfl
  refine ⟨job_job_id_arg E m arg, job_time_limit_arg E m arg, job_priority_arg E m arg,
    job_num_procs_arg E m arg, job_min_nodes_arg E m arg, job_min_procs_arg E m arg,
    job_min_memory_arg E m arg, job_min_tmp_disk_arg E m arg, fun hkey hv => ?_,
    fun hkey hv => ?_, to_uint32_mod, habc, hneg, ?_, ?_⟩
  · rw [part_max_time_arg E p arg beyond hkey, if_neg (mt (strcasecmp_eq_zero_iff _ _).mp hv)]
  · rw [part_max_nodes_arg E p arg beyond hkey,
      if_neg (mt (strcasecmp_eq_zero_iff _ _).mp hv)]
  · apply _update_job_single
    rw [job_job_id_arg E _ "JobId=abc".toList (by decide)]
    show Step.ok { E.slurm_init_job_desc_msg with
      job_id := to_uint32 (strtol E.LONG_BITS "abc".toList) } = _
    rw [habc]
  · apply _update_part_single
    rw [part_max_time_arg E _ "MaxTime=-1".toList beyond (by decide), if_neg (by decide)]
    show Step.ok { E.slurm_init_part_desc_msg with
      max_time := to_uint32 (strtol E.LONG_BITS "-1".toList) } = _
    rw [hneg]

/-- C27 at the tokens `Priority=-1` and `MaxNodes=abc`. -/
theorem integer_coercion_witness :
    _update_job_arg sample sample.slurm_init_job_desc_msg "Priority=-1".toList
      = .ok { sample.slurm_init_job_desc_msg with
          priority := to_uint32 (strtol sample.LONG_BITS ("Priority=-1".toList.drop 9)) }
    ∧ _update_part_arg sample sample.slurm_init_part_desc_msg "MaxNodes=abc".toList []
      = .ok { sample.slurm_init_part_desc_msg with
          max_nodes := to_uint32 (strtol sample.LONG_BITS ("MaxNodes=abc".toList.drop 9)) }
    ∧ to_uint32 (strtol sample.LONG_BITS ("Priority=-1".toList.drop 9)) = 4294967295
    ∧ to_uint32 (strtol sample.LONG_BITS ("MaxNodes=abc".toList.drop 9)) = 0 :=
  ⟨(integer_coercion sample sample.slurm_init_job_desc_msg sample.slurm_init_part_desc_msg
      "Priority=-1".toList []).2.2.1 (by decide),
   (integer_coercion sample sample.slurm_init_job_desc_msg sample.slurm_init_part_desc_msg
      "MaxNodes=abc".toList []).2.2.2.2.2.2.2.2.2.1 (by decide) (by decide),
   by decide, by decide⟩


/-! ## Anchors of two entity kinds -/

theorem job_arg_node_anchor (E : Manager) (m : job_desc_msg) (arg : CStr)
    (h : begins_with "NodeName=".toList arg) :
    _update_job_arg E m arg = .abort (invalid_input arg) := by
  unfold _update_job_arg
  rw [if_neg (strncasecmp_ne_of_begins _ _ _ _ h (by decide)),
    if_neg (strncasecmp_ne_of_begins _ _ _ _ h (by decide)),
    if_neg (strncasecmp_ne_of_begins _ _ _ _ h (by decide)),
    if_neg (strncasecmp_ne_of_begins _ _ _ _ h (by decide)),
    if_neg (strncasecmp_ne_of_begins _ _ _ _ h (by decide)),
    if_neg (strncasecmp_ne_of_begins _ _ _ _ h (by decide)),
    if_neg (strncasecmp_ne_of_begins _ _ _ _ h (by decide)),
    if_neg (strncasecmp_ne_of_begins _ _ _ _ h (by decide)),
    if_neg (strncasecmp_ne_of_begins _ _ _ _ h (by decide)),
    if_neg (strncasecmp_ne_of_begins _ _ _ _ h (by decide)),
    if_neg (strncasecmp_ne_of_begins _ _ _ _ h (by decide)),
    if_neg (strncasecmp_ne_of_begins _ _ _ _ h (by decide)),
    if_neg (strncasecmp_ne_of_begins _ _ _ _ h (by decide)),
    if_neg (strncasecmp_ne_of_begins _ _ _ _ h (by decide))]

theorem job_arg_part_anchor (E : Manager) (m : job_desc_msg) (arg : CStr)
    (h : begins_with "PartitionName=".toList arg) :
    _update_job_arg E m arg = .abort (invalid_input arg) := by
  unfold _update_job_arg
  rw [if_neg (strncasecmp_ne_of_begins _ _ _ _ h (by decide)),
    if_neg (strncasecmp_ne_of_begins _ _ _ _ h (by decide)),
    if_neg (strncasecmp_ne_of_begins _ _ _ _ h (by decide)),
    if_neg (strncasecmp_ne_of_begins _ _ _ _ h (by decide)),
    if_neg (strncasecmp_ne_of_begins _ _ _ _ h (by decide)),
    if_neg (strncasecmp_ne_of_begins _ _ _ _ h (by decide)),
    if_neg (strncasecmp_ne_of_begins _ _ _ _ h (by decide)),
    if_neg (strncasecmp_ne_of_begins _ _ _ _ h (by decide)),
    if_neg (strncasecmp_ne_of_begins _ _ _ _ h (by decide)),
    if_neg (strncasecmp_ne_of_begins _ _ _ _ h (by decide)),
    if_neg (strncasecmp_ne_of_begins _ _ _ _ h (by decide)),
    if_neg (strncasecmp_ne_of_begins _ _ _ _ h (by decide)),
    if_neg (strncasecmp_ne_of_begins _ _ _ _ h (by decide)),
    if_neg (strncasecmp_ne_of_begins _ _ _ _ h (by decide))]

theorem node_arg_job_anchor (E : Manager) (m : update_node_msg) (arg : CStr)
    (h : begins_with "JobId=".toList arg) :
    _update_node_arg E m arg = .abort (invalid_input arg) := by
  unfold _update_node_arg
  rw [if_neg (strncasecmp_ne_of_begins _ _ _ _ h (by decide)),
    if_neg (strncasecmp_ne_of_begins _ _ _ _ h (by decide))]

theorem node_arg_part_anchor (E : Manager) (m : update_node_msg) (arg : CStr)
    (h : begins_with "PartitionName=".toList arg) :
    _update_node_arg E m arg = .abort (invalid_input arg) := by
  unfold _update_node_arg
  rw [if_neg (strncasecmp_ne_of_begins _ _ _ _ h (by decide)),
    if_neg (strncasecmp_ne_of_begins _ _ _ _ h (by decide))]

theorem part_arg_job_anchor (E : Manager) (m : update_part_msg) (arg : CStr)
    (beyond : List Char) (h : begins_with "JobId=".toList arg) :
    _update_part_arg E m arg beyond = .abort (invalid_input arg) := by
  unfold _update_part_arg
  rw [if_neg (strncasecmp_ne_of_begins _ _ _ _ h (by decide)),
    if_neg (strncasecmp_ne_of_begins _ _ _ _ h (by decide)),
    if_neg (strncasecmp_ne_of_begins _ _ _ _ h (by decide)),
    if_neg (strncasecmp_ne_of_begins _ _ _ _ h (by decide)),
    if_neg (strncasecmp_ne_of_begins _ _ _ _ h (by decide)),
    if_neg (strncasecmp_ne_of_begins _ _ _ _ h (by decide)),
    if_neg (strncasecmp_ne_of_begins _ _ _ _ h (by decide)),
    if_neg (strncasecmp_ne_of_begins _ _ _ _ h (by decide)),
    if_neg (strncasecmp_ne_of_begins _ _ _ _ h (by decide))]

theorem part_arg_node_anchor (E : Manager) (m : update_part_msg) (arg : CStr)
    (beyond : List Char) (h : begins_with "NodeName=".toList arg) :
    _update_part_arg E m arg beyond = .abort (invalid_input arg) := by
  unfold _update_part_arg
  rw [if_neg (strncasecmp_ne_of_begins _ _ _ _ h (by decide)),
    if_neg (strncasecmp_ne_of_begins _ _ _ _ h (by decide)),
    if_neg (strncasecmp_ne_of_begins _ _ _ _ h (by decide)),
    if_neg (strncasecmp_ne_of_begins _ _ _ _ h (by decide)),
    if_neg (strncasecmp_ne_of_begins _ _ _ _ h (by decide)),
    if_neg (strncasecmp_ne_of_begins _ _ _ _ h (by decide)),
    if_neg (strncasecmp_ne_of_begins _ _ _ _ h (by decide)),
    if_neg (strncasecmp_ne_of_begins _ _ _ _ h (by decide)),
    if_neg (strncasecmp_ne_of_begins _ _ _ _ h (by decide))]

/-- A job directive with a rejected token is not sent. -/
theorem _update_job_aborts (E : Manager) (argv : List CStr)
    (hex : ∃ a ∈ argv, job_rejects E a = true) :
    ∃ errs, _update_job E argv = .ret 0 errs ∧ mutate_calls errs = 0 := by
  obtain ⟨m, bad, errs, _, hbody, hrun⟩ := for_each_arg_abort (_update_job_arg E)
    (job_accepts E) (job_rejects E) (job_arg_accepted E) (job_arg_rejected E) argv hex
    (fun a _ => job_arg_total E a) E.slurm_init_job_desc_msg
  unfold _update_job
  rw [hrun]
  exact ⟨errs, rfl, job_arg_abort E m bad errs hbody⟩

/-- A node directive with a rejected token is not sent. -/
theorem _update_node_aborts (E : Manager) (argv : List CStr)
    (hex : ∃ a ∈ argv, node_rejects E a = true) :
    ∃ errs, _update_node E argv = .ret 0 errs ∧ mutate_calls errs = 0 := by
  obtain ⟨m, bad, errs, _, hbody, hrun⟩ := for_each_arg_abort (_update_node_arg E)
    (node_accepts E) (node_rejects E) (node_arg_accepted E) (node_arg_rejected E) argv hex
    (fun a _ => node_arg_total E a) ⟨none, to_uint16 E.NO_VAL⟩
  unfold _update_node
  rw [hrun]
  exact ⟨errs, rfl, node_arg_abort E m bad errs hbody⟩

theorem first_anchor_of_mem (argv : List CStr) (a : CStr) (ha : a ∈ argv) (h : is_anchor a) :
    ∃ arg, first_anchor argv = some arg ∧ is_anchor arg := by
  unfold first_anchor
  cases hf : argv.find? (fun a => decide (is_anchor a)) with
  | none =>
    have := List.find?_eq_none.mp hf a ha
    simp [h] at this
  | some arg =>
    have := List.find?_some hf
    exact ⟨arg, rfl, by simpa using this⟩

theorem update_report_aborted (errs : List Event) :
    update_report (.ret 0 errs) = .ret () errs := rfl

theorem part_rejects_not_accepts (E : Manager) (a : CStr × List Char)
    (h : part_rejects E a = true) : part_accepts E a = false := by
  unfold part_rejects at h
  unfold part_accepts
  cases hs : _update_part_arg E E.slurm_init_part_desc_msg a.1 a.2 with
  | ok m => rw [hs] at h; cases h
  | abort e => rfl
  | out_of_bounds => rfl

theorem part_rejects_anchor (E : Manager) (a : CStr × List Char)
    (h : begins_with "JobId=".toList a.1 ∨ begins_with "NodeName=".toList a.1) :
    part_rejects E a = true := by
  unfold part_rejects
  rcases h with h | h
  · rw [part_arg_job_anchor E _ a.1 a.2 h]
    rfl
  · rw [part_arg_node_anchor E _ a.1 a.2 h]
    rfl

theorem update_report_undefined : update_report .out_of_bounds = .out_of_bounds := rfl

/-- What `_update_it` does with anchors of two kinds: the grammar of the first
anchor stops at a token it rejects, unless it is the partition grammar and it
first meets a token whose value `&argv[i][9]` lies outside the token's
object. -/
theorem mixed_anchors_run (E : Manager) (argv : List CStr) (beyond : List (List Char))
    (hmixed : mixed_anchors argv) :
    (∃ trace, _update_it E argv beyond = .ret () trace ∧ mutate_calls trace = 0)
    ∨ ((∃ arg, first_anchor argv = some arg ∧ begins_with "PartitionName=".toList arg)
        ∧ _update_it E argv beyond = .out_of_bounds
        ∧ ∃ pre bad post, with_beyond argv beyond = pre ++ bad :: post
            ∧ (∀ a ∈ pre, part_accepts E a = true) ∧ part_faults bad) := by
  have hjob : ∀ a, begins_with "NodeName=".toList a ∨ begins_with "PartitionName=".toList a →
      job_rejects E a = true := by
    intro a h
    unfold job_rejects
    rcases h with h | h
    · rw [job_arg_node_anchor E _ a h]
      rfl
    · rw [job_arg_part_anchor E _ a h]
      rfl
  have hnode : ∀ a, begins_with "JobId=".toList a ∨ begins_with "PartitionName=".toList a →
      node_rejects E a = true := by
    intro a h
    unfold node_rejects
    rcases h with h | h
    · rw [node_arg_job_anchor E _ a h]
      rfl
    · rw [node_arg_part_anchor E _ a h]
      rfl
  have hJ_or : (∃ a ∈ argv, begins_with "JobId=".toList a)
      ∨ (∃ a ∈ argv, begins_with "PartitionName=".toList a) := by
    rcases hmixed with h | h | h
    · exact Or.inl h.1
    · exact Or.inl h.1
    · exact Or.inr h.2
  have hN_or : (∃ a ∈ argv, begins_with "NodeName=".toList a)
      ∨ (∃ a ∈ argv, begins_with "PartitionName=".toList a) := by
    rcases hmixed with h | h | h
    · exact Or.inl h.2
    · exact Or.inr h.2
    · exact Or.inl h.1
  have hJN_or : (∃ a ∈ argv, begins_with "JobId=".toList a)
      ∨ (∃ a ∈ argv, begins_with "NodeName=".toList a) := by
    rcases hmixed with h | h | h
    · exact Or.inl h.1
    · exact Or.inl h.1
    · exact Or.inr h.1
  have hany : ∃ a ∈ argv, is_anchor a := by
    rcases hJN_or with ⟨a, ha, h⟩ | ⟨a, ha, h⟩
    · exact ⟨a, ha, Or.inr (Or.inr h)⟩
    · exact ⟨a, ha, Or.inl h⟩
  obtain ⟨a0, ha0, hanchor0⟩ := hany
  obtain ⟨arg, hfirst, hanchor⟩ := first_anchor_of_mem argv a0 ha0 hanchor0
  obtain ⟨hsel, _⟩ := _update_it_scan_spec E argv beyond argv
  obtain ⟨selN, selP, selJ⟩ := hsel arg hfirst
  rcases hanchor with hN | hP | hJ
  · have hex : ∃ a ∈ argv, node_rejects E a = true := by
      rcases hJ_or with ⟨a, ha, h⟩ | ⟨a, ha, h⟩
      · exact ⟨a, ha, hnode a (Or.inl h)⟩
      · exact ⟨a, ha, hnode a (Or.inr h)⟩
    obtain ⟨errs, hrun, hcalls⟩ := _update_node_aborts E argv hex
    refine Or.inl ⟨errs, ?_, hcalls⟩
    unfold _update_it
    rw [selN hN, hrun]
    rfl
  · obtain ⟨fa, hfa, hforeign⟩ : ∃ a ∈ argv,
        begins_with "JobId=".toList a ∨ begins_with "NodeName=".toList a := by
      rcases hJN_or with ⟨a, ha, h⟩ | ⟨a, ha, h⟩
      · exact ⟨a, ha, Or.inl h⟩
      · exact ⟨a, ha, Or.inr h⟩
    obtain ⟨fb, hfb⟩ := mem_with_beyond argv beyond fa hfa
    have hfrej : part_rejects E (fa, fb) = true := part_rejects_anchor E (fa, fb) hforeign
    rcases first_not_accepted (part_accepts E) (with_beyond argv beyond) with
      hall | ⟨pre, bad, post, hs, hpre, hb⟩
    · have h1 := hall (fa, fb) hfb
      rw [part_rejects_not_accepts E _ hfrej] at h1
      cases h1
    · by_cases hf : part_faults bad
      · refine Or.inr ⟨⟨arg, hfirst, hP⟩, ?_, pre, bad, post, hs, hpre, hf⟩
        unfold _update_it
        rw [selP hP, hs, (_update_part_at E pre bad post hpre).2 hf]
        rfl
      · rcases part_arg_total E bad hf with h | h
        · rw [hb] at h
          cases h
        · obtain ⟨errs, hrun, hcalls⟩ := (_update_part_at E pre bad post hpre).1 h
          refine Or.inl ⟨errs, ?_, hcalls⟩
          unfold _update_it
          rw [selP hP, hs, hrun]
          rfl
  · have hex : ∃ a ∈ argv, job_rejects E a = true := by
      rcases hN_or with ⟨a, ha, h⟩ | ⟨a, ha, h⟩
      · exact ⟨a, ha, hjob a (Or.inl h)⟩
      · exact ⟨a, ha, hjob a (Or.inr h)⟩
    obtain ⟨errs, hrun, hcalls⟩ := _update_job_aborts E argv hex
    refine Or.inl ⟨errs, ?_, hcalls⟩
    unfold _update_it
    rw [selJ hJ, hrun]
    rfl

/-- The tokens of a line that holds anchors of two kinds are never sent: in
the line buffer the partition grammar finds a string at `&argv[i][9]` of
every token it reaches. -/
theorem mixed_anchors_line (E : Manager) (s : Session) (line : Option CStr)
    (hmixed : mixed_anchors (_get_command s line).argv.tail) :
    ∃ trace, _update_it E (_get_command s line).argv.tail (_get_command s line).beyond.tail
      = .ret () trace ∧ mutate_calls trace = 0 := by
  obtain ⟨offs, final, hargv, hbeyond, hpw⟩ := _get_command_layout s line
  rw [hargv, ← List.map_tail] at hmixed
  rw [hargv, hbeyond, ← List.map_tail, ← List.map_tail]
  rcases mixed_anchors_run E _ _ hmixed with h | ⟨_, _, pre, bad, post, hs, hpre, hf⟩
  · exact h
  · exfalso
    rw [with_beyond_map] at hs
    obtain ⟨l1, l2, hsplit, hl1, hl2⟩ := List.map_eq_append_iff.mp hs
    obtain ⟨p, l3, hl2s, hp, hl3⟩ := List.map_eq_cons_iff.mp hl2
    subst hl2s
    have hpw2 : (l1 ++ p :: l3).Pairwise
        (fun p q => p + (c_string (final.drop p)).length < q) := by
      rw [← hsplit]
      exact hpw.sublist (List.tail_sublist offs)
    obtain ⟨fa, hfa, hforeign⟩ : ∃ a ∈ offs.tail.map (fun p => c_string (final.drop p)),
        begins_with "JobId=".toList a ∨ begins_with "NodeName=".toList a := by
      rcases hmixed with h | h | h
      · obtain ⟨a, ha, hh⟩ := h.1
        exact ⟨a, ha, Or.inl hh⟩
      · obtain ⟨a, ha, hh⟩ := h.1
        exact ⟨a, ha, Or.inl hh⟩
      · obtain ⟨a, ha, hh⟩ := h.1
        exact ⟨a, ha, Or.inr hh⟩
    obtain ⟨q, hq, hfq⟩ := List.mem_map.mp hfa
    subst hfq
    have h6 : 6 ≤ (c_string (final.drop q)).length := by
      rcases hforeign with h | h
      · exact length_of_begins _ _ h
      · have := length_of_begins _ _ h
        have h9 : 9 ≤ (c_string (final.drop q)).length := this
        omega
    rw [hsplit] at hq
    rcases List.mem_append.mp hq with hq1 | hq2
    · have hmem : (c_string (final.drop q),
          (final ++ [NUL]).drop (q + (c_string (final.drop q)).length + 1)) ∈ pre := by
        rw [← hl1]
        exact List.mem_map.mpr ⟨q, hq1, rfl⟩
      have hacc := hpre _ hmem
      rw [part_rejects_not_accepts E _ (part_rejects_anchor E _ hforeign)] at hacc
      cases hacc
    · rcases List.mem_cons.mp hq2 with hqp | hq3
      · subst hqp
        rw [← hp] at hf
        have hroot := hf.1
        rcases hforeign with h | h
        · exact absurd (begins_with_agree _ _ _ hroot h) (by decide)
        · exact absurd (begins_with_agree _ _ _ hroot h) (by decide)
      · have hlt := (List.pairwise_cons.mp (List.pairwise_append.mp hpw2).2.1).1 q hq3
        rw [← hp] at hf
        exact line_token_inside final p q hlt (by omega) hf

/-- C26 (mixed anchors are never sent).  A token sequence that holds anchor
tokens of two different entity kinds among `JobId=`, `NodeName=` and
`PartitionName=` is rejected by the grammar of its first anchor, which echoes
the foreign anchor as invalid input: `_update_it` returns without any manager
mutate call.  That is so for the tokens of every line `_get_command` reads,
and for tokens laid out in any other way unless the partition grammar is the
one selected and meets, before any foreign anchor, a token that begins with
`Root` and has no string of its object at `&argv[i][9]`: C defines no
behaviour for that read, and it is the one run that does not return.  Each
grammar rejects each foreign anchor. -/
theorem mixed_anchors_never_sent (E : Manager) (argv : List CStr) (beyond : List (List Char))
    (hmixed : mixed_anchors argv) :
    ((∃ trace, _update_it E argv beyond = .ret () trace ∧ mutate_calls trace = 0)
      ∨ ((∃ arg, first_anchor argv = some arg ∧ begins_with "PartitionName=".toList arg)
          ∧ _update_it E argv beyond = .out_of_bounds
          ∧ ∃ pre bad post, with_beyond argv beyond = pre ++ bad :: post
              ∧ (∀ a ∈ pre, part_accepts E a = true) ∧ part_faults bad))
    ∧ ((∀ arg, first_anchor argv = some arg → begins_with "PartitionName=".toList arg →
          ∀ pre bad post, with_beyond argv beyond = pre ++ bad :: post → part_faults bad →
          ∃ a ∈ pre, begins_with "JobId=".toList a.1 ∨ begins_with "NodeName=".toList a.1) →
        ∃ trace, _update_it E argv beyond = .ret () trace ∧ mutate_calls trace = 0)
    ∧ (∀ (s : Session) (line : Option CStr),
        mixed_anchors (_get_command s line).argv.tail →
        ∃ trace, _update_it E (_get_command s line).argv.tail
            (_get_command s line).beyond.tail = .ret () trace
          ∧ mutate_calls trace = 0)
    ∧ (∀ a, begins_with "NodeName=".toList a ∨ begins_with "PartitionName=".toList a →
        job_rejects E a = true)
    ∧ (∀ a, begins_with "JobId=".toList a ∨ begins_with "PartitionName=".toList a →
        node_rejects E a = true)
    ∧ (∀ a : CStr × List Char,
        begins_with "JobId=".toList a.1 ∨ begins_with "NodeName=".toList a.1 →
        part_rejects E a = true) := by
  have hjob : ∀ a, begins_with "NodeName=".toList a ∨ begins_with "PartitionName=".toList a →
      job_rejects E a = true := by
    intro a h
    unfold job_rejects
    rcases h with h | h
    · rw [job_arg_node_anchor E _ a h]
      rfl
    · rw [job_arg_part_anchor E _ a h]
      rfl
  have hnode : ∀ a, begins_with "JobId=".toList a ∨ begins_with "PartitionName=".toList a →
      node_rejects E a = true := by
    intro a h
    unfold node_rejects
    rcases h with h | h
    · rw [node_arg_job_anchor E _ a h]
      rfl
    · rw [node_arg_part_anchor E _ a h]
      rfl
  refine ⟨mixed_anchors_run E argv beyond hmixed, fun hin => ?_,
    fun s line h => mixed_anchors_line E s line h, hjob, hnode, part_rejects_anchor E⟩
  rcases mixed_anchors_run E argv beyond hmixed with
    h | ⟨⟨arg, hfirst, hP⟩, _, pre, bad, post, hs, hpre, hf⟩
  · exact h
  · obtain ⟨a, ha, hforeign⟩ := hin arg hfirst hP pre bad post hs hf
    have hacc := hpre a ha
    rw [part_rejects_not_accepts E a (part_rejects_anchor E a hforeign)] at hacc
    cases hacc

/-- C26 at `JobId=42 Priority=7 NodeName=n1`, where the job grammar runs and
stops at `NodeName=n1`; at the line `update PartitionName=p Root JobId=1`,
where the partition grammar reads the value of `Root` inside `JobId=1`,
rejects it, and nothing is sent; and at `PartitionName=p JobId=1 Root` and
`JobId=1 NodeName=n Root` with each token an object of its own, where the
grammar stops at the foreign anchor before it reaches `Root`. -/
theorem mixed_anchors_never_sent_witness :
    (∃ trace, _update_it sample
        ["JobId=42".toList, "Priority=7".toList, "NodeName=n1".toList] [] = .ret () trace
      ∧ mutate_calls trace = 0)
    ∧ (∃ trace, _update_it sample
        (_get_command Session.init
          (some "update PartitionName=p Root JobId=1".toList)).argv.tail
        (_get_command Session.init
          (some "update PartitionName=p Root JobId=1".toList)).beyond.tail = .ret () trace
      ∧ mutate_calls trace = 0)
    ∧ main sample ["scontrol".toList] []
        ["update PartitionName=p Root JobId=1".toList, "quit".toList] 2
      = .exited 0 (invalid_value "Root".toList
          "Acceptable RootOnly values are YES and NO\n")
    ∧ _update_it sample ["PartitionName=p".toList, "JobId=1".toList, "Root".toList] []
      = .ret () (invalid_input "JobId=1".toList)
    ∧ _update_it sample ["JobId=1".toList, "NodeName=n".toList, "Root".toList] []
      = .ret () (invalid_input "NodeName=n".toList) :=
  ⟨(mixed_anchors_never_sent sample
      ["JobId=42".toList, "Priority=7".toList, "NodeName=n1".toList] [] (by decide)).2.1
      (fun arg h hP => absurd hP (by
        have e : arg = "JobId=42".toList := by
          have h1 : first_anchor
              ["JobId=42".toList, "Priority=7".toList, "NodeName=n1".toList]
              = some "JobId=42".toList := by decide
          rw [h1] at h
          injection h with h2
          exact h2.symm
        rw [e]
        decide)),
   (mixed_anchors_never_sent sample
      ["JobId=42".toList, "Priority=7".toList, "NodeName=n1".toList] [] (by decide)).2.2.1
      Session.init (some "update PartitionName=p Root JobId=1".toList) (by decide),
   by decide, by decide, by decide⟩


/-! ## The keywords of the dispatcher -/

/-- The source function `_process_command` is the branch `keyword` names. -/
theorem _process_command_keyword (E : Manager) (s : Session) (w : CStr) (rest : List CStr)
    (beyond : List (List Char)) :
    _process_command E s (w :: rest) beyond = run_keyword E s w rest beyond (keyword w) := by
  unfold _process_command keyword
  simp only
  by_cases c0 : strncasecmp w "abort".toList 5 = 0
  · rw [if_pos c0, if_pos c0]
    rfl
  rw [if_neg c0, if_neg c0]
  by_cases c1 : strcasecmp w "exit".toList = 0 ∨ strcasecmp w "quit".toList = 0
  · rw [if_pos c1, if_pos c1]
    rfl
  rw [if_neg c1, if_neg c1]
  by_cases c2 : strcasecmp w "help".toList = 0
  · rw [if_pos c2, if_pos c2]
    rfl
  rw [if_neg c2, if_neg c2]
  by_cases c3 : strcasecmp w "pid2jid".toList = 0
  · rw [if_pos c3, if_pos c3]
    rfl
  rw [if_neg c3, if_neg c3]
  by_cases c4 : strcasecmp w "quiet".toList = 0
  · rw [if_pos c4, if_pos c4]
    rfl
  rw [if_neg c4, if_neg c4]
  by_cases c5 : strncasecmp w "reconfigure".toList 7 = 0
  · rw [if_pos c5, if_pos c5]
    rfl
  rw [if_neg c5, if_neg c5]
  by_cases c6 : strcasecmp w "show".toList = 0
  · rw [if_pos c6, if_pos c6]
    rfl
  rw [if_neg c6, if_neg c6]
  by_cases c7 : strncasecmp w "shutdown".toList 5 = 0
  · rw [if_pos c7, if_pos c7]
    rfl
  rw [if_neg c7, if_neg c7]
  by_cases c8 : strcasecmp w "update".toList = 0
  · rw [if_pos c8, if_pos c8]
    rfl
  rw [if_neg c8, if_neg c8]
  by_cases c9 : strcasecmp w "verbose".toList = 0
  · rw [if_pos c9, if_pos c9]
    rfl
  rw [if_neg c9, if_neg c9]
  by_cases c10 : strcasecmp w "version".toList = 0
  · rw [if_pos c10, if_pos c10]
    rfl
  rw [if_neg c10, if_neg c10]
  rfl

/-- The `show` branch is the branch `entity` names, for at most three
words. -/
theorem _process_show_entity (E : Manager) (s : Session) (w e : CStr) (rest : List CStr) :
    _process_show E s (w :: e :: rest) w
      = if (w :: e :: rest).length > 3 then
          .ret (0, s) (if s.quiet_flag ≠ 1 then [too_many_arguments w] else [])
        else run_entity E s w e rest (entity e) := by
  unfold _process_show entity
  simp only [List.tail_cons]
  by_cases c : (w :: e :: rest).length > 3
  · rw [if_pos c, if_pos c]
  rw [if_neg c, if_neg c]
  by_cases c0 : strncasecmp e "config".toList 3 = 0
  · rw [if_pos c0, if_pos c0]
    rfl
  rw [if_neg c0, if_neg c0]
  by_cases c1 : strncasecmp e "daemons".toList 5 = 0
  · rw [if_pos c1, if_pos c1]
    rfl
  rw [if_neg c1, if_neg c1]
  by_cases c2 : strncasecmp e "jobs".toList 3 = 0
  · rw [if_pos c2, if_pos c2]
    rfl
  rw [if_neg c2, if_neg c2]
  by_cases c3 : strncasecmp e "nodes".toList 3 = 0
  · rw [if_pos c3, if_pos c3]
    rfl
  rw [if_neg c3, if_neg c3]
  by_cases c4 : strncasecmp e "partitions".toList 3 = 0
  · rw [if_pos c4, if_pos c4]
    rfl
  rw [if_neg c4, if_neg c4]
  by_cases c5 : strncasecmp e "steps".toList 4 = 0
  · rw [if_pos c5, if_pos c5]
    rfl
  rw [if_neg c5, if_neg c5]
  rfl

theorem ci_eq_begins (w k : CStr) (h : ci_eq w k) : begins_with k w := by
  unfold ci_eq at h
  unfold begins_with
  have hl : w.length = k.length := by
    have := congrArg List.length h
    simpa using this
  rw [← hl, List.take_length, h]

/-- A word that begins with `key` fails every `strcasecmp` test against a
text that differs from `key` on their common length. -/
theorem strcasecmp_ne_of_begins (key other w : CStr) (h : begins_with key w)
    (hd : (key.map tolower).take (min key.length other.length)
      ≠ (other.map tolower).take (min key.length other.length)) :
    strcasecmp w other ≠ 0 := by
  intro h0
  exact hd (begins_with_agree key other w h
    (ci_eq_begins w other ((strcasecmp_eq_zero_iff _ _).mp h0)))

/-- The test `strncasecmp (w, key, n) == 0` says that `w` begins with the
first `n` characters of `key`. -/
theorem strncasecmp_take (key w : CStr) (n : Nat) (hn : n ≤ key.length) :
    strncasecmp w key n = 0 ↔ begins_with (key.take n) w := by
  rw [strncasecmp_eq_zero_iff]
  unfold begins_with
  rw [List.length_take, Nat.min_eq_left hn]

theorem test_abort (w : CStr) :
    strncasecmp w "abort".toList 5 = 0 ↔ begins_with "abort".toList w :=
  strncasecmp_take "abort".toList w 5 (by decide)

theorem test_reconfigure (w : CStr) :
    strncasecmp w "reconfigure".toList 7 = 0 ↔ begins_with "reconfi".toList w :=
  strncasecmp_take "reconfigure".toList w 7 (by decide)

theorem test_shutdown (w : CStr) :
    strncasecmp w "shutdown".toList 5 = 0 ↔ begins_with "shutd".toList w :=
  strncasecmp_take "shutdown".toList w 5 (by decide)

theorem test_config (w : CStr) :
    strncasecmp w "config".toList 3 = 0 ↔ begins_with "con".toList w :=
  strncasecmp_take "config".toList w 3 (by decide)

theorem test_daemons (w : CStr) :
    strncasecmp w "daemons".toList 5 = 0 ↔ begins_with "daemo".toList w :=
  strncasecmp_take "daemons".toList w 5 (by decide)

theorem test_jobs (w : CStr) :
    strncasecmp w "jobs".toList 3 = 0 ↔ begins_with "job".toList w :=
  strncasecmp_take "jobs".toList w 3 (by decide)

theorem test_nodes (w : CStr) :
    strncasecmp w "nodes".toList 3 = 0 ↔ begins_with "nod".toList w :=
  strncasecmp_take "nodes".toList w 3 (by decide)

theorem test_partitions (w : CStr) :
    strncasecmp w "partitions".toList 3 = 0 ↔ begins_with "par".toList w :=
  strncasecmp_take "partitions".toList w 3 (by decide)

theorem test_steps (w : CStr) :
    strncasecmp w "steps".toList 4 = 0 ↔ begins_with "step".toList w :=
  strncasecmp_take "steps".toList w 4 (by decide)

/-- A word a branch takes makes `keyword` name that branch. -/
theorem keyword_of_recognised (L : Keyword) (w : CStr) (h : recognised_as L w) :
    keyword w = L := by
  match L, h with
  | .abort, h =>
    have hb : begins_with "abort".toList w := h
    unfold keyword
    rw [if_pos ((test_abort w).mpr hb)]
  | .exit, h =>
    rcases h with h | h
    · have hb := ci_eq_begins _ _ h
      unfold keyword
      rw [if_neg (strncasecmp_ne_of_begins _ _ _ _ hb (by decide)),
      if_pos (Or.inl ((strcasecmp_eq_zero_iff _ _).mpr h))]
    · have hb := ci_eq_begins _ _ h
      unfold keyword
      rw [if_neg (strncasecmp_ne_of_begins _ _ _ _ hb (by decide)),
      if_pos (Or.inr ((strcasecmp_eq_zero_iff _ _).mpr h))]
  | .help, h =>
    have hb := ci_eq_begins _ _ h
    unfold keyword
    rw [if_neg (strncasecmp_ne_of_begins _ _ _ _ hb (by decide)),
      if_neg (not_or.mpr ⟨strcasecmp_ne_of_begins _ _ _ hb (by decide),
      strcasecmp_ne_of_begins _ _ _ hb (by decide)⟩),
      if_pos ((strcasecmp_eq_zero_iff _ _).mpr h)]
  | .pid2jid, h =>
    have hb := ci_eq_begins _ _ h
    unfold keyword
    rw [if_neg (strncasecmp_ne_of_begins _ _ _ _ hb (by decide)),
      if_neg (not_or.mpr ⟨strcasecmp_ne_of_begins _ _ _ hb (by decide),
      strcasecmp_ne_of_begins _ _ _ hb (by decide)⟩),
      if_neg (strcasecmp_ne_of_begins _ _ _ hb (by decide)),
      if_pos ((strcasecmp_eq_zero_iff _ _).mpr h)]
  | .quiet, h =>
    have hb := ci_eq_begins _ _ h
    unfold keyword
    rw [if_neg (strncasecmp_ne_of_begins _ _ _ _ hb (by decide)),
      if_neg (not_or.mpr ⟨strcasecmp_ne_of_begins _ _ _ hb (by decide),
      strcasecmp_ne_of_begins _ _ _ hb (by decide)⟩),
      if_neg (strcasecmp_ne_of_begins _ _ _ hb (by decide)),
      if_neg (strcasecmp_ne_of_begins _ _ _ hb (by decide)),
      if_pos ((strcasecmp_eq_zero_iff _ _).mpr h)]
  | .reconfigure, h =>
    have hb : begins_with "reconfi".toList w := h
    unfold keyword
    rw [if_neg (strncasecmp_ne_of_begins _ _ _ _ hb (by decide)),
      if_neg (not_or.mpr ⟨strcasecmp_ne_of_begins _ _ _ hb (by decide),
      strcasecmp_ne_of_begins _ _ _ hb (by decide)⟩),
      if_neg (strcasecmp_ne_of_begins _ _ _ hb (by decide)),
      if_neg (strcasecmp_ne_of_begins _ _ _ hb (by decide)),
      if_neg (strcasecmp_ne_of_begins _ _ _ hb (by decide)),
      if_pos ((test_reconfigure w).mpr hb)]
  | .show, h =>
    have hb := ci_eq_begins _ _ h
    unfold keyword
    rw [if_neg (strncasecmp_ne_of_begins _ _ _ _ hb (by decide)),
      if_neg (not_or.mpr ⟨strcasecmp_ne_of_begins _ _ _ hb (by decide),
      strcasecmp_ne_of_begins _ _ _ hb (by decide)⟩),
      if_neg (strcasecmp_ne_of_begins _ _ _ hb (by decide)),
      if_neg (strcasecmp_ne_of_begins _ _ _ hb (by decide)),
      if_neg (strcasecmp_ne_of_begins _ _ _ hb (by decide)),
      if_neg (strncasecmp_ne_of_begins _ _ _ _ hb (by decide)),
      if_pos ((strcasecmp_eq_zero_iff _ _).mpr h)]
  | .shutdown, h =>
    have hb : begins_with "shutd".toList w := h
    unfold keyword
    rw [if_neg (strncasecmp_ne_of_begins _ _ _ _ hb (by decide)),
      if_neg (not_or.mpr ⟨strcasecmp_ne_of_begins _ _ _ hb (by decide),
      strcasecmp_ne_of_begins _ _ _ hb (by decide)⟩),
      if_neg (strcasecmp_ne_of_begins _ _ _ hb (by decide)),
      if_neg (strcasecmp_ne_of_begins _ _ _ hb (by decide)),
      if_neg (strcasecmp_ne_of_begins _ _ _ hb (by decide)),
      if_neg (strncasecmp_ne_of_begins _ _ _ _ hb (by decide)),
      if_neg (strcasecmp_ne_of_begins _ _ _ hb (by decide)),
      if_pos ((test_shutdown w).mpr hb)]
  | .update, h =>
    have hb := ci_eq_begins _ _ h
    unfold keyword
    rw [if_neg (strncasecmp_ne_of_begins _ _ _ _ hb (by decide)),
      if_neg (not_or.mpr ⟨strcasecmp_ne_of_begins _ _ _ hb (by decide),
      strcasecmp_ne_of_begins _ _ _ hb (by decide)⟩),
      if_neg (strcasecmp_ne_of_begins _ _ _ hb (by decide)),
      if_neg (strcasecmp_ne_of_begins _ _ _ hb (by decide)),
      if_neg (strcasecmp_ne_of_begins _ _ _ hb (by decide)),
      if_neg (strncasecmp_ne_of_begins _ _ _ _ hb (by decide)),
      if_neg (strcasecmp_ne_of_begins _ _ _ hb (by decide)),
      if_neg (strncasecmp_ne_of_begins _ _ _ _ hb (by decide)),
      if_pos ((strcasecmp_eq_zero_iff _ _).mpr h)]
  | .verbose, h =>
    have hb := ci_eq_begins _ _ h
    unfold keyword
    rw [if_neg (strncasecmp_ne_of_begins _ _ _ _ hb (by decide)),
      if_neg (not_or.mpr ⟨strcasecmp_ne_of_begins _ _ _ hb (by decide),
      strcasecmp_ne_of_begins _ _ _ hb (by decide)⟩),
      if_neg (strcasecmp_ne_of_begins _ _ _ hb (by decide)),
      if_neg (strcasecmp_ne_of_begins _ _ _ hb (by decide)),
      if_neg (strcasecmp_ne_of_begins _ _ _ hb (by decide)),
      if_neg (strncasecmp_ne_of_begins _ _ _ _ hb (by decide)),
      if_neg (strcasecmp_ne_of_begins _ _ _ hb (by decide)),
      if_neg (strncasecmp_ne_of_begins _ _ _ _ hb (by decide)),
      if_neg (strcasecmp_ne_of_begins _ _ _ hb (by decide)),
      if_pos ((strcasecmp_eq_zero_iff _ _).mpr h)]
  | .version, h =>
    have hb := ci_eq_begins _ _ h
    unfold keyword
    rw [if_neg (strncasecmp_ne_of_begins _ _ _ _ hb (by decide)),
      if_neg (not_or.mpr ⟨strcasecmp_ne_of_begins _ _ _ hb (by decide),
      strcasecmp_ne_of_begins _ _ _ hb (by decide)⟩),
      if_neg (strcasecmp_ne_of_begins _ _ _ hb (by decide)),
      if_neg (strcasecmp_ne_of_begins _ _ _ hb (by decide)),
      if_neg (strcasecmp_ne_of_begins _ _ _ hb (by decide)),
      if_neg (strncasecmp_ne_of_begins _ _ _ _ hb (by decide)),
      if_neg (strcasecmp_ne_of_begins _ _ _ hb (by decide)),
      if_neg (strncasecmp_ne_of_begins _ _ _ _ hb (by decide)),
      if_neg (strcasecmp_ne_of_begins _ _ _ hb (by decide)),
      if_neg (strcasecmp_ne_of_begins _ _ _ hb (by decide)),
      if_pos ((strcasecmp_eq_zero_iff _ _).mpr h)]
  | .invalid, h =>
    have h2 := h
    unfold recognised_as at h2
    simp only [not_or] at h2
    obtain ⟨n0, n1, n2, n3, n4, n5, n6, n7, n8, n9, n10, n11⟩ := h2
    unfold keyword
    rw [if_neg (mt (test_abort w).mp n0),
      if_neg (not_or.mpr ⟨mt (strcasecmp_eq_zero_iff _ _).mp n1,
      mt (strcasecmp_eq_zero_iff _ _).mp n2⟩),
      if_neg (mt (strcasecmp_eq_zero_iff _ _).mp n3),
      if_neg (mt (strcasecmp_eq_zero_iff _ _).mp n4),
      if_neg (mt (strcasecmp_eq_zero_iff _ _).mp n5),
      if_neg (mt (test_reconfigure w).mp n6),
      if_neg (mt (strcasecmp_eq_zero_iff _ _).mp n7),
      if_neg (mt (test_shutdown w).mp n8),
      if_neg (mt (strcasecmp_eq_zero_iff _ _).mp n9),
      if_neg (mt (strcasecmp_eq_zero_iff _ _).mp n10),
      if_neg (mt (strcasecmp_eq_zero_iff _ _).mp n11)]

/-- Every word is taken by some branch. -/
theorem recognised_as_some (w : CStr) : ∃ L, recognised_as L w := by
  by_cases hr : (begins_with "abort".toList w ∨ ci_eq w "exit".toList ∨ ci_eq w "quit".toList
      ∨ ci_eq w "help".toList ∨ ci_eq w "pid2jid".toList ∨ ci_eq w "quiet".toList
      ∨ begins_with "reconfi".toList w ∨ ci_eq w "show".toList
      ∨ begins_with "shutd".toList w ∨ ci_eq w "update".toList
      ∨ ci_eq w "verbose".toList ∨ ci_eq w "version".toList)
  · rcases hr with h | h | h | h | h | h | h | h | h | h | h | h
    · exact ⟨.abort, h⟩
    · exact ⟨.exit, Or.inl h⟩
    · exact ⟨.exit, Or.inr h⟩
    · exact ⟨.help, h⟩
    · exact ⟨.pid2jid, h⟩
    · exact ⟨.quiet, h⟩
    · exact ⟨.reconfigure, h⟩
    · exact ⟨.show, h⟩
    · exact ⟨.shutdown, h⟩
    · exact ⟨.update, h⟩
    · exact ⟨.verbose, h⟩
    · exact ⟨.version, h⟩
  · exact ⟨.invalid, hr⟩

/-- The branch of `_process_command` that runs is the one that takes the
word. -/
theorem keyword_iff (L : Keyword) (w : CStr) : keyword w = L ↔ recognised_as L w := by
  constructor
  · intro hk
    obtain ⟨M, hM⟩ := recognised_as_some w
    have hkM := keyword_of_recognised M w hM
    rw [hk] at hkM
    rw [hkM]
    exact hM
  · exact keyword_of_recognised L w

/-- An entity word a branch of `show` takes makes `entity` name that
branch. -/
theorem entity_of_recognised (L : Entity) (w : CStr) (h : entity_recognised_as L w) :
    entity w = L := by
  match L, h with
  | .config, h =>
    have hb : begins_with "con".toList w := h
    unfold entity
    rw [if_pos ((test_config w).mpr hb)]
  | .daemons, h =>
    have hb : begins_with "daemo".toList w := h
    unfold entity
    rw [if_neg (strncasecmp_ne_of_begins _ _ _ _ hb (by decide)),
      if_pos ((test_daemons w).mpr hb)]
  | .jobs, h =>
    have hb : begins_with "job".toList w := h
    unfold entity
    rw [if_neg (strncasecmp_ne_of_begins _ _ _ _ hb (by decide)),
      if_neg (strncasecmp_ne_of_begins _ _ _ _ hb (by decide)),
      if_pos ((test_jobs w).mpr hb)]
  | .nodes, h =>
    have hb : begins_with "nod".toList w := h
    unfold entity
    rw [if_neg (strncasecmp_ne_of_begins _ _ _ _ hb (by decide)),
      if_neg (strncasecmp_ne_of_begins _ _ _ _ hb (by decide)),
      if_neg (strncasecmp_ne_of_begins _ _ _ _ hb (by decide)),
      if_pos ((test_nodes w).mpr hb)]
  | .partitions, h =>
    have hb : begins_with "par".toList w := h
    unfold entity
    rw [if_neg (strncasecmp_ne_of_begins _ _ _ _ hb (by decide)),
      if_neg (strncasecmp_ne_of_begins _ _ _ _ hb (by decide)),
      if_neg (strncasecmp_ne_of_begins _ _ _ _ hb (by decide)),
      if_neg (strncasecmp_ne_of_begins _ _ _ _ hb (by decide)),
      if_pos ((test_partitions w).mpr hb)]
  | .steps, h =>
    have hb : begins_with "step".toList w := h
    unfold entity
    rw [if_neg (strncasecmp_ne_of_begins _ _ _ _ hb (by decide)),
      if_neg (strncasecmp_ne_of_begins _ _ _ _ hb (by decide)),
      if_neg (strncasecmp_ne_of_begins _ _ _ _ hb (by decide)),
      if_neg (strncasecmp_ne_of_begins _ _ _ _ hb (by decide)),
      if_neg (strncasecmp_ne_of_begins _ _ _ _ hb (by decide)),
      if_pos ((test_steps w).mpr hb)]
  | .invalid, h =>
    have h2 := h
    unfold entity_recognised_as at h2
    simp only [not_or] at h2
    obtain ⟨n0, n1, n2, n3, n4, n5⟩ := h2
    unfold entity
    rw [if_neg (mt (test_config w).mp n0),
      if_neg (mt (test_daemons w).mp n1),
      if_neg (mt (test_jobs w).mp n2),
      if_neg (mt (test_nodes w).mp n3),
      if_neg (mt (test_partitions w).mp n4),
      if_neg (mt (test_steps w).mp n5)]

theorem entity_recognised_as_some (w : CStr) : ∃ L, entity_recognised_as L w := by
  by_cases hr : (begins_with "con".toList w ∨ begins_with "daemo".toList w
      ∨ begins_with "job".toList w ∨ begins_with "nod".toList w
      ∨ begins_with "par".toList w ∨ begins_with "step".toList w)
  · rcases hr with h | h | h | h | h | h
    · exact ⟨.config, h⟩
    · exact ⟨.daemons, h⟩
    · exact ⟨.jobs, h⟩
    · exact ⟨.nodes, h⟩
    · exact ⟨.partitions, h⟩
    · exact ⟨.steps, h⟩
  · exact ⟨.invalid, hr⟩

/-- The branch of `show` that runs is the one that takes the entity word. -/
theorem entity_iff (L : Entity) (w : CStr) : entity w = L ↔ entity_recognised_as L w := by
  constructor
  · intro hk
    obtain ⟨M, hM⟩ := entity_recognised_as_some w
    have hkM := entity_of_recognised M w hM
    rw [hk] at hkM
    rw [hkM]
    exact hM
  · exact entity_of_recognised L w

/-- A word that abbreviates `key` with at least `n` characters begins with
the first `n` characters of `key`. -/
theorem begins_of_abbreviates (key w : CStr) (n : Nat) (hn : n ≤ key.length)
    (h : abbreviates key n w) : begins_with (key.take n) w := by
  obtain ⟨hlen, hb⟩ := h
  unfold begins_with at *
  rw [List.length_take, Nat.min_eq_left hn]
  have h2 := congrArg (List.take n) hb
  rw [← List.map_take, ← List.map_take, List.take_take, Nat.min_eq_left hlen] at h2
  exact h2.symm

/-- C21 (keyword matching), as the code has it.  `_process_command` runs the
branch `keyword` names and `show` the branch `entity` names.  The branches
`abort`, `reconfigure` and `shutdown` take every word that begins, in any
letter case, with the first 5, 7 and 5 characters of the keyword, and the
entity branches `config`, `daemons`, `jobs`, `nodes`, `partitions`, `steps`
every word that begins with its first 3, 5, 3, 3, 3 and 4 characters; what
follows those characters is not looked at.  So an abbreviation of the keyword
of at least that length is taken, and so is a longer word.  The other
keywords take exactly the words equal to them in any letter case. -/
theorem keyword_matching (E : Manager) (s : Session) (w : CStr) (rest : List CStr)
    (beyond : List (List Char)) :
    _process_command E s (w :: rest) beyond = run_keyword E s w rest beyond (keyword w)
    ∧ (∀ (e : CStr) (tail : List CStr), _process_show E s (w :: e :: tail) w
        = if (w :: e :: tail).length > 3 then
            .ret (0, s) (if s.quiet_flag ≠ 1 then [too_many_arguments w] else [])
          else run_entity E s w e tail (entity e))
    ∧ (∀ L, keyword w = L ↔ recognised_as L w)
    ∧ (∀ L, entity w = L ↔ entity_recognised_as L w)
    ∧ (abbreviates "abort".toList 5 w → keyword w = .abort)
    ∧ (abbreviates "reconfigure".toList 7 w → keyword w = .reconfigure)
    ∧ (abbreviates "shutdown".toList 5 w → keyword w = .shutdown)
    ∧ (abbreviates "config".toList 3 w → entity w = .config)
    ∧ (abbreviates "daemons".toList 5 w → entity w = .daemons)
    ∧ (abbreviates "jobs".toList 3 w → entity w = .jobs)
    ∧ (abbreviates "nodes".toList 3 w → entity w = .nodes)
    ∧ (abbreviates "partitions".toList 3 w → entity w = .partitions)
    ∧ (abbreviates "steps".toList 4 w → entity w = .steps) := by
  refine ⟨_process_command_keyword E s w rest beyond, fun e tail => _process_show_entity E s w e tail,
    fun L => keyword_iff L w, fun L => entity_iff L w,
    fun h => keyword_of_recognised .abort w (begins_of_abbreviates _ w 5 (by decide) h),
    fun h => keyword_of_recognised .reconfigure w (begins_of_abbreviates _ w 7 (by decide) h),
    fun h => keyword_of_recognised .shutdown w (begins_of_abbreviates _ w 5 (by decide) h),
    fun h => entity_of_recognised .config w (begins_of_abbreviates _ w 3 (by decide) h),
    fun h => entity_of_recognised .daemons w (begins_of_abbreviates _ w 5 (by decide) h),
    fun h => entity_of_recognised .jobs w (begins_of_abbreviates _ w 3 (by decide) h),
    fun h => entity_of_recognised .nodes w (begins_of_abbreviates _ w 3 (by decide) h),
    fun h => entity_of_recognised .partitions w (begins_of_abbreviates _ w 3 (by decide) h),
    fun h => entity_of_recognised .steps w (begins_of_abbreviates _ w 4 (by decide) h)⟩

/-- C21 at the words `RECONFIG` and `Part`. -/
theorem keyword_matching_witness :
    keyword "RECONFIG".toList = .reconfigure ∧ entity "Part".toList = .partitions :=
  ⟨(keyword_matching sample Session.init "RECONFIG".toList [] []).2.2.2.2.2.1 (by decide),
   (keyword_matching sample Session.init "Part".toList [] []).2.2.2.2.2.2.2.2.2.2.2.1
      (by decide)⟩

/-- C21, words that are taken although they abbreviate no keyword: `abortnow`
runs the `abort` branch, which asks the manager to shut down with a core
file, and `nodXYZ` is taken as the entity `nodes`. -/
theorem keyword_matching_counterexample :
    keyword "abortnow".toList = .abort
    ∧ ¬ abbreviates "abort".toList 5 "abortnow".toList
    ∧ _process_command sample Session.init ["abortnow".toList] []
        = .ret (0, Session.init) [.slurm_shutdown 1]
    ∧ entity "nodXYZ".toList = .nodes
    ∧ ¬ abbreviates "nodes".toList 3 "nodXYZ".toList := by
  decide

/-! ## What the dispatcher leaves alone -/

theorem _print_config_frame (E : Manager) (s : Session) (p : Option CStr) :
    (_print_config E s p).holds
      (fun s1 => s1.quiet_flag = s.quiet_flag ∧ s1.exit_flag = s.exit_flag) := by
  unfold _print_config
  repeat' split
  all_goals exact ⟨rfl, rfl⟩

theorem _print_job_frame (E : Manager) (s : Session) (p : Option CStr) :
    (_print_job E s p).holds
      (fun s1 => s1.quiet_flag = s.quiet_flag ∧ s1.exit_flag = s.exit_flag) := by
  unfold _print_job
  repeat' split
  all_goals exact ⟨rfl, rfl⟩

theorem _print_part_frame (E : Manager) (s : Session) (p : Option CStr) :
    (_print_part E s p).holds
      (fun s1 => s1.quiet_flag = s.quiet_flag ∧ s1.exit_flag = s.exit_flag) := by
  unfold _print_part
  repeat' split
  all_goals exact ⟨rfl, rfl⟩

theorem node_list_done_frame (s : Session) (msg : node_info_msg) (before : List Event)
    (r : Run Nat) :
    (node_list_done s msg before r).holds
      (fun s1 => s1.quiet_flag = s.quiet_flag ∧ s1.exit_flag = s.exit_flag) := by
  cases r with
  | ret inx trace => exact ⟨rfl, rfl⟩
  | out_of_bounds => trivial

theorem _print_node_list_frame (E : Manager) (s : Session) (p : Option CStr) :
    (_print_node_list E s p).holds
      (fun s1 => s1.quiet_flag = s.quiet_flag ∧ s1.exit_flag = s.exit_flag) := by
  unfold _print_node_list
  repeat' split
  all_goals first
    | exact ⟨rfl, rfl⟩
    | exact node_list_done_frame _ _ _ _

theorem _print_step_frame (E : Manager) (s : Session) (p : Option CStr) :
    (_print_step E s p).holds
      (fun s1 => s1.quiet_flag = s.quiet_flag ∧ s1.exit_flag = s.exit_flag) := by
  cases hc : s.old_job_step_info_ptr with
  | null =>
    rw [_print_step_first E s p hc]
    cases E.slurm_get_job_steps 0 (step_job_id E p) (step_step_id E p) <;> exact ⟨rfl, rfl⟩
  | live old =>
    by_cases hsame : s.last_job_id = step_job_id E p ∧ s.last_step_id = step_step_id E p
    · cases hr : E.slurm_get_job_steps old.last_update (step_job_id E p) (step_step_id E p) with
      | success new =>
        rw [_print_step_same_fresh E s p old new hc hsame hr]
        exact ⟨rfl, rfl⟩
      | error errno =>
        rw [_print_step_same_error E s p old errno hc hsame hr]
        exact ⟨rfl, rfl⟩
    · rw [_print_step_other E s p old hc hsame]
      cases E.slurm_get_job_steps 0 (step_job_id E p) (step_step_id E p) <;> exact ⟨rfl, rfl⟩
  | released m =>
    unfold _print_step
    simp only [hc]
    trivial

theorem after_print_frame (s : Session) (Q : Int → Prop) (r : Run Session)
    (h : r.holds (fun s1 => s1.quiet_flag = s.quiet_flag ∧ s1.exit_flag = s.exit_flag)) :
    (after_print r).holds
      (fun v => v.1 = 0 ∧ v.2.quiet_flag = s.quiet_flag ∧ v.2.exit_flag = s.exit_flag) Q := by
  cases r with
  | ret s1 trace => exact ⟨rfl, h.1, h.2⟩
  | out_of_bounds => trivial

/-- The only way `show daemons` ends the process: status 1, when the
configuration file cannot be opened. -/
theorem after_daemons_frame (E : Manager) (s : Session) (before : List Event) :
    (after_daemons s before (_print_daemons E s.quiet_flag s.this_host)).holds
      (fun v => v.1 = 0 ∧ v.2.quiet_flag = s.quiet_flag ∧ v.2.exit_flag = s.exit_flag)
      (fun status => status = 1 ∧ E.slurm_spec_file = none) := by
  unfold _print_daemons
  cases hf : E.slurm_spec_file with
  | none => exact ⟨rfl, rfl⟩
  | some lines =>
    simp only
    cases _print_daemons_loop E s.quiet_flag lines 0 ⟨false, false, s.this_host⟩ with
    | none => trivial
    | some r => exact ⟨rfl, rfl, rfl⟩

theorem _process_show_frame (E : Manager) (s : Session) (argv : List CStr) (k : CStr) :
    (_process_show E s argv k).holds
      (fun v => v.1 = 0 ∧ v.2.quiet_flag = s.quiet_flag ∧ v.2.exit_flag = s.exit_flag)
      (fun status => status = 1 ∧ E.slurm_spec_file = none) := by
  unfold _process_show
  repeat' split
  all_goals first
    | exact ⟨rfl, rfl, rfl⟩
    | exact after_print_frame s _ _ (_print_config_frame E s _)
    | exact after_print_frame s _ _ (_print_job_frame E s _)
    | exact after_print_frame s _ _ (_print_node_list_frame E s _)
    | exact after_print_frame s _ _ (_print_part_frame E s _)
    | exact after_print_frame s _ _ (_print_step_frame E s _)
    | exact after_daemons_frame E s _


theorem Outcome.holds_mono {α : Type} (P P1 : α → Prop) (Q : Int → Prop) (o : Outcome α)
    (h : ∀ v, P v → P1 v) (ho : o.holds P Q) : o.holds P1 Q := by
  cases o with
  | ret v trace => exact h v ho
  | exit status trace => exact ho
  | undefined => trivial

theorem after_update_frame (s : Session) (P : Int × Session → Prop) (Q : Int → Prop)
    (r : Run Unit) (h : P (0, s)) : (after_update s r).holds P Q := by
  cases r with
  | ret v trace => exact h
  | out_of_bounds => trivial

/-- What each branch of `_process_command` returns and what it does to the
quiet mode and to the exit flag. -/
theorem run_keyword_frame (E : Manager) (s : Session) (k : CStr) (rest : List CStr)
    (beyond : List (List Char)) (L : Keyword) :
    (run_keyword E s k rest beyond L).holds
      (fun v => v.1 = 0
        ∧ (v.2.quiet_flag = s.quiet_flag ∨ (L = .quiet ∧ v.2.quiet_flag = 1)
            ∨ (L = .verbose ∧ v.2.quiet_flag = -1))
        ∧ (v.2.exit_flag = s.exit_flag ∨ (L = .exit ∧ v.2.exit_flag = 1))
        ∧ (L = .quiet → v.2.quiet_flag = 1)
        ∧ (L = .verbose → v.2.quiet_flag = -1)
        ∧ (L = .exit → v.2.exit_flag = 1))
      (fun status => status = 1 ∧ E.slurm_spec_file = none) := by
  match L with
  | .abort =>
    exact ⟨rfl, Or.inl rfl, Or.inl rfl, (fun h => by cases h), (fun h => by cases h),
      (fun h => by cases h)⟩
  | .exit =>
    exact ⟨rfl, Or.inl rfl, Or.inr ⟨rfl, rfl⟩, (fun h => by cases h), (fun h => by cases h),
      fun _ => rfl⟩
  | .help =>
    exact ⟨rfl, Or.inl rfl, Or.inl rfl, (fun h => by cases h), (fun h => by cases h),
      (fun h => by cases h)⟩
  | .pid2jid =>
    simp only [run_keyword]
    repeat' split
    all_goals exact ⟨rfl, Or.inl rfl, Or.inl rfl, (fun h => by cases h), (fun h => by cases h),
      (fun h => by cases h)⟩
  | .quiet =>
    exact ⟨rfl, Or.inr (Or.inl ⟨rfl, rfl⟩), Or.inl rfl, fun _ => rfl, (fun h => by cases h),
      (fun h => by cases h)⟩
  | .reconfigure =>
    exact ⟨rfl, Or.inl rfl, Or.inl rfl, (fun h => by cases h), (fun h => by cases h),
      (fun h => by cases h)⟩
  | .show =>
    apply Outcome.holds_mono _ _ _ _ _ (_process_show_frame E s (k :: rest) k)
    intro v hv
    exact ⟨hv.1, Or.inl hv.2.1, Or.inl hv.2.2, (fun h => by cases h), (fun h => by cases h),
      (fun h => by cases h)⟩
  | .shutdown =>
    exact ⟨rfl, Or.inl rfl, Or.inl rfl, (fun h => by cases h), (fun h => by cases h),
      (fun h => by cases h)⟩
  | .update =>
    simp only [run_keyword]
    split
    · exact ⟨rfl, Or.inl rfl, Or.inl rfl, (fun h => by cases h), (fun h => by cases h),
        (fun h => by cases h)⟩
    · apply after_update_frame
      exact ⟨rfl, Or.inl rfl, Or.inl rfl, (fun h => by cases h), (fun h => by cases h),
        (fun h => by cases h)⟩
  | .verbose =>
    exact ⟨rfl, Or.inr (Or.inr ⟨rfl, rfl⟩), Or.inl rfl, (fun h => by cases h), fun _ => rfl,
      (fun h => by cases h)⟩
  | .version =>
    exact ⟨rfl, Or.inl rfl, Or.inl rfl, (fun h => by cases h), (fun h => by cases h),
      (fun h => by cases h)⟩
  | .invalid =>
    exact ⟨rfl, Or.inl rfl, Or.inl rfl, (fun h => by cases h), (fun h => by cases h),
      (fun h => by cases h)⟩

/-- The source function `_process_command` returns 0 when it returns, sets
the exit flag to 1 or leaves it alone, and ends the process only with status
1 through `show daemons` when the configuration file cannot be opened. -/
theorem _process_command_frame (E : Manager) (s : Session) (argv : List CStr)
    (beyond : List (List Char)) :
    (_process_command E s argv beyond).holds
      (fun v => v.1 = 0 ∧ (v.2.exit_flag = s.exit_flag ∨ v.2.exit_flag = 1))
      (fun status => status = 1 ∧ E.slurm_spec_file = none) := by
  cases argv with
  | nil => exact ⟨rfl, Or.inl rfl⟩
  | cons k rest =>
    rw [_process_command_keyword]
    apply Outcome.holds_mono _ _ _ _ _ (run_keyword_frame E s k rest beyond (keyword k))
    intro v hv
    refine ⟨hv.1, ?_⟩
    rcases hv.2.2.1 with h | h
    · exact Or.inl h
    · exact Or.inr h.2

/-- An unrecognised keyword: one line on stderr, nothing else. -/
theorem _process_command_invalid (E : Manager) (s : Session) (k : CStr) (rest : List CStr)
    (beyond : List (List Char)) (h : recognised_as .invalid k) :
    _process_command E s (k :: rest) beyond
      = .ret (0, s) [.stderr ("invalid keyword: ".toList ++ k ++ "\n".toList)] := by
  rw [_process_command_keyword, keyword_of_recognised .invalid k h]
  rfl

/-- C22 (session-state frame of the dispatcher).  Whenever `_process_command`
returns, it returns 0; the quiet mode it leaves differs from the one it
found only when the keyword is `quiet`, which sets it to 1 (quiet), or
`verbose`, which sets it to -1 (verbose), and the exit flag differs only when
the keyword is `exit` or `quit`, which set it to 1.  On a keyword that no
branch takes it returns 0 after one line on stderr: it makes no manager call
and leaves every static, the quiet mode and the exit flag included, as it
was. -/
theorem dispatcher_frame (E : Manager) (s : Session) (argv : List CStr)
    (beyond : List (List Char)) :
    (∀ (code : Int) (s1 : Session) (trace : List Event),
      _process_command E s argv beyond = .ret (code, s1) trace →
      code = 0
      ∧ (s1.quiet_flag ≠ s.quiet_flag → ∃ k rest, argv = k :: rest
          ∧ ((ci_eq k "quiet".toList ∧ s1.quiet_flag = 1)
            ∨ (ci_eq k "verbose".toList ∧ s1.quiet_flag = -1)))
      ∧ (s1.exit_flag ≠ s.exit_flag → ∃ k rest, argv = k :: rest
          ∧ (ci_eq k "exit".toList ∨ ci_eq k "quit".toList) ∧ s1.exit_flag = 1)
      ∧ (∀ k rest, argv = k :: rest → ci_eq k "quiet".toList → s1.quiet_flag = 1)
      ∧ (∀ k rest, argv = k :: rest → ci_eq k "verbose".toList → s1.quiet_flag = -1)
      ∧ (∀ k rest, argv = k :: rest → ci_eq k "exit".toList ∨ ci_eq k "quit".toList →
          s1.exit_flag = 1))
    ∧ (∀ k rest, argv = k :: rest → recognised_as .invalid k →
        _process_command E s argv beyond
          = .ret (0, s) [.stderr ("invalid keyword: ".toList ++ k ++ "\n".toList)]) := by
  refine ⟨fun code s1 trace h => ?_, fun k rest hargv hk => ?_⟩
  · cases argv with
    | nil =>
      have h2 : Outcome.ret (0, s) (if s.quiet_flag = -1 then [Event.stderr "no input".toList]
          else []) = Outcome.ret (code, s1) trace := h
      injection h2 with hv _
      injection hv with hcode hs
      subst hs
      refine ⟨hcode.symm, fun hne => absurd rfl hne, fun hne => absurd rfl hne,
        (fun k rest hc => by cases hc), (fun k rest hc => by cases hc),
        (fun k rest hc => by cases hc)⟩
    | cons k0 rest0 =>
      have hf := run_keyword_frame E s k0 rest0 beyond (keyword k0)
      rw [← _process_command_keyword, h] at hf
      obtain ⟨h0, hq, he, hq1, hv1, he1⟩ := hf
      refine ⟨h0, fun hne => ⟨k0, rest0, rfl, ?_⟩, fun hne => ⟨k0, rest0, rfl, ?_⟩,
        fun k rest hargv hk => ?_, fun k rest hargv hk => ?_, fun k rest hargv hk => ?_⟩
      · rcases hq with hq | ⟨hL, hq⟩ | ⟨hL, hq⟩
        · exact absurd hq hne
        · exact Or.inl ⟨(keyword_iff .quiet k0).mp hL, hq⟩
        · exact Or.inr ⟨(keyword_iff .verbose k0).mp hL, hq⟩
      · rcases he with he | ⟨hL, he⟩
        · exact absurd he hne
        · exact ⟨(keyword_iff .exit k0).mp hL, he⟩
      · injection hargv with h1 _
        subst h1
        exact hq1 (keyword_of_recognised .quiet _ hk)
      · injection hargv with h1 _
        subst h1
        exact hv1 (keyword_of_recognised .verbose _ hk)
      · injection hargv with h1 _
        subst h1
        exact he1 (keyword_of_recognised .exit _ hk)
  · subst hargv
    exact _process_command_invalid E s k rest beyond hk

/-- C22 at `verbose`, which sets the quiet mode to -1 and leaves the exit
flag alone, and at the unrecognised keyword `bogus`. -/
theorem dispatcher_frame_witness :
    (({ Session.init with quiet_flag := -1 } : Session).quiet_flag ≠ Session.init.quiet_flag →
      ∃ k rest, ["verbose".toList] = k :: rest
        ∧ ((ci_eq k "quiet".toList
            ∧ ({ Session.init with quiet_flag := -1 } : Session).quiet_flag = 1)
          ∨ (ci_eq k "verbose".toList
            ∧ ({ Session.init with quiet_flag := -1 } : Session).quiet_flag = -1)))
    ∧ _process_command sample Session.init ["bogus".toList, "x".toList] []
        = .ret (0, Session.init) [.stderr ("invalid keyword: ".toList ++ "bogus".toList
            ++ "\n".toList)] :=
  ⟨((dispatcher_frame sample Session.init ["verbose".toList] []).1 0
      { Session.init with quiet_flag := -1 } [] (by decide)).2.1,
   (dispatcher_frame sample Session.init ["bogus".toList, "x".toList] []).2 "bogus".toList
      ["x".toList] rfl (by decide)⟩


/-! ## One-shot mode -/

theorem after_print_returns (r : Run Session) (status : Int) (trace : List Event) :
    after_print r ≠ .exit status trace := by
  cases r <;> (intro h; cases h)

theorem after_update_returns (s : Session) (r : Run Unit) (status : Int)
    (trace : List Event) : after_update s r ≠ .exit status trace := by
  cases r <;> (intro h; cases h)

/-- The one command that ends the process itself is `show daemons`, with
status 1, when the configuration file cannot be opened. -/
theorem _process_command_exits (E : Manager) (s : Session) (argv : List CStr)
    (beyond : List (List Char)) (status : Int) (trace : List Event)
    (h : _process_command E s argv beyond = .exit status trace) :
    ∃ k e rest, argv = k :: e :: rest ∧ ci_eq k "show".toList
      ∧ begins_with "daemo".toList e ∧ status = 1 ∧ E.slurm_spec_file = none := by
  cases argv with
  | nil =>
    rw [_process_command_no_input] at h
    cases h
  | cons k rest =>
    have hst := _process_command_frame E s (k :: rest) beyond
    rw [h] at hst
    rw [_process_command_keyword] at h
    have hshow : keyword k = .show := by
      cases hL : keyword k <;> rw [hL] at h <;> simp only [run_keyword] at h
      all_goals first
        | cases h
        | exact absurd h (after_update_returns _ _ _ _)
        | (split at h <;> first | cases h | exact absurd h (after_update_returns _ _ _ _))
        | (split at h <;> first | cases h | (split at h <;> cases h))
    rw [hshow] at h
    have hk : ci_eq k "show".toList := (keyword_iff .show k).mp hshow
    cases rest with
    | nil =>
      have h2 : _process_show E s [k] k = .exit status trace := h
      unfold _process_show at h2
      rw [if_neg (by simp)] at h2
      cases h2
    | cons e tail =>
      have h2 : _process_show E s (k :: e :: tail) k = .exit status trace := h
      rw [_process_show_entity] at h2
      by_cases c : (k :: e :: tail).length > 3
      · rw [if_pos c] at h2
        cases h2
      · rw [if_neg c] at h2
        have hdaemons : entity e = .daemons := by
          cases hL : entity e <;> rw [hL] at h2 <;> simp only [run_entity] at h2
          all_goals first
            | cases h2
            | exact absurd h2 (after_print_returns _ _ _)
        exact ⟨k, e, tail, rfl, hk, (entity_iff .daemons e).mp hdaemons, hst.1, hst.2⟩

/-- The loop of `main` over its arguments keeps, in their order, exactly the
arguments that are not startup flags. -/
theorem main_flags_fields (args : List CStr) (s : Session) (input_fields : List CStr) :
    (main_flags args s input_fields).2.1
      = input_fields ++ args.filter (fun a => !is_startup_flag a) := by
  induction args generalizing s input_fields with
  | nil =>
    show input_fields = input_fields ++ []
    rw [List.append_nil]
  | cons arg rest ih =>
    unfold main_flags
    by_cases c1 : strncmp arg "-help".toList 2 = 0
    · rw [if_pos c1, List.filter_cons_of_neg (by rw [show is_startup_flag arg = true from decide_eq_true (Or.inl c1)]; decide)]
      exact ih s input_fields
    rw [if_neg c1]
    by_cases c2 : strcmp arg "-q".toList = 0
    · rw [if_pos c2, List.filter_cons_of_neg (by rw [show is_startup_flag arg = true from decide_eq_true (Or.inr (Or.inl c2))]; decide)]
      exact ih _ input_fields
    rw [if_neg c2]
    by_cases c3 : strcmp arg "quiet".toList = 0
    · rw [if_pos c3, List.filter_cons_of_neg (by rw [show is_startup_flag arg = true from decide_eq_true (Or.inr (Or.inr (Or.inl c3)))]; decide)]
      exact ih _ input_fields
    rw [if_neg c3]
    by_cases c4 : strcmp arg "-v".toList = 0
    · rw [if_pos c4, List.filter_cons_of_neg (by rw [show is_startup_flag arg = true from decide_eq_true (Or.inr (Or.inr (Or.inr (Or.inl c4))))]; decide)]
      exact ih _ input_fields
    rw [if_neg c4]
    by_cases c5 : strcmp arg "verbose".toList = 0
    · rw [if_pos c5, List.filter_cons_of_neg (by rw [show is_startup_flag arg = true from decide_eq_true (Or.inr (Or.inr (Or.inr (Or.inr c5))))]; decide)]
      exact ih _ input_fields
    rw [if_neg c5, List.filter_cons_of_pos (by
        rw [show is_startup_flag arg = false from decide_eq_false (fun h => by
          rcases h with h | h | h | h | h
          · exact c1 h
          · exact c2 h
          · exact c3 h
          · exact c4 h
          · exact c5 h)]
        decide),
      ih s (input_fields ++ [arg])]
    simp

/-- One pass of the loop of `main` with the exit flag set: the command runs
once, no line is read, and the process ends. -/
theorem main_loop_one_shot (E : Manager) (fuel : Nat) (s : Session)
    (input_fields : List CStr) (beyond : List (List Char)) (stdin : List CStr)
    (hflag : s.exit_flag = 1) :
    main_loop E (fuel + 1) s input_fields beyond stdin
      = one_command (_process_command E s input_fields beyond) := by
  have hf := _process_command_frame E s input_fields beyond
  conv_lhs => unfold main_loop
  cases hr : _process_command E s input_fields beyond with
  | undefined => rfl
  | exit status trace => rfl
  | ret v trace =>
    obtain ⟨code, s1⟩ := v
    rw [hr] at hf
    obtain ⟨hcode, hexit⟩ := hf
    have hcode0 : code = 0 := hcode
    have hexit1 : s1.exit_flag = 1 := by
      rcases hexit with h | h
      · exact h.trans hflag
      · exact h
    simp only
    rw [if_neg (by simp [hcode0]), if_pos hexit1, hcode0]
    rfl

/-- C23 (one-shot mode), as the code has it.  When at least one command-line
argument is not a startup flag, `main` hands `_process_command` exactly one
command, made of exactly the arguments that are not startup flags in their
original order, with the exit flag set; it reads no input line, so what it
does is the same whatever the input holds; and it exits with status 0 once
the command has returned.  The command itself ends the process only when it
is `show daemons` (the keyword `show` and an entity word that begins with
`daemo`, in any letter case), with status 1, when the configuration file
cannot be opened. -/
theorem one_shot (E : Manager) (argv : List CStr) (beyond : List (List Char))
    (stdin : List CStr) (fuel : Nat)
    (hfields : argv.tail.filter (fun a => !is_startup_flag a) ≠ []) :
    (main_flags argv.tail (main_session argv) []).2.1
      = argv.tail.filter (fun a => !is_startup_flag a)
    ∧ main E argv beyond stdin (fuel + 1)
      = Process.after (main_flags argv.tail (main_session argv) []).2.2
          (one_command (_process_command E
            { (main_flags argv.tail (main_session argv) []).1 with exit_flag := 1 }
            (argv.tail.filter (fun a => !is_startup_flag a))
            (main_flags_beyond argv.tail beyond.tail)))
    ∧ (∀ stdin1 : List CStr,
        main E argv beyond stdin (fuel + 1) = main E argv beyond stdin1 (fuel + 1))
    ∧ (_process_command E
          { (main_flags argv.tail (main_session argv) []).1 with exit_flag := 1 }
          (argv.tail.filter (fun a => !is_startup_flag a))
          (main_flags_beyond argv.tail beyond.tail)).holds
        (fun v => v.1 = 0 ∧ v.2.exit_flag = 1)
        (fun status => status = 1 ∧ E.slurm_spec_file = none)
    ∧ (∀ (status : Int) (trace : List Event),
        _process_command E
          { (main_flags argv.tail (main_session argv) []).1 with exit_flag := 1 }
          (argv.tail.filter (fun a => !is_startup_flag a))
          (main_flags_beyond argv.tail beyond.tail) = .exit status trace →
        ∃ k e rest, argv.tail.filter (fun a => !is_startup_flag a) = k :: e :: rest
          ∧ ci_eq k "show".toList ∧ begins_with "daemo".toList e
          ∧ status = 1 ∧ E.slurm_spec_file = none) := by
  have hf : (main_flags argv.tail (main_session argv) []).2.1
      = argv.tail.filter (fun a => !is_startup_flag a) := by
    rw [main_flags_fields, List.nil_append]
  have hmain : ∀ stdin0 : List CStr, main E argv beyond stdin0 (fuel + 1)
      = Process.after (main_flags argv.tail (main_session argv) []).2.2
          (one_command (_process_command E
            { (main_flags argv.tail (main_session argv) []).1 with exit_flag := 1 }
            (argv.tail.filter (fun a => !is_startup_flag a))
            (main_flags_beyond argv.tail beyond.tail))) := by
    intro stdin0
    have hne : (main_flags argv.tail (main_session argv) []).2.1.length ≠ 0 := by
      rw [hf]
      exact fun h => hfields (List.length_eq_zero.mp h)
    have hunfold : main E argv beyond stdin0 (fuel + 1)
        = if (main_flags argv.tail (main_session argv) []).2.1.length ≠ 0 then
            Process.after (main_flags argv.tail (main_session argv) []).2.2
              (main_loop E (fuel + 1)
                { (main_flags argv.tail (main_session argv) []).1 with exit_flag := 1 }
                (main_flags argv.tail (main_session argv) []).2.1
                (main_flags_beyond argv.tail beyond.tail) stdin0)
          else if (_get_command (main_flags argv.tail (main_session argv) []).1
              stdin0.head?).error_code ≠ 0 then
            .exited (_get_command (main_flags argv.tail (main_session argv) []).1
                stdin0.head?).error_code
              ((main_flags argv.tail (main_session argv) []).2.2
                ++ (_get_command (main_flags argv.tail (main_session argv) []).1
                  stdin0.head?).trace)
          else
            Process.after ((main_flags argv.tail (main_session argv) []).2.2
                ++ (_get_command (main_flags argv.tail (main_session argv) []).1
                  stdin0.head?).trace)
              (main_loop E (fuel + 1)
                (_get_command (main_flags argv.tail (main_session argv) []).1
                  stdin0.head?).session
                (_get_command (main_flags argv.tail (main_session argv) []).1
                  stdin0.head?).argv
                (_get_command (main_flags argv.tail (main_session argv) []).1
                  stdin0.head?).beyond stdin0.tail) := rfl
    rw [hunfold, if_pos hne, main_loop_one_shot E fuel _ _ _ stdin0 rfl, hf]
  refine ⟨hf, hmain stdin, fun stdin1 => by rw [hmain stdin, hmain stdin1], ?_,
    fun status trace h => _process_command_exits E _ _ _ status trace h⟩
  apply Outcome.holds_mono _ _ _ _ _ (_process_command_frame E _ _ _)
  intro v hv
  refine ⟨hv.1, ?_⟩
  rcases hv.2 with h | h
  · exact h
  · exact h

/-- C23 at `scontrol -v show jobs`: the one command is `show jobs`, run in
verbose mode, and the process exits with status 0 whatever the input
holds. -/
theorem one_shot_witness :
    (main_flags ["scontrol".toList, "-v".toList, "show".toList, "jobs".toList].tail
        (main_session ["scontrol".toList, "-v".toList, "show".toList, "jobs".toList]) []).2.1
      = ["show".toList, "jobs".toList]
    ∧ main sample ["scontrol".toList, "-v".toList, "show".toList, "jobs".toList] []
        ["quit".toList] 1
      = .exited 0 [.slurm_load_jobs 0, .print_last_update 100 2,
          .slurm_print_job_info ⟨42, "a".toList⟩, .slurm_print_job_info ⟨43, "b".toList⟩] :=
  ⟨(one_shot sample ["scontrol".toList, "-v".toList, "show".toList, "jobs".toList] []
      ["quit".toList] 0 (by decide)).1,
   by decide⟩

/-- C23, the one-shot command that does not exit with status 0:
`scontrol show daemons` when the configuration file cannot be opened exits
with status 1. -/
theorem one_shot_counterexample :
    sample.slurm_spec_file = none
    ∧ main sample ["scontrol".toList, "show".toList, "daemons".toList] [] [] 1
      = .exited 1 [] := by
  decide

end Scontrol
